import Mathlib

/-! # RubiChess: move execution (move.cpp)

A shallow embedding of `src/RubiChess/move.cpp`.  Machine words are natural
numbers (bit patterns); arrays are total functions from indices; the position
is an explicit record that every operation takes and returns.

The header `RubiChess.h` and the files that define the bitboard helpers, the
attack tables and the Zobrist keys are not part of the sources at hand.  The
field decoders, piece codes and geometric tables are therefore modelled (each
such definition says so), and the Zobrist keys and material values are taken
as parameters.
-/

namespace RubiChess

/-! ## Piece codes, piece types and state bits -/

/-- Modelled from the spec: `BLANK`, the empty piece code (enum in RubiChess.h). -/
def BLANK : Nat := 0
/-- Modelled from the spec: piece code of a white pawn; the colour is bit 0. -/
def WPAWN : Nat := 2
/-- Modelled from the spec: piece code of a black pawn. -/
def BPAWN : Nat := 3
/-- Modelled from the spec: piece code of a white knight. -/
def WKNIGHT : Nat := 4
/-- Modelled from the spec: piece code of a black knight. -/
def BKNIGHT : Nat := 5
/-- Modelled from the spec: piece code of a white bishop. -/
def WBISHOP : Nat := 6
/-- Modelled from the spec: piece code of a black bishop. -/
def BBISHOP : Nat := 7
/-- Modelled from the spec: piece code of a white rook. -/
def WROOK : Nat := 8
/-- Modelled from the spec: piece code of a black rook. -/
def BROOK : Nat := 9
/-- Modelled from the spec: piece code of a white queen. -/
def WQUEEN : Nat := 10
/-- Modelled from the spec: piece code of a black queen. -/
def BQUEEN : Nat := 11
/-- Modelled from the spec: piece code of the white king. -/
def WKING : Nat := 12
/-- Modelled from the spec: piece code of the black king. -/
def BKING : Nat := 13

/-- Modelled from the spec: piece type `PAWN` (a piece code shifted right by one). -/
def PAWN : Nat := 1
/-- Modelled from the spec: piece type `KNIGHT`. -/
def KNIGHT : Nat := 2
/-- Modelled from the spec: piece type `BISHOP`. -/
def BISHOP : Nat := 3
/-- Modelled from the spec: piece type `ROOK`. -/
def ROOK : Nat := 4
/-- Modelled from the spec: piece type `QUEEN`. -/
def QUEEN : Nat := 5
/-- Modelled from the spec: piece type `KING`. -/
def KING : Nat := 6

/-- Modelled from the spec: `S2MMASK`, the side-to-move bit of `state` and the
colour bit of a piece code. -/
def S2MMASK : Nat := 1
/-- Modelled from the spec: `WQCMASK`, white queen-side castling right in `state`. -/
def WQCMASK : Nat := 0x02
/-- Modelled from the spec: `WKCMASK`, white king-side castling right in `state`. -/
def WKCMASK : Nat := 0x04
/-- Modelled from the spec: `BQCMASK`, black queen-side castling right in `state`. -/
def BQCMASK : Nat := 0x08
/-- Modelled from the spec: `BKCMASK`, black king-side castling right in `state`. -/
def BKCMASK : Nat := 0x10
/-- Modelled from the spec: `CASTLEMASK`, the four castling-rights bits of `state`. -/
def CASTLEMASK : Nat := 0x1E
/-- Modelled from the spec: `QCMASK[s2m]`. -/
def QCMASK (s2m : Nat) : Nat := if s2m = 0 then WQCMASK else BQCMASK
/-- Modelled from the spec: `KCMASK[s2m]`. -/
def KCMASK (s2m : Nat) : Nat := if s2m = 0 then WKCMASK else BKCMASK
/-- Modelled from the spec: `ISEPCAPTURE`, the flag in the en-passant field of a
move code that marks an en-passant capture (flagged separately from the target). -/
def ISEPCAPTURE : Nat := 0x40

/-- The bit pattern of a 32-bit `int` with the bits of `x` cleared (`~x`). -/
def not32 (x : Nat) : Nat := 0xFFFFFFFF ^^^ x

/-! ## Move codes -/

/-- Modelled from the spec: macro `GETFROM`, the source square of a move code. -/
def GETFROM (x : Nat) : Nat := (x &&& 0x0fc0) >>> 6
/-- Modelled from the spec: macro `GETTO`, the destination square of a move code. -/
def GETTO (x : Nat) : Nat := x &&& 0x003f
/-- Modelled from the spec: macro `GETEPT`, the en-passant target square that the
move creates (low six bits of the en-passant field). -/
def GETEPT (x : Nat) : Nat := (x &&& 0x03f00000) >>> 20
/-- Modelled from the spec: macro `GETEPCAPTURE`, the en-passant-capture flag of
the en-passant field (non-zero when set). -/
def GETEPCAPTURE (x : Nat) : Nat := (x >>> 20) &&& ISEPCAPTURE
/-- Modelled from the spec: macro `GETPROMOTION`, the promotion piece code. -/
def GETPROMOTION (x : Nat) : Nat := (x &&& 0xf000) >>> 12
/-- Modelled from the spec: macro `GETCAPTURE`, the captured piece code. -/
def GETCAPTURE (x : Nat) : Nat := (x &&& 0xf0000) >>> 16
/-- Modelled from the spec: macro `GETPIECE`, the moved piece code. -/
def GETPIECE (x : Nat) : Nat := (x &&& 0xf0000000) >>> 28
/-- Modelled from the spec: macro `ISPROMOTION`, non-zero when the move promotes. -/
def ISPROMOTION (x : Nat) : Nat := x &&& 0xf000

/-- `chessmove::chessmove(from, to, promote, capture, ept, piece)`: the code is a
`uint32_t`, so the value is taken modulo `2^32`. -/
def chessmove6 (frm to_ promote capture ept piece : Nat) : Nat :=
  ((piece <<< 28) ||| (ept <<< 20) ||| (capture <<< 16) ||| (promote <<< 12)
    ||| (frm <<< 6) ||| to_) % 2 ^ 32

/-- `chessmove::chessmove(from, to, promote, capture, piece)`. -/
def chessmove5 (frm to_ promote capture piece : Nat) : Nat :=
  ((piece <<< 28) ||| (capture <<< 16) ||| (promote <<< 12) ||| (frm <<< 6) ||| to_) % 2 ^ 32

/-- `chessmove::chessmove(from, to, capture, piece)`. -/
def chessmove4 (frm to_ capture piece : Nat) : Nat :=
  ((piece <<< 28) ||| (capture <<< 16) ||| (frm <<< 6) ||| to_) % 2 ^ 32

/-- `chessmove::chessmove(from, to, piece)`. -/
def chessmove3 (frm to_ piece : Nat) : Nat :=
  ((piece <<< 28) ||| (frm <<< 6) ||| to_) % 2 ^ 32

/-- `chessmove::chessmove()`. -/
def chessmove0 : Nat := 0

/-! ## Board geometry -/

/-- Modelled from the spec: macro `BITSET`, the bitboard with only bit `x` set. -/
def BITSET (x : Nat) : Nat := 1 <<< x
/-- Modelled from the spec: macro `FILE`, the file (0..7) of a square. -/
def FILE (x : Nat) : Nat := x &&& 7
/-- Modelled from the spec: macro `RANK`, the rank (0..7) of a square. -/
def RANK (x : Nat) : Nat := x >>> 3
/-- Modelled from the spec: macro `RRANK`, the rank seen from side `s`. -/
def RRANK (x s : Nat) : Nat := if s = 0 then x >>> 3 else (x >>> 3) ^^^ 7

/-- The square one step from `sq` in direction `(df, dr)`, if it is on the board. -/
def stepSq (df dr : Int) (sq : Nat) : Option Nat :=
  let f : Int := ((sq % 8 : Nat) : Int) + df
  let r : Int := ((sq / 8 % 8 : Nat) : Int) + dr
  if 0 ≤ f ∧ f < 8 ∧ 0 ≤ r ∧ r < 8 then some (r * 8 + f).toNat else none

/-- The squares met when walking from `sq` in direction `(df, dr)`, nearest first. -/
def raySquares (df dr : Int) : Nat → Nat → List Nat
  | 0, _ => []
  | n + 1, sq =>
    match stepSq df dr sq with
    | none => []
    | some s => s :: raySquares df dr n s

/-- The squares of a ray up to and including the first occupied one, as a bitboard. -/
def rayHits (occ : Nat) : List Nat → Nat
  | [] => 0
  | s :: rest => if occ.testBit s then BITSET s else BITSET s ||| rayHits occ rest

/-- The bitboard of the squares reached by the single steps `ds` from `sq`. -/
def stepMask (sq : Nat) : List (Int × Int) → Nat
  | [] => 0
  | d :: ds =>
    match stepSq d.1 d.2 sq with
    | none => stepMask sq ds
    | some s => BITSET s ||| stepMask sq ds

/-- Modelled from the spec: `MAGICROOKATTACKS(occ, sq)`, the squares a rook on
`sq` attacks under occupancy `occ` (the magic-bitboard lookup is absent). -/
def MAGICROOKATTACKS (occ sq : Nat) : Nat :=
  rayHits occ (raySquares 1 0 7 sq) ||| rayHits occ (raySquares (-1) 0 7 sq)
    ||| rayHits occ (raySquares 0 1 7 sq) ||| rayHits occ (raySquares 0 (-1) 7 sq)

/-- Modelled from the spec: `MAGICBISHOPATTACKS(occ, sq)`, the squares a bishop
on `sq` attacks under occupancy `occ`. -/
def MAGICBISHOPATTACKS (occ sq : Nat) : Nat :=
  rayHits occ (raySquares 1 1 7 sq) ||| rayHits occ (raySquares (-1) 1 7 sq)
    ||| rayHits occ (raySquares 1 (-1) 7 sq) ||| rayHits occ (raySquares (-1) (-1) 7 sq)

/-- Modelled from the spec: table `knight_attacks[sq]`. -/
def knight_attacks (sq : Nat) : Nat :=
  stepMask sq [(1, 2), (2, 1), (2, -1), (1, -2), (-1, -2), (-2, -1), (-2, 1), (-1, 2)]

/-- Modelled from the spec: table `king_attacks[sq]`. -/
def king_attacks (sq : Nat) : Nat :=
  stepMask sq [(1, 0), (1, 1), (0, 1), (-1, 1), (-1, 0), (-1, -1), (0, -1), (1, -1)]

/-- Modelled from the spec: table `pawn_attacks_occupied[sq][s]`, the squares a
pawn of colour `s` on `sq` attacks. -/
def pawn_attacks_occupied (sq s : Nat) : Nat :=
  if s = 0 then stepMask sq [(-1, 1), (1, 1)] else stepMask sq [(-1, -1), (1, -1)]

/-- Modelled from the spec: table `epthelper[sq]`, the squares horizontally
adjacent to `sq`, from which a pawn could capture en passant a pawn that has
just made a double push to `sq`. -/
def epthelper (sq : Nat) : Nat := stepMask sq [(-1, 0), (1, 0)]

/-- Modelled from the spec: table `betweenMask[a][b]` for two squares on the same
file two ranks apart (the only use in move.cpp): the square between them. -/
def betweenMask (a b : Nat) : Nat :=
  if a % 8 = b % 8 ∧ (a + 16 = b ∨ b + 16 = a) then BITSET ((a + b) / 2) else 0

/-- Modelled from the spec: table `castleindex[from][to]` (1 white queen side,
2 white king side, 3 black queen side, 4 black king side, 0 no castling). -/
def castleindex (frm to_ : Nat) : Nat :=
  if frm = 4 ∧ to_ = 2 then 1 else if frm = 4 ∧ to_ = 6 then 2
  else if frm = 60 ∧ to_ = 58 then 3 else if frm = 60 ∧ to_ = 62 then 4 else 0

/-- Modelled from the spec: table `castlerookfrom[c]`, the corner the rook leaves. -/
def castlerookfrom (c : Nat) : Nat :=
  if c = 1 then 0 else if c = 2 then 7 else if c = 3 then 56 else if c = 4 then 63 else 0

/-- Modelled from the spec: table `castlerookto[c]`, the square the rook lands on. -/
def castlerookto (c : Nat) : Nat :=
  if c = 1 then 3 else if c = 2 then 5 else if c = 3 then 59 else if c = 4 then 61 else 0

/-- Modelled from the spec: table `castlerights[sq]`, the mask that clears the
castling rights that become stale when a piece leaves or reaches `sq`. -/
def castlerights (sq : Nat) : Nat :=
  if sq = 0 then not32 WQCMASK else if sq = 7 then not32 WKCMASK
  else if sq = 4 then not32 (WQCMASK ||| WKCMASK)
  else if sq = 56 then not32 BQCMASK else if sq = 63 then not32 BKCMASK
  else if sq = 60 then not32 (BQCMASK ||| BKCMASK) else not32 0

/-- Modelled from the spec: `POPCOUNT`, the number of set bits of a 64-bit board. -/
def POPCOUNT (x : Nat) : Nat := ((List.range 64).filter (fun i => x.testBit i)).length

/-- Index of the least significant set bit among the lowest `n` bits, scanning
upwards from bit `i`. -/
def lsbFrom (x : Nat) : Nat → Nat → Nat
  | 0, i => i
  | n + 1, i => if x.testBit i then i else lsbFrom x n (i + 1)

/-- Modelled from the spec: `GETLSB`, the index of the least significant set bit
of a non-zero 64-bit board. -/
def GETLSB (x : Nat) : Nat := lsbFrom x 64 0

/-! ## The position -/

/-- The array `f` with entry `i` replaced by `v`. -/
def setAt {α : Type} (f : Nat → α) (i : Nat) (v : α) : Nat → α :=
  fun j => if j = i then v else f j

/-- The history array `f` with slot `i` replaced by `v`. -/
def setAtInt {α : Type} (f : Int → α) (i : Int) (v : α) : Int → α :=
  fun j => if j = i then v else f j

/-- Modelled from the spec: the Zobrist key tables `zb` (random constants that are
not part of the sources at hand), taken as a parameter of the operations. -/
structure zobrist where
  /-- Key of piece `p` on square `sq` at index `(sq << 4) | p`; also indexed by
  `(count << 4) | p` for the material hash. -/
  boardtable : Nat → Nat
  /-- Key of a set of castling rights. -/
  cstl : Nat → Nat
  /-- Key of an en-passant target square. -/
  ept : Nat → Nat
  /-- Key of the side to move. -/
  s2m : Nat

/-- Modelled from the spec: one slot of `movestack`, the per-ply snapshot of the
block `state .. isCheckbb` of the position, together with the move code. -/
structure chessmovestack where
  state : Nat
  ept : Nat
  kingpos : Nat → Nat
  hash : Nat
  pawnhash : Nat
  materialhash : Nat
  halfmovescounter : Nat
  fullmovescounter : Nat
  isCheckbb : Nat
  movecode : Nat

/-- Modelled from the spec: the fields of `chessposition` that move.cpp reads and
writes.  `rp` is the repetition table, a count per hash value. -/
@[ext]
structure chessposition where
  piece00 : Nat → Nat
  occupied00 : Nat → Nat
  mailbox : Nat → Nat
  state : Nat
  ept : Nat
  kingpos : Nat → Nat
  hash : Nat
  pawnhash : Nat
  materialhash : Nat
  halfmovescounter : Nat
  fullmovescounter : Nat
  isCheckbb : Nat
  movestack : Int → chessmovestack
  mstop : Int
  ply : Int
  rootheight : Int
  rp : Nat → Int

/-- Modelled from the spec: `repetition::addPosition`, one more occurrence of `h`. -/
def addPosition (rp : Nat → Int) (h : Nat) : Nat → Int :=
  fun k => if k = h then rp k + 1 else rp k

/-- Modelled from the spec: `repetition::removePosition`, one occurrence of `h` less. -/
def removePosition (rp : Nat → Int) (h : Nat) : Nat → Int :=
  fun k => if k = h then rp k - 1 else rp k

/-- Modelled from the spec: `chessposition::BitboardSet`, place piece `p` on
square `index` in its piece bitboard and in the occupancy of its colour. -/
def BitboardSet (pos : chessposition) (index p : Nat) : chessposition :=
  { pos with
    piece00 := setAt pos.piece00 p (pos.piece00 p ||| BITSET index)
    occupied00 := setAt pos.occupied00 (p &&& 1) (pos.occupied00 (p &&& 1) ||| BITSET index) }

/-- Modelled from the spec: `chessposition::BitboardClear`, remove piece `p` from
square `index`; realised as a bit toggle, which is removal whenever the piece is
on the square. -/
def BitboardClear (pos : chessposition) (index p : Nat) : chessposition :=
  { pos with
    piece00 := setAt pos.piece00 p (pos.piece00 p ^^^ BITSET index)
    occupied00 := setAt pos.occupied00 (p &&& 1) (pos.occupied00 (p &&& 1) ^^^ BITSET index) }

/-- Modelled from the spec: `chessposition::BitboardMove`, relocate piece `p` from
`frm` to `to_`; realised as a toggle of both bits, which is the relocation
whenever the piece is on `frm` and `to_` is free of it. -/
def BitboardMove (pos : chessposition) (frm to_ p : Nat) : chessposition :=
  { pos with
    piece00 := setAt pos.piece00 p (pos.piece00 p ^^^ (BITSET frm ||| BITSET to_))
    occupied00 := setAt pos.occupied00 (p &&& 1)
      (pos.occupied00 (p &&& 1) ^^^ (BITSET frm ||| BITSET to_)) }

/-- The snapshot of the block `state .. isCheckbb` of `pos`, with move code `mc`. -/
def snapshot (pos : chessposition) (mc : Nat) : chessmovestack :=
  { state := pos.state, ept := pos.ept, kingpos := pos.kingpos, hash := pos.hash,
    pawnhash := pos.pawnhash, materialhash := pos.materialhash,
    halfmovescounter := pos.halfmovescounter, fullmovescounter := pos.fullmovescounter,
    isCheckbb := pos.isCheckbb, movecode := mc }

/-- Modelled from the spec: `chessposition::prepareStack`, copy the block
`state .. isCheckbb` into the top history slot `movestack[mstop]`. -/
def prepareStack (pos : chessposition) : chessposition :=
  { pos with movestack :=
      setAtInt pos.movestack pos.mstop (snapshot pos (pos.movestack pos.mstop).movecode) }

/-- Modelled from the spec: `chessposition::isAttackedBy<OCCUPIED>(index, col)`,
the bitboard of the pieces of colour `col` that attack square `index`. -/
def isAttackedBy (pos : chessposition) (index col : Nat) : Nat :=
  let occ := pos.occupied00 0 ||| pos.occupied00 1
  (knight_attacks index &&& pos.piece00 (WKNIGHT ||| col))
    ||| (MAGICROOKATTACKS occ index &&& (pos.piece00 (WROOK ||| col) ||| pos.piece00 (WQUEEN ||| col)))
    ||| (MAGICBISHOPATTACKS occ index
          &&& (pos.piece00 (WBISHOP ||| col) ||| pos.piece00 (WQUEEN ||| col)))
    ||| (pawn_attacks_occupied index (col ^^^ S2MMASK) &&& pos.piece00 (WPAWN ||| col))
    ||| (king_attacks index &&& pos.piece00 (WKING ||| col))

/-- Modelled from the spec: `chessposition::isAttacked(index)`, whether a piece of
the side that is not to move attacks square `index`. -/
def isAttacked (pos : chessposition) (index : Nat) : Bool :=
  isAttackedBy pos index ((pos.state &&& S2MMASK) ^^^ S2MMASK) != 0

/-- Modelled from the spec: `chessposition::attackedByBB(index, occ)`, the pieces
of both colours that attack `index` under occupancy `occ`. -/
def attackedByBB (pos : chessposition) (index occ : Nat) : Nat :=
  (knight_attacks index &&& (pos.piece00 WKNIGHT ||| pos.piece00 BKNIGHT))
    ||| (king_attacks index &&& (pos.piece00 WKING ||| pos.piece00 BKING))
    ||| (pawn_attacks_occupied index 1 &&& pos.piece00 WPAWN)
    ||| (pawn_attacks_occupied index 0 &&& pos.piece00 BPAWN)
    ||| (MAGICROOKATTACKS occ index
          &&& (pos.piece00 WROOK ||| pos.piece00 BROOK ||| pos.piece00 WQUEEN ||| pos.piece00 BQUEEN))
    ||| (MAGICBISHOPATTACKS occ index
          &&& (pos.piece00 WBISHOP ||| pos.piece00 BBISHOP ||| pos.piece00 WQUEEN
                ||| pos.piece00 BQUEEN))

/-- Modelled from the spec: `chessposition::movesTo(pc, from)`, the squares piece
`pc` on `frm` reaches by its movement pattern: pawn pushes onto empty squares
(the double push from the start rank is tested for its target only, the caller
tests the square between), pawn captures onto enemy pieces, and the attack sets
of the other pieces. -/
def movesTo (pos : chessposition) (pc frm : Nat) : Nat :=
  let s2m := pc &&& S2MMASK
  let occ := pos.occupied00 0 ||| pos.occupied00 1
  let p := pc >>> 1
  if p = PAWN then
    let push1 := stepMask frm [(0, if s2m = 0 then 1 else -1)]
    let push2 := if RRANK frm s2m = 1 then stepMask frm [(0, if s2m = 0 then 2 else -2)] else 0
    (((push1 ||| push2) ^^^ ((push1 ||| push2) &&& occ)))
      ||| (pawn_attacks_occupied frm s2m &&& pos.occupied00 (s2m ^^^ S2MMASK))
  else if p = KNIGHT then knight_attacks frm
  else if p = BISHOP then MAGICBISHOPATTACKS occ frm
  else if p = ROOK then MAGICROOKATTACKS occ frm
  else if p = QUEEN then MAGICBISHOPATTACKS occ frm ||| MAGICROOKATTACKS occ frm
  else if p = KING then
    king_attacks frm ||| (if frm = 4 ∨ frm = 60 then stepMask frm [(-2, 0), (2, 0)] else 0)
  else 0

/-! ## Null moves -/

/-- `chessposition::playNullMove` (move.cpp 411-418). -/
def playNullMove (zb : zobrist) (pos : chessposition) : chessposition :=
  { pos with
    movestack := setAtInt pos.movestack pos.mstop { pos.movestack pos.mstop with movecode := 0 }
    mstop := pos.mstop + 1
    state := pos.state ^^^ S2MMASK
    hash := pos.hash ^^^ zb.s2m
    ply := pos.ply + 1 }

/-- `chessposition::unplayNullMove` (move.cpp 421-428). -/
def unplayNullMove (zb : zobrist) (pos : chessposition) : chessposition :=
  { pos with
    state := pos.state ^^^ S2MMASK
    hash := pos.hash ^^^ zb.s2m
    ply := pos.ply - 1
    mstop := pos.mstop - 1 }

/-! ## playMove and unplayMove -/

/-- Lines 447-458 of `playMove`: count the half move and take a captured piece
(other than one captured en passant) off the board and out of the hashes. -/
def playCapture (zb : zobrist) (pos : chessposition) (code : Nat) : chessposition :=
  let to_ := GETTO code
  let capture := GETCAPTURE code
  let p := { pos with halfmovescounter := pos.halfmovescounter + 1 }
  if capture ≠ BLANK ∧ GETEPCAPTURE code = 0 then
    let p := { p with hash := p.hash ^^^ zb.boardtable ((to_ <<< 4) ||| capture) }
    let p := if capture >>> 1 = PAWN then
        { p with pawnhash := p.pawnhash ^^^ zb.boardtable ((to_ <<< 4) ||| capture) }
      else p
    let p := BitboardClear p to_ capture
    let p := { p with materialhash :=
      p.materialhash ^^^ zb.boardtable ((POPCOUNT (p.piece00 capture) <<< 4) ||| capture) }
    { p with halfmovescounter := 0 }
  else p

/-- Lines 460-478 of `playMove`: relocate the piece or promote the pawn, update
`hash` for both squares and empty the source square of the mailbox. -/
def playRelocate (zb : zobrist) (pos : chessposition) (code : Nat) : chessposition :=
  let frm := GETFROM code
  let to_ := GETTO code
  let pfrom := GETPIECE code
  let promote := GETPROMOTION code
  let p :=
    if promote = BLANK then
      let p := { pos with mailbox := setAt pos.mailbox to_ pfrom }
      BitboardMove p frm to_ pfrom
    else
      let p := { pos with mailbox := setAt pos.mailbox to_ promote }
      let p := BitboardClear p frm pfrom
      let p := { p with materialhash :=
        p.materialhash ^^^ zb.boardtable ((POPCOUNT (p.piece00 pfrom) <<< 4) ||| pfrom) }
      let p := { p with materialhash :=
        p.materialhash ^^^ zb.boardtable ((POPCOUNT (p.piece00 promote) <<< 4) ||| promote) }
      let p := BitboardSet p to_ promote
      { p with pawnhash := p.pawnhash ^^^ zb.boardtable ((to_ <<< 4) ||| p.mailbox to_) }
  let p := { p with hash := p.hash ^^^ zb.boardtable ((to_ <<< 4) ||| p.mailbox to_) }
  let p := { p with hash := p.hash ^^^ zb.boardtable ((frm <<< 4) ||| pfrom) }
  { p with mailbox := setAt p.mailbox frm BLANK }

/-- Lines 480-499 of `playMove`: the pawn specials (pawn hash, half-move counter,
en-passant capture) and the tracking of the king square. -/
def playSpecials (zb : zobrist) (pos : chessposition) (code : Nat) (s2m : Nat) :
    chessposition :=
  let frm := GETFROM code
  let to_ := GETTO code
  let pfrom := GETPIECE code
  let ptype := pfrom >>> 1
  let p :=
    if ptype = PAWN then
      let p := { pos with pawnhash := pos.pawnhash ^^^ zb.boardtable ((to_ <<< 4) ||| pos.mailbox to_) }
      let p := { p with pawnhash := p.pawnhash ^^^ zb.boardtable ((frm <<< 4) ||| pfrom) }
      let p := { p with halfmovescounter := 0 }
      if p.ept ≠ 0 ∧ to_ = p.ept then
        let epfield := (frm &&& 0x38) ||| (to_ &&& 0x07)
        let p := BitboardClear p epfield (pfrom ^^^ S2MMASK)
        let p := { p with mailbox := setAt p.mailbox epfield BLANK }
        let p := { p with hash := p.hash ^^^ zb.boardtable ((epfield <<< 4) ||| (pfrom ^^^ S2MMASK)) }
        let p := { p with pawnhash :=
          p.pawnhash ^^^ zb.boardtable ((epfield <<< 4) ||| (pfrom ^^^ S2MMASK)) }
        { p with materialhash := p.materialhash ^^^
            zb.boardtable ((POPCOUNT (p.piece00 (pfrom ^^^ S2MMASK)) <<< 4) ||| (pfrom ^^^ S2MMASK)) }
      else p
    else pos
  if ptype = KING then { p with kingpos := setAt p.kingpos s2m to_ } else p

/-- Lines 447-499 of `playMove`: the move applied to the board, before the
legality test. -/
def playApply (zb : zobrist) (pos : chessposition) (code : Nat) : chessposition :=
  playSpecials zb (playRelocate zb (playCapture zb pos code) code) code (pos.state &&& S2MMASK)

/-- Lines 520-538 of `playMove` and, word for word, lines 629-647 of
`unplayMove`: put a captured piece back (a pawn captured en passant on its own
square) or empty the destination square. -/
def restoreCapture (pos : chessposition) (code : Nat) : chessposition :=
  let frm := GETFROM code
  let to_ := GETTO code
  let capture := GETCAPTURE code
  if capture ≠ BLANK then
    if pos.ept ≠ 0 ∧ to_ = pos.ept then
      let epfield := (frm &&& 0x38) ||| (to_ &&& 0x07)
      let p := BitboardSet pos epfield capture
      let p := { p with mailbox := setAt p.mailbox epfield capture }
      { p with mailbox := setAt p.mailbox to_ BLANK }
    else
      let p := BitboardSet pos to_ capture
      { p with mailbox := setAt p.mailbox to_ capture }
  else { pos with mailbox := setAt pos.mailbox to_ BLANK }

/-- Lines 505-518 of `playMove`: the move was illegal; restore hashes, king
square and half-move counter from the snapshot in `movestack[mstop]` and put the
moved piece back on its source square. -/
def rollbackPiece (pos : chessposition) (code : Nat) (s2m : Nat) : chessposition :=
  let frm := GETFROM code
  let to_ := GETTO code
  let pfrom := GETPIECE code
  let promote := GETPROMOTION code
  let top := pos.movestack pos.mstop
  let p := { pos with
    hash := top.hash, pawnhash := top.pawnhash, materialhash := top.materialhash,
    kingpos := setAt pos.kingpos s2m (top.kingpos s2m),
    halfmovescounter := top.halfmovescounter,
    mailbox := setAt pos.mailbox frm pfrom }
  if promote ≠ BLANK then
    let p := BitboardClear p to_ (p.mailbox to_)
    BitboardSet p frm pfrom
  else BitboardMove p to_ frm pfrom

/-- Lines 504-539 of `playMove`: "just do the necessary subset of unplayMove". -/
def playRollback (pos : chessposition) (code : Nat) (s2m : Nat) : chessposition :=
  restoreCapture (rollbackPiece pos code s2m) code

/-- Lines 544-568 of `playMove`: clear stale castling rights and, for a king move,
store the king in the pawn hash and relocate the rook of a castling move. -/
def playCastle (zb : zobrist) (pos : chessposition) (code : Nat) (s2m : Nat) : chessposition :=
  let frm := GETFROM code
  let to_ := GETTO code
  let pfrom := GETPIECE code
  let ptype := pfrom >>> 1
  let p := { pos with state := pos.state &&& (castlerights frm &&& castlerights to_) }
  if ptype = KING then
    let p := { p with
      pawnhash := p.pawnhash ^^^
        (zb.boardtable ((frm <<< 4) ||| pfrom) ^^^ zb.boardtable ((to_ <<< 4) ||| pfrom))
      state := p.state &&&
        (if s2m ≠ 0 then not32 (BQCMASK ||| BKCMASK) else not32 (WQCMASK ||| WKCMASK)) }
    let c := castleindex frm to_
    if c ≠ 0 then
      let rookfrom := castlerookfrom c
      let rookto := castlerookto c
      let p := BitboardMove p rookfrom rookto (WROOK ||| s2m)
      { p with
        mailbox := setAt (setAt p.mailbox rookto (WROOK ||| s2m)) rookfrom BLANK
        hash := (p.hash ^^^ zb.boardtable ((rookto <<< 4) ||| (WROOK ||| s2m)))
          ^^^ zb.boardtable ((rookfrom <<< 4) ||| (WROOK ||| s2m)) }
    else p
  else p

/-- Lines 572-596 of `playMove`: side to move, check board, full-move counter,
en-passant target, the hash terms of side, target and castling rights, ply,
repetition table and history slot.  `oldcastle` holds the castling rights before
the move. -/
def playFinish (zb : zobrist) (pos : chessposition) (code : Nat) (s2m oldcastle : Nat) :
    chessposition :=
  let state := pos.state ^^^ S2MMASK
  let isCheckbb := isAttackedBy pos (pos.kingpos (s2m ^^^ S2MMASK)) s2m
  let hash := pos.hash ^^^ zb.s2m
  let fullmovescounter :=
    if state &&& S2MMASK = 0 then pos.fullmovescounter + 1 else pos.fullmovescounter
  let hash := hash ^^^ zb.ept pos.ept
  let ept := GETEPT code
  let hash := hash ^^^ zb.ept ept
  let oldcastle := oldcastle ^^^ (state &&& CASTLEMASK)
  let hash := hash ^^^ zb.cstl oldcastle
  { pos with
    state := state
    isCheckbb := isCheckbb
    fullmovescounter := fullmovescounter
    ept := ept
    hash := hash
    ply := pos.ply + 1
    rp := addPosition pos.rp hash
    movestack := setAtInt pos.movestack pos.mstop { pos.movestack pos.mstop with movecode := code }
    mstop := pos.mstop + 1 }

/-- Lines 544-596 of `playMove`: the move was legal and is committed. -/
def playCommit (zb : zobrist) (pos : chessposition) (code : Nat) (s2m : Nat) : chessposition :=
  playFinish zb (playCastle zb pos code s2m) code s2m (pos.state &&& CASTLEMASK)

/-- `chessposition::playMove` (move.cpp 431-597): the returned flag and the
position after the call. -/
def playMove (zb : zobrist) (pos : chessposition) (code : Nat) : Bool × chessposition :=
  let s2m := pos.state &&& S2MMASK
  let p := playApply zb pos code
  if isAttacked p (p.kingpos s2m) then (false, playRollback p code s2m)
  else (true, playCommit zb p code s2m)

/-- Lines 609-615 of `unplayMove`: take the hash out of the repetition table,
step back ply and history depth and copy the snapshot back to the position. -/
def unplayRestore (pos : chessposition) : chessposition :=
  let p := { pos with rp := removePosition pos.rp pos.hash }
  let p := { p with ply := p.ply - 1 }
  let p := { p with mstop := p.mstop - 1 }
  let top := p.movestack p.mstop
  { p with
    state := top.state, ept := top.ept, kingpos := top.kingpos, hash := top.hash,
    pawnhash := top.pawnhash, materialhash := top.materialhash,
    halfmovescounter := top.halfmovescounter, fullmovescounter := top.fullmovescounter,
    isCheckbb := top.isCheckbb }

/-- Lines 617-627 of `unplayMove`: undo the promotion or move the piece `pto`
back to the source square. -/
def unplayPiece (pos : chessposition) (code : Nat) (pto : Nat) : chessposition :=
  let frm := GETFROM code
  let to_ := GETTO code
  let promote := GETPROMOTION code
  let s2m := pos.state &&& S2MMASK
  if promote ≠ BLANK then
    let p := { pos with mailbox := setAt pos.mailbox frm (WPAWN ||| s2m) }
    let p := BitboardClear p to_ pto
    BitboardSet p frm (WPAWN ||| s2m)
  else
    let p := BitboardMove pos to_ frm pto
    { p with mailbox := setAt p.mailbox frm pto }

/-- Lines 649-661 of `unplayMove`: take the rook of a castling move back. -/
def unplayCastle (pos : chessposition) (code : Nat) (pto : Nat) : chessposition :=
  let frm := GETFROM code
  let to_ := GETTO code
  let s2m := pos.state &&& S2MMASK
  if pto >>> 1 = KING then
    let c := castleindex frm to_
    if c ≠ 0 then
      let rookfrom := castlerookfrom c
      let rookto := castlerookto c
      let p := BitboardMove pos rookto rookfrom (WROOK ||| s2m)
      let p := { p with mailbox := setAt p.mailbox rookfrom (WROOK ||| s2m) }
      { p with mailbox := setAt p.mailbox rookto BLANK }
    else pos
  else pos

/-- `chessposition::unplayMove` (move.cpp 600-662); `pto` is read from the
mailbox before anything is changed. -/
def unplayMove (pos : chessposition) (code : Nat) : chessposition :=
  let pto := pos.mailbox (GETTO code)
  unplayCastle (restoreCapture (unplayPiece (unplayRestore pos) code pto) code) code pto

/-! ## Validation of stored moves -/

/-- Lines 323-350 of `moveIsPseudoLegal`: the pawn specials pass. -/
def pawnSpecialsOk (pos : chessposition) (c : Nat) : Bool :=
  let frm := GETFROM c
  let to_ := GETTO c
  let pc := GETPIECE c
  let s2m := pc &&& S2MMASK
  if (frm ^^^ to_) = 16 then
    if betweenMask frm to_ &&& (pos.occupied00 0 ||| pos.occupied00 1) ≠ 0 then false
    else
      let ept := GETEPT c
      if decide (ept = 0) = decide (epthelper to_ &&& pos.piece00 (pc ^^^ 1) ≠ 0) then false
      else true
  else
    if GETEPCAPTURE c ≠ 0 ∧ pos.ept ≠ to_ then false
    else if RRANK to_ s2m = 7 ∧ GETPROMOTION c = 0 then false
    else true

/-- Lines 353-384 of `moveIsPseudoLegal`: the castling test passes. -/
def castleOk (pos : chessposition) (c : Nat) : Bool :=
  let frm := GETFROM c
  let to_ := GETTO c
  if isAttacked pos frm then false
  else
    let occupied := pos.occupied00 0 ||| pos.occupied00 1
    let s2m := pos.state &&& S2MMASK
    if frm > to_ then
      if occupied &&& (if s2m ≠ 0 then 0x0e00000000000000 else 0x000000000000000e) ≠ 0
          ∨ isAttacked pos (frm - 1) ∨ isAttacked pos (frm - 2)
          ∨ pos.state &&& QCMASK s2m = 0 then false
      else true
    else
      if occupied &&& (if s2m ≠ 0 then 0x6000000000000000 else 0x0000000000000060) ≠ 0
          ∨ isAttacked pos (frm + 1) ∨ isAttacked pos (frm + 2)
          ∨ pos.state &&& KCMASK s2m = 0 then false
      else true

/-- `chessposition::moveIsPseudoLegal` (move.cpp 283-387). -/
def moveIsPseudoLegal (pos : chessposition) (c : Nat) : Bool :=
  if c = 0 then false
  else
    let frm := GETFROM c
    let to_ := GETTO c
    let pc := GETPIECE c
    let capture := GETCAPTURE c
    let p := pc >>> 1
    let s2m := pc &&& S2MMASK
    if pos.mailbox frm ≠ pc then false
    else if pos.mailbox to_ ≠ capture ∧ GETEPCAPTURE c = 0 then false
    else if capture ≠ 0 ∧ (s2m = (capture &&& S2MMASK) ∨ capture ≥ WKING) then false
    else if movesTo pos pc frm &&& BITSET to_ = 0
        ∧ (pos.ept = 0 ∨ to_ ≠ pos.ept ∨ p ≠ PAWN) then false
    else if s2m ≠ (pos.state &&& S2MMASK) then false
    else if GETPROMOTION c ≠ 0 ∧ p ≠ PAWN then false
    else if p = PAWN ∧ pawnSpecialsOk pos c = false then false
    else if p = KING ∧ (frm ^^^ to_) &&& 3 = 2 ∧ castleOk pos c = false then false
    else true

/-- Lines 247-274 of `shortMove2FullMove`: the full code built for the 16-bit
code `c` of a move of the piece `pc` that stands on the source square. -/
def shortMove2FullCode (pos : chessposition) (c : Nat) : Nat :=
  let frm := GETFROM c
  let to_ := GETTO c
  let pc := pos.mailbox frm
  let capture := pos.mailbox to_
  let p := pc >>> 1
  let ce : Nat × Nat :=
    if p = PAWN then
      if FILE frm ≠ FILE to_ ∧ capture = BLANK then (pc ^^^ S2MMASK, ISEPCAPTURE)
      else if (frm ^^^ to_) = 16 ∧ epthelper to_ &&& pos.piece00 (pc ^^^ 1) ≠ 0 then
        (capture, (frm + to_) / 2)
      else (capture, 0)
    else (capture, 0)
  ((pc <<< 28) ||| (ce.2 <<< 20) ||| (ce.1 <<< 16) ||| c) % 2 ^ 32

/-- `chessposition::shortMove2FullMove` (move.cpp 242-279). -/
def shortMove2FullMove (pos : chessposition) (c : Nat) : Nat :=
  if c = 0 then 0
  else if pos.mailbox (GETFROM c) = 0 then 0
  else if moveIsPseudoLegal pos (shortMove2FullCode pos c) then shortMove2FullCode pos c
  else 0

/-! ## Static exchange evaluation -/

/-- Modelled from the spec: macro `GETTACTICALVALUE`, the immediate material gain
of a move: the value of the captured piece, plus the promoted piece's value minus
a pawn's for a promotion.  The table `materialvalue` is a parameter. -/
def GETTACTICALVALUE (materialvalue : Nat → Int) (x : Nat) : Int :=
  materialvalue (GETCAPTURE x >>> 1)
    + (if ISPROMOTION x ≠ 0 then materialvalue (GETPROMOTION x >>> 1) - materialvalue PAWN else 0)

/-- Lines 703-705 of `see`: scan the piece types upwards from `nextPiece` for the
first one of side `s2m` among `nextAttacker`; `none` when the scan passes `KING`
(the C++ loop would then read beyond the piece bitboards). -/
def leastAttacker (pos : chessposition) (nextAttacker s2m : Nat) : Nat → Nat → Option Nat
  | 0, _ => none
  | n + 1, nextPiece =>
    if nextAttacker &&& pos.piece00 ((nextPiece <<< 1) ||| s2m) ≠ 0 then some nextPiece
    else leastAttacker pos nextAttacker s2m n (nextPiece + 1)

/-- Lines 695-727 of `see`: the recapture loop, at most `fuel` iterations.  The
result is the side `s2m` at which the loop stops. -/
def seeLoop (materialvalue : Nat → Int) (pos : chessposition) (to_ : Nat)
    (potentialRookAttackers potentialBishopAttackers : Nat) :
    Nat → Nat → Nat → Nat → Int → Option Nat
  | 0, _, _, _, _ => none
  | fuel + 1, seeOccupied, attacker, s2m, value =>
    let nextAttacker := attacker &&& pos.occupied00 s2m
    if nextAttacker = 0 then some s2m
    else
      match leastAttacker pos nextAttacker s2m 6 PAWN with
      | none => none
      | some nextPiece =>
        let attackerIndex := GETLSB (nextAttacker &&& pos.piece00 ((nextPiece <<< 1) ||| s2m))
        let seeOccupied := seeOccupied ^^^ BITSET attackerIndex
        let attacker :=
          if nextPiece &&& 0x1 ≠ 0 ∨ nextPiece = KING then
            attacker ||| (MAGICBISHOPATTACKS seeOccupied to_ &&& potentialBishopAttackers)
          else attacker
        let attacker :=
          if nextPiece = ROOK ∨ nextPiece = QUEEN ∨ nextPiece = KING then
            attacker ||| (MAGICROOKATTACKS seeOccupied to_ &&& potentialRookAttackers)
          else attacker
        let attacker := attacker &&& seeOccupied
        let s2m := s2m ^^^ S2MMASK
        let value := -value - 1 - materialvalue nextPiece
        if value ≥ 0 then some s2m
        else seeLoop materialvalue pos to_ potentialRookAttackers potentialBishopAttackers
          fuel seeOccupied attacker s2m value

/-- `chessposition::see` (move.cpp 666-730).  `none` stands for a run that the
model cannot follow (the attacker scan leaves the piece types, or the loop
exceeds 65 iterations, more than a 64-bit occupancy allows). -/
def see (materialvalue : Nat → Int) (pos : chessposition) (move : Nat) (threshold : Int) :
    Option Bool :=
  let frm := GETFROM move
  let to_ := GETTO move
  let value := GETTACTICALVALUE materialvalue move - threshold
  if value < 0 then some false
  else
    let nextPiece := (if ISPROMOTION move ≠ 0 then GETPROMOTION move else GETPIECE move) >>> 1
    let value := value - materialvalue nextPiece
    if value ≥ 0 then some true
    else
      let seeOccupied := ((pos.occupied00 0 ||| pos.occupied00 1) ^^^ BITSET frm) ||| BITSET to_
      let potentialRookAttackers :=
        pos.piece00 WROOK ||| pos.piece00 BROOK ||| pos.piece00 WQUEEN ||| pos.piece00 BQUEEN
      let potentialBishopAttackers :=
        pos.piece00 WBISHOP ||| pos.piece00 BBISHOP ||| pos.piece00 WQUEEN ||| pos.piece00 BQUEEN
      let attacker := attackedByBB pos to_ seeOccupied &&& seeOccupied
      let s2m := (pos.state &&& S2MMASK) ^^^ S2MMASK
      match seeLoop materialvalue pos to_ potentialRookAttackers potentialBishopAttackers
          65 seeOccupied attacker s2m value with
      | none => none
      | some s => some ((s ^^^ (pos.state &&& S2MMASK)) != 0)

/-! ## Sequences of search operations -/

/-- The operations by which the search walks the tree from the root. -/
inductive SearchOp where
  | play (code : Nat)
  | unplay (code : Nat)
  | playNull
  | unplayNull

/-- One search operation applied to a position. -/
def applyOp (zb : zobrist) (pos : chessposition) : SearchOp → chessposition
  | SearchOp.play code => (playMove zb pos code).2
  | SearchOp.unplay code => unplayMove pos code
  | SearchOp.playNull => playNullMove zb pos
  | SearchOp.unplayNull => unplayNullMove zb pos

/-- A sequence of search operations applied to a position, first one first. -/
def runOps (zb : zobrist) (pos : chessposition) : List SearchOp → chessposition
  | [] => pos
  | op :: ops => runOps zb (applyOp zb pos op) ops

/-- Lines 248-249 of engine.cpp: the root records the history depth and resets
the ply. -/
def setRoot (pos : chessposition) : chessposition :=
  { pos with rootheight := pos.mstop, ply := 0 }

/-! ## Worked positions -/

/-- An empty history slot. -/
def emptySlot : chessmovestack :=
  { state := 0, ept := 0, kingpos := fun _ => 0, hash := 0, pawnhash := 0, materialhash := 0,
    halfmovescounter := 0, fullmovescounter := 0, isCheckbb := 0, movecode := 0 }

/-- The bitboard of the squares of the pieces in `l`. -/
def boardBits (l : List (Nat × Nat)) : Nat :=
  l.foldr (fun e acc => BITSET e.1 ||| acc) 0

/-- The piece code that the list `board` has on square `sq`, `BLANK` if none. -/
def lookupSquare (board : List (Nat × Nat)) (sq : Nat) : Nat :=
  match board.find? (fun e => e.1 = sq) with
  | some e => e.2
  | none => BLANK

/-- The square of the first piece with code `pc` in `board`, 0 if none. -/
def lookupPiece (board : List (Nat × Nat)) (pc : Nat) : Nat :=
  match board.find? (fun e => e.2 = pc) with
  | some e => e.1
  | none => 0

/-- The position with the pieces `board` (pairs of square and piece code), the
given `state` and `ept`, zero hashes and an empty history. -/
def mkPosition (board : List (Nat × Nat)) (state ept : Nat) : chessposition :=
  { piece00 := fun p => boardBits (board.filter (fun e => e.2 = p))
    occupied00 := fun c => boardBits (board.filter (fun e => e.2 &&& 1 = c))
    mailbox := lookupSquare board
    state := state
    ept := ept
    kingpos := fun c => lookupPiece board (WKING ||| c)
    hash := 0, pawnhash := 0, materialhash := 0, halfmovescounter := 0, fullmovescounter := 1
    isCheckbb := 0
    movestack := fun _ => emptySlot
    mstop := 0, ply := 0, rootheight := 0
    rp := fun _ => 0 }

/-- A list of pieces is a board: no square twice, squares below 64, no empty code. -/
def boardOK (board : List (Nat × Nat)) : Prop :=
  (board.map Prod.fst).Nodup ∧ ∀ e ∈ board, e.1 < 64 ∧ e.2 ≠ 0

instance (board : List (Nat × Nat)) : Decidable (boardOK board) := by
  unfold boardOK
  infer_instance

/-- Material values used in the worked examples (pawn 100 .. king 20000). -/
def mvEx (p : Nat) : Int :=
  if p = 1 then 100 else if p = 2 then 320 else if p = 3 then 330 else if p = 4 then 500
  else if p = 5 then 950 else if p = 6 then 20000 else 0

/-- White Ke1, Ra1, Ra2; black Ke8, Ra8, pawn a7; white to move. -/
def seePos : chessposition :=
  mkPosition [(4, WKING), (0, WROOK), (60, BKING), (48, BPAWN), (56, BROOK), (8, WROOK)] 0 0

/-! ## Agreement of mailbox and bitboards -/

/-- Piece bitboards `pc` and mailbox `mb` agree: bit `sq` of board `p` is set
exactly when `sq` is a square of the board and the mailbox holds piece `p` there
(so a square is empty in the mailbox exactly when no piece board has its bit). -/
def pieceAgree (pc mb : Nat → Nat) : Prop :=
  ∀ p sq, p ≠ 0 → ((pc p).testBit sq = true ↔ sq < 64 ∧ mb sq = p)

/-- Occupancy bitboards `oc` and mailbox `mb` agree: bit `sq` of the occupancy of
colour `c` is set exactly when the mailbox holds a piece of colour `c` there. -/
def occAgree (oc mb : Nat → Nat) : Prop :=
  ∀ c sq, c < 2 → ((oc c).testBit sq = true ↔ sq < 64 ∧ mb sq ≠ 0 ∧ mb sq &&& 1 = c)

/-- The entries of the bitboard arrays that belong to no piece and no colour
have the given values. -/
def spareBoards (pos : chessposition) (a : Nat) (b : Nat → Nat) : Prop :=
  pos.piece00 0 = a ∧ ∀ c, 2 ≤ c → pos.occupied00 c = b c

/-- Mailbox and bitboards of a position agree (piece boards and occupancy). -/
def boardAgree (pos : chessposition) : Prop :=
  pieceAgree pos.piece00 pos.mailbox ∧ occAgree pos.occupied00 pos.mailbox

/-- A property of the bitboards of a position relative to a mailbox that the
three bitboard helpers maintain when they are called for a piece that the
mailbox has on the square (clear, move) or for an empty square (set), and that
does not depend on any other field. -/
structure AgreeKind (I : chessposition → (Nat → Nat) → Prop) : Prop where
  clear : ∀ pos mb i q, I pos mb → q ≠ 0 → i < 64 → mb i = q →
    I (BitboardClear pos i q) (setAt mb i 0)
  set : ∀ pos mb i q, I pos mb → q ≠ 0 → i < 64 → mb i = 0 →
    I (BitboardSet pos i q) (setAt mb i q)
  move : ∀ pos mb i j q, I pos mb → q ≠ 0 → i < 64 → j < 64 → i ≠ j → mb i = q → mb j = 0 →
    I (BitboardMove pos i j q) (setAt (setAt mb i 0) j q)
  frame : ∀ pos pos2 mb, pos2.piece00 = pos.piece00 → pos2.occupied00 = pos.occupied00 →
    I pos mb → I pos2 mb

/-- The square of the pawn captured en passant by move `m`,
`(from & 0x38) | (to & 0x07)` (move.cpp 489, 525, 634). -/
def epfieldOf (m : Nat) : Nat := (GETFROM m &&& 0x38) ||| (GETTO m &&& 0x07)

/-- The top history slot `movestack[mstop]` holds the snapshot of the position
(as `prepareStack` leaves it). -/
def topIsSnapshot (pos : chessposition) : Prop :=
  (pos.movestack pos.mstop).state = pos.state
    ∧ (pos.movestack pos.mstop).ept = pos.ept
    ∧ (pos.movestack pos.mstop).kingpos = pos.kingpos
    ∧ (pos.movestack pos.mstop).hash = pos.hash
    ∧ (pos.movestack pos.mstop).pawnhash = pos.pawnhash
    ∧ (pos.movestack pos.mstop).materialhash = pos.materialhash
    ∧ (pos.movestack pos.mstop).halfmovescounter = pos.halfmovescounter
    ∧ (pos.movestack pos.mstop).fullmovescounter = pos.fullmovescounter
    ∧ (pos.movestack pos.mstop).isCheckbb = pos.isCheckbb

/-- The move code `m` describes a move on the board of `pos` the way the move
generator and `shortMove2FullMove` encode it: the piece field is the piece on the
source square and belongs to the side to move; without the en-passant flag the
capture field is the content of the destination square, and the destination is
not the en-passant target if the move captures or is a pawn move; with the flag
a pawn moves to the empty en-passant target and the capture field is the
opposing pawn, which stands on the en-passant field; only pawns promote, to
knight, bishop, rook or queen; a castling king move finds its rook in the corner
and the rook's landing square empty. -/
def moveOK (pos : chessposition) (m : Nat) : Prop :=
  pos.mailbox (GETFROM m) = GETPIECE m
    ∧ GETPIECE m ≠ BLANK
    ∧ GETPIECE m &&& S2MMASK = pos.state &&& S2MMASK
    ∧ GETFROM m ≠ GETTO m
    ∧ (GETEPCAPTURE m = 0 →
        pos.mailbox (GETTO m) = GETCAPTURE m
          ∧ ¬ (pos.ept ≠ 0 ∧ GETTO m = pos.ept
                ∧ (GETCAPTURE m ≠ BLANK ∨ GETPIECE m >>> 1 = PAWN)))
    ∧ (GETEPCAPTURE m ≠ 0 →
        GETPIECE m >>> 1 = PAWN ∧ pos.ept ≠ 0 ∧ GETTO m = pos.ept
          ∧ pos.mailbox (GETTO m) = BLANK ∧ GETCAPTURE m = GETPIECE m ^^^ S2MMASK
          ∧ pos.mailbox (epfieldOf m) = GETPIECE m ^^^ S2MMASK)
    ∧ (GETPROMOTION m ≠ BLANK →
        GETPIECE m >>> 1 = PAWN ∧ WKNIGHT ≤ GETPROMOTION m ∧ GETPROMOTION m ≤ BQUEEN)
    ∧ (GETPIECE m >>> 1 = KING → castleindex (GETFROM m) (GETTO m) ≠ 0 →
        pos.mailbox (castlerookfrom (castleindex (GETFROM m) (GETTO m)))
            = WROOK ||| (pos.state &&& S2MMASK)
          ∧ pos.mailbox (castlerookto (castleindex (GETFROM m) (GETTO m))) = BLANK)

instance (pos : chessposition) (m : Nat) : Decidable (moveOK pos m) := by
  unfold moveOK
  infer_instance

/-- The piece that stands on the destination square after the move. -/
def arrivingPiece (m : Nat) : Nat :=
  if GETPROMOTION m = BLANK then GETPIECE m else GETPROMOTION m

/-- Whether `playMove` treats `m` as an en-passant capture (move.cpp 481, 487). -/
def epCond (pos : chessposition) (m : Nat) : Prop :=
  GETPIECE m >>> 1 = PAWN ∧ pos.ept ≠ 0 ∧ GETTO m = pos.ept

instance (pos : chessposition) (m : Nat) : Decidable (epCond pos m) := by
  unfold epCond
  infer_instance

/-- The mailbox after the board part of `playMove`. -/
def applyMailbox (pos : chessposition) (m : Nat) : Nat → Nat :=
  if GETEPCAPTURE m ≠ 0 then
    setAt (setAt (setAt pos.mailbox (GETTO m) (arrivingPiece m)) (GETFROM m) BLANK)
      (epfieldOf m) BLANK
  else setAt (setAt pos.mailbox (GETTO m) (arrivingPiece m)) (GETFROM m) BLANK

/-- Everything the agreement kinds say about the bitboards of a position,
relative to the bitboards of `pos0`. -/
def fullAgree (pos0 : chessposition) (p : chessposition) (mb : Nat → Nat) : Prop :=
  (pieceAgree p.piece00 mb ∧ occAgree p.occupied00 mb)
    ∧ spareBoards p (pos0.piece00 0) pos0.occupied00

/-- Whether `playMove` relocates a rook for `m` (move.cpp 547, 554-555). -/
def castleCond (m : Nat) : Prop :=
  GETPIECE m >>> 1 = KING ∧ castleindex (GETFROM m) (GETTO m) ≠ 0

instance (m : Nat) : Decidable (castleCond m) := by
  unfold castleCond
  infer_instance

/-- The corner the rook of the castling move `m` leaves. -/
def rookFromOf (m : Nat) : Nat := castlerookfrom (castleindex (GETFROM m) (GETTO m))

/-- The square the rook of the castling move `m` lands on. -/
def rookToOf (m : Nat) : Nat := castlerookto (castleindex (GETFROM m) (GETTO m))

/-- The mailbox after a successful `playMove`. -/
def commitMailbox (pos : chessposition) (m : Nat) : Nat → Nat :=
  if castleCond m then
    setAt (setAt (applyMailbox pos m) (rookToOf m) (WROOK ||| (pos.state &&& S2MMASK)))
      (rookFromOf m) BLANK
  else applyMailbox pos m

/-- Zobrist keys used in the worked examples (the castling key is XOR-linear). -/
def zbEx : zobrist :=
  { boardtable := fun i => i + 1, cstl := fun i => i, ept := fun i => i + 7, s2m := 5 }

/-- White Ke1, pawn e5; black Kh8, pawn d5 that has just made its double push
(ept = d6); white to move; the snapshot is on the stack. -/
def epPos : chessposition :=
  prepareStack (mkPosition [(4, WKING), (36, WPAWN), (63, BKING), (35, BPAWN)] 0 43)

/-- The position `epPos` with a black rook on e8, which pins the pawn e5. -/
def epPinnedPos : chessposition :=
  prepareStack
    (mkPosition [(4, WKING), (36, WPAWN), (63, BKING), (35, BPAWN), (60, BROOK)] 0 43)

/-- The en-passant capture e5xd6 as the generator encodes it. -/
def epMove : Nat := chessmove6 36 43 BLANK BPAWN ISEPCAPTURE WPAWN

/-- The move e5-d6 encoded as a plain pawn move: no flag, no capture. -/
def epMovePlain : Nat := chessmove3 36 43 WPAWN

/-- White Ke1, Rh1; black Ke8; white to move with the right to castle king side. -/
def castlePos : chessposition :=
  prepareStack (mkPosition [(4, WKING), (7, WROOK), (60, BKING)] 4 0)

/-- The king move e1-g1. -/
def castleMove : Nat := chessmove3 4 6 WKING

/-- Every field outside the board (bitboards and mailbox) is the same. -/
def sameScalars (p q : chessposition) : Prop :=
  p.state = q.state ∧ p.ept = q.ept ∧ p.kingpos = q.kingpos ∧ p.hash = q.hash
    ∧ p.pawnhash = q.pawnhash ∧ p.materialhash = q.materialhash
    ∧ p.halfmovescounter = q.halfmovescounter ∧ p.fullmovescounter = q.fullmovescounter
    ∧ p.isCheckbb = q.isCheckbb ∧ p.movestack = q.movestack ∧ p.mstop = q.mstop
    ∧ p.ply = q.ply ∧ p.rootheight = q.rootheight ∧ p.rp = q.rp

/-- White Ke1, pawn e2; black Ke8; white to move. -/
def pushPos : chessposition :=
  prepareStack (mkPosition [(4, WKING), (12, WPAWN), (60, BKING)] 0 0)

/-- The double push e2-e4 with the en-passant-capture flag in its en-passant
field (field value 0x40) and no target square. -/
def pushFlagged : Nat := chessmove6 12 28 BLANK BLANK ISEPCAPTURE WPAWN

/-- The fields that the board part of `playMove` (lines 447-499) and its rollback
never write. -/
def sameControl (p q : chessposition) : Prop :=
  p.state = q.state ∧ p.ept = q.ept ∧ p.movestack = q.movestack ∧ p.mstop = q.mstop
    ∧ p.ply = q.ply ∧ p.rootheight = q.rootheight ∧ p.rp = q.rp
    ∧ p.fullmovescounter = q.fullmovescounter ∧ p.isCheckbb = q.isCheckbb

/-- Every king of colour `c` on the boards stands on `kingpos[c]`: the king
square kept in `kingpos` tracks the real king. -/
def kingTracked (pos : chessposition) (c : Nat) : Prop :=
  ∀ sq, (pos.piece00 (WKING ||| c)).testBit sq = true → sq = pos.kingpos c

/-- White Ke1 and a pawn on a7; black Kh6 and a rook on h8; white to move. -/
def promoPos : chessposition :=
  prepareStack (mkPosition [(4, WKING), (48, WPAWN), (47, BKING), (63, BROOK)] 0 0)

/-- The pawn move a7-a8 with a king as promotion piece. -/
def promoKing : Nat := chessmove5 48 56 WKING BLANK WPAWN

/-- XOR of `f j` over all `j` below `n`. -/
def xorBelow (f : Nat → Nat) : Nat → Nat
  | 0 => 0
  | n + 1 => f n ^^^ xorBelow f n

/-- XOR of the board keys `boardtable[(sq << 4) | p]` of the squares of bitboard
`bb`, a board of pieces with code `p`. -/
def pieceKeys (zb : zobrist) (bb p : Nat) : Nat :=
  xorBelow (fun sq => if bb.testBit sq then zb.boardtable ((sq <<< 4) ||| p) else 0) 64

/-- XOR of the board keys of every piece on its square, over the piece codes
below 14 that `sel` selects. -/
def boardKeys (zb : zobrist) (sel : Nat → Bool) (pc : Nat → Nat) : Nat :=
  xorBelow (fun p => if sel p then pieceKeys zb (pc p) p else 0) 14

/-- The piece codes `WPAWN .. BKING` (among the codes below 14). -/
def isPiece (p : Nat) : Bool := decide (WPAWN ≤ p)

/-- The codes of the pawns and the kings. -/
def isPawnOrKing (p : Nat) : Bool := decide (p >>> 1 = PAWN ∨ p >>> 1 = KING)

/-- XOR of `boardtable[(j << 4) | p]` over `j` below `n`. -/
def materialKeys (zb : zobrist) (n p : Nat) : Nat :=
  xorBelow (fun j => zb.boardtable ((j <<< 4) ||| p)) n

/-- XOR over every piece code `p` and every `j` below the number of `p`-pieces of
`boardtable[(j << 4) | p]`. -/
def materialAll (zb : zobrist) (pc : Nat → Nat) : Nat :=
  xorBelow (fun p => if WPAWN ≤ p then materialKeys zb (POPCOUNT (pc p)) p else 0) 14

/-- Modelled from the spec: the from-scratch value of `hash`, the XOR of the board
key of every piece on its square, the side-to-move key (when black is to move),
the castling-rights key and the ept key (`zobrist::getHash` is absent). -/
def getHash (zb : zobrist) (pos : chessposition) : Nat :=
  boardKeys zb isPiece pos.piece00
    ^^^ (if pos.state &&& S2MMASK ≠ 0 then zb.s2m else 0)
    ^^^ zb.cstl (pos.state &&& CASTLEMASK) ^^^ zb.ept pos.ept

/-- Modelled from the spec: the from-scratch value of `pawnhash`, the XOR of the
board keys of all pawns and both kings (`zobrist::getPawnHash` is absent). -/
def getPawnHash (zb : zobrist) (pos : chessposition) : Nat :=
  boardKeys zb isPawnOrKing pos.piece00

/-- Modelled from the spec: the from-scratch value of `materialhash`
(`zobrist::getMaterialHash` is absent). -/
def getMaterialHash (zb : zobrist) (pos : chessposition) : Nat :=
  materialAll zb pos.piece00

/-- The three incrementally kept hashes equal their from-scratch values. -/
def hashesOK (zb : zobrist) (pos : chessposition) : Prop :=
  pos.hash = getHash zb pos ∧ pos.pawnhash = getPawnHash zb pos
    ∧ pos.materialhash = getMaterialHash zb pos

instance (zb : zobrist) (pos : chessposition) : Decidable (hashesOK zb pos) := by
  unfold hashesOK
  infer_instance

/-- The castling keys are XOR-linear: the key of an XOR of two sets of rights
is the XOR of their keys.  The table `zb.cstl` and its initialisation are absent
from the sources; `playMove` relies on this property when it updates `hash` with
the single key `zb.cstl[oldcastle ^ (state & CASTLEMASK)]` (move.cpp 586-587). -/
def cstlLinear (zb : zobrist) : Prop :=
  ∀ a b, zb.cstl (a ^^^ b) = zb.cstl a ^^^ zb.cstl b

/-- The piece and capture fields of a move code hold piece codes, as
`moveIsPseudoLegal` asserts (move.cpp 295, 309): the piece is `WPAWN .. BKING`,
the capture `BLANK` or `WPAWN .. BQUEEN`. -/
def codesInRange (m : Nat) : Prop :=
  WPAWN ≤ GETPIECE m ∧ GETPIECE m ≤ BKING ∧ GETCAPTURE m ≠ 1 ∧ GETCAPTURE m ≤ BQUEEN

instance (m : Nat) : Decidable (codesInRange m) := by
  unfold codesInRange
  infer_instance

/-- The position `pos` with its three hashes set to their from-scratch values. -/
def withHashes (zb : zobrist) (pos : chessposition) : chessposition :=
  { pos with hash := getHash zb pos, pawnhash := getPawnHash zb pos,
             materialhash := getMaterialHash zb pos }

/-- What `hash` holds beyond the board keys of the pieces on the bitboards. -/
def hashRest (zb : zobrist) (p : chessposition) : Nat :=
  p.hash ^^^ boardKeys zb isPiece p.piece00

/-- What `pawnhash` holds beyond the board keys of the pawns and kings on the
bitboards. -/
def pawnRest (zb : zobrist) (p : chessposition) : Nat :=
  p.pawnhash ^^^ boardKeys zb isPawnOrKing p.piece00

/-- What `materialhash` holds beyond the material keys of the bitboards. -/
def materialRest (zb : zobrist) (p : chessposition) : Nat :=
  p.materialhash ^^^ materialAll zb p.piece00

/-- The position `epPos` (white Ke1, pawn e5; black Kh8, pawn d5; ept = d6) with
its hashes computed from scratch. -/
def hashEpPos : chessposition :=
  prepareStack
    (withHashes zbEx (mkPosition [(4, WKING), (36, WPAWN), (63, BKING), (35, BPAWN)] 0 43))

/-- White Ke1 and a pawn on a7; black Kh6 and a rook on h8; white to move; the
hashes computed from scratch. -/
def hashPromoPos : chessposition :=
  prepareStack
    (withHashes zbEx (mkPosition [(4, WKING), (48, WPAWN), (47, BKING), (63, BROOK)] 0 0))

/-- The pawn move a7-a8 with a pawn as promotion piece. -/
def promoPawn : Nat := chessmove5 48 56 WPAWN BLANK WPAWN

/-- The position `pos` with the move code `x` written into the history slot
`movestack[mstop]`, the slot that the next move played will take. -/
def withTopCode (pos : chessposition) (x : Nat) : chessposition :=
  { pos with
    movestack := setAtInt pos.movestack pos.mstop { pos.movestack pos.mstop with movecode := x } }

/-- `chessposition::moveGivesCheck` (move.cpp 390-408).  The test for a
discovered check (lines 401-405) is compiled out by `#if 0`. -/
def moveGivesCheck (pos : chessposition) (c : Nat) : Bool :=
  let pc := GETPIECE c
  let me := pc &&& S2MMASK
  let you := me ^^^ S2MMASK
  let yourKing := pos.kingpos you
  if movesTo pos pc (GETTO c) &&& BITSET yourKing ≠ 0 then true else false

/-- White Kg1, Re1, Ne4; black Ke8; white to move: the knight shields the black
king from the rook. -/
def discoverPos : chessposition :=
  prepareStack (mkPosition [(6, WKING), (4, WROOK), (28, WKNIGHT), (60, BKING)] 0 0)

/-- The knight move e4-c3, which uncovers the rook's check. -/
def discoverMove : Nat := chessmove3 28 18 WKNIGHT

/-- White Ke1, Nb1; black Ke8 and a pawn on c3; white to move. -/
def knightTakesPos : chessposition :=
  prepareStack (mkPosition [(4, WKING), (1, WKNIGHT), (60, BKING), (18, BPAWN)] 0 0)

/-- The capture Nb1xc3 with the en-passant-capture flag set in its code. -/
def knightTakesFlagged : Nat := chessmove6 1 18 BLANK BPAWN ISEPCAPTURE WKNIGHT

/-- The capture Nb1xc3 as the generator encodes it. -/
def knightTakes : Nat := chessmove4 1 18 BPAWN WKNIGHT

/-- The pawn move e2-e3 with a queen in the promotion field (for `pushPos`). -/
def pushPromo : Nat := chessmove5 12 20 WQUEEN BLANK WPAWN

/-- White Kg1 and a pawn on a2; black Ke8 and a pawn on d5 that has just made its
double push (ept = d6); white to move. -/
def farPawnPos : chessposition :=
  prepareStack (mkPosition [(6, WKING), (8, WPAWN), (60, BKING), (35, BPAWN)] 0 43)

/-- The 16-bit code of a move from a2 to d6. -/
def farPawnShort : Nat := chessmove3 8 43 BLANK

/-- The full code that `shortMove2FullMove` builds for `farPawnShort`: a pawn
move a2-d6 flagged as en-passant capture of a black pawn. -/
def farPawnMove : Nat := chessmove6 8 43 BLANK BPAWN ISEPCAPTURE WPAWN

/-- The knight move b1-a3 to an empty square, with the en-passant-capture flag
set and a queen in the capture field (for `knightTakesPos`). -/
def knightBogus : Nat := chessmove6 1 16 BLANK BQUEEN ISEPCAPTURE WKNIGHT

/-! ## The engine object (engine.cpp) -/

/-- Modelled from the spec: the stop levels of the engine-wide run control, in the
order the comparisons of engine.cpp rely on: a search is active below
`ENGINESTOPPED`. -/
def ENGINERUN : Nat := 0

/-- Modelled from the spec: the search is asked to stop at the next opportunity. -/
def ENGINESTOPSOON : Nat := 1

/-- Modelled from the spec: the search is asked to stop at once. -/
def ENGINESTOPIMMEDIATELY : Nat := 2

/-- Modelled from the spec: no search is active. -/
def ENGINESTOPPED : Nat := 3

/-- Modelled from the spec: the score that marks an empty best-move slot. -/
def NOSCORE : Int := -32768

/-- Modelled from the spec: a move as the move lists hold it, the code and
the ordering value. -/
structure chessmove where
  code : Nat
  value : Int
deriving DecidableEq

/-- Modelled from the spec: `chessmovelist`, an array of moves and the number of
slots in use. -/
structure chessmovelist where
  length : Nat
  move : Nat → chessmove

/-- Modelled from the spec: the whole `chessposition` object of a worker: the
fields move execution works on (`board`), the root-move bookkeeping of move.cpp
and the search bookkeeping engine.cpp resets.  `pwnhsh` is the address of the
pawn hash table the position uses. -/
structure searchposition where
  board : chessposition
  rootmovelist : chessmovelist
  defaultmove : chessmove
  excludemovestack : Nat → Nat
  history : Nat → Nat → Nat → Int
  useTb : Int
  tbPosition : Int
  useRootmoveScore : Int
  pwnhsh : Nat
  threadindex : Int
  nodes : Nat
  nullmoveply : Int
  nullmoveside : Int
  bestmove : chessmove
  bestmovescore : Nat → Int
  lastbestmovescore : Int

/-- Modelled from the spec: `searchthread`, a worker: its position, the address of
the pawn hash table it owns (0 is NULL), its index, the address of the worker
array and the number of workers. -/
structure searchthread where
  pos : searchposition
  pwnhsh : Nat
  index : Int
  searchthreads : Nat
  numofthreads : Int

/-- Modelled from the spec: the transposition table as engine.cpp sees it: the
size last passed to `setSize` and the number of `clean` calls. -/
structure transposition where
  size : Int
  cleans : Nat

/-- Modelled from the spec: the `engine` object.  `sthreadAddr` is the address of
the worker array (its identity), `sthreadLen` the number of workers it was
allocated with; `heapNext` is the next address `new` hands out, `pawnhashSize`
the size each pawn hash table was built with, `freed` the addresses given to
`delete`, and `tbInits` the arguments of the `init_tablebases` calls. -/
structure engine where
  ponder : Bool
  MultiPV : Int
  Threads : Int
  sizeOfTp : Int
  restSizeOfTp : Int
  sizeOfPh : Int
  moveOverhead : Int
  SyzygyPath : String
  Syzygy50MoveRule : Bool
  tp : transposition
  sthreadAddr : Nat
  sthreadLen : Nat
  sthread : Nat → searchthread
  heapNext : Nat
  pawnhashSize : Nat → Int
  freed : List Nat
  tbInits : List String
  stopLevel : Nat
  debug : Bool
  tbhits : Nat
  wtime : Int
  btime : Int
  winc : Int
  binc : Int
  movestogo : Int
  mate : Int
  maxdepth : Int
  maxnodes : Int
  infinite : Bool
  pondersearch : Nat
  isWhite : Bool

/-- Modelled from the spec: the operations of other translation units that
engine.cpp calls, and the limits of the header: `stoi` fails on text that is no
number, `setSize` is the rest size `tp.setSize` returns, `blank` is the content
of a worker before its constructor runs, and `joinLevel` is the stop level the
search leaves behind when its coordinator thread ends. -/
structure outside where
  stoi : String → Option Int
  setSize : Int → Int
  MAXTHREADS : Int
  MAXMULTIPV : Int
  blank : searchthread
  joinLevel : Nat → Nat

/-- Operator `delete` on a pawn hash table: nothing for NULL. -/
def deletePtr (e : engine) (p : Nat) : engine :=
  if p = 0 then e else { e with freed := p :: e.freed }

/-- Lines 63-64 of engine.cpp, `engine::allocPawnhash` for worker `i`: the old
table is deleted, a new one of `sizeOfPh` is built, and the worker and its
position both point to it. -/
def allocPawnhashAt (e : engine) (i : Nat) : engine :=
  let e1 := deletePtr e (e.sthread i).pwnhsh
  let a := e1.heapNext
  { e1 with
    heapNext := a + 1
    pawnhashSize := setAt e1.pawnhashSize a e1.sizeOfPh
    sthread := setAt e1.sthread i
      { e1.sthread i with pwnhsh := a, pos := { (e1.sthread i).pos with pwnhsh := a } } }

/-- Lines 59-66 of engine.cpp, `engine::allocPawnhash`. -/
def allocPawnhash (e : engine) : engine :=
  (List.range e.Threads.toNat).foldl allocPawnhashAt e

/-- Lines 69-80 of engine.cpp, `engine::allocThreads`: the old array is deleted
(each worker's destructor deletes its pawn hash table), a new array of `Threads`
workers is built, each constructed with `pwnhsh = NULL`, and the pawn hash
tables are allocated. -/
def allocThreads (o : outside) (e : engine) : engine :=
  let e1 := (List.range e.sthreadLen).foldl (fun x i => deletePtr x (e.sthread i).pwnhsh) e
  let e2 := deletePtr e1 e.sthreadAddr
  let a := e2.heapNext
  let n := e.Threads.toNat
  allocPawnhash
    { e2 with
      heapNext := a + 1
      sthreadAddr := a
      sthreadLen := n
      sthread := fun i =>
        if i < n then
          { o.blank with pwnhsh := 0, index := i, searchthreads := a, numofthreads := e.Threads }
        else { o.blank with pwnhsh := 0 } }

/-- Lines 85-89 and 96-100 of engine.cpp: the reset of the variables that matter
for the selection of the best move. -/
def resetBest (p : searchposition) : searchposition :=
  { p with
    bestmovescore := setAt p.bestmovescore 0 NOSCORE
    bestmove := { p.bestmove with code := 0 }
    nodes := 0
    nullmoveply := 0
    nullmoveside := 0 }

/-- Lines 92-100 of engine.cpp, the body of the loop of `prepareThreads` for
worker `i`. -/
def prepareThreadAt (e : engine) (i : Nat) : engine :=
  { e with
    sthread := setAt e.sthread i
      { e.sthread i with
        pos := resetBest
          { (e.sthread 0).pos with pwnhsh := (e.sthread i).pwnhsh, threadindex := i } } }

/-- Lines 85-89 of engine.cpp: the reset of worker 0. -/
def prepareFirst (e : engine) : engine :=
  { e with sthread := setAt e.sthread 0 { e.sthread 0 with pos := resetBest (e.sthread 0).pos } }

/-- Lines 83-102 of engine.cpp, `engine::prepareThreads`. -/
def prepareThreads (e : engine) : engine :=
  (List.range' 1 (e.Threads.toNat - 1)).foldl prepareThreadAt (prepareFirst e)

/-- The `transform(..., ::tolower)` of engine.cpp. -/
def tolower (s : String) : String := ⟨s.data.map Char.toLower⟩

/-- Lines 156-169 of engine.cpp: a changed table size is passed to `tp.setSize`;
a changed rest size or worker count rebuilds the workers and their pawn hash
tables.  The division is the truncating one of C. -/
def setOptionResize (o : outside) (e : engine) (resetTp resetTh : Bool) : engine :=
  let r : engine × Bool :=
    if resetTp = true ∧ e.sizeOfTp ≠ 0 then
      let newRestSizeTp := o.setSize e.sizeOfTp
      let e0 := { e with tp := { e.tp with size := e.sizeOfTp } }
      if e0.restSizeOfTp ≠ newRestSizeTp then
        ({ e0 with restSizeOfTp := newRestSizeTp }, true)
      else (e0, resetTh)
    else (e, resetTh)
  if r.2 = true then
    allocThreads o
      { r.1 with sizeOfPh := min 128 (max 16 (Int.tdiv r.1.restSizeOfTp r.1.Threads)) }
  else r.1

/-- Lines 170-185 of engine.cpp: the options handled after the resize. -/
def setOptionTail (o : outside) (e : engine) (sName sValue lValue : String) : Option engine :=
  if sName = "move overhead" then
    match o.stoi sValue with
    | none => none
    | some newint =>
      if newint < 0 ∨ newint > 5000 then some e
      else some { e with moveOverhead := newint }
  else
    let e1 :=
      if sName = "syzygypath" then
        { e with SyzygyPath := sValue, tbInits := sValue :: e.tbInits }
      else e
    some (if sName = "syzygy50moverule" then
        { e1 with Syzygy50MoveRule := decide (lValue = "true") }
      else e1)

/-- Lines 144-186 of engine.cpp: the option `hash` and everything after it. -/
def setOptionHash (o : outside) (e : engine) (sName sValue lValue : String) (resetTh : Bool) :
    Option engine :=
  if sName = "hash" then
    match o.stoi sValue with
    | none => none
    | some newint =>
      if newint < 1 then some e
      else if e.sizeOfTp ≠ newint then
        setOptionTail o (setOptionResize o { e with sizeOfTp := newint } true resetTh)
          sName sValue lValue
      else setOptionTail o (setOptionResize o e false resetTh) sName sValue lValue
  else setOptionTail o (setOptionResize o e false resetTh) sName sValue lValue

/-- Lines 135-186 of engine.cpp: the option `threads` and everything after it. -/
def setOptionThreads (o : outside) (e : engine) (sName sValue lValue : String) : Option engine :=
  if sName = "threads" then
    match o.stoi sValue with
    | none => none
    | some newint =>
      if newint ≥ 1 ∧ newint ≤ o.MAXTHREADS ∧ newint ≠ e.Threads then
        setOptionHash o { e with Threads := newint } sName sValue lValue true
      else setOptionHash o e sName sValue lValue false
  else setOptionHash o e sName sValue lValue false

/-- Lines 115-186 of engine.cpp, `engine::setOption`; `none` is an exception
thrown by `stoi`. -/
def setOption (o : outside) (e : engine) (sName sValue : String) : Option engine :=
  let name := tolower sName
  let lValue := tolower sValue
  let e1 := if name = "clear hash" then { e with tp := { e.tp with cleans := e.tp.cleans + 1 } } else e
  let e2 := if name = "ponder" then { e1 with ponder := decide (lValue = "true") } else e1
  if name = "multipv" then
    match o.stoi sValue with
    | none => none
    | some newint =>
      if newint ≥ 1 ∧ newint ≤ o.MAXMULTIPV then
        setOptionThreads o { e2 with MultiPV := newint } name sValue lValue
      else setOptionThreads o e2 name sValue lValue
  else setOptionThreads o e2 name sValue lValue

/-- A worker position with empty bookkeeping on the board of `pushPos`. -/
def blankPos : searchposition :=
  { board := pushPos, rootmovelist := { length := 0, move := fun _ => ⟨0, 0⟩ },
    defaultmove := ⟨0, 0⟩, excludemovestack := fun _ => 0, history := fun _ _ _ => 0,
    useTb := 0, tbPosition := 0, useRootmoveScore := 0, pwnhsh := 0, threadindex := 0,
    nodes := 0, nullmoveply := 0, nullmoveside := 0, bestmove := ⟨0, 0⟩,
    bestmovescore := fun _ => 0, lastbestmovescore := 0 }

/-- A worker before its constructor has run. -/
def blankThread : searchthread :=
  { pos := blankPos, pwnhsh := 0, index := 0, searchthreads := 0, numofthreads := 0 }

/-- A number reader that knows the texts 0, 2, 64 and 9000. -/
def stoiEx (s : String) : Option Int :=
  if s = "0" then some 0 else if s = "2" then some 2 else if s = "64" then some 64
  else if s = "9000" then some 9000 else none

/-- Sample surroundings: at most 128 workers and 64 lines, a transposition table
that leaves a quarter of the requested size, and a search that ends stopped. -/
def outsideEx : outside :=
  { stoi := stoiEx, setSize := fun n => Int.tdiv n 4, MAXTHREADS := 128, MAXMULTIPV := 64,
    blank := blankThread, joinLevel := fun _ => ENGINESTOPPED }

/-- A stopped engine with one worker, whose array is at address 1 and whose pawn
hash table is at address 2. -/
def engineEx : engine :=
  { ponder := false, MultiPV := 1, Threads := 1, sizeOfTp := 256, restSizeOfTp := 64,
    sizeOfPh := 64, moveOverhead := 50, SyzygyPath := "<empty>", Syzygy50MoveRule := true,
    tp := { size := 256, cleans := 0 }, sthreadAddr := 1, sthreadLen := 1,
    sthread := fun _ => { blankThread with pwnhsh := 2, pos := { blankPos with pwnhsh := 2 } },
    heapNext := 3, pawnhashSize := fun _ => 64, freed := [], tbInits := [],
    stopLevel := ENGINESTOPPED, debug := false, tbhits := 0, wtime := 0, btime := 0, winc := 0,
    binc := 0, movestogo := 0, mate := 0, maxdepth := 0, maxnodes := 0, infinite := false,
    pondersearch := 0, isWhite := true }


/-! ## Root moves (move.cpp) and the command loop (engine.cpp) -/

/-- Modelled from the spec: what the root-move functions and the position block
of the command loop take from other translation units: the Zobrist keys, the
pseudo-legal move generator, the ordering tables `mvv` and `lva`, the score
`SCOREBLACKWINS`, the tablebase limit `TBlargest` and the two probes (each
returns its result and the position it leaves), the FEN reader, the resolution
of a move text to a move code that `applyMove` performs, the test of `go
searchmoves` for a move text, and the reader `stoull`. -/
structure generator where
  zb : zobrist
  getMoves : chessposition → List Nat
  mvv : Nat → Nat
  lva : Nat → Nat
  SCOREBLACKWINS : Int
  TBlargest : Int
  root_probe : searchposition → Int × searchposition
  root_probe_wdl : searchposition → Int × searchposition
  getFromFen : searchposition → String → searchposition
  resolveMove : chessposition → String → Option Nat
  isMoveText : String → Bool
  stoull : String → Option Int

/-- Lines 149-169 of move.cpp, the body of `evaluateMoves<ALL>` with no
counter-move tables (`cmptr` is NULL) for the move code `mc`. -/
def evaluateMove (g : generator) (p : searchposition) (mc : Nat) : chessmove :=
  let piece := GETPIECE mc
  let v0 : Int :=
    if GETCAPTURE mc ≠ 0 then ((g.mvv (GETCAPTURE mc >>> 1) ||| g.lva (piece >>> 1) : Nat) : Int)
    else p.history (piece &&& S2MMASK) (GETFROM mc) (GETTO mc)
  let v : Int :=
    if GETPROMOTION mc ≠ 0 then v0 + ((g.mvv (GETPROMOTION mc >>> 1) : Int) - (g.mvv PAWN : Int))
    else v0
  { code := mc, value := v }

/-- Lines 187-196 of move.cpp, the body of the loop of `getRootMoves` for the
move `m`; the state is the position and `bestval`. -/
def getRootMovesStep (zb : zobrist) (s : searchposition × Int) (m : chessmove) :
    searchposition × Int :=
  let r := playMove zb s.1.board m.code
  if r.1 = true then
    let p1 : searchposition :=
      { s.1 with
        board := unplayMove r.2 m.code
        rootmovelist :=
          { length := s.1.rootmovelist.length + 1
            move := setAt s.1.rootmovelist.move s.1.rootmovelist.length m } }
    if s.2 < m.value then ({ p1 with defaultmove := m }, m.value) else (p1, s.2)
  else ({ s.1 with board := r.2 }, s.2)

/-- Lines 174-198 of move.cpp, `chessposition::getRootMoves`. -/
def getRootMoves (g : generator) (p : searchposition) : searchposition :=
  let b := prepareStack p.board
  let movelist := (g.getMoves b).map (evaluateMove g p)
  (movelist.foldl (getRootMovesStep g.zb)
    ({ p with
        board := b
        rootmovelist := { p.rootmovelist with length := 0 }
        excludemovestack := setAt p.excludemovestack 0 0 }, g.SCOREBLACKWINS)).1

/-- The `swap` of two slots of a move array. -/
def swapAt (f : Nat → chessmove) (i j : Nat) : Nat → chessmove :=
  setAt (setAt f i (f j)) j (f i)

/-- Lines 230-233 of move.cpp; modelled from the spec: `operator<` on moves
compares the ordering values. -/
def sortInner (i : Nat) (f : Nat → chessmove) (j : Nat) : Nat → chessmove :=
  if (f i).value < (f j).value then swapAt f i j else f

/-- Lines 226-235 of move.cpp: the sort of the root moves. -/
def sortRoot (l : chessmovelist) : chessmovelist :=
  { l with
    move := (List.range l.length).foldl
      (fun f i => (List.range' (i + 1) (l.length - (i + 1))).foldl (sortInner i) f) l.move }

/-- The outcome of `tbFilterRootMoves`: the position, the number of calls of
`root_probe` and of `root_probe_wdl`, and the increase of `en.tbhits`. -/
structure tbrun where
  pos : searchposition
  dtzCalls : Nat
  wdlCalls : Nat
  tbhits : Nat

/-- Lines 223-237 of move.cpp: the moves are sorted when the position is in the
tablebases. -/
def tbSort (p : searchposition) : searchposition :=
  if p.tbPosition ≠ 0 then
    { p with
      rootmovelist := sortRoot p.rootmovelist
      defaultmove := (sortRoot p.rootmovelist).move 0 }
  else p

/-- Lines 201-239 of move.cpp, `chessposition::tbFilterRootMoves`. -/
def tbFilterRootMoves (g : generator) (p : searchposition) : tbrun :=
  let p0 : searchposition := { p with useTb := g.TBlargest, tbPosition := 0, useRootmoveScore := 0 }
  if (POPCOUNT (p0.board.occupied00 0 ||| p0.board.occupied00 1) : Int) ≤ g.TBlargest then
    let r := g.root_probe p0
    if r.1 ≠ 0 then
      { pos := tbSort { r.2 with tbPosition := r.1, useTb := 0 },
        dtzCalls := 1, wdlCalls := 0, tbhits := 1 }
    else
      let w := g.root_probe_wdl { r.2 with tbPosition := r.1 }
      { pos := tbSort { w.2 with tbPosition := w.1 }, dtzCalls := 1, wdlCalls := 1, tbhits := 0 }
  else { pos := p0, dtzCalls := 0, wdlCalls := 0, tbhits := 0 }

/-- Modelled from the spec: `chessposition::applyMove`, the move named by the
text is played through `playMove`; a text that names no move is refused and
leaves the position as it is. -/
def applyMove (g : generator) (pos : chessposition) (s : String) : Bool × chessposition :=
  match g.resolveMove pos s with
  | none => (false, pos)
  | some c => playMove g.zb pos c

/-- The state of the replay loop of lines 231-247 of engine.cpp: the root
position, the recorded hashes `hashlist[0 .. hashlistlength)`, and the number
of alarms printed. -/
structure replay where
  pos : chessposition
  hashlist : List Nat
  alarms : Nat

/-- Lines 236-246 of engine.cpp, the body of the replay loop for the move text
`s`. -/
def replayStep (g : generator) (r : replay) (s : String) : replay :=
  let a := applyMove g r.pos s
  let alarms := if a.1 = true then r.alarms else r.alarms + 1
  if a.2.halfmovescounter = 0 then
    { pos := { a.2 with rp := r.hashlist.foldl removePosition a.2.rp },
      hashlist := [a.2.hash], alarms := alarms }
  else { pos := a.2, hashlist := r.hashlist ++ [a.2.hash], alarms := alarms }

/-- Lines 232-247 of engine.cpp: the replay of the move list of a position
command from the position `pos`. -/
def replayMoves (g : generator) (pos : chessposition) (moves : List String) : replay :=
  moves.foldl (replayStep g) { pos := pos, hashlist := [pos.hash], alarms := 0 }

/-- Modelled from the spec: the commands `parse` tells apart. -/
inductive GuiToken where
  | UNKNOWN | UCIDEBUG | UCI | UCINEWGAME | SETOPTION | ISREADY | POSITION | GO | PONDERHIT
  | STOP | QUIT | EVAL
deriving DecidableEq

/-- Modelled from the spec: one return of the blocking `parse`: the command, its
arguments, and the stop level the search threads wrote while the loop was
blocked, if they wrote one. -/
structure guiinput where
  command : GuiToken
  args : List String
  level : Option Nat

/-- Modelled from the spec: the initial position in FEN. -/
def STARTFEN : String := "rnbqkbnr/pppppppp/8/8/8/8/PPPPPPPP/RNBQKBNR w KQkq - 0 1"

/-- Modelled from the spec: the ponder states `NO`, `PONDERING` and `HITPONDER`. -/
def NO : Nat := 0

/-- Modelled from the spec: the search runs in ponder mode. -/
def PONDERING : Nat := 1

/-- Modelled from the spec: the pondered move was played. -/
def HITPONDER : Nat := 2

/-- The engine and the locals of `communicate`, with what the loop does outside
both: `searchguidethread` is the thread handle (0 is nullptr), `sent` the texts
passed to `send` (latest first), `started` the number of coordinator threads
created so far (they are numbered from 1), `running` the threads created and not
yet joined, `installs` the handle and the running threads at each call of
`getFromFen` (latest first), `optionCalls` the arguments of each call of
`setOption` (latest first), and `alarms` the number of alarms printed. -/
structure commstate where
  en : engine
  fen : String
  moves : List String
  searchmoves : List String
  command : GuiToken
  searchguidethread : Nat
  pendingisready : Bool
  pendingposition : Bool
  sent : List String
  started : Nat
  running : List Nat
  installs : List (Nat × List Nat)
  optionCalls : List (String × String)
  alarms : Nat

/-- Lines 188-197 of engine.cpp, `waitForSearchGuide`: a thread behind the handle
is joined (a thread created by `new thread` is joinable until then) and deleted,
and the handle is nulled. -/
def waitForSearchGuide (o : outside) (st : commstate) : commstate :=
  if st.searchguidethread ≠ 0 then
    { st with
      en := { st.en with stopLevel := o.joinLevel st.en.stopLevel }
      running := st.running.filter (fun t => t ≠ st.searchguidethread)
      searchguidethread := 0 }
  else { st with searchguidethread := 0 }

/-- Lines 221-258 of engine.cpp: the pending position is installed. -/
def installPosition (o : outside) (g : generator) (st : commstate) : commstate :=
  let st1 :=
    if st.en.stopLevel < ENGINESTOPIMMEDIATELY then
      waitForSearchGuide o { st with en := { st.en with stopLevel := ENGINESTOPIMMEDIATELY } }
    else st
  let root0 := g.getFromFen (st1.en.sthread 0).pos st1.fen
  let rep := replayMoves g root0.board st1.moves
  let tb := tbFilterRootMoves g (getRootMoves g { root0 with board := setRoot rep.pos })
  { st1 with
    installs := (st1.searchguidethread, st1.running) :: st1.installs
    alarms := st1.alarms + rep.alarms
    en := prepareThreads
      { st1.en with
        sthread := setAt st1.en.sthread 0 { st1.en.sthread 0 with pos := tb.pos }
        tbhits := st1.en.tbhits + tb.tbhits }
    pendingposition := false }

/-- A call of `setOption` from the command loop; the state is the engine and the
arguments of the calls so far. -/
def callSetOption (o : outside) (s : engine × List (String × String)) (sName sValue : String) :
    Option (engine × List (String × String)) :=
  match setOption o s.1 sName sValue with
  | none => none
  | some e => some (e, (sName, sValue) :: s.2)

/-- Lines 341-373 of engine.cpp: the arguments of `setoption` are read, and
`setOption` is called at each `name` and at the end. -/
def setOptionArgs (o : outside) :
    List String → engine × List (String × String) → String → String → Bool → Bool →
      Option (engine × List (String × String))
  | [], s, sName, sValue, _, _ => callSetOption o s sName sValue
  | a :: rest, s, sName, sValue, bGetName, bGetValue =>
    if tolower a = "name" then
      match callSetOption o s sName sValue with
      | none => none
      | some s1 => setOptionArgs o rest s1 "" sValue true false
    else if tolower a = "value" then setOptionArgs o rest s sName "" false true
    else if bGetName = true then
      setOptionArgs o rest s (if sName ≠ "" then sName ++ " " ++ a else sName ++ a) sValue
        bGetName bGetValue
    else if bGetValue = true then
      setOptionArgs o rest s sName (if sValue ≠ "" then sValue ++ " " ++ a else sValue ++ a)
        bGetName bGetValue
    else setOptionArgs o rest s sName sValue bGetName bGetValue

/-- Lines 333-374 of engine.cpp, the case `SETOPTION`. -/
def caseSETOPTION (o : outside) (st : commstate) (args : List String) : Option commstate :=
  if st.en.stopLevel < ENGINESTOPPED then
    some { st with
      sent := "info string Changing option while searching is not supported.\n" :: st.sent }
  else
    match setOptionArgs o args (st.en, st.optionCalls) "" "" false false with
    | none => none
    | some s => some { st with en := s.1, optionCalls := s.2 }

/-- Lines 392-393 of engine.cpp: the words of the FEN up to `moves`. -/
def fenArgs : List String → String → String × List String
  | [], fen => (fen, [])
  | a :: rest, fen => if a = "moves" then (fen, a :: rest) else fenArgs rest (fen ++ a ++ " ")

/-- Lines 395-406 of engine.cpp: the words after `moves`. -/
def movesArgs : List String → Bool → List String → List String
  | [], _, moves => moves
  | a :: rest, bMoves, moves =>
    if a = "moves" then movesArgs rest true moves
    else if bMoves = true then movesArgs rest bMoves (moves ++ [a])
    else movesArgs rest bMoves moves

/-- Lines 378-409 of engine.cpp, the case `POSITION`. -/
def casePOSITION (st : commstate) (args : List String) : commstate :=
  match args with
  | [] => st
  | a :: rest =>
    let r : String × List String :=
      if a = "startpos" then (STARTFEN, rest)
      else if a = "fen" then fenArgs rest ""
      else ("", a :: rest)
    { st with fen := r.1, moves := movesArgs r.2 false [], pendingposition := decide (r.1 ≠ "") }

/-- Lines 416-483 of engine.cpp: the arguments of `go`; `sm` says that the words
are still read as `searchmoves`; the state is the engine and `searchmoves`. -/
def goArgs (o : outside) (g : generator) :
    Bool → List String → engine × List String → Option (engine × List String)
  | _, [], st => some st
  | sm, a :: rest, st =>
    if sm = true ∧ g.isMoveText a = true then
      goArgs o g true rest (st.1, st.2 ++ [a])
    else if a = "searchmoves" then goArgs o g true rest st
    else if a = "wtime" then
      match rest with
      | [] => some st
      | v :: rest2 =>
        match o.stoi v with
        | none => none
        | some n => goArgs o g false rest2 ({ st.1 with wtime := n }, st.2)
    else if a = "btime" then
      match rest with
      | [] => some st
      | v :: rest2 =>
        match o.stoi v with
        | none => none
        | some n => goArgs o g false rest2 ({ st.1 with btime := n }, st.2)
    else if a = "winc" then
      match rest with
      | [] => some st
      | v :: rest2 =>
        match o.stoi v with
        | none => none
        | some n => goArgs o g false rest2 ({ st.1 with winc := n }, st.2)
    else if a = "binc" then
      match rest with
      | [] => some st
      | v :: rest2 =>
        match o.stoi v with
        | none => none
        | some n => goArgs o g false rest2 ({ st.1 with binc := n }, st.2)
    else if a = "movetime" then
      match rest with
      | [] => some ({ st.1 with movestogo := 1, winc := 0, binc := 0 }, st.2)
      | v :: rest2 =>
        match o.stoi v with
        | none => none
        | some n =>
          goArgs o g false rest2
            ({ st.1 with movestogo := 1, winc := 0, binc := 0, wtime := n, btime := n }, st.2)
    else if a = "movestogo" then
      match rest with
      | [] => some st
      | v :: rest2 =>
        match o.stoi v with
        | none => none
        | some n => goArgs o g false rest2 ({ st.1 with movestogo := n }, st.2)
    else if a = "nodes" then
      match rest with
      | [] => some st
      | v :: rest2 =>
        match g.stoull v with
        | none => none
        | some n => goArgs o g false rest2 ({ st.1 with maxnodes := n }, st.2)
    else if a = "mate" then
      match rest with
      | [] => some st
      | v :: rest2 =>
        match o.stoi v with
        | none => none
        | some n => goArgs o g false rest2 ({ st.1 with mate := n }, st.2)
    else if a = "depth" then
      match rest with
      | [] => some st
      | v :: rest2 =>
        match o.stoi v with
        | none => none
        | some n => goArgs o g false rest2 ({ st.1 with maxdepth := n }, st.2)
    else if a = "infinite" then goArgs o g false rest ({ st.1 with infinite := true }, st.2)
    else if a = "ponder" then
      goArgs o g false rest ({ st.1 with pondersearch := PONDERING }, st.2)
    else goArgs o g false rest st

/-- Lines 484-491 of engine.cpp: the side to move is recorded, the stop level is
set to `ENGINERUN`, a coordinator thread is created and its handle stored; in
bench mode (a non-empty `inputstring`) the loop waits for it. -/
def startSearch (o : outside) (inputstring : String) (st : commstate) : commstate :=
  let st1 : commstate :=
    { st with
      en := { st.en with
        isWhite := decide ((st.en.sthread 0).pos.board.state &&& S2MMASK = 0)
        stopLevel := ENGINERUN }
      searchguidethread := st.started + 1
      started := st.started + 1
      running := (st.started + 1) :: st.running }
  if inputstring ≠ "" then waitForSearchGuide o st1 else st1

/-- Lines 410-492 of engine.cpp, the case `GO`; modelled from the spec:
`resetPonder` sets the ponder state to `NO`. -/
def caseGO (o : outside) (g : generator) (inputstring : String) (st : commstate)
    (args : List String) : Option commstate :=
  match goArgs o g false args
      ({ st.en with
          pondersearch := NO, wtime := 0, btime := 0, winc := 0, binc := 0, movestogo := 0,
          mate := 0, maxdepth := 0, maxnodes := 0, infinite := false }, []) with
  | none => none
  | some s => some (startSearch o inputstring { st with en := s.1, searchmoves := s.2 })

/-- Lines 270-505 of engine.cpp, the `switch` on the command; `EVAL` only prints,
and modelled from the spec `HitPonder` sets the ponder state to `HITPONDER`. -/
def dispatch (o : outside) (g : generator) (inputstring : String) (st : commstate)
    (command : GuiToken) (args : List String) : Option commstate :=
  match command with
  | GuiToken.UCIDEBUG =>
    match args with
    | [] => some st
    | a :: _ =>
      if a = "on" then some { st with en := { st.en with debug := true } }
      else if a = "off" then some { st with en := { st.en with debug := false } }
      else some st
  | GuiToken.UCI =>
    some { st with
      sent := ["uciok\n", "option name Threads type spin default 1 min 1 max 128\n",
        "option name Syzygy50MoveRule type check default true\n",
        "option name SyzygyPath type string default <empty>\n",
        "option name Ponder type check default false\n",
        "option name MultiPV type spin default 1 min 1 max %d\n",
        "option name Move Overhead type spin default 50 min 0 max 5000\n",
        "option name Hash type spin default 256 min 1 max 1048576\n",
        "option name Clear Hash type button\n", "id author %s\n", "id name %s\n"] ++ st.sent }
  | GuiToken.UCINEWGAME =>
    some { st with
      en := { st.en with
        tp := { st.en.tp with cleans := st.en.tp.cleans + 1 }
        sthread := setAt st.en.sthread 0
          { st.en.sthread 0 with pos := { (st.en.sthread 0).pos with lastbestmovescore := NOSCORE } } } }
  | GuiToken.SETOPTION => caseSETOPTION o st args
  | GuiToken.ISREADY => some { st with pendingisready := true }
  | GuiToken.POSITION => some (casePOSITION st args)
  | GuiToken.GO => caseGO o g inputstring st args
  | GuiToken.PONDERHIT => some { st with en := { st.en with pondersearch := HITPONDER } }
  | GuiToken.STOP => some { st with en := { st.en with stopLevel := ENGINESTOPIMMEDIATELY } }
  | GuiToken.QUIT => some { st with en := { st.en with stopLevel := ENGINESTOPIMMEDIATELY } }
  | GuiToken.EVAL => some st
  | GuiToken.UNKNOWN => some st

/-- Line 267 of engine.cpp: `parse` returns the next command; the stop level is
the one the search threads left while the loop was blocked. -/
def parse (st : commstate) (inp : guiinput) : commstate :=
  match inp.level with
  | none => { st with command := inp.command }
  | some l => { st with command := inp.command, en := { st.en with stopLevel := l } }

/-- Lines 219-264 of engine.cpp: the pending position is installed and the
pending `isready` is answered. -/
def pendingBlock (o : outside) (g : generator) (st : commstate) : commstate :=
  let st1 := if st.pendingposition = true then installPosition o g st else st
  if st1.pendingisready = true then
    { st1 with sent := "readyok\n" :: st1.sent, pendingisready := false }
  else st1

/-- Line 507 of engine.cpp: the condition of the command loop. -/
def loopGoesOn (inputstring : String) (st : commstate) : Bool :=
  decide (st.command ≠ GuiToken.QUIT ∧ (inputstring = "" ∨ st.pendingposition = true))

/-- Lines 213-508 of engine.cpp: the command loop, one unit of `fuel` for each
iteration, and the wait at its end.  The run stops where `parse` would block on
an exhausted input; `none` is an exception thrown by a number reader. -/
def communicateLoop (o : outside) (g : generator) (inputstring : String) :
    Nat → commstate → List guiinput → Option commstate
  | 0, st, _ => some st
  | fuel + 1, st, inputs =>
    let st1 := if st.en.stopLevel ≥ ENGINESTOPIMMEDIATELY then waitForSearchGuide o st else st
    if st1.pendingisready = true ∨ st1.pendingposition = true then
      let st2 := pendingBlock o g st1
      if loopGoesOn inputstring st2 = true then communicateLoop o g inputstring fuel st2 inputs
      else some (waitForSearchGuide o st2)
    else
      match inputs with
      | [] => some st1
      | inp :: rest =>
        match dispatch o g inputstring (parse st1 inp) inp.command inp.args with
        | none => none
        | some st2 =>
          if loopGoesOn inputstring st2 = true then communicateLoop o g inputstring fuel st2 rest
          else some (waitForSearchGuide o st2)

/-- Lines 199-212 of engine.cpp: the locals of `communicate` at its start, with
empty records of what the loop does. -/
def commStart (e : engine) (inputstring : String) : commstate :=
  { en := e, fen := STARTFEN, moves := [], searchmoves := [], command := GuiToken.UNKNOWN,
    searchguidethread := 0, pendingisready := false,
    pendingposition := decide (inputstring = ""), sent := [], started := 0, running := [],
    installs := [], optionCalls := [], alarms := 0 }

/-- Lines 199-509 of engine.cpp, `engine::communicate` on the inputs `parse`
returns. -/
def communicate (o : outside) (g : generator) (e : engine) (inputstring : String) (fuel : Nat)
    (inputs : List guiinput) : Option commstate :=
  communicateLoop o g inputstring fuel (commStart e inputstring) inputs

/-- Sample surroundings of the root-move functions: a generator that finds no
move, probes that find nothing, and a FEN reader that keeps the position. -/
def generatorEx : generator :=
  { zb := zbEx, getMoves := fun _ => [], mvv := fun _ => 0, lva := fun _ => 0,
    SCOREBLACKWINS := -30000, TBlargest := 0, root_probe := fun p => (0, p),
    root_probe_wdl := fun p => (0, p), getFromFen := fun p _ => p,
    resolveMove := fun _ _ => none, isMoveText := fun _ => false, stoull := stoiEx }

/-- The state of the command loop with the sample engine searching: the stop
level is `ENGINERUN` and the coordinator thread 1 is behind the handle. -/
def searchingEx : commstate :=
  { commStart { engineEx with stopLevel := ENGINERUN } "" with
    pendingposition := false, searchguidethread := 1, started := 1, running := [1] }

/-- The command `go` without arguments. -/
def goInput : guiinput := { command := GuiToken.GO, args := [], level := none }

/-- The command `position startpos`. -/
def positionInput : guiinput :=
  { command := GuiToken.POSITION, args := ["startpos"], level := none }

/-- What the loop did to the coordinator threads: the stop level, the handle, the
number of threads created, the threads not yet joined, and the record of the
calls of `getFromFen`. -/
def threadView (st : commstate) : Nat × Nat × Nat × List Nat × List (Nat × List Nat) :=
  (st.en.stopLevel, st.searchguidethread, st.started, st.running, st.installs)


/-- The whole en-passant field of a move code, bits 20 to 27: the target square
and the en-passant-capture flag. -/
def eptField (m : Nat) : Nat := (m >>> 20) &&& 0xFF

/-- The encoding conventions of a full move code in a position, in the words of
the specification: the en-passant field is the en-passant-capture flag, with the
opposing pawn as capture, exactly when a pawn changes file to an empty square;
it is `(from + to) / 2` exactly when a pawn double push lands beside an enemy
pawn, and 0 otherwise; the capture field is `mailbox[to]` for every other move. -/
def followsConventions (pos : chessposition) (m : Nat) : Prop :=
  if GETPIECE m >>> 1 = PAWN ∧ FILE (GETFROM m) ≠ FILE (GETTO m)
      ∧ pos.mailbox (GETTO m) = BLANK then
    eptField m = ISEPCAPTURE ∧ GETCAPTURE m = GETPIECE m ^^^ S2MMASK
  else
    GETCAPTURE m = pos.mailbox (GETTO m) ∧
    eptField m =
      if GETPIECE m >>> 1 = PAWN ∧ (GETFROM m ^^^ GETTO m) = 16
          ∧ epthelper (GETTO m) &&& pos.piece00 (GETPIECE m ^^^ 1) ≠ 0 then
        (GETFROM m + GETTO m) / 2
      else 0

instance (pos : chessposition) (m : Nat) : Decidable (followsConventions pos m) := by
  unfold followsConventions
  infer_instance


/-! ## The bound on the material gain of the next move -/

/-- Modelled from the spec: macro `RANK7(s)`, the squares of the seventh rank as
seen from side `s`. -/
def RANK7 (s : Nat) : Nat := if s = 0 then 0x00ff000000000000 else 0x000000000000ff00

/-- Lines 739-746 of move.cpp: the value of the most valuable kind of piece the
side `you` has on the board, a knight standing for a bishop. -/
def bestVictim (materialvalue : Nat → Int) (pos : chessposition) (you : Nat) : Int :=
  if pos.piece00 (WQUEEN ||| you) ≠ 0 then materialvalue QUEEN
  else if pos.piece00 (WROOK ||| you) ≠ 0 then materialvalue ROOK
  else if pos.piece00 (WKNIGHT ||| you) ≠ 0 ∨ pos.piece00 (WBISHOP ||| you) ≠ 0 then
    materialvalue KNIGHT
  else if pos.piece00 (WPAWN ||| you) ≠ 0 then materialvalue PAWN
  else 0

/-- `chessposition::getBestPossibleCapture` (move.cpp 733-753); the table
`materialvalue` is a parameter. -/
def getBestPossibleCapture (materialvalue : Nat → Int) (pos : chessposition) : Int :=
  let me := pos.state &&& S2MMASK
  let you := me ^^^ S2MMASK
  let captureval := bestVictim materialvalue pos you
  if pos.piece00 (WPAWN ||| me) &&& RANK7 me ≠ 0 then
    captureval + (materialvalue QUEEN - materialvalue PAWN)
  else captureval

/-- A material table in which a bishop is worth a knight. -/
def mvFlat (p : Nat) : Int :=
  if p = 1 then 100 else if p = 2 then 314 else if p = 3 then 314 else if p = 4 then 483
  else if p = 5 then 913 else if p = 6 then 32509 else 0


/-! ## The length of the exchange -/

/-- Lines 695-727 of `see` as in `seeLoop`, with a count: the result is the side
at which the loop stops and the number of attackers that were taken off the
simulated occupancy. -/
def seeLoopCount (materialvalue : Nat → Int) (pos : chessposition) (to_ : Nat)
    (potentialRookAttackers potentialBishopAttackers : Nat) :
    Nat → Nat → Nat → Nat → Int → Option (Nat × Nat)
  | 0, _, _, _, _ => none
  | fuel + 1, seeOccupied, attacker, s2m, value =>
    let nextAttacker := attacker &&& pos.occupied00 s2m
    if nextAttacker = 0 then some (s2m, 0)
    else
      match leastAttacker pos nextAttacker s2m 6 PAWN with
      | none => none
      | some nextPiece =>
        let attackerIndex := GETLSB (nextAttacker &&& pos.piece00 ((nextPiece <<< 1) ||| s2m))
        let seeOccupied := seeOccupied ^^^ BITSET attackerIndex
        let attacker :=
          if nextPiece &&& 0x1 ≠ 0 ∨ nextPiece = KING then
            attacker ||| (MAGICBISHOPATTACKS seeOccupied to_ &&& potentialBishopAttackers)
          else attacker
        let attacker :=
          if nextPiece = ROOK ∨ nextPiece = QUEEN ∨ nextPiece = KING then
            attacker ||| (MAGICROOKATTACKS seeOccupied to_ &&& potentialRookAttackers)
          else attacker
        let attacker := attacker &&& seeOccupied
        let s2m := s2m ^^^ S2MMASK
        let value := -value - 1 - materialvalue nextPiece
        if value ≥ 0 then some (s2m, 1)
        else
          match seeLoopCount materialvalue pos to_ potentialRookAttackers
              potentialBishopAttackers fuel seeOccupied attacker s2m value with
          | none => none
          | some r => some (r.1, r.2 + 1)

/-- The occupancy of each colour is the union of the six piece bitboards of that
colour. -/
def occIsUnion (pos : chessposition) : Prop :=
  ∀ c, c < 2 →
    pos.occupied00 c = pos.piece00 (WPAWN ||| c) ||| pos.piece00 (WKNIGHT ||| c)
      ||| pos.piece00 (WBISHOP ||| c) ||| pos.piece00 (WROOK ||| c)
      ||| pos.piece00 (WQUEEN ||| c) ||| pos.piece00 (WKING ||| c)

instance (pos : chessposition) : Decidable (occIsUnion pos) := by
  unfold occIsUnion
  infer_instance


/-! ## The root moves -/

/-- The moves a move list holds, `move[0 .. length)`. -/
def listOf (l : chessmovelist) : List chessmove := (List.range l.length).map l.move

/-- The legal root moves in the words of the specification: the generated
pseudo-legal moves for which `playMove` returns true, in generation order, each
with its ordering value. -/
def legalRootMoves (g : generator) (p : searchposition) : List chessmove :=
  ((g.getMoves (prepareStack p.board)).filter
    (fun c => (playMove g.zb (prepareStack p.board) c).1)).map (evaluateMove g p)

/-- Sample surroundings whose generator finds the pawn moves e2-e3 and e2-e4. -/
def rootGen : generator :=
  { generatorEx with getMoves := fun _ => [chessmove3 12 20 WPAWN, chessmove3 12 28 WPAWN] }

/-- The position `castlePos` with a top history slot that does not hold its
snapshot: the slot is empty but for a state that has black to move. -/
def staleTopPos : chessposition :=
  { castlePos with movestack := fun _ => { emptySlot with state := S2MMASK } }

/-! # Verification -/

/-! ## Bit-field arithmetic -/

theorem field_decode (x k j : Nat) :
    (x &&& ((2 ^ j - 1) <<< k)) >>> k = x / 2 ^ k % 2 ^ j := by
  have h : (x &&& ((2 ^ j - 1) <<< k)) >>> k = (x >>> k) &&& (2 ^ j - 1) := by
    apply Nat.eq_of_testBit_eq
    intro i
    simp only [Nat.testBit_shiftRight, Nat.testBit_and, Nat.testBit_shiftLeft]
    simp
  rw [h, Nat.and_pow_two_sub_one_eq_mod, Nat.shiftRight_eq_div_pow]

theorem or_pack (a b k : Nat) (hb : b < 2 ^ k) : (a <<< k) ||| b = a * 2 ^ k + b := by
  rw [Nat.shiftLeft_eq, Nat.mul_comm, ← Nat.mul_add_lt_is_or hb]

theorem flag_decode (x : Nat) : x &&& 0x40 = (x / 64 % 2) * 64 := by
  have h := Nat.and_two_pow x 6
  simp only [Nat.reducePow] at h
  rw [h, Nat.testBit_to_div_mod]
  simp only [Nat.reducePow]
  rcases Nat.mod_two_eq_zero_or_one (x / 64) with h2 | h2 <;> simp [h2]

theorem GETFROM_eq (x : Nat) : GETFROM x = x / 64 % 64 := field_decode x 6 6
theorem GETTO_eq (x : Nat) : GETTO x = x % 64 := Nat.and_pow_two_sub_one_eq_mod x 6
theorem GETEPT_eq (x : Nat) : GETEPT x = x / 2 ^ 20 % 64 := field_decode x 20 6
theorem GETPROMOTION_eq (x : Nat) : GETPROMOTION x = x / 2 ^ 12 % 16 := field_decode x 12 4
theorem GETCAPTURE_eq (x : Nat) : GETCAPTURE x = x / 2 ^ 16 % 16 := field_decode x 16 4
theorem GETPIECE_eq (x : Nat) : GETPIECE x = x / 2 ^ 28 % 16 := field_decode x 28 4
theorem GETEPCAPTURE_eq (x : Nat) : GETEPCAPTURE x = (x / 2 ^ 26 % 2) * 64 := by
  unfold GETEPCAPTURE ISEPCAPTURE
  rw [flag_decode, Nat.shiftRight_eq_div_pow, Nat.div_div_eq_div_mul]
  norm_num

/-- The six-argument constructor packs its fields into disjoint bit ranges. -/
theorem chessmove6_eq (frm to_ promote capture ept piece : Nat) (hf : frm < 64)
    (ht : to_ < 64) (hpr : promote < 16) (hc : capture < 16) (he : ept < 128)
    (hp : piece < 16) :
    chessmove6 frm to_ promote capture ept piece
      = piece * 2 ^ 28 + ept * 2 ^ 20 + capture * 2 ^ 16 + promote * 2 ^ 12 + frm * 2 ^ 6 + to_ := by
  unfold chessmove6
  have e1 : (frm <<< 6) ||| to_ = frm * 2 ^ 6 + to_ := or_pack _ _ _ (by omega)
  have e2 : (promote <<< 12) ||| (frm * 2 ^ 6 + to_) = promote * 2 ^ 12 + (frm * 2 ^ 6 + to_) :=
    or_pack _ _ _ (by omega)
  have e3 : (capture <<< 16) ||| (promote * 2 ^ 12 + (frm * 2 ^ 6 + to_))
      = capture * 2 ^ 16 + (promote * 2 ^ 12 + (frm * 2 ^ 6 + to_)) := or_pack _ _ _ (by omega)
  have e4 : (ept <<< 20) ||| (capture * 2 ^ 16 + (promote * 2 ^ 12 + (frm * 2 ^ 6 + to_)))
      = ept * 2 ^ 20 + (capture * 2 ^ 16 + (promote * 2 ^ 12 + (frm * 2 ^ 6 + to_))) :=
    or_pack _ _ _ (by omega)
  have e5 : (piece <<< 28)
        ||| (ept * 2 ^ 20 + (capture * 2 ^ 16 + (promote * 2 ^ 12 + (frm * 2 ^ 6 + to_))))
      = piece * 2 ^ 28
        + (ept * 2 ^ 20 + (capture * 2 ^ 16 + (promote * 2 ^ 12 + (frm * 2 ^ 6 + to_)))) :=
    or_pack _ _ _ (by omega)
  rw [Nat.or_assoc, Nat.or_assoc, Nat.or_assoc, Nat.or_assoc, e1, e2, e3, e4, e5]
  omega

theorem chessmove5_eq6 (frm to_ promote capture piece : Nat) :
    chessmove5 frm to_ promote capture piece = chessmove6 frm to_ promote capture 0 piece := by
  simp [chessmove5, chessmove6]

theorem chessmove4_eq6 (frm to_ capture piece : Nat) :
    chessmove4 frm to_ capture piece = chessmove6 frm to_ 0 capture 0 piece := by
  simp [chessmove4, chessmove6]

theorem chessmove3_eq6 (frm to_ piece : Nat) :
    chessmove3 frm to_ piece = chessmove6 frm to_ 0 0 0 piece := by
  simp [chessmove3, chessmove6]

/-- C9: the code built by the six-argument constructor is the packed word taken
modulo 2^32 and decodes field by field to the values given (the en-passant field
through its two parts, the target square `GETEPT` and the capture flag
`GETEPCAPTURE`, which together are the value given); the shorter constructors
agree with the full one at zero for the omitted fields, and the default
constructor gives code 0. -/
theorem chessmove_roundtrip (frm to_ promote capture ept piece : Nat) (hf : frm < 64)
    (ht : to_ < 64) (hpr : promote < 16) (hc : capture < 16) (he : ept < 128)
    (hp : piece < 16) :
    chessmove6 frm to_ promote capture ept piece
        = ((piece <<< 28) ||| (ept <<< 20) ||| (capture <<< 16) ||| (promote <<< 12)
            ||| (frm <<< 6) ||| to_) % 2 ^ 32
      ∧ GETFROM (chessmove6 frm to_ promote capture ept piece) = frm
      ∧ GETTO (chessmove6 frm to_ promote capture ept piece) = to_
      ∧ GETPROMOTION (chessmove6 frm to_ promote capture ept piece) = promote
      ∧ GETCAPTURE (chessmove6 frm to_ promote capture ept piece) = capture
      ∧ GETPIECE (chessmove6 frm to_ promote capture ept piece) = piece
      ∧ GETEPT (chessmove6 frm to_ promote capture ept piece) = ept % 64
      ∧ GETEPCAPTURE (chessmove6 frm to_ promote capture ept piece) = ept / 64 * ISEPCAPTURE
      ∧ GETEPT (chessmove6 frm to_ promote capture ept piece)
          + GETEPCAPTURE (chessmove6 frm to_ promote capture ept piece) = ept
      ∧ chessmove5 frm to_ promote capture piece = chessmove6 frm to_ promote capture 0 piece
      ∧ chessmove4 frm to_ capture piece = chessmove6 frm to_ 0 capture 0 piece
      ∧ chessmove3 frm to_ piece = chessmove6 frm to_ 0 0 0 piece
      ∧ chessmove0 = 0 := by
  have hcode := chessmove6_eq frm to_ promote capture ept piece hf ht hpr hc he hp
  refine ⟨rfl, ?_, ?_, ?_, ?_, ?_, ?_, ?_, ?_, chessmove5_eq6 _ _ _ _ _,
    chessmove4_eq6 _ _ _ _, chessmove3_eq6 _ _ _, rfl⟩
  · rw [GETFROM_eq, hcode]; omega
  · rw [GETTO_eq, hcode]; omega
  · rw [GETPROMOTION_eq, hcode]; omega
  · rw [GETCAPTURE_eq, hcode]; omega
  · rw [GETPIECE_eq, hcode]; omega
  · rw [GETEPT_eq, hcode]; omega
  · rw [GETEPCAPTURE_eq, hcode]; unfold ISEPCAPTURE; omega
  · rw [GETEPT_eq, GETEPCAPTURE_eq, hcode]; omega

/-- Witness for C9: the code of the en-passant capture e5xd6 by a white pawn. -/
theorem chessmove_roundtrip_witness :
    GETFROM (chessmove6 36 43 0 3 64 2) = 36 ∧ GETTO (chessmove6 36 43 0 3 64 2) = 43
      ∧ GETCAPTURE (chessmove6 36 43 0 3 64 2) = 3 ∧ GETPIECE (chessmove6 36 43 0 3 64 2) = 2
      ∧ GETEPT (chessmove6 36 43 0 3 64 2) + GETEPCAPTURE (chessmove6 36 43 0 3 64 2) = 64 :=
  have h := chessmove_roundtrip 36 43 0 3 64 2 (by decide) (by decide) (by decide) (by decide)
    (by decide) (by decide)
  ⟨h.2.1, h.2.2.1, h.2.2.2.2.1, h.2.2.2.2.2.1, h.2.2.2.2.2.2.2.2.1⟩

/-! ## Fields that a stage of playMove leaves alone -/

theorem sameControl_trans {p q r : chessposition} (h1 : sameControl p q)
    (h2 : sameControl q r) : sameControl p r := by
  unfold sameControl at *
  obtain ⟨a1, a2, a3, a4, a5, a6, a7, a8, a9⟩ := h1
  obtain ⟨b1, b2, b3, b4, b5, b6, b7, b8, b9⟩ := h2
  exact ⟨a1.trans b1, a2.trans b2, a3.trans b3, a4.trans b4, a5.trans b5, a6.trans b6,
    a7.trans b7, a8.trans b8, a9.trans b9⟩

theorem playCapture_control (zb : zobrist) (pos : chessposition) (code : Nat) :
    sameControl (playCapture zb pos code) pos := by
  unfold playCapture sameControl
  dsimp only
  split_ifs <;> exact ⟨rfl, rfl, rfl, rfl, rfl, rfl, rfl, rfl, rfl⟩

theorem playRelocate_control (zb : zobrist) (pos : chessposition) (code : Nat) :
    sameControl (playRelocate zb pos code) pos := by
  unfold playRelocate sameControl
  dsimp only
  split_ifs <;> exact ⟨rfl, rfl, rfl, rfl, rfl, rfl, rfl, rfl, rfl⟩

theorem playSpecials_control (zb : zobrist) (pos : chessposition) (code s2m : Nat) :
    sameControl (playSpecials zb pos code s2m) pos := by
  unfold playSpecials sameControl
  dsimp only
  split_ifs <;> exact ⟨rfl, rfl, rfl, rfl, rfl, rfl, rfl, rfl, rfl⟩

theorem playApply_control (zb : zobrist) (pos : chessposition) (code : Nat) :
    sameControl (playApply zb pos code) pos :=
  sameControl_trans (playSpecials_control _ _ _ _)
    (sameControl_trans (playRelocate_control _ _ _) (playCapture_control _ _ _))

theorem restoreCapture_control (pos : chessposition) (code : Nat) :
    sameControl (restoreCapture pos code) pos := by
  unfold restoreCapture sameControl
  dsimp only
  split_ifs <;> exact ⟨rfl, rfl, rfl, rfl, rfl, rfl, rfl, rfl, rfl⟩

theorem rollbackPiece_control (pos : chessposition) (code s2m : Nat) :
    sameControl (rollbackPiece pos code s2m) pos := by
  unfold rollbackPiece sameControl
  dsimp only
  split_ifs <;> exact ⟨rfl, rfl, rfl, rfl, rfl, rfl, rfl, rfl, rfl⟩

theorem playRollback_control (pos : chessposition) (code s2m : Nat) :
    sameControl (playRollback pos code s2m) pos :=
  sameControl_trans (restoreCapture_control _ _) (rollbackPiece_control _ _ _)

theorem playCastle_depth (zb : zobrist) (pos : chessposition) (code s2m : Nat) :
    (playCastle zb pos code s2m).mstop = pos.mstop
      ∧ (playCastle zb pos code s2m).ply = pos.ply
      ∧ (playCastle zb pos code s2m).rootheight = pos.rootheight := by
  unfold playCastle
  dsimp only
  split_ifs <;> exact ⟨rfl, rfl, rfl⟩

theorem playMove_of_attacked (zb : zobrist) (pos : chessposition) (code : Nat)
    (h : isAttacked (playApply zb pos code)
      ((playApply zb pos code).kingpos (pos.state &&& S2MMASK)) = true) :
    playMove zb pos code
      = (false, playRollback (playApply zb pos code) code (pos.state &&& S2MMASK)) := by
  unfold playMove
  simp only [h, if_true]

theorem playMove_of_safe (zb : zobrist) (pos : chessposition) (code : Nat)
    (h : isAttacked (playApply zb pos code)
      ((playApply zb pos code).kingpos (pos.state &&& S2MMASK)) = false) :
    playMove zb pos code
      = (true, playCommit zb (playApply zb pos code) code (pos.state &&& S2MMASK)) := by
  unfold playMove
  simp [h]

theorem playMove_depth (zb : zobrist) (pos : chessposition) (code : Nat) :
    (playMove zb pos code).2.mstop = pos.mstop + (if (playMove zb pos code).1 then 1 else 0)
      ∧ (playMove zb pos code).2.ply = pos.ply + (if (playMove zb pos code).1 then 1 else 0)
      ∧ (playMove zb pos code).2.rootheight = pos.rootheight := by
  obtain ⟨-, -, -, a4, a5, a6, -, -, -⟩ := playApply_control zb pos code
  cases h : isAttacked (playApply zb pos code)
      ((playApply zb pos code).kingpos (pos.state &&& S2MMASK))
  · obtain ⟨c4, c5, c6⟩ :=
      playCastle_depth zb (playApply zb pos code) code (pos.state &&& S2MMASK)
    rw [playMove_of_safe zb pos code h]
    simp [playCommit, playFinish, c4, c5, c6, a4, a5, a6]
  · obtain ⟨-, -, -, b4, b5, b6, -, -, -⟩ :=
      playRollback_control (playApply zb pos code) code (pos.state &&& S2MMASK)
    rw [playMove_of_attacked zb pos code h]
    simp [b4, b5, b6, a4, a5, a6]

theorem unplayPiece_depth (pos : chessposition) (code pto : Nat) :
    (unplayPiece pos code pto).mstop = pos.mstop ∧ (unplayPiece pos code pto).ply = pos.ply
      ∧ (unplayPiece pos code pto).rootheight = pos.rootheight := by
  unfold unplayPiece
  dsimp only
  split_ifs <;> exact ⟨rfl, rfl, rfl⟩

theorem unplayCastle_depth (pos : chessposition) (code pto : Nat) :
    (unplayCastle pos code pto).mstop = pos.mstop ∧ (unplayCastle pos code pto).ply = pos.ply
      ∧ (unplayCastle pos code pto).rootheight = pos.rootheight := by
  unfold unplayCastle
  dsimp only
  split_ifs <;> exact ⟨rfl, rfl, rfl⟩

theorem unplayMove_depth (pos : chessposition) (code : Nat) :
    (unplayMove pos code).mstop = pos.mstop - 1 ∧ (unplayMove pos code).ply = pos.ply - 1
      ∧ (unplayMove pos code).rootheight = pos.rootheight := by
  unfold unplayMove
  dsimp only
  obtain ⟨a1, a2, a3⟩ := unplayCastle_depth
    (restoreCapture (unplayPiece (unplayRestore pos) code (pos.mailbox (GETTO code))) code) code
    (pos.mailbox (GETTO code))
  obtain ⟨-, -, -, b1, b2, b3, -, -, -⟩ := restoreCapture_control
    (unplayPiece (unplayRestore pos) code (pos.mailbox (GETTO code))) code
  obtain ⟨c1, c2, c3⟩ := unplayPiece_depth (unplayRestore pos) code (pos.mailbox (GETTO code))
  rw [a1, a2, a3, b1, b2, b3, c1, c2, c3]
  exact ⟨rfl, rfl, rfl⟩

theorem applyOp_depth (zb : zobrist) (pos : chessposition) (op : SearchOp) :
    (applyOp zb pos op).mstop - (applyOp zb pos op).ply = pos.mstop - pos.ply
      ∧ (applyOp zb pos op).rootheight = pos.rootheight := by
  cases op with
  | play code =>
    obtain ⟨h1, h2, h3⟩ := playMove_depth zb pos code
    simp only [applyOp]
    exact ⟨by rw [h1, h2]; omega, h3⟩
  | unplay code =>
    obtain ⟨h1, h2, h3⟩ := unplayMove_depth pos code
    simp only [applyOp]
    exact ⟨by rw [h1, h2]; omega, h3⟩
  | playNull => exact ⟨by simp only [applyOp, playNullMove]; omega, rfl⟩
  | unplayNull => exact ⟨by simp only [applyOp, unplayNullMove]; omega, rfl⟩

theorem runOps_depth (zb : zobrist) (ops : List SearchOp) (pos : chessposition) :
    (runOps zb pos ops).mstop - (runOps zb pos ops).ply = pos.mstop - pos.ply
      ∧ (runOps zb pos ops).rootheight = pos.rootheight := by
  induction ops generalizing pos with
  | nil => exact ⟨rfl, rfl⟩
  | cons op ops ih =>
    obtain ⟨h1, h2⟩ := ih (applyOp zb pos op)
    obtain ⟨h3, h4⟩ := applyOp_depth zb pos op
    simp only [runOps]
    exact ⟨h1.trans h3, h2.trans h4⟩

theorem xor_one_and_castle (x : Nat) : (x ^^^ S2MMASK) &&& CASTLEMASK = x &&& CASTLEMASK := by
  unfold S2MMASK CASTLEMASK
  apply Nat.eq_of_testBit_eq
  intro i
  simp only [Nat.testBit_and, Nat.testBit_xor]
  rcases i with _ | i
  · have h0 : Nat.testBit 0x1E 0 = false := by decide
    simp [h0]
  · have h1 : Nat.testBit 1 (i + 1) = false := by
      have hiff := @Nat.testBit_one_eq_true_iff_self_eq_zero (i + 1)
      cases h : Nat.testBit 1 (i + 1)
      · rfl
      · exact absurd (hiff.mp h) (by omega)
    simp [h1]

/-! ## C8: history depth and ply move together -/

/-- C8: `mstop - ply` is the same before and after `playMove` (both counters go
up by one when it returns true and stay when it returns false), `unplayMove`
(both down by one), `playNullMove` (both up by one) and `unplayNullMove` (both
down by one); hence from a root that has set `ply = 0` and `rootheight = mstop`,
`mstop = rootheight + ply` holds after every sequence of these operations. -/
theorem depth_tracks_ply (zb : zobrist) (pos : chessposition) :
    (∀ code, (playMove zb pos code).2.mstop
          = pos.mstop + (if (playMove zb pos code).1 then 1 else 0)
        ∧ (playMove zb pos code).2.ply = pos.ply + (if (playMove zb pos code).1 then 1 else 0))
      ∧ (∀ code, (unplayMove pos code).mstop = pos.mstop - 1
        ∧ (unplayMove pos code).ply = pos.ply - 1)
      ∧ ((playNullMove zb pos).mstop = pos.mstop + 1 ∧ (playNullMove zb pos).ply = pos.ply + 1)
      ∧ ((unplayNullMove zb pos).mstop = pos.mstop - 1
        ∧ (unplayNullMove zb pos).ply = pos.ply - 1)
      ∧ (∀ ops, (runOps zb (setRoot pos) ops).mstop
          = (runOps zb (setRoot pos) ops).rootheight + (runOps zb (setRoot pos) ops).ply) := by
  refine ⟨fun code => ⟨(playMove_depth zb pos code).1, (playMove_depth zb pos code).2.1⟩,
    fun code => ⟨(unplayMove_depth pos code).1, (unplayMove_depth pos code).2.1⟩,
    ⟨rfl, rfl⟩, ⟨rfl, rfl⟩, fun ops => ?_⟩
  obtain ⟨h1, h2⟩ := runOps_depth zb ops (setRoot pos)
  have h3 : (setRoot pos).mstop - (setRoot pos).ply = (setRoot pos).rootheight := by
    simp [setRoot]
  rw [h2]
  omega

/-! ## C10: the frame of the null moves -/

/-- The amended C10: `playNullMove` changes the side-to-move bit of `state`, `hash`
(XORed with the side-to-move key), `ply` (up by one), the history depth `mstop`
(up by one) and the move code of the history slot `movestack[mstop]` (set to 0),
and nothing else: the piece and occupancy bitboards, the mailbox, the
castling-rights bits, ept, pawnhash, materialhash, the half-move and full-move
counters, the check board, the king squares, `rootheight`, the repetition table,
the other fields of that slot and every other slot are as they were.
`unplayNullMove` changes the side-to-move bit, `hash`, `ply` (down by one) and
`mstop` (down by one), and nothing else. -/
theorem nullMove_frame (zb : zobrist) (pos : chessposition) :
    ((playNullMove zb pos).piece00 = pos.piece00
      ∧ (playNullMove zb pos).occupied00 = pos.occupied00
      ∧ (playNullMove zb pos).mailbox = pos.mailbox
      ∧ (playNullMove zb pos).state &&& CASTLEMASK = pos.state &&& CASTLEMASK
      ∧ (playNullMove zb pos).ept = pos.ept
      ∧ (playNullMove zb pos).pawnhash = pos.pawnhash
      ∧ (playNullMove zb pos).materialhash = pos.materialhash
      ∧ (playNullMove zb pos).halfmovescounter = pos.halfmovescounter
      ∧ (playNullMove zb pos).kingpos = pos.kingpos
      ∧ (playNullMove zb pos).rp = pos.rp
      ∧ (playNullMove zb pos).fullmovescounter = pos.fullmovescounter
      ∧ (playNullMove zb pos).isCheckbb = pos.isCheckbb
      ∧ (playNullMove zb pos).rootheight = pos.rootheight
      ∧ (playNullMove zb pos).state = pos.state ^^^ S2MMASK
      ∧ (playNullMove zb pos).hash = pos.hash ^^^ zb.s2m
      ∧ (playNullMove zb pos).ply = pos.ply + 1
      ∧ (playNullMove zb pos).mstop = pos.mstop + 1
      ∧ ((playNullMove zb pos).movestack pos.mstop).movecode = 0
      ∧ { (playNullMove zb pos).movestack pos.mstop with
            movecode := (pos.movestack pos.mstop).movecode } = pos.movestack pos.mstop
      ∧ ∀ i, i ≠ pos.mstop → (playNullMove zb pos).movestack i = pos.movestack i)
    ∧ ((unplayNullMove zb pos).piece00 = pos.piece00
      ∧ (unplayNullMove zb pos).occupied00 = pos.occupied00
      ∧ (unplayNullMove zb pos).mailbox = pos.mailbox
      ∧ (unplayNullMove zb pos).state &&& CASTLEMASK = pos.state &&& CASTLEMASK
      ∧ (unplayNullMove zb pos).ept = pos.ept
      ∧ (unplayNullMove zb pos).pawnhash = pos.pawnhash
      ∧ (unplayNullMove zb pos).materialhash = pos.materialhash
      ∧ (unplayNullMove zb pos).halfmovescounter = pos.halfmovescounter
      ∧ (unplayNullMove zb pos).kingpos = pos.kingpos
      ∧ (unplayNullMove zb pos).rp = pos.rp
      ∧ (unplayNullMove zb pos).fullmovescounter = pos.fullmovescounter
      ∧ (unplayNullMove zb pos).isCheckbb = pos.isCheckbb
      ∧ (unplayNullMove zb pos).rootheight = pos.rootheight
      ∧ (unplayNullMove zb pos).movestack = pos.movestack
      ∧ (unplayNullMove zb pos).state = pos.state ^^^ S2MMASK
      ∧ (unplayNullMove zb pos).hash = pos.hash ^^^ zb.s2m
      ∧ (unplayNullMove zb pos).ply = pos.ply - 1
      ∧ (unplayNullMove zb pos).mstop = pos.mstop - 1) := by
  refine ⟨⟨rfl, rfl, rfl, xor_one_and_castle _, rfl, rfl, rfl, rfl, rfl, rfl, rfl, rfl, rfl, rfl,
    rfl, rfl, rfl, ?_, ?_, ?_⟩,
    ⟨rfl, rfl, rfl, xor_one_and_castle _, rfl, rfl, rfl, rfl, rfl, rfl, rfl, rfl, rfl, rfl, rfl,
      rfl, rfl, rfl⟩⟩
  · simp [playNullMove, setAtInt]
  · simp [playNullMove, setAtInt]
  · intro i hi
    simp [playNullMove, setAtInt, hi]

/-- C10 as stated fails: `playNullMove` and `unplayNullMove` also change the
history depth `mstop`, and `playNullMove` overwrites the move code of the slot
`movestack[mstop]` (here a 5 becomes 0). -/
theorem nullMove_counterexample :
    (playNullMove zbEx pushPos).mstop = pushPos.mstop + 1
      ∧ (playNullMove zbEx pushPos).mstop ≠ pushPos.mstop
      ∧ (unplayNullMove zbEx pushPos).mstop ≠ pushPos.mstop
      ∧ ((withTopCode pushPos 5).movestack (withTopCode pushPos 5).mstop).movecode = 5
      ∧ ((playNullMove zbEx (withTopCode pushPos 5)).movestack
            (withTopCode pushPos 5).mstop).movecode = 0 :=
  ⟨by decide, by decide, by decide, by decide, by decide⟩

/-! ## C5: see is monotone in its threshold -/

theorem and_one_lt_two (x : Nat) : x &&& S2MMASK < 2 :=
  Nat.and_lt_two_pow x (by decide : S2MMASK < 2 ^ 1)

theorem testBit_BITSET (i j : Nat) : (BITSET i).testBit j = decide (i = j) := by
  unfold BITSET
  rw [Nat.one_shiftLeft, Nat.testBit_two_pow]

theorem setAt_same {α : Type} (f : Nat → α) (i : Nat) (v : α) : setAt f i v i = v := by
  simp [setAt]

theorem setAt_other {α : Type} (f : Nat → α) (i j : Nat) (v : α) (h : j ≠ i) :
    setAt f i v j = f j := by
  simp [setAt, h]

/-- Toggling bit `i` of board `q` when piece `q` stands on `i` removes the piece. -/
theorem pieceAgree_off (pc mb : Nat → Nat) (i q : Nat) (h : pieceAgree pc mb) (hq : q ≠ 0)
    (hi : i < 64) (hm : mb i = q) :
    pieceAgree (setAt pc q (pc q ^^^ BITSET i)) (setAt mb i 0) := by
  intro p sq hp
  by_cases hpq : p = q
  · subst hpq
    rw [setAt_same, Nat.testBit_xor, testBit_BITSET]
    by_cases hs : sq = i
    · subst hs
      have := (h p sq hp).mpr ⟨hi, hm⟩
      simp [this, setAt_same, hp.symm]
    · have h3 : ¬ i = sq := fun e => hs e.symm
      simp only [h3, decide_False, Bool.xor_false, setAt_other _ _ _ _ hs]
      exact h p sq hp
  · rw [setAt_other _ _ _ _ hpq]
    by_cases hs : sq = i
    · subst hs
      rw [setAt_same]
      constructor
      · intro h1
        have := (h p sq hp).mp h1
        exact absurd (this.2.symm.trans hm) hpq
      · intro h1
        exact absurd h1.2.symm hp
    · rw [setAt_other _ _ _ _ hs]
      exact h p sq hp

/-- Setting bit `i` of board `q` (by OR or by toggle) when square `i` is empty
places the piece. -/
theorem pieceAgree_on (pc mb : Nat → Nat) (i q v : Nat) (h : pieceAgree pc mb) (hq : q ≠ 0)
    (hi : i < 64) (hm : mb i = 0) (hv : v = pc q ^^^ BITSET i ∨ v = pc q ||| BITSET i) :
    pieceAgree (setAt pc q v) (setAt mb i q) := by
  intro p sq hp
  by_cases hpq : p = q
  · subst hpq
    rw [setAt_same]
    have hbit : v.testBit sq = ((pc p).testBit sq || decide (i = sq)) := by
      rcases hv with hv | hv
      · rw [hv, Nat.testBit_xor, testBit_BITSET]
        by_cases hs : i = sq
        · subst hs
          have : (pc p).testBit i = false := by
            cases hh : (pc p).testBit i
            · rfl
            · exact absurd ((h p i hp).mp hh).2 (by rw [hm]; exact fun e => hp e.symm)
          simp [this]
        · simp [hs]
      · rw [hv, Nat.testBit_or, testBit_BITSET]
    rw [hbit]
    by_cases hs : sq = i
    · subst hs
      simp [setAt_same, hi]
    · have h3 : ¬ i = sq := fun e => hs e.symm
      simp only [h3, decide_False, Bool.or_false, setAt_other _ _ _ _ hs]
      exact h p sq hp
  · rw [setAt_other _ _ _ _ hpq]
    by_cases hs : sq = i
    · subst hs
      rw [setAt_same]
      constructor
      · intro h1
        have := (h p sq hp).mp h1
        exact absurd (this.2.symm.trans hm) hp
      · intro h1
        exact absurd h1.2.symm hpq
    · rw [setAt_other _ _ _ _ hs]
      exact h p sq hp

theorem and_one_lt (q : Nat) : q &&& 1 < 2 := Nat.and_lt_two_pow q (by decide : 1 < 2 ^ 1)

/-- Toggling bit `i` of the occupancy of the colour of `q` when `q` stands on `i`. -/
theorem occAgree_off (oc mb : Nat → Nat) (i q : Nat) (h : occAgree oc mb) (hq : q ≠ 0)
    (hi : i < 64) (hm : mb i = q) :
    occAgree (setAt oc (q &&& 1) (oc (q &&& 1) ^^^ BITSET i)) (setAt mb i 0) := by
  intro c sq hc
  by_cases hs : sq = i
  · subst hs
    rw [setAt_same]
    by_cases hcq : c = q &&& 1
    · subst hcq
      have := (h (q &&& 1) sq hc).mpr ⟨hi, by rw [hm]; exact hq, by rw [hm]⟩
      rw [setAt_same, Nat.testBit_xor, testBit_BITSET, this]
      simp
    · rw [setAt_other _ _ _ _ hcq]
      constructor
      · intro h1
        have := (h c sq hc).mp h1
        exact absurd (by rw [← hm]; exact this.2.2.symm) hcq
      · intro h1
        exact absurd rfl h1.2.1
  · rw [setAt_other _ _ _ _ hs]
    by_cases hcq : c = q &&& 1
    · subst hcq
      rw [setAt_same, Nat.testBit_xor, testBit_BITSET]
      have h3 : ¬ i = sq := fun e => hs e.symm
      simp only [h3, decide_False, Bool.xor_false]
      exact h _ sq hc
    · rw [setAt_other _ _ _ _ hcq]
      exact h c sq hc

/-- Setting bit `i` of the occupancy of the colour of `q` when square `i` is empty. -/
theorem occAgree_on (oc mb : Nat → Nat) (i q v : Nat) (h : occAgree oc mb) (hq : q ≠ 0)
    (hi : i < 64) (hm : mb i = 0)
    (hv : v = oc (q &&& 1) ^^^ BITSET i ∨ v = oc (q &&& 1) ||| BITSET i) :
    occAgree (setAt oc (q &&& 1) v) (setAt mb i q) := by
  intro c sq hc
  by_cases hs : sq = i
  · subst hs
    rw [setAt_same]
    by_cases hcq : c = q &&& 1
    · subst hcq
      rw [setAt_same]
      have hbit : v.testBit sq = true := by
        rcases hv with hv | hv
        · have : (oc (q &&& 1)).testBit sq = false := by
            cases hh : (oc (q &&& 1)).testBit sq
            · rfl
            · exact absurd hm ((h _ sq hc).mp hh).2.1
          rw [hv, Nat.testBit_xor, testBit_BITSET, this]
          simp
        · rw [hv, Nat.testBit_or, testBit_BITSET]
          simp
      simp [hbit, hi, hq]
    · rw [setAt_other _ _ _ _ hcq]
      constructor
      · intro h1
        exact absurd hm ((h c sq hc).mp h1).2.1
      · intro h1
        exact absurd h1.2.2.symm hcq
  · rw [setAt_other _ _ _ _ hs]
    by_cases hcq : c = q &&& 1
    · subst hcq
      rw [setAt_same]
      have h3 : ¬ i = sq := fun e => hs e.symm
      have hbit : v.testBit sq = (oc (q &&& 1)).testBit sq := by
        rcases hv with hv | hv
        · rw [hv, Nat.testBit_xor, testBit_BITSET]; simp [h3]
        · rw [hv, Nat.testBit_or, testBit_BITSET]; simp [h3]
      rw [hbit]
      exact h _ sq hc
    · rw [setAt_other _ _ _ _ hcq]
      exact h c sq hc

theorem setAt_setAt {α : Type} (f : Nat → α) (i : Nat) (v w : α) :
    setAt (setAt f i v) i w = setAt f i w := by
  funext j
  by_cases h : j = i <;> simp [setAt, h]

theorem setAt_id {α : Type} (f : Nat → α) (i : Nat) (v : α) (h : f i = v) : setAt f i v = f := by
  funext j
  by_cases hj : j = i
  · subst hj; simp [setAt, h]
  · simp [setAt, hj]

theorem xor_two_bits (x i j : Nat) (h : i ≠ j) :
    x ^^^ (BITSET i ||| BITSET j) = (x ^^^ BITSET i) ^^^ BITSET j := by
  apply Nat.eq_of_testBit_eq
  intro k
  simp only [Nat.testBit_xor, Nat.testBit_or, testBit_BITSET]
  by_cases h1 : i = k <;> by_cases h2 : j = k <;> simp [h1, h2]
  exact h (h1.trans h2.symm)

theorem pieceKind : AgreeKind (fun pos mb => pieceAgree pos.piece00 mb) where
  clear := fun pos mb i q h hq hi hm => pieceAgree_off pos.piece00 mb i q h hq hi hm
  set := fun pos mb i q h hq hi hm =>
    pieceAgree_on pos.piece00 mb i q _ h hq hi hm (Or.inr rfl)
  move := fun pos mb i j q h hq hi hj hij hm hm2 => by
    have h1 := pieceAgree_off pos.piece00 mb i q h hq hi hm
    have h2 := pieceAgree_on _ _ j q ((setAt pos.piece00 q (pos.piece00 q ^^^ BITSET i)) q
      ^^^ BITSET j) h1 hq hj (by rw [setAt_other _ _ _ _ (Ne.symm hij)]; exact hm2) (Or.inl rfl)
    rw [setAt_setAt, setAt_same, ← xor_two_bits _ _ _ hij] at h2
    exact h2
  frame := fun pos pos2 mb h1 _ h => by
    show pieceAgree pos2.piece00 mb
    rw [h1]; exact h

theorem occKind : AgreeKind (fun pos mb => occAgree pos.occupied00 mb) where
  clear := fun pos mb i q h hq hi hm => occAgree_off pos.occupied00 mb i q h hq hi hm
  set := fun pos mb i q h hq hi hm =>
    occAgree_on pos.occupied00 mb i q _ h hq hi hm (Or.inr rfl)
  move := fun pos mb i j q h hq hi hj hij hm hm2 => by
    have h1 := occAgree_off pos.occupied00 mb i q h hq hi hm
    have h2 := occAgree_on _ _ j q
      ((setAt pos.occupied00 (q &&& 1) (pos.occupied00 (q &&& 1) ^^^ BITSET i)) (q &&& 1)
        ^^^ BITSET j) h1 hq hj (by rw [setAt_other _ _ _ _ (Ne.symm hij)]; exact hm2) (Or.inl rfl)
    rw [setAt_setAt, setAt_same, ← xor_two_bits _ _ _ hij] at h2
    exact h2
  frame := fun pos pos2 mb _ h2 h => by
    show occAgree pos2.occupied00 mb
    rw [h2]; exact h

theorem spareKind (a : Nat) (b : Nat → Nat) : AgreeKind (fun pos _ => spareBoards pos a b) where
  clear := fun pos mb i q h hq _ _ => by
    refine ⟨?_, fun c hc => ?_⟩
    · show setAt pos.piece00 q _ 0 = a
      rw [setAt_other _ _ _ _ (Ne.symm hq)]; exact h.1
    · show setAt pos.occupied00 (q &&& 1) _ c = b c
      rw [setAt_other _ _ _ _ (by have := and_one_lt q; omega)]; exact h.2 c hc
  set := fun pos mb i q h hq _ _ => by
    refine ⟨?_, fun c hc => ?_⟩
    · show setAt pos.piece00 q _ 0 = a
      rw [setAt_other _ _ _ _ (Ne.symm hq)]; exact h.1
    · show setAt pos.occupied00 (q &&& 1) _ c = b c
      rw [setAt_other _ _ _ _ (by have := and_one_lt q; omega)]; exact h.2 c hc
  move := fun pos mb i j q h hq _ _ _ _ _ => by
    refine ⟨?_, fun c hc => ?_⟩
    · show setAt pos.piece00 q _ 0 = a
      rw [setAt_other _ _ _ _ (Ne.symm hq)]; exact h.1
    · show setAt pos.occupied00 (q &&& 1) _ c = b c
      rw [setAt_other _ _ _ _ (by have := and_one_lt q; omega)]; exact h.2 c hc
  frame := fun pos pos2 mb h1 h2 h => by
    refine ⟨?_, fun c hc => ?_⟩
    · rw [h1]; exact h.1
    · rw [h2]; exact h.2 c hc

theorem AgreeKind.both {I J : chessposition → (Nat → Nat) → Prop} (hI : AgreeKind I)
    (hJ : AgreeKind J) : AgreeKind (fun pos mb => I pos mb ∧ J pos mb) where
  clear := fun pos mb i q h hq hi hm => ⟨hI.clear pos mb i q h.1 hq hi hm, hJ.clear pos mb i q h.2 hq hi hm⟩
  set := fun pos mb i q h hq hi hm => ⟨hI.set pos mb i q h.1 hq hi hm, hJ.set pos mb i q h.2 hq hi hm⟩
  move := fun pos mb i j q h hq hi hj hij hm hm2 =>
    ⟨hI.move pos mb i j q h.1 hq hi hj hij hm hm2, hJ.move pos mb i j q h.2 hq hi hj hij hm hm2⟩
  frame := fun pos pos2 mb h1 h2 h => ⟨hI.frame pos pos2 mb h1 h2 h.1, hJ.frame pos pos2 mb h1 h2 h.2⟩

/-! ## The board part of playMove keeps mailbox and bitboards in agreement -/

theorem GETTO_lt (m : Nat) : GETTO m < 64 := by
  rw [GETTO_eq]; omega

theorem GETFROM_lt (m : Nat) : GETFROM m < 64 := by
  rw [GETFROM_eq]; omega

theorem epfieldOf_lt (m : Nat) : epfieldOf m < 64 := by
  unfold epfieldOf
  have h1 : GETFROM m &&& 0x38 < 2 ^ 6 := Nat.and_lt_two_pow _ (by decide)
  have h2 : GETTO m &&& 0x07 < 2 ^ 6 := Nat.and_lt_two_pow _ (by decide)
  exact Nat.or_lt_two_pow h1 h2

theorem castlerook_lt (c : Nat) : castlerookfrom c < 64 ∧ castlerookto c < 64 := by
  unfold castlerookfrom castlerookto
  split_ifs <;> decide

theorem AgreeKind.reframe {I : chessposition → (Nat → Nat) → Prop} (hI : AgreeKind I)
    {pos pos2 : chessposition} {mb : Nat → Nat} (h : I pos mb)
    (h1 : pos2.piece00 = pos.piece00) (h2 : pos2.occupied00 = pos.occupied00) : I pos2 mb :=
  hI.frame pos pos2 mb h1 h2 h

theorem playCapture_mailbox (zb : zobrist) (pos : chessposition) (m : Nat) :
    (playCapture zb pos m).mailbox = pos.mailbox := by
  unfold playCapture
  dsimp only
  split_ifs <;> rfl

theorem playRelocate_mailbox (zb : zobrist) (pos : chessposition) (m : Nat) :
    (playRelocate zb pos m).mailbox
      = setAt (setAt pos.mailbox (GETTO m) (arrivingPiece m)) (GETFROM m) BLANK := by
  unfold playRelocate arrivingPiece
  dsimp only
  split_ifs <;> rfl

theorem playSpecials_mailbox (zb : zobrist) (pos : chessposition) (m s2m : Nat) :
    (playSpecials zb pos m s2m).mailbox
      = if epCond pos m then setAt pos.mailbox (epfieldOf m) BLANK else pos.mailbox := by
  unfold playSpecials epCond epfieldOf
  dsimp only
  split_ifs <;> first | rfl | (exfalso; tauto)

theorem playCapture_agree {I : chessposition → (Nat → Nat) → Prop} (hI : AgreeKind I)
    (zb : zobrist) (pos : chessposition) (m : Nat) (mb : Nat → Nat) (h : I pos mb)
    (hc : GETCAPTURE m ≠ BLANK ∧ GETEPCAPTURE m = 0 → mb (GETTO m) = GETCAPTURE m)
    (hn : ¬ (GETCAPTURE m ≠ BLANK ∧ GETEPCAPTURE m = 0) → mb (GETTO m) = 0) :
    I (playCapture zb pos m) (setAt mb (GETTO m) 0) := by
  unfold playCapture
  dsimp only
  split_ifs with h1 h2
  · exact hI.frame (BitboardClear pos (GETTO m) (GETCAPTURE m)) _ _ rfl rfl
      (hI.clear pos mb _ _ h h1.1 (GETTO_lt m) (hc h1))
  · exact hI.frame (BitboardClear pos (GETTO m) (GETCAPTURE m)) _ _ rfl rfl
      (hI.clear pos mb _ _ h h1.1 (GETTO_lt m) (hc h1))
  · rw [setAt_id mb _ 0 (hn h1)]
    exact hI.frame pos _ _ rfl rfl h

theorem playRelocate_agree {I : chessposition → (Nat → Nat) → Prop} (hI : AgreeKind I)
    (zb : zobrist) (pos : chessposition) (m : Nat) (mb : Nat → Nat) (h : I pos mb)
    (hf : mb (GETFROM m) = GETPIECE m) (hp : GETPIECE m ≠ BLANK) (hft : GETFROM m ≠ GETTO m)
    (ht : mb (GETTO m) = 0) (hpr : arrivingPiece m ≠ 0) :
    I (playRelocate zb pos m) (setAt (setAt mb (GETFROM m) 0) (GETTO m) (arrivingPiece m)) := by
  unfold playRelocate
  unfold arrivingPiece at hpr ⊢
  dsimp only
  split_ifs with h1
  · rw [if_pos h1] at hpr
    exact hI.frame (BitboardMove pos (GETFROM m) (GETTO m) (GETPIECE m)) _ _ rfl rfl
      (hI.move pos mb _ _ _ h hp (GETFROM_lt m) (GETTO_lt m) hft hf ht)
  · rw [if_neg h1] at hpr
    have a := hI.clear pos mb _ _ h hp (GETFROM_lt m) hf
    have b := hI.set _ _ (GETTO m) (GETPROMOTION m) a hpr (GETTO_lt m)
      (by rw [setAt_other _ _ _ _ (Ne.symm hft)]; exact ht)
    exact hI.frame (BitboardSet (BitboardClear pos (GETFROM m) (GETPIECE m)) (GETTO m)
      (GETPROMOTION m)) _ _ rfl rfl b

theorem playSpecials_agree {I : chessposition → (Nat → Nat) → Prop} (hI : AgreeKind I)
    (zb : zobrist) (pos : chessposition) (m s2m : Nat) (mb : Nat → Nat) (h : I pos mb)
    (he : epCond pos m → mb (epfieldOf m) = GETPIECE m ^^^ S2MMASK ∧ GETPIECE m ^^^ S2MMASK ≠ 0) :
    I (playSpecials zb pos m s2m) (if epCond pos m then setAt mb (epfieldOf m) 0 else mb) := by
  by_cases hep : epCond pos m
  · rw [if_pos hep]
    have hc := hI.clear pos mb _ _ h (he hep).2 (epfieldOf_lt m) (he hep).1
    obtain ⟨e1, e2, e3⟩ := hep
    unfold playSpecials
    dsimp only
    split_ifs <;>
      first
      | exact hI.frame (BitboardClear pos (epfieldOf m) (GETPIECE m ^^^ S2MMASK)) _ _ rfl rfl hc
      | (exfalso; tauto)
  · rw [if_neg hep]
    unfold playSpecials
    dsimp only
    split_ifs <;>
      first
      | exact hI.frame pos _ _ rfl rfl h
      | (exfalso; apply hep; unfold epCond; tauto)

theorem pawn_code (p : Nat) (h : p >>> 1 = PAWN) :
    (p = WPAWN ∧ p ^^^ S2MMASK = BPAWN) ∨ (p = BPAWN ∧ p ^^^ S2MMASK = WPAWN) := by
  unfold PAWN at h
  rw [Nat.shiftRight_eq_div_pow] at h
  have h2 : p = 2 ∨ p = 3 := by omega
  rcases h2 with h2 | h2 <;> subst h2
  · left; exact ⟨rfl, by decide⟩
  · right; exact ⟨rfl, by decide⟩

theorem pawn_code_other_ne (p : Nat) (h : p >>> 1 = PAWN) :
    p ^^^ S2MMASK ≠ 0 ∧ p ^^^ S2MMASK ≠ p := by
  rcases pawn_code p h with ⟨h1, h2⟩ | ⟨h1, h2⟩ <;> rw [h2, h1] <;> decide

/-- Under `moveOK`, `playMove` treats the move as an en-passant capture exactly
when its code carries the flag. -/
theorem epCond_iff_flag (pos : chessposition) (m : Nat) (hok : moveOK pos m) :
    epCond pos m ↔ GETEPCAPTURE m ≠ 0 := by
  obtain ⟨-, -, -, -, h5, h6, -, -⟩ := hok
  unfold epCond
  constructor
  · intro ⟨a, b, c⟩ hz
    exact (h5 hz).2 ⟨b, c, Or.inr a⟩
  · intro hz
    exact ⟨(h6 hz).1, (h6 hz).2.1, (h6 hz).2.2.1⟩

theorem moveOK_to_empty_or_capture (pos : chessposition) (m : Nat) (hok : moveOK pos m) :
    (GETCAPTURE m ≠ BLANK ∧ GETEPCAPTURE m = 0 → pos.mailbox (GETTO m) = GETCAPTURE m)
      ∧ (¬ (GETCAPTURE m ≠ BLANK ∧ GETEPCAPTURE m = 0) → pos.mailbox (GETTO m) = 0) := by
  obtain ⟨-, -, -, -, h5, h6, -, -⟩ := hok
  constructor
  · intro ⟨_, b⟩
    exact (h5 b).1
  · intro hn
    by_cases hz : GETEPCAPTURE m = 0
    · have hc : GETCAPTURE m = BLANK := by
        by_contra hc
        exact hn ⟨hc, hz⟩
      rw [(h5 hz).1, hc]; rfl
    · exact (h6 hz).2.2.2.1

theorem arrivingPiece_ne (pos : chessposition) (m : Nat) (hok : moveOK pos m) :
    arrivingPiece m ≠ 0 := by
  obtain ⟨-, h2, -, -, -, -, h7, -⟩ := hok
  unfold arrivingPiece
  split_ifs with h
  · exact h2
  · have := (h7 h).2.1
    unfold WKNIGHT at this
    omega

/-- The en-passant field differs from source and destination of a flagged move. -/
theorem epfield_ne (pos : chessposition) (m : Nat) (hok : moveOK pos m)
    (hz : GETEPCAPTURE m ≠ 0) : epfieldOf m ≠ GETFROM m ∧ epfieldOf m ≠ GETTO m := by
  obtain ⟨h1, -, -, -, -, h6, -, -⟩ := hok
  obtain ⟨a, -, -, d, -, f⟩ := h6 hz
  obtain ⟨n0, n1⟩ := pawn_code_other_ne _ a
  constructor
  · intro e
    rw [e, h1] at f
    exact n1 f.symm
  · intro e
    rw [e, d] at f
    exact n0 f.symm

theorem epCond_congr (p q : chessposition) (m : Nat) (h : p.ept = q.ept) :
    epCond p m ↔ epCond q m := by
  unfold epCond
  rw [h]

theorem playApply_mailbox (zb : zobrist) (pos : chessposition) (m : Nat) (hok : moveOK pos m) :
    (playApply zb pos m).mailbox = applyMailbox pos m := by
  unfold playApply applyMailbox
  rw [playSpecials_mailbox, playRelocate_mailbox, playCapture_mailbox]
  have hept : (playRelocate zb (playCapture zb pos m) m).ept = pos.ept :=
    ((playRelocate_control zb _ m).2.1).trans (playCapture_control zb pos m).2.1
  have hiff := (epCond_congr _ pos m hept).trans (epCond_iff_flag pos m hok)
  by_cases hz : GETEPCAPTURE m ≠ 0
  · rw [if_pos (hiff.mpr hz), if_pos hz]
  · rw [if_neg (fun h => hz (hiff.mp h)), if_neg hz]

/-- The board part of `playMove` keeps every agreement kind, for a move that is
consistent with the position. -/
theorem playApply_agree {I : chessposition → (Nat → Nat) → Prop} (hI : AgreeKind I)
    (zb : zobrist) (pos : chessposition) (m : Nat) (hok : moveOK pos m)
    (h : I pos pos.mailbox) : I (playApply zb pos m) (playApply zb pos m).mailbox := by
  have hok2 := hok
  obtain ⟨h1, h2, -, h4, -, h6, -, -⟩ := hok
  obtain ⟨hc, hn⟩ := moveOK_to_empty_or_capture pos m hok2
  have a1 := playCapture_agree hI zb pos m pos.mailbox h hc hn
  have a2 := playRelocate_agree hI zb (playCapture zb pos m) m _ a1
    (by rw [setAt_other _ _ _ _ h4]; exact h1) h2 h4 (setAt_same _ _ _)
    (arrivingPiece_ne pos m hok2)
  have hept : (playRelocate zb (playCapture zb pos m) m).ept = pos.ept :=
    ((playRelocate_control zb _ m).2.1).trans (playCapture_control zb pos m).2.1
  have hiff := (epCond_congr _ pos m hept).trans (epCond_iff_flag pos m hok2)
  have hvirt : setAt (setAt (setAt pos.mailbox (GETTO m) 0) (GETFROM m) 0) (GETTO m)
      (arrivingPiece m)
      = setAt (setAt pos.mailbox (GETTO m) (arrivingPiece m)) (GETFROM m) BLANK := by
    funext j
    unfold setAt BLANK
    split_ifs <;> first | rfl | (exfalso; omega)
  rw [hvirt] at a2
  have a3 := playSpecials_agree hI zb (playRelocate zb (playCapture zb pos m) m) m
    (pos.state &&& S2MMASK) _ a2 (by
      intro he
      have hz := hiff.mp he
      obtain ⟨ne1, ne2⟩ := epfield_ne pos m hok2 hz
      obtain ⟨a, -, -, -, -, f⟩ := h6 hz
      rw [setAt_other _ _ _ _ ne1, setAt_other _ _ _ _ ne2]
      exact ⟨f, (pawn_code_other_ne _ a).1⟩)
  have hm := playApply_mailbox zb pos m hok2
  rw [hm]
  unfold applyMailbox
  unfold playApply
  by_cases hz : GETEPCAPTURE m ≠ 0
  · rw [if_pos (hiff.mpr hz)] at a3
    rw [if_pos hz]
    exact a3
  · rw [if_neg (fun h => hz (hiff.mp h))] at a3
    rw [if_neg hz]
    exact a3

/-! ## Putting pieces back: rollback and unplayMove -/

theorem restoreCapture_mailbox (p : chessposition) (m : Nat) :
    (restoreCapture p m).mailbox
      = if GETCAPTURE m ≠ BLANK then
          if p.ept ≠ 0 ∧ GETTO m = p.ept then
            setAt (setAt p.mailbox (epfieldOf m) (GETCAPTURE m)) (GETTO m) BLANK
          else setAt p.mailbox (GETTO m) (GETCAPTURE m)
        else setAt p.mailbox (GETTO m) BLANK := by
  unfold restoreCapture epfieldOf
  dsimp only
  split_ifs <;> rfl

theorem restoreCapture_agree {I : chessposition → (Nat → Nat) → Prop} (hI : AgreeKind I)
    (p : chessposition) (m : Nat) (mb : Nat → Nat) (h : I p mb)
    (ht : mb (GETTO m) = 0)
    (hep : GETCAPTURE m ≠ BLANK → p.ept ≠ 0 ∧ GETTO m = p.ept → mb (epfieldOf m) = 0) :
    I (restoreCapture p m)
      (if GETCAPTURE m ≠ BLANK then
        if p.ept ≠ 0 ∧ GETTO m = p.ept then setAt mb (epfieldOf m) (GETCAPTURE m)
        else setAt mb (GETTO m) (GETCAPTURE m)
      else mb) := by
  unfold restoreCapture
  unfold epfieldOf at hep ⊢
  dsimp only
  split_ifs with c1 c2
  · exact hI.reframe (hI.set p mb _ _ h c1 (epfieldOf_lt m) (hep c1 c2)) rfl rfl
  · exact hI.reframe (hI.set p mb _ _ h c1 (GETTO_lt m) ht) rfl rfl
  · exact hI.reframe h rfl rfl

theorem rollbackPiece_mailbox (p : chessposition) (m s2m : Nat) :
    (rollbackPiece p m s2m).mailbox = setAt p.mailbox (GETFROM m) (GETPIECE m) := by
  unfold rollbackPiece
  dsimp only
  split_ifs <;> rfl

theorem rollbackPiece_agree {I : chessposition → (Nat → Nat) → Prop} (hI : AgreeKind I)
    (p : chessposition) (m s2m : Nat) (mb : Nat → Nat) (h : I p mb)
    (hft : GETFROM m ≠ GETTO m) (hp : GETPIECE m ≠ BLANK) (hX : arrivingPiece m ≠ 0)
    (hmt : mb (GETTO m) = arrivingPiece m) (hmf : mb (GETFROM m) = 0)
    (hact : p.mailbox (GETTO m) = arrivingPiece m) :
    I (rollbackPiece p m s2m) (setAt (setAt mb (GETTO m) 0) (GETFROM m) (GETPIECE m)) := by
  unfold rollbackPiece
  dsimp only
  split_ifs with hpr
  · have hx : arrivingPiece m = GETPROMOTION m := by
      unfold arrivingPiece; rw [if_neg hpr]
    rw [setAt_other _ _ _ _ (Ne.symm hft), hact]
    have a := hI.clear p mb (GETTO m) (arrivingPiece m) h hX (GETTO_lt m) hmt
    have b := hI.set _ _ (GETFROM m) (GETPIECE m) a hp (GETFROM_lt m)
      (by rw [setAt_other _ _ _ _ hft]; exact hmf)
    exact hI.reframe b rfl rfl
  · have hx : arrivingPiece m = GETPIECE m := by
      unfold arrivingPiece
      rw [if_pos (by simpa using hpr)]
    rw [hx] at hmt
    exact hI.reframe (hI.move p mb (GETTO m) (GETFROM m) (GETPIECE m) h hp (GETTO_lt m)
      (GETFROM_lt m) (Ne.symm hft) hmt hmf) rfl rfl

/-- Facts about a flagged (en-passant) move that is consistent with the position. -/
theorem moveOK_flag (pos : chessposition) (m : Nat) (hok : moveOK pos m)
    (hz : GETEPCAPTURE m ≠ 0) :
    GETCAPTURE m ≠ BLANK ∧ pos.ept ≠ 0 ∧ GETTO m = pos.ept ∧ pos.mailbox (GETTO m) = 0
      ∧ pos.mailbox (epfieldOf m) = GETCAPTURE m ∧ epfieldOf m ≠ GETFROM m
      ∧ epfieldOf m ≠ GETTO m := by
  obtain ⟨ne1, ne2⟩ := epfield_ne pos m hok hz
  obtain ⟨-, -, -, -, -, h6, -, -⟩ := hok
  obtain ⟨a, b, c, d, e, f⟩ := h6 hz
  refine ⟨?_, b, c, d, ?_, ne1, ne2⟩
  · rw [e]; exact (pawn_code_other_ne _ a).1
  · rw [f, e]

/-- Facts about an unflagged move that is consistent with the position. -/
theorem moveOK_noflag (pos : chessposition) (m : Nat) (hok : moveOK pos m)
    (hz : GETEPCAPTURE m = 0) :
    pos.mailbox (GETTO m) = GETCAPTURE m
      ∧ (GETCAPTURE m ≠ BLANK → ¬ (pos.ept ≠ 0 ∧ GETTO m = pos.ept)) := by
  obtain ⟨-, -, -, -, h5, -, -, -⟩ := hok
  obtain ⟨a, b⟩ := h5 hz
  exact ⟨a, fun hc he => b ⟨he.1, he.2, Or.inl hc⟩⟩

/-- Putting the moved piece and the captured piece back on the mailbox that the
board part of `playMove` left gives the mailbox before the move (the mailbox
that the bitboards are traced against). -/
theorem restore_virtual (pos : chessposition) (m : Nat) (hok : moveOK pos m) :
    (if GETCAPTURE m ≠ BLANK then
      if pos.ept ≠ 0 ∧ GETTO m = pos.ept then
        setAt (setAt (setAt (applyMailbox pos m) (GETTO m) 0) (GETFROM m) (GETPIECE m))
          (epfieldOf m) (GETCAPTURE m)
      else setAt (setAt (setAt (applyMailbox pos m) (GETTO m) 0) (GETFROM m) (GETPIECE m))
        (GETTO m) (GETCAPTURE m)
    else setAt (setAt (applyMailbox pos m) (GETTO m) 0) (GETFROM m) (GETPIECE m))
      = pos.mailbox := by
  have h1 := hok.1
  have h4 := hok.2.2.2.1
  by_cases hz : GETEPCAPTURE m = 0
  · obtain ⟨a, b⟩ := moveOK_noflag pos m hok hz
    unfold applyMailbox
    rw [if_neg (show ¬ GETEPCAPTURE m ≠ 0 from not_not.mpr hz)]
    by_cases hc : GETCAPTURE m ≠ BLANK
    · rw [if_pos hc, if_neg (b hc)]
      funext j
      unfold BLANK at *
      by_cases e1 : j = GETTO m <;> by_cases e2 : j = GETFROM m <;> simp_all [setAt]
    · rw [if_neg hc]
      funext j
      unfold BLANK at *
      by_cases e1 : j = GETTO m <;> by_cases e2 : j = GETFROM m <;> simp_all [setAt]
  · obtain ⟨a, b, c, d, e, f, g⟩ := moveOK_flag pos m hok hz
    unfold applyMailbox
    rw [if_pos hz, if_pos a, if_pos ⟨b, c⟩]
    funext j
    unfold BLANK at *
    by_cases e1 : j = GETTO m <;> by_cases e2 : j = GETFROM m <;>
      by_cases e3 : j = epfieldOf m <;> simp_all [setAt]

/-- The same for the mailbox array itself, following the writes of lines 510 and
520-538 (or 620-647). -/
theorem restore_actual (pos : chessposition) (m : Nat) (hok : moveOK pos m) :
    (if GETCAPTURE m ≠ BLANK then
      if pos.ept ≠ 0 ∧ GETTO m = pos.ept then
        setAt (setAt (setAt (applyMailbox pos m) (GETFROM m) (GETPIECE m)) (epfieldOf m)
          (GETCAPTURE m)) (GETTO m) BLANK
      else setAt (setAt (applyMailbox pos m) (GETFROM m) (GETPIECE m)) (GETTO m) (GETCAPTURE m)
    else setAt (setAt (applyMailbox pos m) (GETFROM m) (GETPIECE m)) (GETTO m) BLANK)
      = pos.mailbox := by
  have h1 := hok.1
  have h4 := hok.2.2.2.1
  by_cases hz : GETEPCAPTURE m = 0
  · obtain ⟨a, b⟩ := moveOK_noflag pos m hok hz
    unfold applyMailbox
    rw [if_neg (show ¬ GETEPCAPTURE m ≠ 0 from not_not.mpr hz)]
    by_cases hc : GETCAPTURE m ≠ BLANK
    · rw [if_pos hc, if_neg (b hc)]
      funext j
      unfold BLANK at *
      by_cases e1 : j = GETTO m <;> by_cases e2 : j = GETFROM m <;> simp_all [setAt]
    · rw [if_neg hc]
      funext j
      unfold BLANK at *
      by_cases e1 : j = GETTO m <;> by_cases e2 : j = GETFROM m <;> simp_all [setAt]
  · obtain ⟨a, b, c, d, e, f, g⟩ := moveOK_flag pos m hok hz
    unfold applyMailbox
    rw [if_pos hz, if_pos a, if_pos ⟨b, c⟩]
    funext j
    unfold BLANK at *
    by_cases e1 : j = GETTO m <;> by_cases e2 : j = GETFROM m <;>
      by_cases e3 : j = epfieldOf m <;> simp_all [setAt]

theorem pieceAgree_unique (pc pc2 mb : Nat → Nat) (h : pieceAgree pc mb)
    (h2 : pieceAgree pc2 mb) (p : Nat) (hp : p ≠ 0) : pc p = pc2 p := by
  apply Nat.eq_of_testBit_eq
  intro i
  have a := h p i hp
  have b := h2 p i hp
  cases h1 : (pc p).testBit i <;> cases h3 : (pc2 p).testBit i <;> simp_all

theorem occAgree_unique (oc oc2 mb : Nat → Nat) (h : occAgree oc mb)
    (h2 : occAgree oc2 mb) (c : Nat) (hc : c < 2) : oc c = oc2 c := by
  apply Nat.eq_of_testBit_eq
  intro i
  have a := h c i hc
  have b := h2 c i hc
  cases h1 : (oc c).testBit i <;> cases h3 : (oc2 c).testBit i <;> simp_all

theorem fullKind (pos0 : chessposition) : AgreeKind (fullAgree pos0) :=
  (pieceKind.both occKind).both (spareKind _ _)

theorem fullAgree_self (pos : chessposition) (h : boardAgree pos) :
    fullAgree pos pos pos.mailbox :=
  ⟨h, rfl, fun _ _ => rfl⟩

/-- Two positions whose bitboards agree with the same mailbox have the same
bitboards. -/
theorem fullAgree_boards (pos p : chessposition) (h0 : boardAgree pos)
    (h : fullAgree pos p pos.mailbox) :
    p.piece00 = pos.piece00 ∧ p.occupied00 = pos.occupied00 := by
  obtain ⟨⟨h1, h2⟩, h3, h4⟩ := h
  constructor
  · funext q
    by_cases hq : q = 0
    · rw [hq]; exact h3
    · exact pieceAgree_unique _ _ _ h1 h0.1 q hq
  · funext c
    by_cases hc : c < 2
    · exact occAgree_unique _ _ _ h2 h0.2 c hc
    · exact h4 c (by omega)

theorem playCapture_kingpos (zb : zobrist) (pos : chessposition) (m : Nat) :
    (playCapture zb pos m).kingpos = pos.kingpos := by
  unfold playCapture
  dsimp only
  split_ifs <;> rfl

theorem playRelocate_kingpos (zb : zobrist) (pos : chessposition) (m : Nat) :
    (playRelocate zb pos m).kingpos = pos.kingpos := by
  unfold playRelocate
  dsimp only
  split_ifs <;> rfl

theorem playSpecials_kingpos (zb : zobrist) (pos : chessposition) (m s2m : Nat) :
    (playSpecials zb pos m s2m).kingpos
      = if GETPIECE m >>> 1 = KING then setAt pos.kingpos s2m (GETTO m) else pos.kingpos := by
  unfold playSpecials
  dsimp only
  split_ifs <;> rfl

theorem playApply_kingpos (zb : zobrist) (pos : chessposition) (m : Nat) :
    (playApply zb pos m).kingpos
      = if GETPIECE m >>> 1 = KING then setAt pos.kingpos (pos.state &&& S2MMASK) (GETTO m)
        else pos.kingpos := by
  unfold playApply
  rw [playSpecials_kingpos, playRelocate_kingpos, playCapture_kingpos]

/-- Values of the mailbox after the board part of `playMove`. -/
theorem applyMailbox_values (pos : chessposition) (m : Nat) (hok : moveOK pos m) :
    applyMailbox pos m (GETTO m) = arrivingPiece m ∧ applyMailbox pos m (GETFROM m) = 0
      ∧ (GETEPCAPTURE m ≠ 0 → applyMailbox pos m (epfieldOf m) = 0) := by
  have h4 := hok.2.2.2.1
  unfold applyMailbox
  by_cases hz : GETEPCAPTURE m ≠ 0
  · obtain ⟨-, -, -, -, -, f, g⟩ := moveOK_flag pos m hok hz
    rw [if_pos hz]
    unfold BLANK
    refine ⟨?_, ?_, fun _ => ?_⟩
    · rw [setAt_other _ _ _ _ (Ne.symm g), setAt_other _ _ _ _ (Ne.symm h4), setAt_same]
    · rw [setAt_other _ _ _ _ (Ne.symm f), setAt_same]
    · rw [setAt_same]
  · rw [if_neg hz]
    unfold BLANK
    refine ⟨?_, ?_, fun h => absurd h hz⟩
    · rw [setAt_other _ _ _ _ (Ne.symm h4), setAt_same]
    · rw [setAt_same]

/-- The rollback of `playMove` gives back the mailbox from before the call, and
bitboards that agree with it, for every agreement kind and a move that is
consistent with the position. -/
theorem playRollback_restores {I : chessposition → (Nat → Nat) → Prop} (hI : AgreeKind I)
    (zb : zobrist) (pos : chessposition) (m s2m : Nat) (hok : moveOK pos m)
    (h : I pos pos.mailbox) :
    I (playRollback (playApply zb pos m) m s2m) pos.mailbox
      ∧ (playRollback (playApply zb pos m) m s2m).mailbox = pos.mailbox := by
  have hA := playApply_agree hI zb pos m hok h
  have hmA := playApply_mailbox zb pos m hok
  rw [hmA] at hA
  obtain ⟨v1, v2, v3⟩ := applyMailbox_values pos m hok
  have hept : (playApply zb pos m).ept = pos.ept := (playApply_control zb pos m).2.1
  have hept2 : (rollbackPiece (playApply zb pos m) m s2m).ept = pos.ept :=
    ((rollbackPiece_control _ m s2m).2.1).trans hept
  have hR1 := rollbackPiece_agree hI (playApply zb pos m) m s2m _ hA hok.2.2.2.1 hok.2.1
    (arrivingPiece_ne pos m hok) v1 v2 (by rw [hmA]; exact v1)
  have hflag : GETCAPTURE m ≠ BLANK → pos.ept ≠ 0 ∧ GETTO m = pos.ept → GETEPCAPTURE m ≠ 0 := by
    intro hc he hz
    exact (moveOK_noflag pos m hok hz).2 hc he
  have hR2 := restoreCapture_agree hI _ m _ hR1
    (by rw [setAt_other _ _ _ _ (Ne.symm hok.2.2.2.1), setAt_same])
    (by
      rw [hept2]
      intro hc he
      have hz := hflag hc he
      obtain ⟨-, -, -, -, -, f, g⟩ := moveOK_flag pos m hok hz
      rw [setAt_other _ _ _ _ f, setAt_other _ _ _ _ g]
      exact v3 hz)
  rw [hept2, restore_virtual pos m hok] at hR2
  have hmail : (playRollback (playApply zb pos m) m s2m).mailbox = pos.mailbox := by
    unfold playRollback
    rw [restoreCapture_mailbox, rollbackPiece_mailbox, hept2, hmA]
    exact restore_actual pos m hok
  exact ⟨hR2, hmail⟩

/-- The rollback of `playMove` gives back mailbox and bitboards. -/
theorem playRollback_boards (zb : zobrist) (pos : chessposition) (m s2m : Nat)
    (hagree : boardAgree pos) (hok : moveOK pos m) :
    (playRollback (playApply zb pos m) m s2m).mailbox = pos.mailbox
      ∧ (playRollback (playApply zb pos m) m s2m).piece00 = pos.piece00
      ∧ (playRollback (playApply zb pos m) m s2m).occupied00 = pos.occupied00 := by
  obtain ⟨hR, hmail⟩ := playRollback_restores (fullKind pos) zb pos m s2m hok
    (fullAgree_self pos hagree)
  obtain ⟨b1, b2⟩ := fullAgree_boards pos (playRollback (playApply zb pos m) m s2m) hagree hR
  exact ⟨hmail, b1, b2⟩

theorem restoreCapture_scalars (p : chessposition) (m : Nat) :
    (restoreCapture p m).kingpos = p.kingpos ∧ (restoreCapture p m).hash = p.hash
      ∧ (restoreCapture p m).pawnhash = p.pawnhash
      ∧ (restoreCapture p m).materialhash = p.materialhash
      ∧ (restoreCapture p m).halfmovescounter = p.halfmovescounter := by
  unfold restoreCapture
  dsimp only
  split_ifs <;> exact ⟨rfl, rfl, rfl, rfl, rfl⟩

theorem rollbackPiece_scalars (p : chessposition) (m s2m : Nat) :
    (rollbackPiece p m s2m).kingpos = setAt p.kingpos s2m ((p.movestack p.mstop).kingpos s2m)
      ∧ (rollbackPiece p m s2m).hash = (p.movestack p.mstop).hash
      ∧ (rollbackPiece p m s2m).pawnhash = (p.movestack p.mstop).pawnhash
      ∧ (rollbackPiece p m s2m).materialhash = (p.movestack p.mstop).materialhash
      ∧ (rollbackPiece p m s2m).halfmovescounter = (p.movestack p.mstop).halfmovescounter := by
  unfold rollbackPiece
  dsimp only
  split_ifs <;> exact ⟨rfl, rfl, rfl, rfl, rfl⟩

/-- A call of `playMove` that returns false leaves the position as it was, for a
position whose mailbox and bitboards agree, whose top history slot holds its
snapshot, and a move code consistent with the position. -/
theorem playMove_false_same (zb : zobrist) (pos : chessposition) (m : Nat)
    (hagree : boardAgree pos) (htop : topIsSnapshot pos) (hok : moveOK pos m)
    (hfalse : (playMove zb pos m).1 = false) : (playMove zb pos m).2 = pos := by
  cases hatt : isAttacked (playApply zb pos m)
      ((playApply zb pos m).kingpos (pos.state &&& S2MMASK))
  · rw [playMove_of_safe zb pos m hatt] at hfalse
    exact absurd hfalse (by simp)
  · rw [playMove_of_attacked zb pos m hatt]
    show playRollback (playApply zb pos m) m (pos.state &&& S2MMASK) = pos
    obtain ⟨b1, b2, b3⟩ := playRollback_boards zb pos m (pos.state &&& S2MMASK) hagree hok
    obtain ⟨c1, c2, c3, c4, c5, c6, c7, c8, c9⟩ :=
      sameControl_trans (playRollback_control (playApply zb pos m) m (pos.state &&& S2MMASK))
        (playApply_control zb pos m)
    obtain ⟨a1, a2, a3, a4, a5, a6, a7, a8, a9⟩ := playApply_control zb pos m
    obtain ⟨r1, r2, r3, r4, r5⟩ :=
      restoreCapture_scalars (rollbackPiece (playApply zb pos m) m (pos.state &&& S2MMASK)) m
    obtain ⟨q1, q2, q3, q4, q5⟩ :=
      rollbackPiece_scalars (playApply zb pos m) m (pos.state &&& S2MMASK)
    obtain ⟨t1, t2, t3, t4, t5, t6, t7, t8, t9⟩ := htop
    have htopA : (playApply zb pos m).movestack (playApply zb pos m).mstop
        = pos.movestack pos.mstop := by rw [a3, a4]
    apply chessposition.ext
    · exact b2
    · exact b3
    · exact b1
    · exact c1
    · exact c2
    · show (restoreCapture _ m).kingpos = _
      rw [r1, q1, htopA, t3, playApply_kingpos]
      split_ifs
      · rw [setAt_setAt]
        exact setAt_id _ _ _ rfl
      · exact setAt_id _ _ _ rfl
    · show (restoreCapture _ m).hash = _
      rw [r2, q2, htopA, t4]
    · show (restoreCapture _ m).pawnhash = _
      rw [r3, q3, htopA, t5]
    · show (restoreCapture _ m).materialhash = _
      rw [r4, q4, htopA, t6]
    · show (restoreCapture _ m).halfmovescounter = _
      rw [r5, q5, htopA, t7]
    · exact c8
    · exact c9
    · exact c3
    · exact c4
    · exact c5
    · exact c6
    · exact c7

/-- The amended C4: for a position whose mailbox and bitboards agree and whose
top history slot holds its snapshot, and a move code that is consistent with the
position (`moveOK`), a call of `playMove` that returns false leaves the position
exactly as it was, in every field. -/
theorem playMove_false_restores (zb : zobrist) (pos : chessposition) (m : Nat)
    (hagree : boardAgree pos) (htop : topIsSnapshot pos) (hok : moveOK pos m)
    (hfalse : (playMove zb pos m).1 = false) : (playMove zb pos m).2 = pos :=
  playMove_false_same zb pos m hagree htop hok hfalse

/-! ## Commit and unplayMove -/

theorem playCastle_mailbox (zb : zobrist) (p : chessposition) (m s2m : Nat) :
    (playCastle zb p m s2m).mailbox
      = if castleCond m then
          setAt (setAt p.mailbox (rookToOf m) (WROOK ||| s2m)) (rookFromOf m) BLANK
        else p.mailbox := by
  unfold playCastle castleCond rookToOf rookFromOf
  dsimp only
  split_ifs <;> first | rfl | (exfalso; tauto)

theorem playCastle_agree {I : chessposition → (Nat → Nat) → Prop} (hI : AgreeKind I)
    (zb : zobrist) (p : chessposition) (m s2m : Nat) (mb : Nat → Nat) (h : I p mb)
    (hc : castleCond m → mb (rookFromOf m) = WROOK ||| s2m ∧ mb (rookToOf m) = 0
      ∧ rookFromOf m ≠ rookToOf m ∧ WROOK ||| s2m ≠ 0) :
    I (playCastle zb p m s2m)
      (if castleCond m then setAt (setAt mb (rookFromOf m) 0) (rookToOf m) (WROOK ||| s2m)
       else mb) := by
  by_cases hcc : castleCond m
  · obtain ⟨c1, c2, c3, c4⟩ := hc hcc
    rw [if_pos hcc]
    have hmv := hI.move p mb (rookFromOf m) (rookToOf m) (WROOK ||| s2m) h c4
      (castlerook_lt _).1 (castlerook_lt _).2 c3 c1 c2
    obtain ⟨k1, k2⟩ := hcc
    unfold playCastle
    unfold rookFromOf rookToOf at hmv
    dsimp only
    rw [if_pos k1, if_pos k2]
    exact hI.reframe hmv rfl rfl
  · rw [if_neg hcc]
    unfold playCastle
    dsimp only
    split_ifs <;>
      first
      | exact hI.reframe h rfl rfl
      | (exfalso; apply hcc; unfold castleCond; tauto)

theorem playFinish_boards (zb : zobrist) (p : chessposition) (m s2m oc : Nat) :
    (playFinish zb p m s2m oc).piece00 = p.piece00
      ∧ (playFinish zb p m s2m oc).occupied00 = p.occupied00
      ∧ (playFinish zb p m s2m oc).mailbox = p.mailbox := ⟨rfl, rfl, rfl⟩

theorem unplayPiece_mailbox (p : chessposition) (m pto : Nat) :
    (unplayPiece p m pto).mailbox
      = setAt p.mailbox (GETFROM m)
          (if GETPROMOTION m ≠ BLANK then WPAWN ||| (p.state &&& S2MMASK) else pto) := by
  unfold unplayPiece
  dsimp only
  split_ifs <;> rfl

theorem unplayPiece_agree {I : chessposition → (Nat → Nat) → Prop} (hI : AgreeKind I)
    (p : chessposition) (m pto : Nat) (mb : Nat → Nat) (h : I p mb)
    (hft : GETFROM m ≠ GETTO m) (hpto : pto ≠ 0) (hmt : mb (GETTO m) = pto)
    (hmf : mb (GETFROM m) = 0) (hpawn : WPAWN ||| (p.state &&& S2MMASK) ≠ 0) :
    I (unplayPiece p m pto)
      (setAt (setAt mb (GETTO m) 0) (GETFROM m)
        (if GETPROMOTION m ≠ BLANK then WPAWN ||| (p.state &&& S2MMASK) else pto)) := by
  unfold unplayPiece
  dsimp only
  split_ifs with hpr
  · have a := hI.clear p mb (GETTO m) pto h hpto (GETTO_lt m) hmt
    have b := hI.set _ _ (GETFROM m) (WPAWN ||| (p.state &&& S2MMASK)) a hpawn (GETFROM_lt m)
      (by rw [setAt_other _ _ _ _ hft]; exact hmf)
    exact hI.reframe b rfl rfl
  · exact hI.reframe (hI.move p mb (GETTO m) (GETFROM m) pto h hpto (GETTO_lt m)
      (GETFROM_lt m) (Ne.symm hft) hmt hmf) rfl rfl

theorem unplayCastle_mailbox (p : chessposition) (m pto : Nat) :
    (unplayCastle p m pto).mailbox
      = if pto >>> 1 = KING ∧ castleindex (GETFROM m) (GETTO m) ≠ 0 then
          setAt (setAt p.mailbox (rookFromOf m) (WROOK ||| (p.state &&& S2MMASK)))
            (rookToOf m) BLANK
        else p.mailbox := by
  unfold unplayCastle rookToOf rookFromOf
  dsimp only
  split_ifs <;> first | rfl | (exfalso; tauto)

theorem unplayCastle_agree {I : chessposition → (Nat → Nat) → Prop} (hI : AgreeKind I)
    (p : chessposition) (m pto : Nat) (mb : Nat → Nat) (h : I p mb)
    (hc : pto >>> 1 = KING ∧ castleindex (GETFROM m) (GETTO m) ≠ 0 →
      mb (rookToOf m) = WROOK ||| (p.state &&& S2MMASK) ∧ mb (rookFromOf m) = 0
        ∧ rookFromOf m ≠ rookToOf m ∧ WROOK ||| (p.state &&& S2MMASK) ≠ 0) :
    I (unplayCastle p m pto)
      (if pto >>> 1 = KING ∧ castleindex (GETFROM m) (GETTO m) ≠ 0 then
        setAt (setAt mb (rookToOf m) 0) (rookFromOf m) (WROOK ||| (p.state &&& S2MMASK))
       else mb) := by
  by_cases hcc : pto >>> 1 = KING ∧ castleindex (GETFROM m) (GETTO m) ≠ 0
  · obtain ⟨c1, c2, c3, c4⟩ := hc hcc
    rw [if_pos hcc]
    have hmv := hI.move p mb (rookToOf m) (rookFromOf m) _ h c4
      (castlerook_lt _).2 (castlerook_lt _).1 (Ne.symm c3) c1 c2
    obtain ⟨k1, k2⟩ := hcc
    unfold unplayCastle
    unfold rookFromOf rookToOf at hmv
    dsimp only
    rw [if_pos k1, if_pos k2]
    exact hI.reframe hmv rfl rfl
  · rw [if_neg hcc]
    unfold unplayCastle
    dsimp only
    split_ifs <;>
      first
      | exact hI.reframe h rfl rfl
      | (exfalso; apply hcc; tauto)

/-- The four castling moves and their rook squares. -/
theorem castle_cases (m : Nat) (h : castleindex (GETFROM m) (GETTO m) ≠ 0) :
    (GETFROM m = 4 ∧ GETTO m = 2 ∧ rookFromOf m = 0 ∧ rookToOf m = 3)
      ∨ (GETFROM m = 4 ∧ GETTO m = 6 ∧ rookFromOf m = 7 ∧ rookToOf m = 5)
      ∨ (GETFROM m = 60 ∧ GETTO m = 58 ∧ rookFromOf m = 56 ∧ rookToOf m = 59)
      ∨ (GETFROM m = 60 ∧ GETTO m = 62 ∧ rookFromOf m = 63 ∧ rookToOf m = 61) := by
  unfold rookFromOf rookToOf
  unfold castleindex at h ⊢
  split_ifs at h ⊢ with h1 h2 h3 h4
  · left; exact ⟨h1.1, h1.2, rfl, rfl⟩
  · right; left; exact ⟨h2.1, h2.2, rfl, rfl⟩
  · right; right; left; exact ⟨h3.1, h3.2, rfl, rfl⟩
  · right; right; right; exact ⟨h4.1, h4.2, rfl, rfl⟩
  · exact absurd rfl h

theorem king_not_pawn (p : Nat) (h : p >>> 1 = KING) : ¬ p >>> 1 = PAWN := by
  rw [h]; decide

/-- A castling move carries no en-passant flag and no promotion. -/
theorem castle_plain (pos : chessposition) (m : Nat) (hok : moveOK pos m) (hc : castleCond m) :
    GETEPCAPTURE m = 0 ∧ GETPROMOTION m = BLANK := by
  obtain ⟨-, -, -, -, -, h6, h7, -⟩ := hok
  constructor
  · by_contra hz
    exact king_not_pawn _ hc.1 (h6 hz).1
  · by_contra hz
    exact king_not_pawn _ hc.1 (h7 hz).1

theorem wrook_or_ne (s : Nat) : WROOK ||| s ≠ 0 := by
  intro h
  have := Nat.eq_of_testBit_eq (x := WROOK ||| s) (y := 0) (by rw [h]; intro i; rfl)
  have h3 : (WROOK ||| s).testBit 3 = true := by
    rw [Nat.testBit_or]
    have : WROOK.testBit 3 = true := by decide
    rw [this]; rfl
  rw [h] at h3
  simp at h3

/-- What `moveOK` says about the rook of a castling move, on the mailbox after
the board part of `playMove`. -/
theorem castle_rook_ready (pos : chessposition) (m : Nat) (hok : moveOK pos m)
    (hc : castleCond m) :
    applyMailbox pos m (rookFromOf m) = WROOK ||| (pos.state &&& S2MMASK)
      ∧ applyMailbox pos m (rookToOf m) = 0 ∧ rookFromOf m ≠ rookToOf m
      ∧ WROOK ||| (pos.state &&& S2MMASK) ≠ 0 := by
  have hz := (castle_plain pos m hok hc).1
  obtain ⟨-, -, -, -, -, -, -, h8⟩ := hok
  obtain ⟨r1, r2⟩ := h8 hc.1 hc.2
  have r1' : pos.mailbox (rookFromOf m) = WROOK ||| (pos.state &&& S2MMASK) := r1
  have r2' : pos.mailbox (rookToOf m) = 0 := r2
  unfold applyMailbox
  rw [if_neg (show ¬ GETEPCAPTURE m ≠ 0 from not_not.mpr hz)]
  refine ⟨?_, ?_, ?_, wrook_or_ne _⟩
  · rcases castle_cases m hc.2 with ⟨a, b, c, d⟩ | ⟨a, b, c, d⟩ | ⟨a, b, c, d⟩ | ⟨a, b, c, d⟩ <;>
      rw [← r1', a, b, c] <;> simp [setAt]
  · rcases castle_cases m hc.2 with ⟨a, b, c, d⟩ | ⟨a, b, c, d⟩ | ⟨a, b, c, d⟩ | ⟨a, b, c, d⟩ <;>
      rw [← r2', a, b, d] <;> simp [setAt]
  · rcases castle_cases m hc.2 with ⟨a, b, c, d⟩ | ⟨a, b, c, d⟩ | ⟨a, b, c, d⟩ | ⟨a, b, c, d⟩ <;>
      rw [c, d] <;> decide

theorem playCommit_mailbox (zb : zobrist) (pos : chessposition) (m : Nat) (hok : moveOK pos m) :
    (playCommit zb (playApply zb pos m) m (pos.state &&& S2MMASK)).mailbox
      = commitMailbox pos m := by
  unfold playCommit commitMailbox
  rw [(playFinish_boards _ _ _ _ _).2.2, playCastle_mailbox, playApply_mailbox zb pos m hok]

/-- The bitboards after a successful `playMove` agree with its mailbox, for
every agreement kind and a move that is consistent with the position. -/
theorem playCommit_agree {I : chessposition → (Nat → Nat) → Prop} (hI : AgreeKind I)
    (zb : zobrist) (pos : chessposition) (m : Nat) (hok : moveOK pos m)
    (h : I pos pos.mailbox) :
    I (playCommit zb (playApply zb pos m) m (pos.state &&& S2MMASK)) (commitMailbox pos m) := by
  have hA := playApply_agree hI zb pos m hok h
  rw [playApply_mailbox zb pos m hok] at hA
  have hC := playCastle_agree hI zb (playApply zb pos m) m (pos.state &&& S2MMASK) _ hA
    (castle_rook_ready pos m hok)
  have hvirt : (if castleCond m then
        setAt (setAt (applyMailbox pos m) (rookFromOf m) 0) (rookToOf m)
          (WROOK ||| (pos.state &&& S2MMASK))
      else applyMailbox pos m) = commitMailbox pos m := by
    unfold commitMailbox
    by_cases hc : castleCond m
    · rw [if_pos hc, if_pos hc]
      have hne := (castle_rook_ready pos m hok hc).2.2.1
      funext j
      unfold BLANK
      by_cases e1 : j = rookFromOf m <;> by_cases e2 : j = rookToOf m <;> simp_all [setAt]
    · rw [if_neg hc, if_neg hc]
  rw [hvirt] at hC
  unfold playCommit
  exact hI.reframe hC rfl rfl

theorem removePosition_addPosition (rp : Nat → Int) (h : Nat) :
    removePosition (addPosition rp h) h = rp := by
  funext k
  unfold removePosition addPosition
  split_ifs <;> omega

theorem playCastle_frame (zb : zobrist) (p : chessposition) (m s2m : Nat) :
    (playCastle zb p m s2m).movestack = p.movestack ∧ (playCastle zb p m s2m).mstop = p.mstop
      ∧ (playCastle zb p m s2m).ply = p.ply ∧ (playCastle zb p m s2m).rp = p.rp
      ∧ (playCastle zb p m s2m).rootheight = p.rootheight := by
  unfold playCastle
  dsimp only
  split_ifs <;> exact ⟨rfl, rfl, rfl, rfl, rfl⟩

/-- After a successful `playMove`, lines 609-615 of `unplayMove` give back every
field of the block `state .. isCheckbb`, ply, history depth and repetition table,
provided the top history slot held the snapshot of the position. -/
theorem unplayRestore_commit (zb : zobrist) (pos : chessposition) (m : Nat)
    (htop : topIsSnapshot pos) :
    (unplayRestore (playCommit zb (playApply zb pos m) m (pos.state &&& S2MMASK))).state
        = pos.state
      ∧ (unplayRestore (playCommit zb (playApply zb pos m) m (pos.state &&& S2MMASK))).ept
        = pos.ept
      ∧ (unplayRestore (playCommit zb (playApply zb pos m) m (pos.state &&& S2MMASK))).kingpos
        = pos.kingpos
      ∧ (unplayRestore (playCommit zb (playApply zb pos m) m (pos.state &&& S2MMASK))).hash
        = pos.hash
      ∧ (unplayRestore (playCommit zb (playApply zb pos m) m (pos.state &&& S2MMASK))).pawnhash
        = pos.pawnhash
      ∧ (unplayRestore (playCommit zb (playApply zb pos m) m
          (pos.state &&& S2MMASK))).materialhash = pos.materialhash
      ∧ (unplayRestore (playCommit zb (playApply zb pos m) m
          (pos.state &&& S2MMASK))).halfmovescounter = pos.halfmovescounter
      ∧ (unplayRestore (playCommit zb (playApply zb pos m) m
          (pos.state &&& S2MMASK))).fullmovescounter = pos.fullmovescounter
      ∧ (unplayRestore (playCommit zb (playApply zb pos m) m
          (pos.state &&& S2MMASK))).isCheckbb = pos.isCheckbb
      ∧ (unplayRestore (playCommit zb (playApply zb pos m) m (pos.state &&& S2MMASK))).ply
        = pos.ply
      ∧ (unplayRestore (playCommit zb (playApply zb pos m) m (pos.state &&& S2MMASK))).mstop
        = pos.mstop
      ∧ (unplayRestore (playCommit zb (playApply zb pos m) m (pos.state &&& S2MMASK))).rp
        = pos.rp
      ∧ (unplayRestore (playCommit zb (playApply zb pos m) m
          (pos.state &&& S2MMASK))).rootheight = pos.rootheight := by
  obtain ⟨-, -, a3, a4, a5, a6, a7, -, -⟩ := playApply_control zb pos m
  obtain ⟨k1, k2, k3, k4, k5⟩ :=
    playCastle_frame zb (playApply zb pos m) m (pos.state &&& S2MMASK)
  obtain ⟨t1, t2, t3, t4, t5, t6, t7, t8, t9⟩ := htop
  have hslot : ∀ {α : Type} (f : chessmovestack → α),
      (∀ (s : chessmovestack) (c : Nat), f { s with movecode := c } = f s) →
      f ((playCommit zb (playApply zb pos m) m (pos.state &&& S2MMASK)).movestack
          ((playCommit zb (playApply zb pos m) m (pos.state &&& S2MMASK)).mstop - 1))
        = f (pos.movestack pos.mstop) := by
    intro α f hf
    unfold playCommit playFinish
    dsimp only
    rw [k1, k2, a3, a4]
    have : pos.mstop + 1 - 1 = pos.mstop := by omega
    rw [this]
    unfold setAtInt
    rw [if_pos rfl]
    exact hf _ _
  refine ⟨?_, ?_, ?_, ?_, ?_, ?_, ?_, ?_, ?_, ?_, ?_, ?_, ?_⟩
  · exact (hslot (fun s => s.state) (fun _ _ => rfl)).trans t1
  · exact (hslot (fun s => s.ept) (fun _ _ => rfl)).trans t2
  · exact (hslot (fun s => s.kingpos) (fun _ _ => rfl)).trans t3
  · exact (hslot (fun s => s.hash) (fun _ _ => rfl)).trans t4
  · exact (hslot (fun s => s.pawnhash) (fun _ _ => rfl)).trans t5
  · exact (hslot (fun s => s.materialhash) (fun _ _ => rfl)).trans t6
  · exact (hslot (fun s => s.halfmovescounter) (fun _ _ => rfl)).trans t7
  · exact (hslot (fun s => s.fullmovescounter) (fun _ _ => rfl)).trans t8
  · exact (hslot (fun s => s.isCheckbb) (fun _ _ => rfl)).trans t9
  · show (playCastle zb (playApply zb pos m) m (pos.state &&& S2MMASK)).ply + 1 - 1 = pos.ply
    rw [k3, a5]; omega
  · show (playCastle zb (playApply zb pos m) m (pos.state &&& S2MMASK)).mstop + 1 - 1 = pos.mstop
    rw [k2, a4]; omega
  · exact (removePosition_addPosition _ _).trans (k4.trans a7)
  · show (playCastle zb (playApply zb pos m) m (pos.state &&& S2MMASK)).rootheight
        = pos.rootheight
    rw [k5, a6]

theorem pawn_of_side (p s : Nat) (h : p >>> 1 = PAWN) (hs : p &&& S2MMASK = s) :
    WPAWN ||| s = p := by
  rcases pawn_code p h with ⟨h1, -⟩ | ⟨h1, -⟩ <;> subst h1 <;> subst hs <;> decide

/-- The piece that `unplayMove` puts back on the source square is the moved piece. -/
theorem returning_piece (pos : chessposition) (m : Nat) (hok : moveOK pos m) :
    (if GETPROMOTION m ≠ BLANK then WPAWN ||| (pos.state &&& S2MMASK) else arrivingPiece m)
      = GETPIECE m := by
  obtain ⟨-, -, h3, -, -, -, h7, -⟩ := hok
  unfold arrivingPiece
  by_cases hpr : GETPROMOTION m = BLANK
  · rw [if_neg (not_not.mpr hpr), if_pos hpr]
  · rw [if_pos hpr]
    exact pawn_of_side _ _ (h7 hpr).1 h3

/-- `unplayMove` takes a rook back exactly for the moves for which `playMove`
relocated one. -/
theorem arriving_king_iff (pos : chessposition) (m : Nat) (hok : moveOK pos m) :
    (arrivingPiece m >>> 1 = KING ∧ castleindex (GETFROM m) (GETTO m) ≠ 0) ↔ castleCond m := by
  obtain ⟨-, -, -, -, -, -, h7, -⟩ := hok
  unfold castleCond arrivingPiece
  by_cases hpr : GETPROMOTION m = BLANK
  · rw [if_pos hpr]
  · rw [if_neg hpr]
    obtain ⟨a, b, c⟩ := h7 hpr
    constructor
    · intro ⟨k, _⟩
      exfalso
      unfold KING at k
      unfold WKNIGHT at b
      unfold BQUEEN at c
      rw [Nat.shiftRight_eq_div_pow] at k
      omega
    · intro ⟨k, _⟩
      exact absurd a (king_not_pawn _ k)

theorem commitMailbox_values (pos : chessposition) (m : Nat) (hok : moveOK pos m) :
    commitMailbox pos m (GETTO m) = arrivingPiece m ∧ commitMailbox pos m (GETFROM m) = 0
      ∧ (GETEPCAPTURE m ≠ 0 → commitMailbox pos m (epfieldOf m) = 0)
      ∧ (castleCond m → commitMailbox pos m (rookToOf m) = WROOK ||| (pos.state &&& S2MMASK)
          ∧ commitMailbox pos m (rookFromOf m) = 0) := by
  obtain ⟨v1, v2, v3⟩ := applyMailbox_values pos m hok
  unfold commitMailbox
  by_cases hc : castleCond m
  · rw [if_pos hc]
    obtain ⟨hz, -⟩ := castle_plain pos m hok hc
    obtain ⟨-, -, hne, -⟩ := castle_rook_ready pos m hok hc
    unfold BLANK
    refine ⟨?_, ?_, fun h => absurd hz h, fun _ => ⟨?_, ?_⟩⟩
    · rw [← v1]
      rcases castle_cases m hc.2 with ⟨a, b, c, d⟩ | ⟨a, b, c, d⟩ | ⟨a, b, c, d⟩ | ⟨a, b, c, d⟩ <;>
        rw [b, c, d] <;> simp [setAt]
    · rw [← v2]
      rcases castle_cases m hc.2 with ⟨a, b, c, d⟩ | ⟨a, b, c, d⟩ | ⟨a, b, c, d⟩ | ⟨a, b, c, d⟩ <;>
        rw [a, c, d] <;> simp [setAt]
    · rw [setAt_other _ _ _ _ (Ne.symm hne), setAt_same]
    · rw [setAt_same]
  · rw [if_neg hc]
    exact ⟨v1, v2, v3, fun h => absurd h hc⟩

theorem castle_distinct (m : Nat) (h : castleindex (GETFROM m) (GETTO m) ≠ 0) :
    GETFROM m ≠ GETTO m ∧ GETFROM m ≠ rookFromOf m ∧ GETFROM m ≠ rookToOf m
      ∧ GETTO m ≠ rookFromOf m ∧ GETTO m ≠ rookToOf m ∧ rookFromOf m ≠ rookToOf m := by
  rcases castle_cases m h with ⟨x, y, z, w⟩ | ⟨x, y, z, w⟩ | ⟨x, y, z, w⟩ | ⟨x, y, z, w⟩ <;>
    rw [x, y, z, w] <;> decide

/-- Undoing a castling move on a mailbox, square by square. -/
theorem castle_undo_virtual (mb : Nat → Nat) (f t rf rt pf cap rook : Nat)
    (d1 : f ≠ t) (d2 : f ≠ rf) (d3 : f ≠ rt) (d4 : t ≠ rf) (d5 : t ≠ rt) (_d6 : rf ≠ rt)
    (h1 : mb f = pf) (a : mb t = cap) (r1 : mb rf = rook) (r2 : mb rt = 0) :
    setAt (setAt (setAt (setAt (setAt
        (setAt (setAt (setAt (setAt mb t pf) f 0) rt rook) rf 0) t 0) f pf) t cap) rt 0) rf rook
      = mb := by
  funext j
  by_cases e1 : j = t <;> by_cases e2 : j = f <;> by_cases e3 : j = rf <;>
    by_cases e4 : j = rt <;> simp_all [setAt]

/-- Undoing a castling move on the mailbox array, following the order of the
writes of `unplayMove`. -/
theorem castle_undo_actual (mb : Nat → Nat) (f t rf rt pf cap rook : Nat)
    (d1 : f ≠ t) (d2 : f ≠ rf) (d3 : f ≠ rt) (d4 : t ≠ rf) (d5 : t ≠ rt) (d6 : rf ≠ rt)
    (h1 : mb f = pf) (a : mb t = cap) (r1 : mb rf = rook) (r2 : mb rt = 0) :
    setAt (setAt (setAt (setAt
        (setAt (setAt (setAt (setAt mb t pf) f 0) rt rook) rf 0) f pf) t cap) rf rook) rt 0
      = mb := by
  funext j
  by_cases e1 : j = t <;> by_cases e2 : j = f <;> by_cases e3 : j = rf <;>
    by_cases e4 : j = rt <;> simp_all [setAt]

/-- Undoing a committed move on the mailbox that the bitboards are traced against
gives the mailbox before the move. -/
theorem unplay_virtual (pos : chessposition) (m : Nat) (hok : moveOK pos m) :
    (if castleCond m then
      setAt (setAt
        (if GETCAPTURE m ≠ BLANK then
          if pos.ept ≠ 0 ∧ GETTO m = pos.ept then
            setAt (setAt (setAt (commitMailbox pos m) (GETTO m) 0) (GETFROM m) (GETPIECE m))
              (epfieldOf m) (GETCAPTURE m)
          else setAt (setAt (setAt (commitMailbox pos m) (GETTO m) 0) (GETFROM m) (GETPIECE m))
            (GETTO m) (GETCAPTURE m)
        else setAt (setAt (commitMailbox pos m) (GETTO m) 0) (GETFROM m) (GETPIECE m))
        (rookToOf m) 0) (rookFromOf m) (WROOK ||| (pos.state &&& S2MMASK))
    else
      (if GETCAPTURE m ≠ BLANK then
        if pos.ept ≠ 0 ∧ GETTO m = pos.ept then
          setAt (setAt (setAt (commitMailbox pos m) (GETTO m) 0) (GETFROM m) (GETPIECE m))
            (epfieldOf m) (GETCAPTURE m)
        else setAt (setAt (setAt (commitMailbox pos m) (GETTO m) 0) (GETFROM m) (GETPIECE m))
          (GETTO m) (GETCAPTURE m)
      else setAt (setAt (commitMailbox pos m) (GETTO m) 0) (GETFROM m) (GETPIECE m)))
      = pos.mailbox := by
  by_cases hc : castleCond m
  · rw [if_pos hc]
    obtain ⟨hz, hpr⟩ := castle_plain pos m hok hc
    obtain ⟨a, b⟩ := moveOK_noflag pos m hok hz
    have h1 := hok.1
    obtain ⟨r1, r2⟩ := hok.2.2.2.2.2.2.2 hc.1 hc.2
    obtain ⟨d1, d2, d3, d4, d5, d6⟩ := castle_distinct m hc.2
    unfold commitMailbox applyMailbox arrivingPiece
    rw [if_pos hc, if_neg (show ¬ GETEPCAPTURE m ≠ 0 from not_not.mpr hz), if_pos hpr]
    have key := castle_undo_virtual pos.mailbox (GETFROM m) (GETTO m) (rookFromOf m)
      (rookToOf m) (GETPIECE m) (GETCAPTURE m) (WROOK ||| (pos.state &&& S2MMASK))
      d1 d2 d3 d4 d5 d6 h1 a r1 r2
    by_cases hcap : GETCAPTURE m ≠ BLANK
    · rw [if_pos hcap, if_neg (b hcap)]
      exact key
    · rw [if_neg hcap]
      have hc0 : GETCAPTURE m = 0 := not_not.mp hcap
      rw [hc0] at key
      rw [setAt_id (setAt (setAt _ (GETTO m) 0) (GETFROM m) (GETPIECE m)) (GETTO m) 0
        (by rw [setAt_other _ _ _ _ (Ne.symm d1), setAt_same])] at key
      exact key
  · rw [if_neg hc]
    unfold commitMailbox
    rw [if_neg hc]
    exact restore_virtual pos m hok

/-- Undoing a committed move on the mailbox array gives the mailbox before the move. -/
theorem unplay_actual (pos : chessposition) (m : Nat) (hok : moveOK pos m) :
    (if castleCond m then
      setAt (setAt
        (if GETCAPTURE m ≠ BLANK then
          if pos.ept ≠ 0 ∧ GETTO m = pos.ept then
            setAt (setAt (setAt (commitMailbox pos m) (GETFROM m) (GETPIECE m)) (epfieldOf m)
              (GETCAPTURE m)) (GETTO m) BLANK
          else setAt (setAt (commitMailbox pos m) (GETFROM m) (GETPIECE m)) (GETTO m)
            (GETCAPTURE m)
        else setAt (setAt (commitMailbox pos m) (GETFROM m) (GETPIECE m)) (GETTO m) BLANK)
        (rookFromOf m) (WROOK ||| (pos.state &&& S2MMASK))) (rookToOf m) BLANK
    else
      (if GETCAPTURE m ≠ BLANK then
        if pos.ept ≠ 0 ∧ GETTO m = pos.ept then
          setAt (setAt (setAt (commitMailbox pos m) (GETFROM m) (GETPIECE m)) (epfieldOf m)
            (GETCAPTURE m)) (GETTO m) BLANK
        else setAt (setAt (commitMailbox pos m) (GETFROM m) (GETPIECE m)) (GETTO m)
          (GETCAPTURE m)
      else setAt (setAt (commitMailbox pos m) (GETFROM m) (GETPIECE m)) (GETTO m) BLANK))
      = pos.mailbox := by
  by_cases hc : castleCond m
  · rw [if_pos hc]
    obtain ⟨hz, hpr⟩ := castle_plain pos m hok hc
    obtain ⟨a, b⟩ := moveOK_noflag pos m hok hz
    have h1 := hok.1
    obtain ⟨r1, r2⟩ := hok.2.2.2.2.2.2.2 hc.1 hc.2
    obtain ⟨d1, d2, d3, d4, d5, d6⟩ := castle_distinct m hc.2
    unfold commitMailbox applyMailbox arrivingPiece
    rw [if_pos hc, if_neg (show ¬ GETEPCAPTURE m ≠ 0 from not_not.mpr hz), if_pos hpr]
    have key := castle_undo_actual pos.mailbox (GETFROM m) (GETTO m) (rookFromOf m)
      (rookToOf m) (GETPIECE m) (GETCAPTURE m) (WROOK ||| (pos.state &&& S2MMASK))
      d1 d2 d3 d4 d5 d6 h1 a r1 r2
    by_cases hcap : GETCAPTURE m ≠ BLANK
    · rw [if_pos hcap, if_neg (b hcap)]
      exact key
    · rw [if_neg hcap]
      have hc0 : GETCAPTURE m = 0 := not_not.mp hcap
      rw [hc0] at key
      exact key
  · rw [if_neg hc]
    unfold commitMailbox
    rw [if_neg hc]
    exact restore_actual pos m hok

theorem unplayRestore_boards (p : chessposition) :
    (unplayRestore p).piece00 = p.piece00 ∧ (unplayRestore p).occupied00 = p.occupied00
      ∧ (unplayRestore p).mailbox = p.mailbox := ⟨rfl, rfl, rfl⟩

theorem unplayPiece_state (p : chessposition) (m pto : Nat) :
    (unplayPiece p m pto).state = p.state ∧ (unplayPiece p m pto).ept = p.ept := by
  unfold unplayPiece
  dsimp only
  split_ifs <;> exact ⟨rfl, rfl⟩

/-- `unplayMove` after a successful `playMove` gives back the mailbox, and
bitboards that agree with it, for every agreement kind, a move that is consistent
with the position and a top history slot that held the snapshot. -/
theorem unplay_agree {I : chessposition → (Nat → Nat) → Prop} (hI : AgreeKind I)
    (zb : zobrist) (pos : chessposition) (m : Nat) (hok : moveOK pos m)
    (htop : topIsSnapshot pos) (h : I pos pos.mailbox) :
    I (unplayMove (playCommit zb (playApply zb pos m) m (pos.state &&& S2MMASK)) m) pos.mailbox
      ∧ (unplayMove (playCommit zb (playApply zb pos m) m (pos.state &&& S2MMASK)) m).mailbox
          = pos.mailbox := by
  have hC := playCommit_agree hI zb pos m hok h
  have hmC := playCommit_mailbox zb pos m hok
  obtain ⟨v1, v2, v3, v4⟩ := commitMailbox_values pos m hok
  obtain ⟨s1, s2, -⟩ := unplayRestore_commit zb pos m htop
  have hR : I (unplayRestore (playCommit zb (playApply zb pos m) m (pos.state &&& S2MMASK)))
      (commitMailbox pos m) := hI.reframe hC rfl rfl
  have hft := hok.2.2.2.1
  -- the moved piece goes back
  have hP := unplayPiece_agree hI _ m (arrivingPiece m) _ hR hft (arrivingPiece_ne pos m hok)
    v1 v2 (by
      intro hz
      have : (WPAWN ||| (pos.state &&& S2MMASK)).testBit 1 = true := by
        rw [Nat.testBit_or]
        have : WPAWN.testBit 1 = true := by decide
        rw [this]; rfl
      rw [s1] at hz
      rw [hz] at this
      simp at this)
  rw [s1, returning_piece pos m hok] at hP
  obtain ⟨u1, u2⟩ := unplayPiece_state
    (unplayRestore (playCommit zb (playApply zb pos m) m (pos.state &&& S2MMASK))) m
    (arrivingPiece m)
  have hept : (unplayPiece (unplayRestore (playCommit zb (playApply zb pos m) m
      (pos.state &&& S2MMASK))) m (arrivingPiece m)).ept = pos.ept := u2.trans s2
  have hflag : GETCAPTURE m ≠ BLANK → pos.ept ≠ 0 ∧ GETTO m = pos.ept → GETEPCAPTURE m ≠ 0 := by
    intro hc he hz
    exact (moveOK_noflag pos m hok hz).2 hc he
  -- the captured piece goes back
  have hQ := restoreCapture_agree hI _ m _ hP
    (by rw [setAt_other _ _ _ _ (Ne.symm hft), setAt_same])
    (by
      rw [hept]
      intro hc he
      have hz := hflag hc he
      obtain ⟨-, -, -, -, -, f, g⟩ := moveOK_flag pos m hok hz
      rw [setAt_other _ _ _ _ f, setAt_other _ _ _ _ g]
      exact v3 hz)
  rw [hept] at hQ
  have hstate : (restoreCapture (unplayPiece (unplayRestore (playCommit zb (playApply zb pos m) m
      (pos.state &&& S2MMASK))) m (arrivingPiece m)) m).state = pos.state :=
    ((restoreCapture_control _ m).1.trans u1).trans s1
  have hiff := arriving_king_iff pos m hok
  -- the rook goes back
  have hU := unplayCastle_agree hI _ m (arrivingPiece m) _ hQ (by
    intro hk
    have hc := hiff.mp hk
    obtain ⟨hz, hpr⟩ := castle_plain pos m hok hc
    obtain ⟨a, b⟩ := moveOK_noflag pos m hok hz
    obtain ⟨d1, d2, d3, d4, d5, d6⟩ := castle_distinct m hc.2
    obtain ⟨w1, w2⟩ := v4 hc
    rw [hstate]
    refine ⟨?_, ?_, d6, wrook_or_ne _⟩
    · by_cases hcap : GETCAPTURE m ≠ BLANK
      · rw [if_pos hcap, if_neg (b hcap), setAt_other _ _ _ _ (Ne.symm d5),
          setAt_other _ _ _ _ (Ne.symm d3), setAt_other _ _ _ _ (Ne.symm d5)]
        exact w1
      · rw [if_neg hcap, setAt_other _ _ _ _ (Ne.symm d3), setAt_other _ _ _ _ (Ne.symm d5)]
        exact w1
    · by_cases hcap : GETCAPTURE m ≠ BLANK
      · rw [if_pos hcap, if_neg (b hcap), setAt_other _ _ _ _ (Ne.symm d4),
          setAt_other _ _ _ _ (Ne.symm d2), setAt_other _ _ _ _ (Ne.symm d4)]
        exact w2
      · rw [if_neg hcap, setAt_other _ _ _ _ (Ne.symm d2), setAt_other _ _ _ _ (Ne.symm d4)]
        exact w2)
  rw [hstate] at hU
  have hpto : (playCommit zb (playApply zb pos m) m (pos.state &&& S2MMASK)).mailbox (GETTO m)
      = arrivingPiece m := by rw [hmC]; exact v1
  constructor
  · unfold unplayMove
    dsimp only
    rw [hpto]
    have hv := unplay_virtual pos m hok
    by_cases hc : castleCond m
    · rw [if_pos hc] at hv
      rw [if_pos (hiff.mpr hc)] at hU
      rw [hv] at hU
      exact hU
    · rw [if_neg hc] at hv
      rw [if_neg (fun hk => hc (hiff.mp hk))] at hU
      rw [hv] at hU
      exact hU
  · unfold unplayMove
    dsimp only
    rw [hpto, unplayCastle_mailbox, restoreCapture_mailbox, unplayPiece_mailbox, hstate, hept,
      s1, returning_piece pos m hok, (unplayRestore_boards _).2.2, hmC]
    have ha := unplay_actual pos m hok
    by_cases hc : castleCond m
    · rw [if_pos hc] at ha
      rw [if_pos (hiff.mpr hc)]
      exact ha
    · rw [if_neg hc] at ha
      rw [if_neg (fun hk => hc (hiff.mp hk))]
      exact ha


/-! ## Worked positions agree -/

theorem testBit_boardBits (l : List (Nat × Nat)) (sq : Nat) :
    (boardBits l).testBit sq = true ↔ ∃ e ∈ l, e.1 = sq := by
  unfold boardBits
  induction l with
  | nil => simp
  | cons a l ih =>
    simp only [List.foldr_cons, Nat.testBit_or, testBit_BITSET, Bool.or_eq_true,
      decide_eq_true_eq, ih, List.mem_cons, exists_eq_or_imp]

theorem lookupSquare_eq (board : List (Nat × Nat)) (sq p : Nat)
    (hnd : (board.map Prod.fst).Nodup) (hp : p ≠ 0) :
    lookupSquare board sq = p ↔ (sq, p) ∈ board := by
  unfold lookupSquare
  induction board with
  | nil => simp [BLANK]; exact fun h => hp h.symm
  | cons a l ih =>
    rw [List.map_cons, List.nodup_cons] at hnd
    by_cases ha : a.1 = sq
    · have : List.find? (fun e => decide (e.1 = sq)) (a :: l) = some a := by
        simp [List.find?, ha]
      rw [this]
      simp only [List.mem_cons]
      constructor
      · intro h; left; rw [← ha, ← h]
      · rintro (h | h)
        · rw [← h]
        · exfalso
          apply hnd.1
          rw [ha]
          exact List.mem_map_of_mem Prod.fst h
    · have : List.find? (fun e => decide (e.1 = sq)) (a :: l)
          = List.find? (fun e => decide (e.1 = sq)) l := by
        simp [List.find?, ha]
      rw [this, ih hnd.2]
      simp only [List.mem_cons]
      constructor
      · intro h; right; exact h
      · rintro (h | h)
        · exfalso; apply ha; rw [← h]
        · exact h

/-- The position built from a board has mailbox and bitboards in agreement. -/
theorem mkPosition_agree (board : List (Nat × Nat)) (state ept : Nat) (h : boardOK board) :
    boardAgree (mkPosition board state ept) := by
  obtain ⟨hnd, hall⟩ := h
  constructor
  · intro p sq hp
    show (boardBits (board.filter _)).testBit sq = true ↔ sq < 64 ∧ lookupSquare board sq = p
    rw [testBit_boardBits, lookupSquare_eq board sq p hnd hp]
    constructor
    · rintro ⟨e, he, rfl⟩
      rw [List.mem_filter] at he
      have := of_decide_eq_true he.2
      exact ⟨(hall e he.1).1, by rw [← this]; exact he.1⟩
    · rintro ⟨_, h2⟩
      exact ⟨(sq, p), List.mem_filter.mpr ⟨h2, by simp⟩, rfl⟩
  · intro c sq hc
    show (boardBits (board.filter _)).testBit sq = true
      ↔ sq < 64 ∧ lookupSquare board sq ≠ 0 ∧ lookupSquare board sq &&& 1 = c
    rw [testBit_boardBits]
    constructor
    · rintro ⟨e, he, rfl⟩
      rw [List.mem_filter] at he
      have hc2 := of_decide_eq_true he.2
      have hm := (lookupSquare_eq board e.1 e.2 hnd (hall e he.1).2).mpr he.1
      rw [hm]
      exact ⟨(hall e he.1).1, (hall e he.1).2, hc2⟩
    · rintro ⟨_, h2, h3⟩
      have hm := (lookupSquare_eq board sq _ hnd h2).mp rfl
      exact ⟨_, List.mem_filter.mpr ⟨hm, by simpa using h3⟩, rfl⟩

theorem prepareStack_top (pos : chessposition) : topIsSnapshot (prepareStack pos) := by
  unfold topIsSnapshot prepareStack setAtInt snapshot
  simp

theorem prepareStack_agree (pos : chessposition) (h : boardAgree pos) :
    boardAgree (prepareStack pos) := h

/-! ## C1, C4, C7: round trip, rollback and agreement -/

theorem unplayPiece_scalars (p : chessposition) (m pto : Nat) :
    sameScalars (unplayPiece p m pto) p := by
  unfold unplayPiece sameScalars
  dsimp only
  split_ifs <;> exact ⟨rfl, rfl, rfl, rfl, rfl, rfl, rfl, rfl, rfl, rfl, rfl, rfl, rfl, rfl⟩

theorem unplayCastle_scalars (p : chessposition) (m pto : Nat) :
    sameScalars (unplayCastle p m pto) p := by
  unfold unplayCastle sameScalars
  dsimp only
  split_ifs <;> exact ⟨rfl, rfl, rfl, rfl, rfl, rfl, rfl, rfl, rfl, rfl, rfl, rfl, rfl, rfl⟩

theorem restoreCapture_sameScalars (p : chessposition) (m : Nat) :
    sameScalars (restoreCapture p m) p := by
  unfold restoreCapture sameScalars
  dsimp only
  split_ifs <;> exact ⟨rfl, rfl, rfl, rfl, rfl, rfl, rfl, rfl, rfl, rfl, rfl, rfl, rfl, rfl⟩

theorem sameScalars_trans {p q r : chessposition} (h1 : sameScalars p q)
    (h2 : sameScalars q r) : sameScalars p r := by
  unfold sameScalars at *
  obtain ⟨a1, a2, a3, a4, a5, a6, a7, a8, a9, a10, a11, a12, a13, a14⟩ := h1
  obtain ⟨b1, b2, b3, b4, b5, b6, b7, b8, b9, b10, b11, b12, b13, b14⟩ := h2
  exact ⟨a1.trans b1, a2.trans b2, a3.trans b3, a4.trans b4, a5.trans b5, a6.trans b6,
    a7.trans b7, a8.trans b8, a9.trans b9, a10.trans b10, a11.trans b11, a12.trans b12,
    a13.trans b13, a14.trans b14⟩

theorem unplayMove_scalars (p : chessposition) (m : Nat) :
    sameScalars (unplayMove p m) (unplayRestore p) := by
  unfold unplayMove
  dsimp only
  exact sameScalars_trans (unplayCastle_scalars _ _ _)
    (sameScalars_trans (restoreCapture_sameScalars _ _) (unplayPiece_scalars _ _ _))

theorem playMove_true_eq (zb : zobrist) (pos : chessposition) (m : Nat)
    (h : (playMove zb pos m).1 = true) :
    (playMove zb pos m).2 = playCommit zb (playApply zb pos m) m (pos.state &&& S2MMASK) := by
  cases hatt : isAttacked (playApply zb pos m)
      ((playApply zb pos m).kingpos (pos.state &&& S2MMASK))
  · rw [playMove_of_safe zb pos m hatt]
  · rw [playMove_of_attacked zb pos m hatt] at h
    exact absurd h (by simp)

/-- The amended C1: for a position whose mailbox and bitboards agree and whose
top history slot holds its snapshot, and a move code that is consistent with the
position (`moveOK`): if `playMove` returns true, `unplayMove` restores the piece
and occupancy bitboards, the mailbox, the three hashes, state, ept, king squares,
half-move counter and ply (and also the full-move counter, the check board, the
history depth and the repetition table). -/
theorem unplayMove_restores (zb : zobrist) (pos : chessposition) (m : Nat)
    (hagree : boardAgree pos) (htop : topIsSnapshot pos) (hok : moveOK pos m)
    (htrue : (playMove zb pos m).1 = true) :
    (unplayMove (playMove zb pos m).2 m).piece00 = pos.piece00
      ∧ (unplayMove (playMove zb pos m).2 m).occupied00 = pos.occupied00
      ∧ (unplayMove (playMove zb pos m).2 m).mailbox = pos.mailbox
      ∧ (unplayMove (playMove zb pos m).2 m).hash = pos.hash
      ∧ (unplayMove (playMove zb pos m).2 m).pawnhash = pos.pawnhash
      ∧ (unplayMove (playMove zb pos m).2 m).materialhash = pos.materialhash
      ∧ (unplayMove (playMove zb pos m).2 m).state = pos.state
      ∧ (unplayMove (playMove zb pos m).2 m).ept = pos.ept
      ∧ (unplayMove (playMove zb pos m).2 m).kingpos = pos.kingpos
      ∧ (unplayMove (playMove zb pos m).2 m).halfmovescounter = pos.halfmovescounter
      ∧ (unplayMove (playMove zb pos m).2 m).ply = pos.ply
      ∧ (unplayMove (playMove zb pos m).2 m).fullmovescounter = pos.fullmovescounter
      ∧ (unplayMove (playMove zb pos m).2 m).isCheckbb = pos.isCheckbb
      ∧ (unplayMove (playMove zb pos m).2 m).mstop = pos.mstop
      ∧ (unplayMove (playMove zb pos m).2 m).rp = pos.rp := by
  rw [playMove_true_eq zb pos m htrue]
  obtain ⟨hU, hmail⟩ := unplay_agree (fullKind pos) zb pos m hok htop (fullAgree_self pos hagree)
  obtain ⟨b1, b2⟩ := fullAgree_boards pos _ hagree hU
  obtain ⟨s1, s2, s3, s4, s5, s6, s7, s8, s9, s10, s11, s12, s13⟩ :=
    unplayRestore_commit zb pos m htop
  obtain ⟨u1, u2, u3, u4, u5, u6, u7, u8, u9, -, u11, u12, -, u14⟩ :=
    unplayMove_scalars (playCommit zb (playApply zb pos m) m (pos.state &&& S2MMASK)) m
  exact ⟨b1, b2, hmail, u4.trans s4, u5.trans s5, u6.trans s6, u1.trans s1, u2.trans s2,
    u3.trans s3, u7.trans s7, u12.trans s10, u8.trans s8, u9.trans s9, u11.trans s11,
    u14.trans s12⟩

/-- Witness for the amended C1: the en-passant capture e5xd6, encoded with its
flag, is played and taken back in `epPos`. -/
theorem unplayMove_restores_witness :
    (playMove zbEx epPos epMove).1 = true
      ∧ (unplayMove (playMove zbEx epPos epMove).2 epMove).mailbox = epPos.mailbox
      ∧ (unplayMove (playMove zbEx epPos epMove).2 epMove).piece00 = epPos.piece00 :=
  have h := unplayMove_restores zbEx epPos epMove
    (prepareStack_agree _ (mkPosition_agree _ _ _ (by decide))) (prepareStack_top _)
    (by decide) (by decide)
  ⟨by decide, h.2.2.1, h.1⟩

/-- Counterexample to C1 as stated: in `epPos` (mailbox and bitboards agree, the
snapshot is on the stack) the code of e5-d6 without en-passant flag and capture
field passes `moveIsPseudoLegal` and `playMove` returns true, having taken the
pawn d5 off the board; `unplayMove` does not put it back. -/
theorem unplayMove_restores_counterexample :
    boardAgree epPos ∧ topIsSnapshot epPos
      ∧ moveIsPseudoLegal epPos epMovePlain = true
      ∧ (playMove zbEx epPos epMovePlain).1 = true
      ∧ epPos.mailbox 35 = BPAWN
      ∧ (unplayMove (playMove zbEx epPos epMovePlain).2 epMovePlain).mailbox 35 = BLANK
      ∧ epPos.piece00 BPAWN = BITSET 35
      ∧ (unplayMove (playMove zbEx epPos epMovePlain).2 epMovePlain).piece00 BPAWN = 0 :=
  ⟨prepareStack_agree _ (mkPosition_agree _ _ _ (by decide)), prepareStack_top _,
    by decide, by decide, by decide, by decide, by decide, by decide⟩

/-- Witness for the amended C4: the pinned pawn may not capture en passant; the
call returns false and the position is as before. -/
theorem playMove_false_restores_witness :
    (playMove zbEx epPinnedPos epMove).1 = false
      ∧ (playMove zbEx epPinnedPos epMove).2 = epPinnedPos :=
  ⟨by decide, playMove_false_restores zbEx epPinnedPos epMove
    (prepareStack_agree _ (mkPosition_agree _ _ _ (by decide))) (prepareStack_top _)
    (by decide) (by decide)⟩

/-- Counterexample to C4 as stated: in `epPinnedPos` the plain-move code of e5-d6
makes `playMove` take the pawn d5 off the board, find the king attacked on the
opened e-file and return false; the rollback, seeing an empty capture field,
does not put the pawn back. -/
theorem playMove_false_counterexample :
    boardAgree epPinnedPos ∧ topIsSnapshot epPinnedPos
      ∧ (playMove zbEx epPinnedPos epMovePlain).1 = false
      ∧ epPinnedPos.mailbox 35 = BPAWN
      ∧ (playMove zbEx epPinnedPos epMovePlain).2.mailbox 35 = BLANK
      ∧ epPinnedPos.piece00 BPAWN = BITSET 35
      ∧ (playMove zbEx epPinnedPos epMovePlain).2.piece00 BPAWN = 0 :=
  ⟨prepareStack_agree _ (mkPosition_agree _ _ _ (by decide)), prepareStack_top _,
    by decide, by decide, by decide, by decide, by decide⟩

/-- The amended C7: if mailbox and piece bitboards agree and the move code is
consistent with the position (`moveOK`), then they agree after `playMove`,
whether it returns true or false; and if in addition the top history slot holds
the snapshot of the position, they agree after `unplayMove` of a move that
`playMove` has just accepted. -/
theorem agreement_invariant (zb : zobrist) (pos : chessposition) (m : Nat)
    (hagree : pieceAgree pos.piece00 pos.mailbox) (hok : moveOK pos m) :
    pieceAgree (playMove zb pos m).2.piece00 (playMove zb pos m).2.mailbox
      ∧ ((playMove zb pos m).1 = true → topIsSnapshot pos →
          pieceAgree (unplayMove (playMove zb pos m).2 m).piece00
            (unplayMove (playMove zb pos m).2 m).mailbox) := by
  constructor
  · cases hatt : isAttacked (playApply zb pos m)
        ((playApply zb pos m).kingpos (pos.state &&& S2MMASK))
    · rw [playMove_of_safe zb pos m hatt]
      have hC := playCommit_agree pieceKind zb pos m hok hagree
      rw [← playCommit_mailbox zb pos m hok] at hC
      exact hC
    · rw [playMove_of_attacked zb pos m hatt]
      obtain ⟨hR, hmail⟩ := playRollback_restores pieceKind zb pos m (pos.state &&& S2MMASK)
        hok hagree
      show pieceAgree (playRollback _ m _).piece00 (playRollback _ m _).mailbox
      rw [hmail]
      exact hR
  · intro htrue htop
    rw [playMove_true_eq zb pos m htrue]
    obtain ⟨hU, hmail⟩ := unplay_agree pieceKind zb pos m hok htop hagree
    rw [hmail]
    exact hU

/-- Witness for the amended C7: castling king side in `castlePos`. -/
theorem agreement_invariant_witness :
    (playMove zbEx castlePos castleMove).1 = true
      ∧ pieceAgree (playMove zbEx castlePos castleMove).2.piece00
          (playMove zbEx castlePos castleMove).2.mailbox
      ∧ pieceAgree (unplayMove (playMove zbEx castlePos castleMove).2 castleMove).piece00
          (unplayMove (playMove zbEx castlePos castleMove).2 castleMove).mailbox :=
  have h := agreement_invariant zbEx castlePos castleMove
    (prepareStack_agree _ (mkPosition_agree _ _ _ (by decide))).1 (by decide)
  ⟨by decide, h.1, h.2 (by decide) (prepareStack_top _)⟩

/-- Counterexample to C7 as stated.  In `knightTakesPos` mailbox and bitboards
agree; the capture Nb1xc3 with the en-passant-capture flag in its code satisfies
the assertions of `playMove` and is accepted by `moveIsPseudoLegal`; `playMove`
returns true and, skipping the removal of the captured piece for a flagged code,
leaves the pawn's bit on c3 where the mailbox now holds the knight.  And in
`staleTopPos`, where the top history slot does not hold the snapshot (its state
has black to move), castling e1-g1 is consistent with the position and accepted;
`unplayMove` of it takes a black rook back, so the white rook's bit stays on f1
while the mailbox has f1 empty. -/
theorem agreement_counterexample :
    pieceAgree knightTakesPos.piece00 knightTakesPos.mailbox
      ∧ knightTakesPos.mailbox (GETFROM knightTakesFlagged) = GETPIECE knightTakesFlagged
      ∧ knightTakesPos.mailbox (GETTO knightTakesFlagged) = GETCAPTURE knightTakesFlagged
      ∧ GETPROMOTION knightTakesFlagged = BLANK
      ∧ moveIsPseudoLegal knightTakesPos knightTakesFlagged = true
      ∧ (playMove zbEx knightTakesPos knightTakesFlagged).1 = true
      ∧ ((playMove zbEx knightTakesPos knightTakesFlagged).2.piece00 BPAWN).testBit 18 = true
      ∧ (playMove zbEx knightTakesPos knightTakesFlagged).2.mailbox 18 = WKNIGHT
      ∧ ¬ pieceAgree (playMove zbEx knightTakesPos knightTakesFlagged).2.piece00
          (playMove zbEx knightTakesPos knightTakesFlagged).2.mailbox
      ∧ pieceAgree staleTopPos.piece00 staleTopPos.mailbox
      ∧ moveOK staleTopPos castleMove
      ∧ moveIsPseudoLegal staleTopPos castleMove = true
      ∧ ¬ topIsSnapshot staleTopPos
      ∧ (playMove zbEx staleTopPos castleMove).1 = true
      ∧ ((unplayMove (playMove zbEx staleTopPos castleMove).2 castleMove).piece00 WROOK).testBit 5
          = true
      ∧ (unplayMove (playMove zbEx staleTopPos castleMove).2 castleMove).mailbox 5 = BLANK
      ∧ ¬ pieceAgree (unplayMove (playMove zbEx staleTopPos castleMove).2 castleMove).piece00
          (unplayMove (playMove zbEx staleTopPos castleMove).2 castleMove).mailbox :=
  ⟨(prepareStack_agree _ (mkPosition_agree _ _ _ (by decide))).1, by decide, by decide,
    by decide, by decide, by decide, by decide, by decide,
    fun h => absurd ((h BPAWN 18 (by decide)).mp (by decide)).2 (by decide),
    (show boardAgree castlePos from
      prepareStack_agree _ (mkPosition_agree _ _ _ (by decide))).1, by decide, by decide,
    fun h => absurd h.1 (by decide), by decide, by decide, by decide,
    fun h => absurd ((h WROOK 5 (by decide)).mp (by decide)).2 (by decide)⟩

/-! ## C6: a double push that exposes no en-passant capture -/

/-- What a code has passed when `moveIsPseudoLegal` accepts it. -/
theorem moveIsPseudoLegal_true (pos : chessposition) (c : Nat)
    (h : moveIsPseudoLegal pos c = true) :
    c ≠ 0 ∧ pos.mailbox (GETFROM c) = GETPIECE c
      ∧ ¬ (pos.mailbox (GETTO c) ≠ GETCAPTURE c ∧ GETEPCAPTURE c = 0)
      ∧ ¬ (GETCAPTURE c ≠ 0
            ∧ (GETPIECE c &&& S2MMASK = (GETCAPTURE c &&& S2MMASK) ∨ GETCAPTURE c ≥ WKING))
      ∧ ¬ (movesTo pos (GETPIECE c) (GETFROM c) &&& BITSET (GETTO c) = 0
            ∧ (pos.ept = 0 ∨ GETTO c ≠ pos.ept ∨ GETPIECE c >>> 1 ≠ PAWN))
      ∧ GETPIECE c &&& S2MMASK = pos.state &&& S2MMASK
      ∧ ¬ (GETPROMOTION c ≠ 0 ∧ GETPIECE c >>> 1 ≠ PAWN)
      ∧ ¬ (GETPIECE c >>> 1 = PAWN ∧ pawnSpecialsOk pos c = false)
      ∧ ¬ (GETPIECE c >>> 1 = KING ∧ (GETFROM c ^^^ GETTO c) &&& 3 = 2
            ∧ castleOk pos c = false) := by
  unfold moveIsPseudoLegal at h
  dsimp only at h
  split_ifs at h with h1 h2 h3 h4 h5 h6 h7 h8 h9
  exact ⟨h1, not_not.mp h2, h3, h4, h5, not_not.mp h6, h7, h8, h9⟩

theorem xor_sixteen_file (f t : Nat) (h : f ^^^ t = 16) : FILE f = FILE t := by
  unfold FILE
  apply Nat.eq_of_testBit_eq
  intro i
  have hb : (f ^^^ t).testBit i = (16 : Nat).testBit i := by rw [h]
  rw [Nat.testBit_xor] at hb
  simp only [Nat.testBit_and]
  by_cases hi : i < 3
  · have h16 : (16 : Nat).testBit i = false := by
      interval_cases i <;> decide
    rw [h16] at hb
    cases h1 : f.testBit i <;> cases h2 : t.testBit i <;> simp_all
  · have h7 : (7 : Nat).testBit i = false := by
      apply Nat.testBit_lt_two_pow
      calc 7 < 2 ^ 3 := by decide
        _ ≤ 2 ^ i := Nat.pow_le_pow_right (by decide) (by omega)
    rw [h7]
    simp

/-- The en-passant field of the code that `shortMove2FullMove` builds for a double
push beside which no enemy pawn stands. -/
theorem shortMove_double_push (pos : chessposition) (c : Nat) (hc : c < 2 ^ 16)
    (hpawn : pos.mailbox (GETFROM c) >>> 1 = PAWN) (hx : GETFROM c ^^^ GETTO c = 16)
    (hcap : pos.mailbox (GETTO c) < 16)
    (hno : epthelper (GETTO c) &&& pos.piece00 (pos.mailbox (GETFROM c) ^^^ 1) = 0) :
    GETEPT (shortMove2FullCode pos c) = 0 ∧ GETEPCAPTURE (shortMove2FullCode pos c) = 0 := by
  have hfile := xor_sixteen_file _ _ hx
  have hcode : shortMove2FullCode pos c
      = pos.mailbox (GETFROM c) * 2 ^ 28 + pos.mailbox (GETTO c) * 2 ^ 16 + c := by
    unfold shortMove2FullCode
    dsimp only
    rw [if_pos hpawn, if_neg (fun hh => hh.1 hfile), if_neg (fun hh => hh.2 hno)]
    dsimp only
    have hp2 : pos.mailbox (GETFROM c) = 2 ∨ pos.mailbox (GETFROM c) = 3 := by
      rcases pawn_code _ hpawn with ⟨h1, -⟩ | ⟨h1, -⟩
      · left; exact h1
      · right; exact h1
    have e1 : (pos.mailbox (GETTO c) <<< 16) ||| c = pos.mailbox (GETTO c) * 2 ^ 16 + c :=
      or_pack _ _ _ hc
    have e2 : (pos.mailbox (GETFROM c) <<< 28) ||| (pos.mailbox (GETTO c) * 2 ^ 16 + c)
        = pos.mailbox (GETFROM c) * 2 ^ 28 + (pos.mailbox (GETTO c) * 2 ^ 16 + c) :=
      or_pack _ _ _ (by omega)
    rw [Nat.zero_shiftLeft, Nat.or_zero, Nat.or_assoc, e1, e2]
    omega
  rw [GETEPT_eq, GETEPCAPTURE_eq, hcode]
  have hp2 : pos.mailbox (GETFROM c) = 2 ∨ pos.mailbox (GETFROM c) = 3 := by
    rcases pawn_code _ hpawn with ⟨h1, -⟩ | ⟨h1, -⟩
    · left; exact h1
    · right; exact h1
  constructor <;> omega

theorem playMove_true_ept (zb : zobrist) (pos : chessposition) (m : Nat)
    (h : (playMove zb pos m).1 = true) : (playMove zb pos m).2.ept = GETEPT m := by
  rw [playMove_true_eq zb pos m h]
  rfl

/-- The amended C6: for a pawn double push (`from ^ to = 16`) beside whose
destination no enemy pawn stands, (a) the code that `shortMove2FullMove` builds
has en-passant field 0 (target and flag), (b) every code for that push that
`moveIsPseudoLegal` accepts has en-passant target `GETEPT` 0, and (c) after a
successful `playMove` of an accepted code the position's ept is 0. -/
theorem double_push_sets_no_ept (zb : zobrist) (pos : chessposition) (c : Nat)
    (hc : c < 2 ^ 16) (hpawn : pos.mailbox (GETFROM c) >>> 1 = PAWN)
    (hx : GETFROM c ^^^ GETTO c = 16) (hcap : pos.mailbox (GETTO c) < 16)
    (hno : epthelper (GETTO c) &&& pos.piece00 (pos.mailbox (GETFROM c) ^^^ 1) = 0) :
    (GETEPT (shortMove2FullCode pos c) = 0 ∧ GETEPCAPTURE (shortMove2FullCode pos c) = 0)
      ∧ (GETEPT (shortMove2FullMove pos c) = 0 ∧ GETEPCAPTURE (shortMove2FullMove pos c) = 0)
      ∧ ∀ code, GETFROM code = GETFROM c → GETTO code = GETTO c →
          moveIsPseudoLegal pos code = true →
          GETEPT code = 0
            ∧ ((playMove zb pos code).1 = true → (playMove zb pos code).2.ept = 0) := by
  have hA := shortMove_double_push pos c hc hpawn hx hcap hno
  refine ⟨hA, ?_, ?_⟩
  · unfold shortMove2FullMove
    split_ifs
    · exact ⟨by decide, by decide⟩
    · exact ⟨by decide, by decide⟩
    · exact hA
    · exact ⟨by decide, by decide⟩
  · intro code hf ht hlegal
    obtain ⟨-, h2, -, -, -, -, -, h8, -⟩ := moveIsPseudoLegal_true pos code hlegal
    have hp : GETPIECE code >>> 1 = PAWN := by rw [← h2, hf]; exact hpawn
    have hok : pawnSpecialsOk pos code = true := by
      cases hh : pawnSpecialsOk pos code
      · exact absurd ⟨hp, hh⟩ h8
      · rfl
    have hept : GETEPT code = 0 := by
      unfold pawnSpecialsOk at hok
      dsimp only at hok
      rw [hf, ht, if_pos hx] at hok
      rw [← h2, hf, hno] at hok
      by_contra hne
      simp [hne] at hok
    exact ⟨hept, fun htrue => (playMove_true_ept zb pos code htrue).trans hept⟩

/-- Witness for the amended C6: the double push e2-e4 in `pushPos`. -/
theorem double_push_sets_no_ept_witness :
    GETEPT (shortMove2FullMove pushPos (chessmove3 12 28 0)) = 0
      ∧ shortMove2FullMove pushPos (chessmove3 12 28 0) = chessmove3 12 28 WPAWN
      ∧ (playMove zbEx pushPos (chessmove3 12 28 WPAWN)).2.ept = 0 :=
  have h := double_push_sets_no_ept zbEx pushPos (chessmove3 12 28 0) (by decide) (by decide)
    (by decide) (by decide) (by decide)
  ⟨h.2.1.1, by decide,
    (h.2.2 (chessmove3 12 28 WPAWN) (by decide) (by decide) (by decide)).2 (by decide)⟩

/-- Counterexample to C6 as stated: no enemy pawn stands beside e4, the code of
e2-e4 with en-passant field 0x40 (non-zero) is accepted by `moveIsPseudoLegal`. -/
theorem double_push_counterexample :
    pushPos.mailbox (GETFROM pushFlagged) = WPAWN
      ∧ GETFROM pushFlagged ^^^ GETTO pushFlagged = 16
      ∧ epthelper (GETTO pushFlagged) &&& pushPos.piece00 BPAWN = 0
      ∧ (pushFlagged >>> 20) &&& 0x7f = 0x40
      ∧ moveIsPseudoLegal pushPos pushFlagged = true :=
  ⟨by decide, by decide, by decide, by decide, by decide⟩


/-! ## C3: the king is not left in check -/

theorem and_or_eq_zero (a b e : Nat) : (a ||| b) &&& e = 0 ↔ a &&& e = 0 ∧ b &&& e = 0 := by
  constructor
  · intro h
    constructor
    · apply Nat.eq_of_testBit_eq
      intro i
      have := congrArg (fun x => x.testBit i) h
      simp only [Nat.testBit_and, Nat.testBit_or, Nat.zero_testBit] at this ⊢
      cases h1 : a.testBit i <;> cases h2 : e.testBit i <;> simp_all
    · apply Nat.eq_of_testBit_eq
      intro i
      have := congrArg (fun x => x.testBit i) h
      simp only [Nat.testBit_and, Nat.testBit_or, Nat.zero_testBit] at this ⊢
      cases h1 : b.testBit i <;> cases h2 : e.testBit i <;> simp_all
  · intro ⟨h1, h2⟩
    apply Nat.eq_of_testBit_eq
    intro i
    have a1 := congrArg (fun x => x.testBit i) h1
    have a2 := congrArg (fun x => x.testBit i) h2
    simp only [Nat.testBit_and, Nat.testBit_or, Nat.zero_testBit] at a1 a2 ⊢
    cases h3 : a.testBit i <;> cases h4 : b.testBit i <;> cases h5 : e.testBit i <;> simp_all

/-- A ray sees the same squares under two occupancies that agree on it. -/
theorem rayHits_congr (occ occ2 : Nat) (l : List Nat)
    (h : ∀ s ∈ l, occ2.testBit s = occ.testBit s) : rayHits occ2 l = rayHits occ l := by
  induction l with
  | nil => rfl
  | cons a l ih =>
    unfold rayHits
    rw [h a (List.mem_cons_self _ _), ih (fun s hs => h s (List.mem_cons_of_mem _ hs))]

/-- The occupancy of the last square of a ray does not matter. -/
theorem rayHits_last (occ occ2 : Nat) (l : List Nat) (x : Nat)
    (h : ∀ s ∈ l, occ2.testBit s = occ.testBit s) :
    rayHits occ2 (l ++ [x]) = rayHits occ (l ++ [x]) := by
  induction l with
  | nil =>
    show rayHits occ2 [x] = rayHits occ [x]
    unfold rayHits
    split_ifs <;> simp [rayHits]
  | cons a l ih =>
    show rayHits occ2 (a :: (l ++ [x])) = rayHits occ (a :: (l ++ [x]))
    unfold rayHits
    rw [h a (List.mem_cons_self _ _), ih (fun s hs => h s (List.mem_cons_of_mem _ hs))]

/-- A ray whose first square becomes occupied sees no more than before. -/
theorem rayHits_blocked (occ occ2 e : Nat) (x : Nat) (l : List Nat)
    (h : occ2.testBit x = true) (h0 : rayHits occ (x :: l) &&& e = 0) :
    rayHits occ2 (x :: l) &&& e = 0 := by
  have hx : BITSET x &&& e = 0 := by
    unfold rayHits at h0
    split_ifs at h0
    · exact h0
    · exact ((and_or_eq_zero _ _ _).mp h0).1
  unfold rayHits
  rw [if_pos h]
  exact hx

theorem or_eq_zero_iff (a b : Nat) : a ||| b = 0 ↔ a = 0 ∧ b = 0 := by
  constructor
  · intro h
    constructor
    · apply Nat.eq_of_testBit_eq
      intro i
      have := congrArg (fun x => x.testBit i) h
      simp only [Nat.testBit_or, Nat.zero_testBit] at this ⊢
      cases h1 : a.testBit i <;> simp_all
    · apply Nat.eq_of_testBit_eq
      intro i
      have := congrArg (fun x => x.testBit i) h
      simp only [Nat.testBit_or, Nat.zero_testBit] at this ⊢
      cases h1 : b.testBit i <;> simp_all
  · rintro ⟨rfl, rfl⟩
    rfl

/-- A ray that avoids two squares does not notice a change on them. -/
theorem rayHits_avoid (occ occ2 rf rt : Nat) (l : List Nat)
    (h1 : ∀ j, j ≠ rf → j ≠ rt → occ2.testBit j = occ.testBit j)
    (hl : ∀ s ∈ l, s ≠ rf ∧ s ≠ rt) : rayHits occ2 l = rayHits occ l :=
  rayHits_congr occ occ2 l (fun s hs => h1 s (hl s hs).1 (hl s hs).2)

/-- Total occupancy in terms of the mailbox. -/
theorem occ_testBit (oc mb : Nat → Nat) (h : occAgree oc mb) (j : Nat) :
    (oc 0 ||| oc 1).testBit j = true ↔ j < 64 ∧ mb j ≠ 0 := by
  rw [Nat.testBit_or, Bool.or_eq_true, h 0 j (by decide), h 1 j (by decide)]
  have h2 : mb j &&& 1 < 2 := and_one_lt (mb j)
  constructor
  · rintro (⟨a, b, -⟩ | ⟨a, b, -⟩) <;> exact ⟨a, b⟩
  · rintro ⟨a, b⟩
    have : mb j &&& 1 = 0 ∨ mb j &&& 1 = 1 := by omega
    rcases this with c | c
    · exact Or.inl ⟨a, b, c⟩
    · exact Or.inr ⟨a, b, c⟩

/-- The rook and bishop rays from the square a castling king lands on: moving
the rook from its corner to the square next to the king opens no line. -/
theorem castle_attack (occ occ2 e t rf rt : Nat)
    (hcase : (t = 2 ∧ rf = 0 ∧ rt = 3) ∨ (t = 6 ∧ rf = 7 ∧ rt = 5)
      ∨ (t = 58 ∧ rf = 56 ∧ rt = 59) ∨ (t = 62 ∧ rf = 63 ∧ rt = 61))
    (h1 : ∀ j, j ≠ rf → j ≠ rt → occ2.testBit j = occ.testBit j)
    (h2 : occ2.testBit rt = true)
    (h0 : MAGICROOKATTACKS occ t &&& e = 0) :
    MAGICROOKATTACKS occ2 t &&& e = 0
      ∧ MAGICBISHOPATTACKS occ2 t = MAGICBISHOPATTACKS occ t := by
  rcases hcase with ⟨rfl, rfl, rfl⟩ | ⟨rfl, rfl, rfl⟩ | ⟨rfl, rfl, rfl⟩ | ⟨rfl, rfl, rfl⟩
  · have r1 : raySquares 1 0 7 2 = 3 :: [4, 5, 6, 7] := by decide
    have r2 : raySquares (-1) 0 7 2 = [1] ++ [0] := by decide
    refine ⟨?_, ?_⟩
    · unfold MAGICROOKATTACKS at h0 ⊢
      rw [and_or_eq_zero, and_or_eq_zero, and_or_eq_zero] at h0 ⊢
      obtain ⟨⟨⟨a, b⟩, c⟩, d⟩ := h0
      refine ⟨⟨⟨?_, ?_⟩, ?_⟩, ?_⟩
      · rw [r1] at a ⊢
        exact rayHits_blocked occ occ2 e 3 _ h2 a
      · rw [r2] at b ⊢
        rw [rayHits_last occ occ2 [1] 0 (fun s hs => h1 s (by simp at hs; omega) (by simp at hs; omega))]
        exact b
      · rw [rayHits_avoid occ occ2 0 3 _ h1 (by decide)]
        exact c
      · rw [rayHits_avoid occ occ2 0 3 _ h1 (by decide)]
        exact d
    · unfold MAGICBISHOPATTACKS
      rw [rayHits_avoid occ occ2 0 3 (raySquares 1 1 7 2) h1 (by decide),
        rayHits_avoid occ occ2 0 3 (raySquares (-1) 1 7 2) h1 (by decide),
        rayHits_avoid occ occ2 0 3 (raySquares 1 (-1) 7 2) h1 (by decide),
        rayHits_avoid occ occ2 0 3 (raySquares (-1) (-1) 7 2) h1 (by decide)]
  · have r1 : raySquares 1 0 7 6 = [] ++ [7] := by decide
    have r2 : raySquares (-1) 0 7 6 = 5 :: [4, 3, 2, 1, 0] := by decide
    refine ⟨?_, ?_⟩
    · unfold MAGICROOKATTACKS at h0 ⊢
      rw [and_or_eq_zero, and_or_eq_zero, and_or_eq_zero] at h0 ⊢
      obtain ⟨⟨⟨a, b⟩, c⟩, d⟩ := h0
      refine ⟨⟨⟨?_, ?_⟩, ?_⟩, ?_⟩
      · rw [r1] at a ⊢
        rw [rayHits_last occ occ2 [] 7 (fun s hs => absurd hs (List.not_mem_nil s))]
        exact a
      · rw [r2] at b ⊢
        exact rayHits_blocked occ occ2 e 5 _ h2 b
      · rw [rayHits_avoid occ occ2 7 5 _ h1 (by decide)]
        exact c
      · rw [rayHits_avoid occ occ2 7 5 _ h1 (by decide)]
        exact d
    · unfold MAGICBISHOPATTACKS
      rw [rayHits_avoid occ occ2 7 5 (raySquares 1 1 7 6) h1 (by decide),
        rayHits_avoid occ occ2 7 5 (raySquares (-1) 1 7 6) h1 (by decide),
        rayHits_avoid occ occ2 7 5 (raySquares 1 (-1) 7 6) h1 (by decide),
        rayHits_avoid occ occ2 7 5 (raySquares (-1) (-1) 7 6) h1 (by decide)]
  · have r1 : raySquares 1 0 7 58 = 59 :: [60, 61, 62, 63] := by decide
    have r2 : raySquares (-1) 0 7 58 = [57] ++ [56] := by decide
    refine ⟨?_, ?_⟩
    · unfold MAGICROOKATTACKS at h0 ⊢
      rw [and_or_eq_zero, and_or_eq_zero, and_or_eq_zero] at h0 ⊢
      obtain ⟨⟨⟨a, b⟩, c⟩, d⟩ := h0
      refine ⟨⟨⟨?_, ?_⟩, ?_⟩, ?_⟩
      · rw [r1] at a ⊢
        exact rayHits_blocked occ occ2 e 59 _ h2 a
      · rw [r2] at b ⊢
        rw [rayHits_last occ occ2 [57] 56 (fun s hs => h1 s (by simp at hs; omega) (by simp at hs; omega))]
        exact b
      · rw [rayHits_avoid occ occ2 56 59 _ h1 (by decide)]
        exact c
      · rw [rayHits_avoid occ occ2 56 59 _ h1 (by decide)]
        exact d
    · unfold MAGICBISHOPATTACKS
      rw [rayHits_avoid occ occ2 56 59 (raySquares 1 1 7 58) h1 (by decide),
        rayHits_avoid occ occ2 56 59 (raySquares (-1) 1 7 58) h1 (by decide),
        rayHits_avoid occ occ2 56 59 (raySquares 1 (-1) 7 58) h1 (by decide),
        rayHits_avoid occ occ2 56 59 (raySquares (-1) (-1) 7 58) h1 (by decide)]
  · have r1 : raySquares 1 0 7 62 = [] ++ [63] := by decide
    have r2 : raySquares (-1) 0 7 62 = 61 :: [60, 59, 58, 57, 56] := by decide
    refine ⟨?_, ?_⟩
    · unfold MAGICROOKATTACKS at h0 ⊢
      rw [and_or_eq_zero, and_or_eq_zero, and_or_eq_zero] at h0 ⊢
      obtain ⟨⟨⟨a, b⟩, c⟩, d⟩ := h0
      refine ⟨⟨⟨?_, ?_⟩, ?_⟩, ?_⟩
      · rw [r1] at a ⊢
        rw [rayHits_last occ occ2 [] 63 (fun s hs => absurd hs (List.not_mem_nil s))]
        exact a
      · rw [r2] at b ⊢
        exact rayHits_blocked occ occ2 e 61 _ h2 b
      · rw [rayHits_avoid occ occ2 63 61 _ h1 (by decide)]
        exact c
      · rw [rayHits_avoid occ occ2 63 61 _ h1 (by decide)]
        exact d
    · unfold MAGICBISHOPATTACKS
      rw [rayHits_avoid occ occ2 63 61 (raySquares 1 1 7 62) h1 (by decide),
        rayHits_avoid occ occ2 63 61 (raySquares (-1) 1 7 62) h1 (by decide),
        rayHits_avoid occ occ2 63 61 (raySquares 1 (-1) 7 62) h1 (by decide),
        rayHits_avoid occ occ2 63 61 (raySquares (-1) (-1) 7 62) h1 (by decide)]

theorem even_colour_ne_rook (x s : Nat) (hx : x &&& 1 = 0) (hs : s < 2) :
    x ||| (s ^^^ S2MMASK) ≠ WROOK ||| s := by
  intro h
  have h0 := congrArg (fun y => y.testBit 0) h
  have hx0 : x.testBit 0 = false := by
    have := congrArg (fun y => y.testBit 0) hx
    simpa using this
  have : s = 0 ∨ s = 1 := by omega
  rcases this with rfl | rfl
  · simp [S2MMASK, WROOK, hx0] at h0
  · simp [S2MMASK, WROOK, hx0] at h0

/-- The attack test reads only the piece boards of the attacking colour and the
occupancy. -/
theorem isAttackedBy_congr (p q : chessposition) (k col : Nat)
    (hp : ∀ x, x &&& 1 = 0 → q.piece00 (x ||| col) = p.piece00 (x ||| col))
    (ho : q.occupied00 0 ||| q.occupied00 1 = p.occupied00 0 ||| p.occupied00 1) :
    isAttackedBy q k col = isAttackedBy p k col := by
  unfold isAttackedBy
  dsimp only
  rw [ho, hp WKNIGHT (by decide), hp WROOK (by decide), hp WQUEEN (by decide),
    hp WBISHOP (by decide), hp WPAWN (by decide), hp WKING (by decide)]

/-- The attack test on the landing square of a castling king is not turned on by
the relocation of the rook. -/
theorem isAttackedBy_castle (p q : chessposition) (t rf rt col : Nat)
    (hcase : (t = 2 ∧ rf = 0 ∧ rt = 3) ∨ (t = 6 ∧ rf = 7 ∧ rt = 5)
      ∨ (t = 58 ∧ rf = 56 ∧ rt = 59) ∨ (t = 62 ∧ rf = 63 ∧ rt = 61))
    (hp : ∀ x, x &&& 1 = 0 → q.piece00 (x ||| col) = p.piece00 (x ||| col))
    (h1 : ∀ j, j ≠ rf → j ≠ rt →
      (q.occupied00 0 ||| q.occupied00 1).testBit j = (p.occupied00 0 ||| p.occupied00 1).testBit j)
    (h2 : (q.occupied00 0 ||| q.occupied00 1).testBit rt = true)
    (h0 : isAttackedBy p t col = 0) : isAttackedBy q t col = 0 := by
  unfold isAttackedBy at h0 ⊢
  dsimp only at h0 ⊢
  rw [hp WKNIGHT (by decide), hp WROOK (by decide), hp WQUEEN (by decide),
    hp WBISHOP (by decide), hp WPAWN (by decide), hp WKING (by decide)]
  rw [or_eq_zero_iff, or_eq_zero_iff, or_eq_zero_iff, or_eq_zero_iff] at h0 ⊢
  obtain ⟨⟨⟨⟨a, b⟩, c⟩, d⟩, e⟩ := h0
  obtain ⟨r1, r2⟩ := castle_attack _ _ _ t rf rt hcase h1 h2 b
  refine ⟨⟨⟨⟨a, r1⟩, ?_⟩, d⟩, e⟩
  rw [r2]
  exact c

theorem playCastle_kingpos (zb : zobrist) (p : chessposition) (m s2m : Nat) :
    (playCastle zb p m s2m).kingpos = p.kingpos := by
  unfold playCastle
  dsimp only
  split_ifs <;> rfl

theorem playCommit_kingpos (zb : zobrist) (p : chessposition) (m s2m : Nat) :
    (playCommit zb p m s2m).kingpos = p.kingpos :=
  playCastle_kingpos zb p m s2m

theorem playCommit_boards (zb : zobrist) (p : chessposition) (m s2m : Nat) :
    (playCommit zb p m s2m).piece00 = (playCastle zb p m s2m).piece00
      ∧ (playCommit zb p m s2m).occupied00 = (playCastle zb p m s2m).occupied00 :=
  ⟨rfl, rfl⟩

theorem playCastle_plain_boards (zb : zobrist) (p : chessposition) (m s2m : Nat)
    (h : ¬ castleCond m) :
    (playCastle zb p m s2m).piece00 = p.piece00
      ∧ (playCastle zb p m s2m).occupied00 = p.occupied00 := by
  unfold playCastle
  dsimp only
  split_ifs <;>
    first
    | exact ⟨rfl, rfl⟩
    | (exfalso; apply h; unfold castleCond; tauto)

theorem playCastle_other_piece (zb : zobrist) (p : chessposition) (m s2m q : Nat)
    (h : q ≠ WROOK ||| s2m) : (playCastle zb p m s2m).piece00 q = p.piece00 q := by
  unfold playCastle
  dsimp only
  split_ifs <;>
    first
    | rfl
    | simp [BitboardMove, setAt, h]

theorem king_of_side (p s : Nat) (h : p >>> 1 = KING) (hs : p &&& S2MMASK = s) :
    p = WKING ||| s := by
  subst hs
  unfold KING at h
  unfold S2MMASK WKING
  rw [Nat.shiftRight_eq_div_pow] at h
  have h2 : p &&& 1 = p % 2 := Nat.and_pow_two_sub_one_eq_mod p 1
  rw [h2]
  have : p = 12 ∨ p = 13 := by omega
  rcases this with rfl | rfl <;> decide

theorem wking_facts (s : Nat) (hs : s < 2) :
    WKING ||| s ≠ 0 ∧ WROOK ||| s ≠ WKING ||| s ∧ (WKING ||| s) >>> 1 = KING
      ∧ 12 ≤ WKING ||| s := by
  have : s = 0 ∨ s = 1 := by omega
  rcases this with rfl | rfl <;> decide

/-- Squares that the move does not touch keep their mailbox entry. -/
theorem commitMailbox_other (pos : chessposition) (m sq : Nat) (h1 : sq ≠ GETTO m)
    (h2 : sq ≠ GETFROM m) (h3 : GETEPCAPTURE m ≠ 0 → sq ≠ epfieldOf m)
    (h4 : castleCond m → sq ≠ rookFromOf m ∧ sq ≠ rookToOf m) :
    commitMailbox pos m sq = pos.mailbox sq := by
  unfold commitMailbox applyMailbox
  by_cases a : castleCond m <;> by_cases b : GETEPCAPTURE m ≠ 0
  · rw [if_pos a, if_pos b]
    simp [setAt, h1, h2, h3 b, (h4 a).1, (h4 a).2]
  · rw [if_pos a, if_neg b]
    simp [setAt, h1, h2, (h4 a).1, (h4 a).2]
  · rw [if_neg a, if_pos b]
    simp [setAt, h1, h2, h3 b]
  · rw [if_neg a, if_neg b]
    simp [setAt, h1, h2]

/-- A square that holds a king of the side that moved after a successful
`playMove` is the king square that `playMove` recorded. -/
theorem commitMailbox_king (pos : chessposition) (m sq : Nat) (hok : moveOK pos m)
    (hpa : pieceAgree pos.piece00 pos.mailbox)
    (hking : kingTracked pos (pos.state &&& S2MMASK)) (hsq : sq < 64)
    (h : commitMailbox pos m sq = WKING ||| (pos.state &&& S2MMASK)) :
    sq = if GETPIECE m >>> 1 = KING then GETTO m
      else pos.kingpos (pos.state &&& S2MMASK) := by
  have hs := and_one_lt_two pos.state
  obtain ⟨w1, w2, w3, w4⟩ := wking_facts _ hs
  have hmb : ∀ j, j < 64 → pos.mailbox j = WKING ||| (pos.state &&& S2MMASK) →
      j = pos.kingpos (pos.state &&& S2MMASK) :=
    fun j hj e => hking j ((hpa _ _ w1).mpr ⟨hj, e⟩)
  obtain ⟨v1, v2, v3, v4⟩ := commitMailbox_values pos m hok
  obtain ⟨o1, -, o3, -, -, -, o7, -⟩ := hok
  by_cases e1 : sq = GETTO m
  · rw [e1, v1] at h
    by_cases hk : GETPIECE m >>> 1 = KING
    · rw [if_pos hk]
      exact e1
    · exfalso
      unfold arrivingPiece at h
      by_cases hp : GETPROMOTION m = BLANK
      · rw [if_pos hp] at h
        exact hk (h ▸ w3)
      · rw [if_neg hp] at h
        have := (o7 hp).2.2
        rw [h] at this
        unfold BQUEEN at this
        omega
  · by_cases e2 : sq = GETFROM m
    · exfalso
      rw [e2, v2] at h
      exact w1 h.symm
    · by_cases e3 : GETEPCAPTURE m ≠ 0 ∧ sq = epfieldOf m
      · exfalso
        rw [e3.2, v3 e3.1] at h
        exact w1 h.symm
      · by_cases e4 : castleCond m ∧ (sq = rookFromOf m ∨ sq = rookToOf m)
        · exfalso
          obtain ⟨c, d | d⟩ := e4
          · rw [d, (v4 c).2] at h
            exact w1 h.symm
          · rw [d, (v4 c).1] at h
            exact w2 h
        · have hsame := commitMailbox_other pos m sq e1 e2 (fun a b => e3 ⟨a, b⟩)
            (fun c => ⟨fun d => e4 ⟨c, Or.inl d⟩, fun d => e4 ⟨c, Or.inr d⟩⟩)
          rw [hsame] at h
          have hk0 := hmb sq hsq h
          by_cases hk : GETPIECE m >>> 1 = KING
          · exfalso
            have hpf := king_of_side _ _ hk o3
            have := hmb (GETFROM m) (GETFROM_lt m) (o1.trans hpf)
            exact e2 (hk0.trans this.symm)
          · rw [if_neg hk]
            exact hk0

/-- C3, amended: for a position whose mailbox and bitboards agree and in which
every king of the side to move stands on its `kingpos` square, and for a move
code that is consistent with the position (`moveOK`): if `playMove` returns
true, then in the resulting position every king of the side that moved still
stands on that side's `kingpos` square, and that square is not attacked by any
piece of the other side. -/
theorem king_not_left_in_check (zb : zobrist) (pos : chessposition) (m : Nat)
    (hagree : boardAgree pos) (hking : kingTracked pos (pos.state &&& S2MMASK))
    (hok : moveOK pos m) (hres : (playMove zb pos m).1 = true) :
    kingTracked (playMove zb pos m).2 (pos.state &&& S2MMASK)
      ∧ isAttackedBy (playMove zb pos m).2
          ((playMove zb pos m).2.kingpos (pos.state &&& S2MMASK))
          ((pos.state &&& S2MMASK) ^^^ S2MMASK) = 0 := by
  have hs := and_one_lt_two pos.state
  obtain ⟨w1, -, -, -⟩ := wking_facts _ hs
  have hsafe : isAttackedBy (playApply zb pos m)
      ((playApply zb pos m).kingpos (pos.state &&& S2MMASK))
      ((pos.state &&& S2MMASK) ^^^ S2MMASK) = 0 := by
    cases hatt : isAttacked (playApply zb pos m)
        ((playApply zb pos m).kingpos (pos.state &&& S2MMASK))
    · unfold isAttacked at hatt
      rw [(playApply_control zb pos m).1] at hatt
      simpa using hatt
    · rw [playMove_of_attacked zb pos m hatt] at hres
      exact absurd hres (by simp)
  rw [playMove_true_eq zb pos m hres]
  have hkp : (playCommit zb (playApply zb pos m) m (pos.state &&& S2MMASK)).kingpos
      (pos.state &&& S2MMASK)
      = if GETPIECE m >>> 1 = KING then GETTO m
        else pos.kingpos (pos.state &&& S2MMASK) := by
    rw [playCommit_kingpos, playApply_kingpos]
    by_cases hk : GETPIECE m >>> 1 = KING
    · rw [if_pos hk, if_pos hk]
      exact setAt_same _ _ _
    · rw [if_neg hk, if_neg hk]
  have hpc := playCommit_agree pieceKind zb pos m hok hagree.1
  have hoc := playCommit_agree occKind zb pos m hok hagree.2
  have hoa := playApply_agree occKind zb pos m hok hagree.2
  rw [playApply_mailbox zb pos m hok] at hoa
  refine ⟨?_, ?_⟩
  · intro sq hsq
    obtain ⟨a, b⟩ := (hpc _ sq w1).mp hsq
    rw [hkp]
    exact commitMailbox_king pos m sq hok hagree.1 hking a b
  · rw [playCommit_kingpos]
    by_cases hc : castleCond m
    · have hkt : (playApply zb pos m).kingpos (pos.state &&& S2MMASK) = GETTO m := by
        rw [playApply_kingpos, if_pos hc.1]
        exact setAt_same _ _ _
      rw [hkt] at hsafe ⊢
      obtain ⟨-, -, -, r4⟩ := castle_rook_ready pos m hok hc
      obtain ⟨-, -, -, v4⟩ := commitMailbox_values pos m hok
      have hcase : (GETTO m = 2 ∧ rookFromOf m = 0 ∧ rookToOf m = 3)
          ∨ (GETTO m = 6 ∧ rookFromOf m = 7 ∧ rookToOf m = 5)
          ∨ (GETTO m = 58 ∧ rookFromOf m = 56 ∧ rookToOf m = 59)
          ∨ (GETTO m = 62 ∧ rookFromOf m = 63 ∧ rookToOf m = 61) := by
        rcases castle_cases m hc.2 with ⟨-, b, c, d⟩ | ⟨-, b, c, d⟩ | ⟨-, b, c, d⟩ | ⟨-, b, c, d⟩
        · exact Or.inl ⟨b, c, d⟩
        · exact Or.inr (Or.inl ⟨b, c, d⟩)
        · exact Or.inr (Or.inr (Or.inl ⟨b, c, d⟩))
        · exact Or.inr (Or.inr (Or.inr ⟨b, c, d⟩))
      refine isAttackedBy_castle (playApply zb pos m) _ (GETTO m) (rookFromOf m) (rookToOf m) _
        hcase ?_ ?_ ?_ hsafe
      · intro x hx
        exact playCastle_other_piece zb _ m _ _ (even_colour_ne_rook x _ hx hs)
      · intro j h1 h2
        rw [Bool.eq_iff_iff, occ_testBit _ _ hoc j, occ_testBit _ _ hoa j]
        have : commitMailbox pos m j = applyMailbox pos m j := by
          unfold commitMailbox
          rw [if_pos hc]
          simp [setAt, h1, h2]
        rw [this]
      · rw [occ_testBit _ _ hoc]
        refine ⟨(castlerook_lt _).2, ?_⟩
        rw [(v4 hc).1]
        exact r4
    · have hb := playCastle_plain_boards zb (playApply zb pos m) m (pos.state &&& S2MMASK) hc
      have hcg := isAttackedBy_congr (playApply zb pos m)
        (playCommit zb (playApply zb pos m) m (pos.state &&& S2MMASK))
        ((playApply zb pos m).kingpos (pos.state &&& S2MMASK))
        ((pos.state &&& S2MMASK) ^^^ S2MMASK)
        (fun x _ => congrFun hb.1 _) (by
          show (playCastle zb _ m _).occupied00 0 ||| (playCastle zb _ m _).occupied00 1 = _
          rw [hb.2])
      rw [hcg]
      exact hsafe

theorem kingTracked_of_eq (pos : chessposition) (c : Nat)
    (h : pos.piece00 (WKING ||| c) = BITSET (pos.kingpos c)) : kingTracked pos c := by
  intro sq hsq
  rw [h, testBit_BITSET] at hsq
  exact (of_decide_eq_true hsq).symm

/-- Castling king side in `castlePos`: the consistent code of e1-g1 is played,
the rook goes to f1 and the king on g1 is not attacked. -/
theorem king_not_left_in_check_witness :
    (playMove zbEx castlePos castleMove).1 = true
      ∧ kingTracked (playMove zbEx castlePos castleMove).2 (castlePos.state &&& S2MMASK)
      ∧ isAttackedBy (playMove zbEx castlePos castleMove).2
          ((playMove zbEx castlePos castleMove).2.kingpos (castlePos.state &&& S2MMASK))
          ((castlePos.state &&& S2MMASK) ^^^ S2MMASK) = 0 :=
  ⟨by decide,
    king_not_left_in_check zbEx castlePos castleMove
      (prepareStack_agree _ (mkPosition_agree _ _ _ (by decide)))
      (kingTracked_of_eq _ _ (by decide)) (by decide) (by decide)⟩

/-- Counterexample to C3 as stated: in `promoPos` both `kingpos` entries name the
only king of their colour, and the code of a7-a8 with a king as promotion piece
satisfies the assertions of `playMove` and is accepted by `moveIsPseudoLegal`;
`playMove` returns true (it tests only `kingpos`, e1), and the white king that now
stands on a8 is attacked by the black rook h8. -/
theorem king_safety_counterexample :
    promoPos.piece00 WKING = BITSET (promoPos.kingpos 0)
      ∧ promoPos.piece00 BKING = BITSET (promoPos.kingpos 1)
      ∧ promoPos.state &&& S2MMASK = 0
      ∧ promoPos.mailbox (GETFROM promoKing) = GETPIECE promoKing
      ∧ promoPos.mailbox (GETTO promoKing) = GETCAPTURE promoKing
      ∧ moveIsPseudoLegal promoPos promoKing = true
      ∧ (playMove zbEx promoPos promoKing).1 = true
      ∧ ((playMove zbEx promoPos promoKing).2.piece00 WKING).testBit 56 = true
      ∧ (playMove zbEx promoPos promoKing).2.mailbox 56 = WKING
      ∧ isAttackedBy (playMove zbEx promoPos promoKing).2 56 1 = BITSET 63
      ∧ isAttackedBy (playMove zbEx promoPos promoKing).2 56 1 ≠ 0 :=
  ⟨by decide, by decide, by decide, by decide, by decide, by decide, by decide, by decide,
    by decide, by decide, by decide⟩


/-! ## C2: the hashes stay equal to their from-scratch values -/

theorem xor_cancel_right (a b k : Nat) : (a ^^^ k) ^^^ (b ^^^ k) = a ^^^ b := by
  apply Nat.eq_of_testBit_eq
  intro i
  simp only [Nat.testBit_xor]
  cases a.testBit i <;> cases b.testBit i <;> cases k.testBit i <;> rfl

theorem xor_self_left (a k : Nat) : a ^^^ (a ^^^ k) = k := by
  apply Nat.eq_of_testBit_eq
  intro i
  simp only [Nat.testBit_xor]
  cases a.testBit i <;> cases k.testBit i <;> rfl

theorem xorBelow_congr (f g : Nat → Nat) (n : Nat) (h : ∀ j, j < n → g j = f j) :
    xorBelow g n = xorBelow f n := by
  induction n with
  | zero => rfl
  | succ n ih =>
    unfold xorBelow
    rw [h n (Nat.lt_succ_self n), ih (fun j hj => h j (Nat.lt_succ_of_lt hj))]

/-- Changing one term of an XOR over a range. -/
theorem xorBelow_update (f g : Nat → Nat) (q n : Nat) (hq : q < n)
    (h : ∀ k, k < n → k ≠ q → g k = f k) :
    xorBelow g n = xorBelow f n ^^^ (f q ^^^ g q) := by
  induction n with
  | zero => omega
  | succ n ih =>
    unfold xorBelow
    by_cases e : q = n
    · subst e
      rw [xorBelow_congr f g q (fun j hj => h j (Nat.lt_succ_of_lt hj) (by omega))]
      apply Nat.eq_of_testBit_eq
      intro i
      simp only [Nat.testBit_xor]
      cases (f q).testBit i <;> cases (g q).testBit i <;> cases (xorBelow f q).testBit i <;> rfl
    · rw [h n (Nat.lt_succ_self n) (fun e2 => e e2.symm),
        ih (by omega) (fun k hk => h k (Nat.lt_succ_of_lt hk))]
      apply Nat.eq_of_testBit_eq
      intro i
      simp only [Nat.testBit_xor]
      cases (f q).testBit i <;> cases (g q).testBit i <;> cases (xorBelow f n).testBit i <;>
        cases (f n).testBit i <;> rfl

/-- Toggling a bit of a board toggles its key. -/
theorem pieceKeys_toggle (zb : zobrist) (x p i : Nat) (hi : i < 64) :
    pieceKeys zb (x ^^^ BITSET i) p = pieceKeys zb x p ^^^ zb.boardtable ((i <<< 4) ||| p) := by
  unfold pieceKeys
  rw [xorBelow_update
    (fun sq => if x.testBit sq then zb.boardtable ((sq <<< 4) ||| p) else 0)
    (fun sq => if (x ^^^ BITSET i).testBit sq then zb.boardtable ((sq <<< 4) ||| p) else 0)
    i 64 hi (fun k _ hk => by
      have h1 : decide (i = k) = false := decide_eq_false (fun e => hk e.symm)
      simp only [Nat.testBit_xor, testBit_BITSET, h1, Bool.xor_false])]
  congr 1
  simp only [Nat.testBit_xor, testBit_BITSET, decide_True]
  cases x.testBit i <;> simp

/-- Toggling a bit of the board of piece `q` toggles its key in the XOR over the
selected pieces. -/
theorem boardKeys_toggle (zb : zobrist) (sel : Nat → Bool) (pc : Nat → Nat) (q i : Nat)
    (hq : q < 14) (hi : i < 64) :
    boardKeys zb sel (setAt pc q (pc q ^^^ BITSET i))
      = boardKeys zb sel pc ^^^ (if sel q then zb.boardtable ((i <<< 4) ||| q) else 0) := by
  unfold boardKeys
  rw [xorBelow_update
    (fun p => if sel p then pieceKeys zb (pc p) p else 0)
    (fun p => if sel p then pieceKeys zb (setAt pc q (pc q ^^^ BITSET i) p) p else 0)
    q 14 hq (fun k _ hk => by
      simp only [setAt_other _ _ _ _ hk])]
  congr 1
  simp only [setAt_same, pieceKeys_toggle zb _ _ _ hi]
  cases sel q
  · simp
  · simp only [if_true]
    exact xor_self_left _ _

theorem popcount_range_succ (x n : Nat) :
    ((List.range (n + 1)).filter (fun i => x.testBit i)).length
      = ((List.range n).filter (fun i => x.testBit i)).length
          + (if x.testBit n then 1 else 0) := by
  rw [List.range_succ, List.filter_append, List.length_append]
  cases h : x.testBit n <;> simp [List.filter, h]

/-- Toggling bit `i` changes the bit count below `n` by one when `i < n`. -/
theorem popcount_range_toggle (x i n : Nat) :
    ((List.range n).filter (fun j => (x ^^^ BITSET i).testBit j)).length
        + (if i < n ∧ x.testBit i = true then 1 else 0)
      = ((List.range n).filter (fun j => x.testBit j)).length
        + (if i < n ∧ x.testBit i = false then 1 else 0) := by
  induction n with
  | zero => simp
  | succ n ih =>
    rw [popcount_range_succ, popcount_range_succ, Nat.testBit_xor, testBit_BITSET]
    by_cases e : i = n
    · subst e
      have h1 : ¬ (i < i ∧ x.testBit i = true) := fun h => absurd h.1 (Nat.lt_irrefl i)
      have h2 : ¬ (i < i ∧ x.testBit i = false) := fun h => absurd h.1 (Nat.lt_irrefl i)
      rw [if_neg h1, if_neg h2] at ih
      generalize ((List.range i).filter (fun j => (x ^^^ BITSET i).testBit j)).length = A at ih ⊢
      generalize ((List.range i).filter (fun j => x.testBit j)).length = B at ih ⊢
      cases hb : x.testBit i <;> simp <;> omega
    · have h1 : decide (i = n) = false := decide_eq_false e
      rw [h1, Bool.xor_false]
      have h3 : (i < n + 1 ∧ x.testBit i = true) ↔ (i < n ∧ x.testBit i = true) := by
        constructor
        · rintro ⟨a, b⟩
          exact ⟨by omega, b⟩
        · rintro ⟨a, b⟩
          exact ⟨by omega, b⟩
      have h4 : (i < n + 1 ∧ x.testBit i = false) ↔ (i < n ∧ x.testBit i = false) := by
        constructor
        · rintro ⟨a, b⟩
          exact ⟨by omega, b⟩
        · rintro ⟨a, b⟩
          exact ⟨by omega, b⟩
      simp only [h3, h4]
      generalize ((List.range n).filter (fun j => (x ^^^ BITSET i).testBit j)).length = A at ih ⊢
      generalize ((List.range n).filter (fun j => x.testBit j)).length = B at ih ⊢
      omega

theorem POPCOUNT_off (x i : Nat) (hi : i < 64) (h : x.testBit i = true) :
    POPCOUNT x = POPCOUNT (x ^^^ BITSET i) + 1 := by
  have := popcount_range_toggle x i 64
  unfold POPCOUNT
  rw [if_pos ⟨hi, h⟩, if_neg (fun c => by rw [h] at c; exact absurd c.2 (by simp))] at this
  omega

theorem POPCOUNT_on (x i : Nat) (hi : i < 64) (h : x.testBit i = false) :
    POPCOUNT (x ^^^ BITSET i) = POPCOUNT x + 1 := by
  have := popcount_range_toggle x i 64
  unfold POPCOUNT
  rw [if_neg (fun c => by rw [h] at c; exact absurd c.2 (by simp)), if_pos ⟨hi, h⟩] at this
  omega

/-- Changing the board of piece `q` changes only that piece's share of the
material sum. -/
theorem materialAll_update (zb : zobrist) (pc : Nat → Nat) (q v : Nat) (hq : q < 14)
    (hq2 : WPAWN ≤ q) :
    materialAll zb (setAt pc q v)
      = materialAll zb pc
          ^^^ (materialKeys zb (POPCOUNT (pc q)) q ^^^ materialKeys zb (POPCOUNT v) q) := by
  unfold materialAll
  rw [xorBelow_update
    (fun p => if WPAWN ≤ p then materialKeys zb (POPCOUNT (pc p)) p else 0)
    (fun p => if WPAWN ≤ p then materialKeys zb (POPCOUNT (setAt pc q v p)) p else 0)
    q 14 hq (fun k _ hk => by
      simp only [setAt_other _ _ _ _ hk])]
  simp only [setAt_same, if_pos hq2]

theorem materialKeys_succ (zb : zobrist) (n p : Nat) :
    materialKeys zb (n + 1) p = zb.boardtable ((n <<< 4) ||| p) ^^^ materialKeys zb n p := rfl

/-- Taking a piece off its board removes the key of the last piece of its kind:
the key at the count after the removal. -/
theorem materialAll_off (zb : zobrist) (pc : Nat → Nat) (q i : Nat) (hq : q < 14)
    (hq2 : WPAWN ≤ q) (hi : i < 64) (h : (pc q).testBit i = true) :
    materialAll zb (setAt pc q (pc q ^^^ BITSET i))
      = materialAll zb pc
          ^^^ zb.boardtable ((POPCOUNT (pc q ^^^ BITSET i) <<< 4) ||| q) := by
  rw [materialAll_update zb pc q _ hq hq2, POPCOUNT_off _ i hi h, materialKeys_succ]
  congr 1
  apply Nat.eq_of_testBit_eq
  intro j
  simp only [Nat.testBit_xor]
  cases (zb.boardtable ((POPCOUNT (pc q ^^^ BITSET i) <<< 4) ||| q)).testBit j <;>
    cases (materialKeys zb (POPCOUNT (pc q ^^^ BITSET i)) q).testBit j <;> rfl

/-- Putting a piece on its board adds the key at the count before the placement. -/
theorem materialAll_on (zb : zobrist) (pc : Nat → Nat) (q i : Nat) (hq : q < 14)
    (hq2 : WPAWN ≤ q) (hi : i < 64) (h : (pc q).testBit i = false) :
    materialAll zb (setAt pc q (pc q ^^^ BITSET i))
      = materialAll zb pc ^^^ zb.boardtable ((POPCOUNT (pc q) <<< 4) ||| q) := by
  rw [materialAll_update zb pc q _ hq hq2, POPCOUNT_on _ i hi h, materialKeys_succ]
  congr 1
  apply Nat.eq_of_testBit_eq
  intro j
  simp only [Nat.testBit_xor]
  cases (zb.boardtable ((POPCOUNT (pc q) <<< 4) ||| q)).testBit j <;>
    cases (materialKeys zb (POPCOUNT (pc q)) q).testBit j <;> rfl

theorem or_eq_xor_of_unset (x i : Nat) (h : x.testBit i = false) :
    x ||| BITSET i = x ^^^ BITSET i := by
  apply Nat.eq_of_testBit_eq
  intro j
  rw [Nat.testBit_or, Nat.testBit_xor, testBit_BITSET]
  by_cases e : i = j
  · subst e
    rw [h]
    simp
  · rw [decide_eq_false e]
    simp

/-- Relocating a piece on its board keeps the material sum. -/
theorem materialAll_move (zb : zobrist) (pc : Nat → Nat) (q i j : Nat) (hq : q < 14)
    (hq2 : WPAWN ≤ q) (hi : i < 64) (hj : j < 64) (hij : i ≠ j)
    (h1 : (pc q).testBit i = true) (h2 : (pc q).testBit j = false) :
    materialAll zb (setAt pc q (pc q ^^^ (BITSET i ||| BITSET j))) = materialAll zb pc := by
  rw [materialAll_update zb pc q _ hq hq2, xor_two_bits _ _ _ hij]
  have a := POPCOUNT_off (pc q) i hi h1
  have b := POPCOUNT_on (pc q ^^^ BITSET i) j hj (by
    rw [Nat.testBit_xor, testBit_BITSET, h2, decide_eq_false hij]
    rfl)
  rw [b, ← a, Nat.xor_self, Nat.xor_zero]

/-- Relocating a piece on its board swaps its two keys. -/
theorem boardKeys_move (zb : zobrist) (sel : Nat → Bool) (pc : Nat → Nat) (q i j : Nat)
    (hq : q < 14) (hi : i < 64) (hj : j < 64) (hij : i ≠ j) :
    boardKeys zb sel (setAt pc q (pc q ^^^ (BITSET i ||| BITSET j)))
      = boardKeys zb sel pc
          ^^^ (if sel q then zb.boardtable ((i <<< 4) ||| q) ^^^ zb.boardtable ((j <<< 4) ||| q)
               else 0) := by
  have e : setAt pc q (pc q ^^^ (BITSET i ||| BITSET j))
      = setAt (setAt pc q (pc q ^^^ BITSET i)) q
          (setAt pc q (pc q ^^^ BITSET i) q ^^^ BITSET j) := by
    rw [setAt_same, setAt_setAt, xor_two_bits _ _ _ hij]
  rw [e, boardKeys_toggle zb sel _ q j hq hj, boardKeys_toggle zb sel _ q i hq hi]
  cases sel q
  · simp
  · simp only [if_true]
    rw [Nat.xor_assoc]

theorem capture_code_facts (m : Nat) (hr : codesInRange m) (hc : GETCAPTURE m ≠ BLANK) :
    GETCAPTURE m < 14 ∧ WPAWN ≤ GETCAPTURE m ∧ isPiece (GETCAPTURE m) = true
      ∧ isPawnOrKing (GETCAPTURE m) = decide (GETCAPTURE m >>> 1 = PAWN) := by
  obtain ⟨-, -, r3, r4⟩ := hr
  unfold BLANK at hc
  unfold BQUEEN at r4
  have h2 : 2 ≤ GETCAPTURE m := by omega
  refine ⟨by omega, h2, ?_, ?_⟩
  · unfold isPiece WPAWN
    exact decide_eq_true h2
  · unfold isPawnOrKing KING
    have : ¬ GETCAPTURE m >>> 1 = 6 := by
      rw [Nat.shiftRight_eq_div_pow]
      omega
    simp [this]

/-- The capture step keeps what the three hashes hold beyond the boards. -/
theorem playCapture_rests (zb : zobrist) (pos : chessposition) (m : Nat)
    (hr : codesInRange m)
    (hbit : GETCAPTURE m ≠ BLANK ∧ GETEPCAPTURE m = 0 →
      (pos.piece00 (GETCAPTURE m)).testBit (GETTO m) = true) :
    hashRest zb (playCapture zb pos m) = hashRest zb pos
      ∧ pawnRest zb (playCapture zb pos m) = pawnRest zb pos
      ∧ materialRest zb (playCapture zb pos m) = materialRest zb pos := by
  unfold playCapture
  dsimp only
  by_cases hc : GETCAPTURE m ≠ BLANK ∧ GETEPCAPTURE m = 0
  · rw [if_pos hc]
    obtain ⟨c1, c2, c3, c4⟩ := capture_code_facts m hr hc.1
    have hb := hbit hc
    unfold hashRest pawnRest materialRest BitboardClear
    by_cases hp : GETCAPTURE m >>> 1 = PAWN
    · rw [if_pos hp]
      dsimp only
      rw [boardKeys_toggle zb _ _ _ _ c1 (GETTO_lt m), boardKeys_toggle zb _ _ _ _ c1 (GETTO_lt m),
        setAt_same, materialAll_off zb _ _ _ c1 c2 (GETTO_lt m) hb, c3, c4, decide_eq_true hp]
      simp only [if_true]
      exact ⟨xor_cancel_right _ _ _, xor_cancel_right _ _ _, xor_cancel_right _ _ _⟩
    · rw [if_neg hp]
      dsimp only
      rw [boardKeys_toggle zb _ _ _ _ c1 (GETTO_lt m), boardKeys_toggle zb _ _ _ _ c1 (GETTO_lt m),
        setAt_same, materialAll_off zb _ _ _ c1 c2 (GETTO_lt m) hb, c3, c4, decide_eq_false hp]
      simp only [if_true, Bool.false_eq_true, if_false, Nat.xor_zero]
      exact ⟨xor_cancel_right _ _ _, trivial, xor_cancel_right _ _ _⟩
  · rw [if_neg hc]
    exact ⟨rfl, rfl, rfl⟩

theorem xor_left_comm (a b c : Nat) : a ^^^ (b ^^^ c) = b ^^^ (a ^^^ c) := by
  rw [← Nat.xor_assoc, Nat.xor_comm a b, Nat.xor_assoc]

theorem piece_code_facts (m : Nat) (hr : codesInRange m) :
    GETPIECE m < 14 ∧ WPAWN ≤ GETPIECE m ∧ isPiece (GETPIECE m) = true := by
  obtain ⟨r1, r2, -, -⟩ := hr
  unfold BKING at r2
  refine ⟨by omega, r1, ?_⟩
  unfold isPiece
  exact decide_eq_true r1

/-- The relocation of a piece that does not promote keeps what `hash` and
`materialhash` hold beyond the boards; `pawnhash` is left behind by the keys of a
pawn or king that moved. -/
theorem playRelocate_rests_plain (zb : zobrist) (p : chessposition) (m : Nat)
    (hr : codesInRange m) (hpr : GETPROMOTION m = BLANK) (hft : GETFROM m ≠ GETTO m)
    (h1 : (p.piece00 (GETPIECE m)).testBit (GETFROM m) = true)
    (h2 : (p.piece00 (GETPIECE m)).testBit (GETTO m) = false) :
    hashRest zb (playRelocate zb p m) = hashRest zb p
      ∧ materialRest zb (playRelocate zb p m) = materialRest zb p
      ∧ pawnRest zb (playRelocate zb p m)
          = pawnRest zb p ^^^
            (if isPawnOrKing (GETPIECE m) then
              zb.boardtable ((GETFROM m <<< 4) ||| GETPIECE m)
                ^^^ zb.boardtable ((GETTO m <<< 4) ||| arrivingPiece m)
             else 0) := by
  obtain ⟨c1, c2, c3⟩ := piece_code_facts m hr
  unfold playRelocate arrivingPiece
  dsimp only
  rw [if_pos hpr, if_pos hpr]
  unfold hashRest pawnRest materialRest BitboardMove
  dsimp only
  rw [boardKeys_move zb _ _ _ _ _ c1 (GETFROM_lt m) (GETTO_lt m) hft,
    boardKeys_move zb _ _ _ _ _ c1 (GETFROM_lt m) (GETTO_lt m) hft,
    materialAll_move zb _ _ _ _ c1 c2 (GETFROM_lt m) (GETTO_lt m) hft h1 h2, setAt_same, c3]
  refine ⟨?_, rfl, ?_⟩
  · simp only [if_true, Nat.xor_assoc, Nat.xor_comm, xor_left_comm, Nat.xor_cancel_left,
      Nat.xor_self, Nat.xor_zero]
  · rw [Nat.xor_assoc]

/-- The promotion of a pawn keeps what `hash` and `materialhash` hold beyond the
boards; `pawnhash` is left behind by the key of the pawn and of the new piece. -/
theorem playRelocate_rests_promo (zb : zobrist) (p : chessposition) (m : Nat)
    (hr : codesInRange m) (hpr : GETPROMOTION m ≠ BLANK)
    (hpawn : GETPIECE m >>> 1 = PAWN)
    (hlo : WKNIGHT ≤ GETPROMOTION m) (hhi : GETPROMOTION m ≤ BQUEEN)
    (h1 : (p.piece00 (GETPIECE m)).testBit (GETFROM m) = true)
    (h2 : (p.piece00 (GETPROMOTION m)).testBit (GETTO m) = false) :
    hashRest zb (playRelocate zb p m) = hashRest zb p
      ∧ materialRest zb (playRelocate zb p m) = materialRest zb p
      ∧ pawnRest zb (playRelocate zb p m)
          = pawnRest zb p ^^^
            (if isPawnOrKing (GETPIECE m) then
              zb.boardtable ((GETFROM m <<< 4) ||| GETPIECE m)
                ^^^ zb.boardtable ((GETTO m <<< 4) ||| arrivingPiece m)
             else 0) := by
  obtain ⟨c1, c2, c3⟩ := piece_code_facts m hr
  unfold WKNIGHT at hlo
  unfold BQUEEN at hhi
  have d1 : GETPROMOTION m < 14 := by omega
  have d2 : WPAWN ≤ GETPROMOTION m := by unfold WPAWN; omega
  have d3 : isPiece (GETPROMOTION m) = true := by
    unfold isPiece
    exact decide_eq_true d2
  have d4 : isPawnOrKing (GETPROMOTION m) = false := by
    unfold isPawnOrKing PAWN KING
    rw [Nat.shiftRight_eq_div_pow]
    exact decide_eq_false (by omega)
  have d5 : isPawnOrKing (GETPIECE m) = true := by
    unfold isPawnOrKing
    exact decide_eq_true (Or.inl hpawn)
  have hne : GETPROMOTION m ≠ GETPIECE m := by
    intro e
    rw [e, d5] at d4
    exact absurd d4 (by decide)
  have hor : setAt p.piece00 (GETPIECE m) (p.piece00 (GETPIECE m) ^^^ BITSET (GETFROM m))
      (GETPROMOTION m) = p.piece00 (GETPROMOTION m) := setAt_other _ _ _ _ hne
  unfold playRelocate arrivingPiece
  dsimp only
  rw [if_neg hpr, if_neg hpr]
  unfold hashRest pawnRest materialRest BitboardSet BitboardClear
  dsimp only
  rw [hor, or_eq_xor_of_unset _ _ h2, ← hor]
  rw [boardKeys_toggle zb _ _ _ _ d1 (GETTO_lt m), boardKeys_toggle zb _ _ _ _ d1 (GETTO_lt m),
    boardKeys_toggle zb _ _ _ _ c1 (GETFROM_lt m), boardKeys_toggle zb _ _ _ _ c1 (GETFROM_lt m),
    materialAll_on zb _ _ _ d1 d2 (GETTO_lt m) (by rw [hor]; exact h2),
    materialAll_off zb _ _ _ c1 c2 (GETFROM_lt m) h1, setAt_same, setAt_same, c3, d3, d4, d5]
  simp only [if_true, Bool.false_eq_true, if_false, Nat.xor_zero, setAt_same]
  refine ⟨?_, ?_, ?_⟩
  · simp only [Nat.xor_assoc, Nat.xor_comm, xor_left_comm, Nat.xor_cancel_left,
      Nat.xor_self, Nat.xor_zero]
  · simp only [Nat.xor_assoc, Nat.xor_comm, xor_left_comm, Nat.xor_cancel_left,
      Nat.xor_self, Nat.xor_zero]
  · simp only [Nat.xor_assoc, Nat.xor_comm, xor_left_comm, Nat.xor_cancel_left,
      Nat.xor_self, Nat.xor_zero]

theorem other_pawn_facts (p : Nat) (h : p >>> 1 = PAWN) :
    p ^^^ S2MMASK < 14 ∧ WPAWN ≤ p ^^^ S2MMASK ∧ isPiece (p ^^^ S2MMASK) = true
      ∧ isPawnOrKing (p ^^^ S2MMASK) = true := by
  rcases pawn_code p h with ⟨-, h2⟩ | ⟨-, h2⟩ <;> rw [h2] <;> decide

/-- The pawn specials keep what `hash` and `materialhash` hold beyond the boards
and bring `pawnhash` up to date with the move of a pawn. -/
theorem playSpecials_rests (zb : zobrist) (p : chessposition) (m s2m : Nat)
    (hbit : epCond p m →
      (p.piece00 (GETPIECE m ^^^ S2MMASK)).testBit (epfieldOf m) = true) :
    hashRest zb (playSpecials zb p m s2m) = hashRest zb p
      ∧ materialRest zb (playSpecials zb p m s2m) = materialRest zb p
      ∧ pawnRest zb (playSpecials zb p m s2m)
          = pawnRest zb p ^^^
            (if GETPIECE m >>> 1 = PAWN then
              zb.boardtable ((GETTO m <<< 4) ||| p.mailbox (GETTO m))
                ^^^ zb.boardtable ((GETFROM m <<< 4) ||| GETPIECE m)
             else 0) := by
  by_cases hp : GETPIECE m >>> 1 = PAWN
  · have hk : ¬ GETPIECE m >>> 1 = KING := by
      rw [hp]
      decide
    obtain ⟨c1, c2, c3, c4⟩ := other_pawn_facts _ hp
    by_cases he : p.ept ≠ 0 ∧ GETTO m = p.ept
    · have hb := hbit ⟨hp, he.1, he.2⟩
      unfold epfieldOf at hb
      have hlt : (GETFROM m &&& 0x38 ||| GETTO m &&& 0x07) < 64 := epfieldOf_lt m
      unfold playSpecials
      dsimp only
      rw [if_pos hp, if_neg hk, if_pos he]
      unfold hashRest pawnRest materialRest BitboardClear
      dsimp only
      rw [boardKeys_toggle zb _ _ _ _ c1 hlt,
        boardKeys_toggle zb _ _ _ _ c1 hlt, setAt_same,
        materialAll_off zb _ _ _ c1 c2 hlt hb, c3, c4, if_pos hp]
      simp only [if_true]
      refine ⟨?_, ?_, ?_⟩
      · simp only [Nat.xor_assoc, Nat.xor_comm, xor_left_comm, Nat.xor_cancel_left,
          Nat.xor_self, Nat.xor_zero]
      · simp only [Nat.xor_assoc, Nat.xor_comm, xor_left_comm, Nat.xor_cancel_left,
          Nat.xor_self, Nat.xor_zero]
      · simp only [Nat.xor_assoc, Nat.xor_comm, xor_left_comm, Nat.xor_cancel_left,
          Nat.xor_self, Nat.xor_zero]
    · unfold playSpecials
      dsimp only
      rw [if_pos hp, if_neg hk, if_neg he]
      unfold hashRest pawnRest materialRest
      dsimp only
      rw [if_pos hp]
      refine ⟨rfl, rfl, ?_⟩
      simp only [Nat.xor_assoc, Nat.xor_comm, xor_left_comm, Nat.xor_cancel_left,
        Nat.xor_self, Nat.xor_zero]
  · unfold playSpecials
    dsimp only
    rw [if_neg hp, if_neg hp]
    by_cases hk : GETPIECE m >>> 1 = KING
    · rw [if_pos hk]
      exact ⟨rfl, rfl, (Nat.xor_zero _).symm⟩
    · rw [if_neg hk]
      exact ⟨rfl, rfl, (Nat.xor_zero _).symm⟩

theorem rook_code_facts (s : Nat) (hs : s < 2) :
    WROOK ||| s < 14 ∧ WPAWN ≤ WROOK ||| s ∧ isPiece (WROOK ||| s) = true
      ∧ isPawnOrKing (WROOK ||| s) = false := by
  have : s = 0 ∨ s = 1 := by omega
  rcases this with rfl | rfl <;> decide

/-- The castling step keeps what `hash` and `materialhash` hold beyond the boards
and brings `pawnhash` up to date with the move of a king. -/
theorem playCastle_rests (zb : zobrist) (p : chessposition) (m s2m : Nat) (hs : s2m < 2)
    (hbit : castleCond m →
      (p.piece00 (WROOK ||| s2m)).testBit (rookFromOf m) = true
        ∧ (p.piece00 (WROOK ||| s2m)).testBit (rookToOf m) = false) :
    hashRest zb (playCastle zb p m s2m) = hashRest zb p
      ∧ materialRest zb (playCastle zb p m s2m) = materialRest zb p
      ∧ pawnRest zb (playCastle zb p m s2m)
          = pawnRest zb p ^^^
            (if GETPIECE m >>> 1 = KING then
              zb.boardtable ((GETFROM m <<< 4) ||| GETPIECE m)
                ^^^ zb.boardtable ((GETTO m <<< 4) ||| GETPIECE m)
             else 0) := by
  obtain ⟨c1, c2, c3, c4⟩ := rook_code_facts s2m hs
  by_cases hk : GETPIECE m >>> 1 = KING
  · by_cases hc : castleindex (GETFROM m) (GETTO m) ≠ 0
    · obtain ⟨b1, b2⟩ := hbit ⟨hk, hc⟩
      unfold rookFromOf at b1
      unfold rookToOf at b2
      have hne := (castle_distinct m hc).2.2.2.2.2
      unfold rookFromOf rookToOf at hne
      unfold playCastle
      dsimp only
      rw [if_pos hk, if_pos hc, if_pos hk]
      unfold hashRest pawnRest materialRest BitboardMove
      dsimp only
      rw [boardKeys_move zb _ _ _ _ _ c1 (castlerook_lt _).1 (castlerook_lt _).2 hne,
        boardKeys_move zb _ _ _ _ _ c1 (castlerook_lt _).1 (castlerook_lt _).2 hne,
        materialAll_move zb _ _ _ _ c1 c2 (castlerook_lt _).1 (castlerook_lt _).2 hne b1 b2,
        c3, c4]
      refine ⟨?_, rfl, ?_⟩
      · simp only [if_true, Nat.xor_assoc, Nat.xor_comm, xor_left_comm, Nat.xor_cancel_left,
          Nat.xor_self, Nat.xor_zero]
      · simp only [Bool.false_eq_true, if_false, Nat.xor_assoc, Nat.xor_comm, xor_left_comm,
          Nat.xor_cancel_left, Nat.xor_self, Nat.xor_zero, Nat.zero_xor]
    · unfold playCastle
      dsimp only
      rw [if_pos hk, if_neg hc, if_pos hk]
      unfold hashRest pawnRest materialRest
      dsimp only
      refine ⟨rfl, rfl, ?_⟩
      simp only [Nat.xor_assoc, Nat.xor_comm, xor_left_comm, Nat.xor_cancel_left,
        Nat.xor_self, Nat.xor_zero]
  · unfold playCastle
    dsimp only
    rw [if_neg hk, if_neg hk]
    exact ⟨rfl, rfl, (Nat.xor_zero _).symm⟩

theorem testBit_false_of_ne (pc mb : Nat → Nat) (h : pieceAgree pc mb) (q sq : Nat)
    (hq : q ≠ 0) (hne : mb sq ≠ q) : (pc q).testBit sq = false := by
  cases hb : (pc q).testBit sq
  · rfl
  · exact absurd ((h q sq hq).mp hb).2 hne

/-- The board part of `playMove` keeps what `hash` and `materialhash` hold beyond
the boards; `pawnhash` is left behind by the keys of a king that moved. -/
theorem playApply_rests (zb : zobrist) (pos : chessposition) (m : Nat)
    (hagree : pieceAgree pos.piece00 pos.mailbox) (hok : moveOK pos m)
    (hr : codesInRange m) :
    hashRest zb (playApply zb pos m) = hashRest zb pos
      ∧ materialRest zb (playApply zb pos m) = materialRest zb pos
      ∧ pawnRest zb (playApply zb pos m)
          = pawnRest zb pos ^^^
            (if GETPIECE m >>> 1 = KING then
              zb.boardtable ((GETFROM m <<< 4) ||| GETPIECE m)
                ^^^ zb.boardtable ((GETTO m <<< 4) ||| GETPIECE m)
             else 0) := by
  have hok2 := hok
  obtain ⟨h1, h2, -, h4, -, h6, h7, -⟩ := hok
  obtain ⟨hc, hn⟩ := moveOK_to_empty_or_capture pos m hok2
  -- the capture
  obtain ⟨s1h, s1p, s1m⟩ := playCapture_rests zb pos m hr (fun c =>
    (hagree _ _ c.1).mpr ⟨GETTO_lt m, hc c⟩)
  have a1 := playCapture_agree pieceKind zb pos m pos.mailbox hagree hc hn
  have hf1 : setAt pos.mailbox (GETTO m) 0 (GETFROM m) = GETPIECE m := by
    rw [setAt_other _ _ _ _ h4]
    exact h1
  have bitf : ((playCapture zb pos m).piece00 (GETPIECE m)).testBit (GETFROM m) = true :=
    (a1 _ _ h2).mpr ⟨GETFROM_lt m, hf1⟩
  -- the relocation
  have s2 : hashRest zb (playRelocate zb (playCapture zb pos m) m)
        = hashRest zb (playCapture zb pos m)
      ∧ materialRest zb (playRelocate zb (playCapture zb pos m) m)
        = materialRest zb (playCapture zb pos m)
      ∧ pawnRest zb (playRelocate zb (playCapture zb pos m) m)
          = pawnRest zb (playCapture zb pos m) ^^^
            (if isPawnOrKing (GETPIECE m) then
              zb.boardtable ((GETFROM m <<< 4) ||| GETPIECE m)
                ^^^ zb.boardtable ((GETTO m <<< 4) ||| arrivingPiece m)
             else 0) := by
    by_cases hpr : GETPROMOTION m = BLANK
    · exact playRelocate_rests_plain zb _ m hr hpr h4 bitf
        (testBit_false_of_ne _ _ a1 _ _ h2 (by rw [setAt_same]; exact fun e => h2 e.symm))
    · obtain ⟨p1, p2, p3⟩ := h7 hpr
      exact playRelocate_rests_promo zb _ m hr hpr p1 p2 p3 bitf
        (testBit_false_of_ne _ _ a1 _ _ hpr (by rw [setAt_same]; exact fun e => hpr e.symm))
  obtain ⟨s2h, s2m, s2p⟩ := s2
  have a2 := playRelocate_agree pieceKind zb (playCapture zb pos m) m _ a1
    hf1 h2 h4 (setAt_same _ _ _) (arrivingPiece_ne pos m hok2)
  -- the pawn specials
  have hept : (playRelocate zb (playCapture zb pos m) m).ept = pos.ept :=
    ((playRelocate_control zb _ m).2.1).trans (playCapture_control zb pos m).2.1
  have hiff := (epCond_congr _ pos m hept).trans (epCond_iff_flag pos m hok2)
  have hmb : (playRelocate zb (playCapture zb pos m) m).mailbox (GETTO m) = arrivingPiece m := by
    rw [playRelocate_mailbox, setAt_other _ _ _ _ (Ne.symm h4), setAt_same]
  obtain ⟨s3h, s3m, s3p⟩ := playSpecials_rests zb (playRelocate zb (playCapture zb pos m) m) m
    (pos.state &&& S2MMASK) (fun he => by
      have hz := hiff.mp he
      obtain ⟨ne1, ne2⟩ := epfield_ne pos m hok2 hz
      obtain ⟨a, -, -, -, -, f⟩ := h6 hz
      refine (a2 _ _ (pawn_code_other_ne _ a).1).mpr ⟨epfieldOf_lt m, ?_⟩
      rw [setAt_other _ _ _ _ ne2, setAt_other _ _ _ _ ne1, setAt_other _ _ _ _ ne2]
      exact f)
  unfold playApply
  refine ⟨s3h.trans (s2h.trans s1h), s3m.trans (s2m.trans s1m), ?_⟩
  rw [s3p, s2p, s1p, hmb]
  by_cases hp : GETPIECE m >>> 1 = PAWN
  · have hk : ¬ GETPIECE m >>> 1 = KING := by
      rw [hp]
      decide
    have hpk : isPawnOrKing (GETPIECE m) = true := by
      unfold isPawnOrKing
      exact decide_eq_true (Or.inl hp)
    rw [if_pos hp, if_neg hk, hpk]
    simp only [if_true, Nat.xor_assoc, Nat.xor_comm, xor_left_comm, Nat.xor_cancel_left,
      Nat.xor_self, Nat.xor_zero]
  · rw [if_neg hp]
    by_cases hk : GETPIECE m >>> 1 = KING
    · have hpk : isPawnOrKing (GETPIECE m) = true := by
        unfold isPawnOrKing
        exact decide_eq_true (Or.inr hk)
      have harr : arrivingPiece m = GETPIECE m := by
        unfold arrivingPiece
        by_cases hpr : GETPROMOTION m = BLANK
        · rw [if_pos hpr]
        · exact absurd (h7 hpr).1 hp
      rw [if_pos hk, hpk, harr]
      simp only [if_true, Nat.xor_zero]
    · have hpk : isPawnOrKing (GETPIECE m) = false := by
        unfold isPawnOrKing
        exact decide_eq_false (fun h => h.elim hp hk)
      rw [if_neg hk, hpk]
      simp only [Bool.false_eq_true, if_false, Nat.xor_zero]

theorem and_mask_side (x k : Nat) (hk : k.testBit 0 = true) :
    (x &&& k) &&& S2MMASK = x &&& S2MMASK := by
  apply Nat.eq_of_testBit_eq
  intro i
  unfold S2MMASK
  simp only [Nat.testBit_and]
  cases i with
  | zero => rw [hk, Bool.and_true]
  | succ i =>
    have : Nat.testBit 1 (i + 1) = false := by
      rw [Nat.testBit_succ]
      simp
    rw [this, Bool.and_false, Bool.and_false]

theorem castlerights_side (sq : Nat) : (castlerights sq).testBit 0 = true := by
  unfold castlerights
  split_ifs <;> decide

/-- The castling step keeps the side bit of `state` and the en-passant target. -/
theorem playCastle_side (zb : zobrist) (p : chessposition) (m s2m : Nat) :
    (playCastle zb p m s2m).state &&& S2MMASK = p.state &&& S2MMASK
      ∧ (playCastle zb p m s2m).ept = p.ept := by
  have e1 : (p.state &&& (castlerights (GETFROM m) &&& castlerights (GETTO m))) &&& S2MMASK
      = p.state &&& S2MMASK :=
    and_mask_side _ _ (by
      rw [Nat.testBit_and, castlerights_side, castlerights_side]
      rfl)
  have e2 : ((p.state &&& (castlerights (GETFROM m) &&& castlerights (GETTO m)))
      &&& (if s2m ≠ 0 then not32 (BQCMASK ||| BKCMASK) else not32 (WQCMASK ||| WKCMASK)))
        &&& S2MMASK = p.state &&& S2MMASK := by
    rw [and_mask_side _ _ (by split_ifs <;> decide)]
    exact e1
  unfold playCastle
  dsimp only
  by_cases hk : GETPIECE m >>> 1 = KING
  · by_cases hc : castleindex (GETFROM m) (GETTO m) ≠ 0
    · rw [if_pos hk, if_pos hc]
      exact ⟨e2, rfl⟩
    · rw [if_pos hk, if_neg hc]
      exact ⟨e2, rfl⟩
  · rw [if_neg hk]
    exact ⟨e1, rfl⟩

theorem side_key_toggle (x k : Nat) :
    (if (x ^^^ S2MMASK) &&& S2MMASK ≠ 0 then k else 0)
      = (if x &&& S2MMASK ≠ 0 then k else 0) ^^^ k := by
  have h1 : (x ^^^ S2MMASK) &&& S2MMASK = (x &&& S2MMASK) ^^^ S2MMASK := by
    apply Nat.eq_of_testBit_eq
    intro i
    simp only [Nat.testBit_and, Nat.testBit_xor]
    cases x.testBit i <;> cases S2MMASK.testBit i <;> rfl
  have h2 := and_one_lt_two x
  have h3 : x &&& S2MMASK = 0 ∨ x &&& S2MMASK = 1 := by omega
  rw [h1]
  rcases h3 with e | e <;> rw [e] <;> simp [S2MMASK]

theorem xor_move (a b c : Nat) (h : a ^^^ b = c) : a = b ^^^ c := by
  subst h
  simp only [Nat.xor_assoc, Nat.xor_comm, xor_left_comm, Nat.xor_cancel_left,
    Nat.xor_self, Nat.xor_zero]

theorem hash_algebra (h4 b4 h0 b0 side c0 e0 k eN c5 : Nat) (h1 : h4 ^^^ b4 = h0 ^^^ b0)
    (h2 : h0 = b0 ^^^ side ^^^ c0 ^^^ e0) :
    h4 ^^^ k ^^^ e0 ^^^ eN ^^^ (c0 ^^^ c5) = b4 ^^^ (side ^^^ k) ^^^ c5 ^^^ eN := by
  have e := xor_move _ _ _ h1
  subst e
  subst h2
  simp only [Nat.xor_assoc, Nat.xor_comm, xor_left_comm, Nat.xor_cancel_left,
    Nat.xor_self, Nat.xor_zero]

theorem rest_algebra (h4 b4 h0 b0 k : Nat) (h1 : h4 ^^^ b4 = (h0 ^^^ b0 ^^^ k) ^^^ k)
    (h2 : h0 = b0) : h4 = b4 := by
  subst h2
  have e := xor_move _ _ _ h1
  rw [e]
  simp only [Nat.xor_assoc, Nat.xor_comm, xor_left_comm, Nat.xor_cancel_left,
    Nat.xor_self, Nat.xor_zero]

/-- C2, amended: for Zobrist tables whose castling keys are XOR-linear, a
position whose mailbox and piece bitboards agree and whose `hash`, `pawnhash`
and `materialhash` equal their from-scratch values, and a move code that is
consistent with the position (`moveOK`) and holds piece codes in its piece and
capture fields (`codesInRange`): if `playMove` returns true, the three
incrementally updated values equal the from-scratch values of the resulting
position. -/
theorem playMove_keeps_hashes (zb : zobrist) (pos : chessposition) (m : Nat)
    (hlin : cstlLinear zb) (hagree : pieceAgree pos.piece00 pos.mailbox)
    (hh : hashesOK zb pos) (hok : moveOK pos m) (hr : codesInRange m)
    (hres : (playMove zb pos m).1 = true) : hashesOK zb (playMove zb pos m).2 := by
  rw [playMove_true_eq zb pos m hres]
  obtain ⟨ah, am, ap⟩ := playApply_rests zb pos m hagree hok hr
  have hs := and_one_lt_two pos.state
  have a3 := playApply_agree pieceKind zb pos m hok hagree
  rw [playApply_mailbox zb pos m hok] at a3
  obtain ⟨ch, cm, cp⟩ := playCastle_rests zb (playApply zb pos m) m (pos.state &&& S2MMASK) hs
    (fun hc => by
      obtain ⟨r1, r2, -, r4⟩ := castle_rook_ready pos m hok hc
      exact ⟨(a3 _ _ r4).mpr ⟨(castlerook_lt _).1, r1⟩,
        testBit_false_of_ne _ _ a3 _ _ r4 (by rw [r2]; exact fun e => r4 e.symm)⟩)
  obtain ⟨hh1, hh2, hh3⟩ := hh
  obtain ⟨k1, k2⟩ := playCastle_side zb (playApply zb pos m) m (pos.state &&& S2MMASK)
  have hctl := playApply_control zb pos m
  rw [ah] at ch
  rw [am] at cm
  rw [ap] at cp
  unfold hashRest at ch
  unfold pawnRest at cp
  unfold materialRest at cm
  unfold getHash at hh1
  unfold getPawnHash at hh2
  unfold getMaterialHash at hh3
  refine ⟨?_, ?_, ?_⟩
  · unfold playCommit playFinish getHash
    dsimp only
    rw [hlin, side_key_toggle, k1, k2, hctl.1, hctl.2.1]
    exact hash_algebra _ _ _ _ _ _ _ _ _ _ ch hh1
  · exact rest_algebra _ _ _ _ _ cp hh2
  · exact rest_algebra _ _ _ _ 0 (by rw [Nat.xor_zero, Nat.xor_zero]; exact cm) hh3

/-- The en-passant capture e5xd6 in `hashEpPos`: the move is played and the three
hashes equal the from-scratch values of the new position. -/
theorem playMove_keeps_hashes_witness :
    (playMove zbEx hashEpPos epMove).1 = true
      ∧ hashesOK zbEx (playMove zbEx hashEpPos epMove).2 :=
  ⟨by decide,
    playMove_keeps_hashes zbEx hashEpPos epMove (fun _ _ => rfl)
      (prepareStack_agree _
        (show boardAgree (withHashes zbEx
            (mkPosition [(4, WKING), (36, WPAWN), (63, BKING), (35, BPAWN)] 0 43)) from
          mkPosition_agree [(4, WKING), (36, WPAWN), (63, BKING), (35, BPAWN)] 0 43
            (by decide))).1
      (by decide) (by decide) (by decide) (by decide)⟩

/-- Counterexample to C2 as stated: in `hashPromoPos` the three hashes equal their
from-scratch values, and the code of a7-a8 with a pawn as promotion piece
satisfies the assertions of `playMove` and is accepted by `moveIsPseudoLegal`;
`playMove` returns true, a white pawn stands on a8, and `pawnhash` has dropped the
pawn: it differs from the from-scratch value by the key of the pawn on a8. -/
theorem hash_consistency_counterexample :
    hashesOK zbEx hashPromoPos
      ∧ hashPromoPos.mailbox (GETFROM promoPawn) = GETPIECE promoPawn
      ∧ hashPromoPos.mailbox (GETTO promoPawn) = GETCAPTURE promoPawn
      ∧ moveIsPseudoLegal hashPromoPos promoPawn = true
      ∧ (playMove zbEx hashPromoPos promoPawn).1 = true
      ∧ ((playMove zbEx hashPromoPos promoPawn).2.piece00 WPAWN).testBit 56 = true
      ∧ (playMove zbEx hashPromoPos promoPawn).2.pawnhash
          ^^^ getPawnHash zbEx (playMove zbEx hashPromoPos promoPawn).2
          = zbEx.boardtable ((56 <<< 4) ||| WPAWN)
      ∧ ¬ hashesOK zbEx (playMove zbEx hashPromoPos promoPawn).2 :=
  ⟨by decide, by decide, by decide, by decide, by decide, by decide, by decide, by decide⟩


/-! ## C27: the null-move round trip -/

theorem xor_twice (a k : Nat) : (a ^^^ k) ^^^ k = a := by
  rw [Nat.xor_assoc, Nat.xor_self, Nat.xor_zero]

/-- C27: `playNullMove` followed by `unplayNullMove` gives back the position in
every field (state, hash, ply, history depth, bitboards, mailbox and the rest),
except that the history slot `movestack[mstop]` now holds move code 0. -/
theorem nullMove_roundtrip (zb : zobrist) (pos : chessposition) :
    unplayNullMove zb (playNullMove zb pos) = withTopCode pos 0
      ∧ (unplayNullMove zb (playNullMove zb pos)).state = pos.state
      ∧ (unplayNullMove zb (playNullMove zb pos)).hash = pos.hash
      ∧ (unplayNullMove zb (playNullMove zb pos)).ply = pos.ply
      ∧ (unplayNullMove zb (playNullMove zb pos)).mstop = pos.mstop
      ∧ ∀ i, i ≠ pos.mstop →
          (unplayNullMove zb (playNullMove zb pos)).movestack i = pos.movestack i := by
  have hs : (pos.state ^^^ S2MMASK) ^^^ S2MMASK = pos.state := xor_twice _ _
  have hh : (pos.hash ^^^ zb.s2m) ^^^ zb.s2m = pos.hash := xor_twice _ _
  have hp : pos.ply + 1 - 1 = pos.ply := by omega
  have hm : pos.mstop + 1 - 1 = pos.mstop := by omega
  refine ⟨?_, hs, hh, hp, hm, ?_⟩
  · unfold unplayNullMove playNullMove withTopCode
    ext1 <;> first | rfl | exact hs | exact hh | exact hp | exact hm
  · intro i hi
    show setAtInt pos.movestack pos.mstop _ i = pos.movestack i
    unfold setAtInt
    rw [if_neg hi]


/-! ## C18: moveGivesCheck tests the moved piece only -/

theorem and_BITSET_ne_zero (x k : Nat) : x &&& BITSET k ≠ 0 ↔ x.testBit k = true := by
  unfold BITSET
  rw [Nat.one_shiftLeft, Nat.and_two_pow]
  cases x.testBit k
  · simp
  · simp

/-- C18: `moveGivesCheck(c)` is true exactly when the squares that the moved
piece (the piece code stored in `c`) reaches from the destination square of `c`
contain the square of the opposing king; a check that only another piece gives
is not seen: in `discoverPos` the knight move e4-c3 is played, the rook e1 then
attacks the black king, and `moveGivesCheck` is false. -/
theorem moveGivesCheck_iff (pos : chessposition) (c : Nat) :
    (moveGivesCheck pos c = true
        ↔ (movesTo pos (GETPIECE c) (GETTO c)).testBit
            (pos.kingpos ((GETPIECE c &&& S2MMASK) ^^^ S2MMASK)) = true)
      ∧ (moveGivesCheck discoverPos discoverMove = false
          ∧ (playMove zbEx discoverPos discoverMove).1 = true
          ∧ isAttackedBy (playMove zbEx discoverPos discoverMove).2
              ((playMove zbEx discoverPos discoverMove).2.kingpos 1) 0 = BITSET 4) := by
  refine ⟨?_, by decide, by decide, by decide⟩
  unfold moveGivesCheck
  dsimp only
  rw [← and_BITSET_ne_zero]
  by_cases h : movesTo pos (GETPIECE c) (GETTO c)
      &&& BITSET (pos.kingpos ((GETPIECE c &&& S2MMASK) ^^^ S2MMASK)) ≠ 0
  · rw [if_pos h]
    exact ⟨fun _ => h, fun _ => rfl⟩
  · rw [if_neg h]
    exact ⟨fun e => absurd e (by decide), fun e => absurd e h⟩


/-! ## C24: the half-move counter -/

/-- C15, at the failing input: in `pushPos` (white pawn on e2) the code of e2-e3
with a queen in the promotion field is accepted by `moveIsPseudoLegal`, although
e3 is on the third rank; `shortMove2FullMove` returns it for its 16-bit part, the
assertion at the start of `playMove` (promotion only on the last rank) does not
hold for it, and `playMove` puts a queen on e3. -/
theorem promotion_rank_unchecked :
    moveIsPseudoLegal pushPos pushPromo = true
      ∧ GETPROMOTION pushPromo = WQUEEN
      ∧ GETPIECE pushPromo >>> 1 = PAWN
      ∧ RRANK (GETTO pushPromo) (pushPos.state &&& S2MMASK) = 2
      ∧ shortMove2FullMove pushPos (pushPromo % 2 ^ 16) = pushPromo
      ∧ ¬ (GETPROMOTION pushPromo = 0
            ∨ (GETPIECE pushPromo >>> 1 = PAWN
                ∧ RRANK (GETTO pushPromo) (pushPos.state &&& S2MMASK) = 7))
      ∧ (playMove zbEx pushPos pushPromo).1 = true
      ∧ (playMove zbEx pushPos pushPromo).2.mailbox 20 = WQUEEN :=
  ⟨by decide, by decide, by decide, by decide, by decide, by decide, by decide, by decide⟩

/-- C13, at the failing input: in `farPawnPos` (white pawn on a2, ept = d6)
`shortMove2FullMove` builds and returns, for the 16-bit code of a2-d6, a pawn
move flagged as en-passant capture; `moveIsPseudoLegal` accepts it although d6 is
neither in `movesTo(WPAWN, a2)` nor a square that the pawn attacks, and
`playMove` puts the pawn on d6. -/
theorem ept_target_unchecked :
    shortMove2FullMove farPawnPos farPawnShort = farPawnMove
      ∧ moveIsPseudoLegal farPawnPos farPawnMove = true
      ∧ GETPIECE farPawnMove = WPAWN ∧ GETFROM farPawnMove = 8 ∧ GETTO farPawnMove = 43
      ∧ farPawnPos.ept = 43
      ∧ movesTo farPawnPos WPAWN 8 &&& BITSET 43 = 0
      ∧ pawn_attacks_occupied 8 0 &&& BITSET 43 = 0
      ∧ (playMove zbEx farPawnPos farPawnMove).1 = true
      ∧ (playMove zbEx farPawnPos farPawnMove).2.mailbox 43 = WPAWN
      ∧ (playMove zbEx farPawnPos farPawnMove).2.mailbox 35 = BPAWN :=
  ⟨by decide, by decide, by decide, by decide, by decide, by decide, by decide, by decide,
    by decide, by decide, by decide⟩

/-- What an accepted code has passed in the pawn block when it is not a double
push. -/
theorem pawnSpecialsOk_plain (pos : chessposition) (c : Nat)
    (h : pawnSpecialsOk pos c = true) (hx : GETFROM c ^^^ GETTO c ≠ 16) :
    ¬ (GETEPCAPTURE c ≠ 0 ∧ pos.ept ≠ GETTO c)
      ∧ ¬ (RRANK (GETTO c) (GETPIECE c &&& S2MMASK) = 7 ∧ GETPROMOTION c = 0) := by
  unfold pawnSpecialsOk at h
  dsimp only at h
  rw [if_neg hx] at h
  by_cases h1 : GETEPCAPTURE c ≠ 0 ∧ pos.ept ≠ GETTO c
  · rw [if_pos h1] at h
    exact absurd h (by decide)
  · rw [if_neg h1] at h
    by_cases h2 : RRANK (GETTO c) (GETPIECE c &&& S2MMASK) = 7 ∧ GETPROMOTION c = 0
    · rw [if_pos h2] at h
      exact absurd h (by decide)
    · exact ⟨h1, h2⟩

/-- The amended C14: if `moveIsPseudoLegal(c)` returns true, then the capture
field of `c` equals `mailbox[to]` or `c` carries the en-passant-capture flag; a
flagged pawn code that is not a double push has the current ept square as
destination; and if the flag is set only the way `shortMove2FullMove` sets it (on
a pawn move between different files to an empty square, with the opposing pawn in
the capture field), then the capture field equals `mailbox[to]` or `c` is a valid
en-passant capture: a pawn moves to the ept square, which is empty, and the
capture field is the opposing pawn. -/
theorem capture_field_checked (pos : chessposition) (c : Nat)
    (hacc : moveIsPseudoLegal pos c = true) :
    (GETCAPTURE c = pos.mailbox (GETTO c) ∨ GETEPCAPTURE c ≠ 0)
      ∧ (GETEPCAPTURE c ≠ 0 → GETPIECE c >>> 1 = PAWN → GETFROM c ^^^ GETTO c ≠ 16 →
          GETTO c = pos.ept)
      ∧ ((GETEPCAPTURE c ≠ 0 →
            GETPIECE c >>> 1 = PAWN ∧ FILE (GETFROM c) ≠ FILE (GETTO c)
              ∧ pos.mailbox (GETTO c) = BLANK ∧ GETCAPTURE c = GETPIECE c ^^^ S2MMASK) →
          (GETCAPTURE c = pos.mailbox (GETTO c)
            ∨ (GETPIECE c >>> 1 = PAWN ∧ GETTO c = pos.ept
                ∧ pos.mailbox (GETTO c) = BLANK
                ∧ GETCAPTURE c = GETPIECE c ^^^ S2MMASK))) := by
  obtain ⟨-, -, h3, -, -, -, -, h8, -⟩ := moveIsPseudoLegal_true pos c hacc
  have part1 : GETCAPTURE c = pos.mailbox (GETTO c) ∨ GETEPCAPTURE c ≠ 0 := by
    by_cases hz : GETEPCAPTURE c = 0
    · left
      by_contra hne
      exact h3 ⟨fun e => hne e.symm, hz⟩
    · right
      exact hz
  have part2 : GETEPCAPTURE c ≠ 0 → GETPIECE c >>> 1 = PAWN → GETFROM c ^^^ GETTO c ≠ 16 →
      GETTO c = pos.ept := by
    intro hz hp hx
    have hok : pawnSpecialsOk pos c = true := by
      cases hco : pawnSpecialsOk pos c
      · exact absurd ⟨hp, hco⟩ h8
      · rfl
    have := (pawnSpecialsOk_plain pos c hok hx).1
    by_contra hne
    exact this ⟨hz, fun e => hne e.symm⟩
  refine ⟨part1, part2, ?_⟩
  intro hconv
  rcases part1 with e | hz
  · exact Or.inl e
  · obtain ⟨a, b, c1, d⟩ := hconv hz
    exact Or.inr ⟨a, part2 hz a (fun hx => b (xor_sixteen_file _ _ hx)), c1, d⟩

/-- The en-passant capture e5xd6 in `epPos` is accepted, and its destination is
the ept square. -/
theorem capture_field_checked_witness :
    GETCAPTURE epMove = epPos.mailbox (GETTO epMove) ∨ GETEPCAPTURE epMove ≠ 0 :=
  (capture_field_checked epPos epMove (by decide)).1

/-- Counterexample to C14 as stated: in `knightTakesPos` the code of Nb1-a3 with
the en-passant-capture flag set and a queen in the capture field is accepted by
`moveIsPseudoLegal`; a3 is empty, so the capture field differs from
`mailbox[to]`, and the moved piece is not a pawn. -/
theorem capture_field_counterexample :
    moveIsPseudoLegal knightTakesPos knightBogus = true
      ∧ GETCAPTURE knightBogus = BQUEEN
      ∧ knightTakesPos.mailbox (GETTO knightBogus) = BLANK
      ∧ GETPIECE knightBogus >>> 1 = KNIGHT
      ∧ knightTakesPos.ept = 0 :=
  ⟨by decide, by decide, by decide, by decide, by decide⟩

/-! ## The engine object -/

theorem setOptionResize_idle (o : outside) (e : engine) :
    setOptionResize o e false false = e := by
  simp [setOptionResize]

/-- C11: `setOption` rejects a value below 1 for `hash` and an out-of-range value
for `threads`, `multipv` and `move overhead`: the engine object that results is
the one before the call, so every setting, the transposition table, the worker
array and the allocation state are unchanged. -/
theorem setOption_rejects (o : outside) (e : engine) (sName sValue : String) (v : Int)
    (hv : o.stoi sValue = some v) :
    (tolower sName = "hash" → v < 1 → setOption o e sName sValue = some e) ∧
    (tolower sName = "threads" → (v < 1 ∨ o.MAXTHREADS < v) →
      setOption o e sName sValue = some e) ∧
    (tolower sName = "multipv" → (v < 1 ∨ o.MAXMULTIPV < v) →
      setOption o e sName sValue = some e) ∧
    (tolower sName = "move overhead" → (v < 0 ∨ 5000 < v) →
      setOption o e sName sValue = some e) := by
  refine ⟨?_, ?_, ?_, ?_⟩
  · intro hn h1
    have a1 : ¬ ("hash" = "clear hash") := by decide
    have a2 : ¬ ("hash" = "ponder") := by decide
    have a3 : ¬ ("hash" = "multipv") := by decide
    have a4 : ¬ ("hash" = "threads") := by decide
    simp only [setOption, hn, if_neg a1, if_neg a2, if_neg a3, setOptionThreads, if_neg a4,
      setOptionHash, if_true, hv, if_pos h1]
  · intro hn h1
    have a1 : ¬ ("threads" = "clear hash") := by decide
    have a2 : ¬ ("threads" = "ponder") := by decide
    have a3 : ¬ ("threads" = "multipv") := by decide
    have a4 : ¬ ("threads" = "hash") := by decide
    have a5 : ¬ ("threads" = "move overhead") := by decide
    have a6 : ¬ ("threads" = "syzygypath") := by decide
    have a7 : ¬ ("threads" = "syzygy50moverule") := by decide
    have hr : ¬ (v ≥ 1 ∧ v ≤ o.MAXTHREADS ∧ v ≠ e.Threads) := by omega
    simp only [setOption, hn, if_neg a1, if_neg a2, if_neg a3, setOptionThreads, if_true, hv,
      if_neg hr, setOptionHash, if_neg a4, setOptionResize_idle, setOptionTail, if_neg a5,
      if_neg a6, if_neg a7]
  · intro hn h1
    have a1 : ¬ ("multipv" = "clear hash") := by decide
    have a2 : ¬ ("multipv" = "ponder") := by decide
    have a3 : ¬ ("multipv" = "threads") := by decide
    have a4 : ¬ ("multipv" = "hash") := by decide
    have a5 : ¬ ("multipv" = "move overhead") := by decide
    have a6 : ¬ ("multipv" = "syzygypath") := by decide
    have a7 : ¬ ("multipv" = "syzygy50moverule") := by decide
    have hr : ¬ (v ≥ 1 ∧ v ≤ o.MAXMULTIPV) := by omega
    simp only [setOption, hn, if_neg a1, if_neg a2, if_true, hv, if_neg hr, setOptionThreads,
      if_neg a3, setOptionHash, if_neg a4, setOptionResize_idle, setOptionTail, if_neg a5,
      if_neg a6, if_neg a7]
  · intro hn h1
    have a1 : ¬ ("move overhead" = "clear hash") := by decide
    have a2 : ¬ ("move overhead" = "ponder") := by decide
    have a3 : ¬ ("move overhead" = "multipv") := by decide
    have a4 : ¬ ("move overhead" = "threads") := by decide
    have a5 : ¬ ("move overhead" = "hash") := by decide
    have hr : v < 0 ∨ v > 5000 := by omega
    simp only [setOption, hn, if_neg a1, if_neg a2, if_neg a3, setOptionThreads, if_neg a4,
      setOptionHash, if_neg a5, setOptionResize_idle, setOptionTail, if_true, hv, if_pos hr]

theorem setOption_rejects_witness :
    outsideEx.stoi "0" = some 0 ∧
    setOption outsideEx engineEx "Hash" "0" = some engineEx ∧
    setOption outsideEx engineEx "Threads" "0" = some engineEx ∧
    setOption outsideEx engineEx "MultiPV" "0" = some engineEx :=
  ⟨by decide,
   (setOption_rejects outsideEx engineEx "Hash" "0" 0 (by decide)).1 (by decide) (by decide),
   (setOption_rejects outsideEx engineEx "Threads" "0" 0 (by decide)).2.1 (by decide)
     (by decide),
   (setOption_rejects outsideEx engineEx "MultiPV" "0" 0 (by decide)).2.2.1 (by decide)
     (by decide)⟩

theorem setAt_idem {α : Type} (f : Nat → α) (i : Nat) (v : α) :
    setAt (setAt f i v) i v = setAt f i v := by
  funext k
  by_cases h : k = i <;> simp [setAt, h]

theorem resetBest_idem (p : searchposition) (a : Nat) (b : Int) :
    resetBest { resetBest p with pwnhsh := a, threadindex := b } =
      { resetBest p with pwnhsh := a, threadindex := b } := by
  simp [resetBest, setAt_idem]

theorem prepareThreadAt_fold (l : List Nat) (h0 : 0 ∉ l) :
    ∀ (e : engine) (i : Nat),
      ((l.foldl prepareThreadAt e).sthread i) =
        if i ∈ l then
          { e.sthread i with
            pos := resetBest
              { (e.sthread 0).pos with pwnhsh := (e.sthread i).pwnhsh, threadindex := i } }
        else e.sthread i := by
  induction l with
  | nil => intro e i; simp
  | cons a t ih =>
    intro e i
    have ha : a ≠ 0 := fun h => h0 (by simp [h])
    have ht : 0 ∉ t := fun h => h0 (by simp [h])
    rw [List.foldl_cons, ih ht]
    have e0 : (prepareThreadAt e a).sthread 0 = e.sthread 0 := by
      simp [prepareThreadAt, setAt, Ne.symm ha]
    by_cases hia : i = a
    · subst hia
      have ei : (prepareThreadAt e i).sthread i =
          { e.sthread i with
            pos := resetBest
              { (e.sthread 0).pos with pwnhsh := (e.sthread i).pwnhsh, threadindex := i } } := by
        simp [prepareThreadAt, setAt]
      by_cases hit : i ∈ t
      · rw [if_pos hit, if_pos (List.mem_cons_self _ _), e0, ei]
      · rw [if_neg hit, if_pos (List.mem_cons_self _ _), ei]
    · have ei : (prepareThreadAt e a).sthread i = e.sthread i := by
        simp [prepareThreadAt, setAt, hia]
      by_cases hit : i ∈ t
      · rw [if_pos hit, if_pos (List.mem_cons_of_mem _ hit), e0, ei]
      · have hn : i ∉ a :: t := by simp [hia, hit]
        rw [if_neg hit, if_neg hn, ei]

theorem prepareThreads_sthread (e : engine) (i : Nat) :
    (prepareThreads e).sthread i =
      if i = 0 then { e.sthread 0 with pos := resetBest (e.sthread 0).pos }
      else if (i : Int) < e.Threads then
        { e.sthread i with
          pos := { resetBest (e.sthread 0).pos with
            pwnhsh := (e.sthread i).pwnhsh, threadindex := i } }
      else e.sthread i := by
  have h0 : 0 ∉ List.range' 1 (e.Threads.toNat - 1) := by
    rw [List.mem_range'_1]; omega
  have hT : (prepareFirst e).Threads = e.Threads := rfl
  have hz : (prepareFirst e).sthread 0 =
      { e.sthread 0 with pos := resetBest (e.sthread 0).pos } := by
    simp [prepareFirst, setAt]
  unfold prepareThreads
  rw [prepareThreadAt_fold _ h0]
  by_cases hi : i = 0
  · subst hi
    rw [if_neg h0, if_pos rfl, hz]
  · have hm : i ∈ List.range' 1 (e.Threads.toNat - 1) ↔ (i : Int) < e.Threads := by
      rw [List.mem_range'_1]
      omega
    have hs : (prepareFirst e).sthread i = e.sthread i := by
      simp [prepareFirst, setAt, hi]
    by_cases hlt : (i : Int) < e.Threads
    · rw [if_pos (hm.mpr hlt), if_neg hi, if_pos hlt, hz, hs]
      simp only [resetBest_idem]
    · rw [if_neg (fun h => hlt (hm.mp h)), if_neg hi, if_neg hlt, hs]

theorem prepareThreadAt_rest (l : List Nat) :
    ∀ x : engine, { l.foldl prepareThreadAt x with sthread := x.sthread } = x := by
  induction l with
  | nil => intro x; rfl
  | cons a t ih =>
    intro x
    rw [List.foldl_cons]
    have h1 := ih (prepareThreadAt x a)
    have h2 : { List.foldl prepareThreadAt (prepareThreadAt x a) t with
        sthread := x.sthread } =
        { ({ List.foldl prepareThreadAt (prepareThreadAt x a) t with
          sthread := (prepareThreadAt x a).sthread } : engine) with sthread := x.sthread } := rfl
    rw [h2, h1]
    rfl

/-- C23: after `prepareThreads` every worker `i` with `1 <= i < Threads` holds the
position of worker 0 except for `pwnhsh`, which is the worker's own table, and
`threadindex`, which is `i`; worker 0 and every such worker have `nodes`,
`nullmoveply`, `nullmoveside` and `bestmove.code` 0 and `bestmovescore[0]`
`NOSCORE`; no worker's own `pwnhsh` pointer changes, worker 0 keeps its table,
its index and its board, the workers from `Threads` on are untouched, and nothing
of the engine outside the worker array changes. -/
theorem prepareThreads_frame (e : engine) :
    (∀ i : Nat, 1 ≤ i → (i : Int) < e.Threads →
      ((prepareThreads e).sthread i).pos =
        { ((prepareThreads e).sthread 0).pos with
          pwnhsh := ((prepareThreads e).sthread i).pwnhsh, threadindex := i }) ∧
    (∀ i : Nat, (i = 0 ∨ (i : Int) < e.Threads) →
      ((prepareThreads e).sthread i).pos.nodes = 0 ∧
      ((prepareThreads e).sthread i).pos.nullmoveply = 0 ∧
      ((prepareThreads e).sthread i).pos.nullmoveside = 0 ∧
      ((prepareThreads e).sthread i).pos.bestmove.code = 0 ∧
      ((prepareThreads e).sthread i).pos.bestmovescore 0 = NOSCORE) ∧
    (∀ i : Nat, ((prepareThreads e).sthread i).pwnhsh = (e.sthread i).pwnhsh) ∧
    (∀ i : Nat, ¬ (i : Int) < e.Threads → i ≠ 0 →
      (prepareThreads e).sthread i = e.sthread i) ∧
    ((prepareThreads e).sthread 0).pos.pwnhsh = (e.sthread 0).pos.pwnhsh ∧
    ((prepareThreads e).sthread 0).pos.threadindex = (e.sthread 0).pos.threadindex ∧
    ((prepareThreads e).sthread 0).pos.board = (e.sthread 0).pos.board ∧
    { prepareThreads e with sthread := e.sthread } = e := by
  refine ⟨?_, ?_, ?_, ?_, ?_, ?_, ?_, ?_⟩
  · intro i h1 hlt
    have hi : i ≠ 0 := by omega
    rw [prepareThreads_sthread e i, prepareThreads_sthread e 0, if_neg hi, if_pos hlt,
      if_pos rfl]
  · intro i h
    rw [prepareThreads_sthread e i]
    by_cases hi : i = 0
    · rw [if_pos hi]; simp [resetBest, setAt]
    · have hlt : (i : Int) < e.Threads := by
        rcases h with h | h
        · exact absurd h hi
        · exact h
      rw [if_neg hi, if_pos hlt]; simp [resetBest, setAt]
  · intro i
    rw [prepareThreads_sthread e i]
    by_cases hi : i = 0
    · subst hi; rw [if_pos rfl]
    · by_cases hlt : (i : Int) < e.Threads
      · rw [if_neg hi, if_pos hlt]
      · rw [if_neg hi, if_neg hlt]
  · intro i hlt hi
    rw [prepareThreads_sthread e i, if_neg hi, if_neg hlt]
  · rw [prepareThreads_sthread e 0, if_pos rfl]; rfl
  · rw [prepareThreads_sthread e 0, if_pos rfl]; rfl
  · rw [prepareThreads_sthread e 0, if_pos rfl]; rfl
  · unfold prepareThreads
    have h1 := prepareThreadAt_rest (List.range' 1 (e.Threads.toNat - 1)) (prepareFirst e)
    have h3 : { List.foldl prepareThreadAt (prepareFirst e)
          (List.range' 1 (e.Threads.toNat - 1)) with sthread := e.sthread } =
        { ({ List.foldl prepareThreadAt (prepareFirst e)
          (List.range' 1 (e.Threads.toNat - 1)) with
          sthread := (prepareFirst e).sthread } : engine) with sthread := e.sthread } := rfl
    rw [h3, h1]
    rfl


/-! ## The command loop -/

/-- C12: while a search is active (`stopLevel` below `ENGINESTOPPED`) the case
`SETOPTION` of `communicate` only sends the refusal: `setOption` is not called,
and the engine object, with `Threads`, `sizeOfTp`, `sizeOfPh` and the worker
array, is the one before the command. -/
theorem setoption_while_searching (o : outside) (g : generator) (inputstring : String)
    (st : commstate) (args : List String) (h : st.en.stopLevel < ENGINESTOPPED) :
    dispatch o g inputstring st GuiToken.SETOPTION args =
      some { st with
        sent := "info string Changing option while searching is not supported.\n" :: st.sent } ∧
    ∀ st1, dispatch o g inputstring st GuiToken.SETOPTION args = some st1 →
      st1.optionCalls = st.optionCalls ∧ st1.en = st.en ∧
      st1.en.Threads = st.en.Threads ∧ st1.en.sizeOfTp = st.en.sizeOfTp ∧
      st1.en.sizeOfPh = st.en.sizeOfPh ∧ st1.en.sthreadAddr = st.en.sthreadAddr ∧
      st1.en.sthread = st.en.sthread ∧ st1.en.heapNext = st.en.heapNext := by
  have hd : dispatch o g inputstring st GuiToken.SETOPTION args =
      some { st with
        sent := "info string Changing option while searching is not supported.\n" :: st.sent } := by
    simp only [dispatch, caseSETOPTION, if_pos h]
  refine ⟨hd, ?_⟩
  intro st1 h1
  rw [hd] at h1
  cases h1
  exact ⟨rfl, rfl, rfl, rfl, rfl, rfl, rfl, rfl⟩

theorem setoption_while_searching_witness :
    searchingEx.en.stopLevel < ENGINESTOPPED ∧
    dispatch outsideEx generatorEx "" searchingEx GuiToken.SETOPTION
        ["name", "Threads", "value", "2"] =
      some { searchingEx with
        sent := "info string Changing option while searching is not supported.\n" ::
          searchingEx.sent } :=
  ⟨by decide,
   (setoption_while_searching outsideEx generatorEx "" searchingEx
     ["name", "Threads", "value", "2"] (by decide)).1⟩

/-- C21 on the code: the case `GO` has no test of the stop level.  After one
`go` the search runs behind thread 1; a second `go` creates thread 2 and puts it
behind the handle, and thread 1 is still running; processed from the searching
state, `go` does the same. -/
theorem go_while_running_spawns :
    (communicateLoop outsideEx generatorEx "" 4 searchingEx [goInput]).map threadView =
      some (ENGINERUN, 2, 2, [2, 1], []) ∧
    (dispatch outsideEx generatorEx "" searchingEx GuiToken.GO []).map threadView =
      some (ENGINERUN, 2, 2, [2, 1], []) ∧
    (communicate outsideEx generatorEx engineEx "" 8 [goInput]).map threadView =
      some (ENGINERUN, 1, 1, [1], [(0, [])]) ∧
    (communicate outsideEx generatorEx engineEx "" 8 [goInput, goInput]).map threadView =
      some (ENGINERUN, 2, 2, [2, 1], [(0, [])]) := by
  refine ⟨?_, ?_, ?_, ?_⟩ <;> rfl

theorem waitForSearchGuide_handle (o : outside) (st : commstate) :
    (waitForSearchGuide o st).searchguidethread = 0 ∧
    (waitForSearchGuide o st).installs = st.installs := by
  unfold waitForSearchGuide
  by_cases h : st.searchguidethread ≠ 0
  · rw [if_pos h]; exact ⟨rfl, rfl⟩
  · rw [if_neg h]; exact ⟨rfl, rfl⟩

theorem installPosition_installs (o : outside) (g : generator) (st : commstate)
    (hst : ∀ x ∈ st.installs, x.1 = 0)
    (hw : st.en.stopLevel ≥ ENGINESTOPIMMEDIATELY → st.searchguidethread = 0) :
    ∀ x ∈ (installPosition o g st).installs, x.1 = 0 := by
  intro x hx
  unfold installPosition at hx
  by_cases h : st.en.stopLevel < ENGINESTOPIMMEDIATELY
  · rw [if_pos h] at hx
    simp only [List.mem_cons] at hx
    rcases hx with hx | hx
    · rw [hx]; exact (waitForSearchGuide_handle o _).1
    · rw [(waitForSearchGuide_handle o _).2] at hx
      exact hst x hx
  · rw [if_neg h] at hx
    simp only [List.mem_cons] at hx
    rcases hx with hx | hx
    · rw [hx]; exact hw (Nat.le_of_not_lt h)
    · exact hst x hx

theorem pendingBlock_installs (o : outside) (g : generator) (st : commstate)
    (hst : ∀ x ∈ st.installs, x.1 = 0)
    (hw : st.en.stopLevel ≥ ENGINESTOPIMMEDIATELY → st.searchguidethread = 0) :
    ∀ x ∈ (pendingBlock o g st).installs, x.1 = 0 := by
  have h1 : ∀ x ∈ (if st.pendingposition = true then installPosition o g st else st).installs,
      x.1 = 0 := by
    by_cases hp : st.pendingposition = true
    · rw [if_pos hp]; exact installPosition_installs o g st hst hw
    · rw [if_neg hp]; exact hst
  unfold pendingBlock
  by_cases hr : (if st.pendingposition = true then installPosition o g st else st).pendingisready
      = true
  · simp only [hr, if_true]; exact h1
  · simp only [hr]; exact h1

theorem startSearch_installs (o : outside) (inputstring : String) (st : commstate) :
    (startSearch o inputstring st).installs = st.installs := by
  unfold startSearch
  by_cases h : inputstring ≠ ""
  · simp only [h, if_true, ne_eq, not_false_eq_true, (waitForSearchGuide_handle o _).2]
  · simp only [h, if_false]

theorem dispatch_installs (o : outside) (g : generator) (inputstring : String) (st : commstate)
    (c : GuiToken) (args : List String) (st1 : commstate)
    (h : dispatch o g inputstring st c args = some st1) : st1.installs = st.installs := by
  cases c
  case UCIDEBUG =>
    cases args with
    | nil => simp only [dispatch, Option.some.injEq] at h; rw [← h]
    | cons a t =>
      simp only [dispatch] at h
      split_ifs at h <;> (simp only [Option.some.injEq] at h; rw [← h])
  case SETOPTION =>
    simp only [dispatch, caseSETOPTION] at h
    split_ifs at h
    · simp only [Option.some.injEq] at h; rw [← h]
    · cases hs : setOptionArgs o args (st.en, st.optionCalls) "" "" false false with
      | none => rw [hs] at h; cases h
      | some s => rw [hs] at h; simp only [Option.some.injEq] at h; rw [← h]
  case POSITION =>
    cases args with
    | nil => simp only [dispatch, casePOSITION, Option.some.injEq] at h; rw [← h]
    | cons a t => simp only [dispatch, casePOSITION, Option.some.injEq] at h; rw [← h]
  case GO =>
    simp only [dispatch, caseGO] at h
    split at h
    · cases h
    · simp only [Option.some.injEq] at h; rw [← h, startSearch_installs]
  all_goals (simp only [dispatch, Option.some.injEq] at h; rw [← h])

theorem communicateLoop_installs (o : outside) (g : generator) (inputstring : String) :
    ∀ (fuel : Nat) (st : commstate) (inputs : List guiinput) (st1 : commstate),
      (∀ x ∈ st.installs, x.1 = 0) →
      communicateLoop o g inputstring fuel st inputs = some st1 →
      ∀ x ∈ st1.installs, x.1 = 0 := by
  intro fuel
  induction fuel with
  | zero =>
    intro st inputs st1 hst h
    simp only [communicateLoop, Option.some.injEq] at h
    rw [← h]; exact hst
  | succ n ih =>
    intro st inputs st1 hst h
    have hhead : (∀ x ∈ (if st.en.stopLevel ≥ ENGINESTOPIMMEDIATELY then waitForSearchGuide o st
          else st).installs, x.1 = 0) ∧
        ((if st.en.stopLevel ≥ ENGINESTOPIMMEDIATELY then waitForSearchGuide o st
          else st).en.stopLevel ≥ ENGINESTOPIMMEDIATELY →
         (if st.en.stopLevel ≥ ENGINESTOPIMMEDIATELY then waitForSearchGuide o st
          else st).searchguidethread = 0) := by
      by_cases hs : st.en.stopLevel ≥ ENGINESTOPIMMEDIATELY
      · rw [if_pos hs, (waitForSearchGuide_handle o st).2]
        exact ⟨hst, fun _ => (waitForSearchGuide_handle o st).1⟩
      · rw [if_neg hs]
        exact ⟨hst, fun h2 => absurd h2 hs⟩
    simp only [communicateLoop] at h
    generalize (if st.en.stopLevel ≥ ENGINESTOPIMMEDIATELY then waitForSearchGuide o st
      else st) = sa at hhead h
    by_cases hp : sa.pendingisready = true ∨ sa.pendingposition = true
    · rw [if_pos hp] at h
      have hb := pendingBlock_installs o g sa hhead.1 hhead.2
      by_cases hl : loopGoesOn inputstring (pendingBlock o g sa) = true
      · rw [if_pos hl] at h
        exact ih _ _ _ hb h
      · rw [if_neg hl] at h
        simp only [Option.some.injEq] at h
        rw [← h, (waitForSearchGuide_handle o _).2]
        exact hb
    · rw [if_neg hp] at h
      cases inputs with
      | nil =>
        simp only [Option.some.injEq] at h
        rw [← h]; exact hhead.1
      | cons inp rest =>
        simp only at h
        cases hd : dispatch o g inputstring (parse sa inp) inp.command inp.args with
        | none => rw [hd] at h; cases h
        | some s2 =>
          rw [hd] at h
          have hpi : (parse sa inp).installs = sa.installs := by
            unfold parse
            cases inp.level <;> rfl
          have h2 : ∀ x ∈ s2.installs, x.1 = 0 := by
            rw [dispatch_installs o g inputstring _ _ _ _ hd, hpi]
            exact hhead.1
          simp only at h
          by_cases hl : loopGoesOn inputstring s2 = true
          · rw [if_pos hl] at h
            exact ih _ _ _ h2 h
          · rw [if_neg hl] at h
            simp only [Option.some.injEq] at h
            rw [← h, (waitForSearchGuide_handle o _).2]
            exact h2

/-- C22 on the code: at every call of `getFromFen` in the command loop the thread
handle is null, for every sequence of commands; but a coordinator thread created
before may still be unjoined: after `go`, `go`, `position startpos` the position
is installed with a null handle while thread 1, whose handle the second `go`
overwrote, was never joined. -/
theorem install_while_coordinator_unjoined :
    (∀ (o : outside) (g : generator) (e : engine) (inputstring : String) (fuel : Nat)
        (inputs : List guiinput) (st : commstate),
      communicate o g e inputstring fuel inputs = some st → ∀ x ∈ st.installs, x.1 = 0) ∧
    (communicate outsideEx generatorEx engineEx "" 12
        [goInput, goInput, positionInput]).map threadView =
      some (ENGINESTOPPED, 0, 2, [1], [(0, [1]), (0, [])]) := by
  refine ⟨?_, rfl⟩
  intro o g e inputstring fuel inputs st h
  exact communicateLoop_installs o g inputstring fuel _ inputs st
    (fun x hx => by simp [commStart] at hx) h


/-! ## Root moves -/

theorem tbSort_useTb (p : searchposition) : (tbSort p).useTb = p.useTb := by
  unfold tbSort
  by_cases h : p.tbPosition ≠ 0
  · rw [if_pos h]
  · rw [if_neg h]

/-- C20: in `tbFilterRootMoves`, when the number of pieces is at most `TBlargest`
and the exact probe returned 0, the WDL probe is applied to the position the
exact probe left and the outcome is built from its result (`tbPosition` is what
it returned, the moves are those it left, sorted if it is not 0); when the exact
probe succeeds the outcome is built from the exact probe alone, `useTb` is 0 and
the outcome is the same whatever the WDL probe is; when the number of pieces
exceeds `TBlargest` only `useTb`, `tbPosition` and `useRootmoveScore` are
assigned (`TBlargest`, 0, 0), so `rootmovelist` and `defaultmove` are unchanged,
and the outcome is the same whatever the two probes are.  The counts of the
calls say the same: the WDL probe is called exactly in the first case, once. -/
theorem tbFilterRootMoves_probes (g : generator) (p : searchposition) :
    ((POPCOUNT (p.board.occupied00 0 ||| p.board.occupied00 1) : Int) ≤ g.TBlargest →
      (g.root_probe
        { p with useTb := g.TBlargest, tbPosition := 0, useRootmoveScore := 0 }).1 = 0 →
      tbFilterRootMoves g p =
        { pos := tbSort
            { (g.root_probe_wdl
                { (g.root_probe
                    { p with useTb := g.TBlargest, tbPosition := 0,
                             useRootmoveScore := 0 }).2 with tbPosition := 0 }).2 with
              tbPosition := (g.root_probe_wdl
                { (g.root_probe
                    { p with useTb := g.TBlargest, tbPosition := 0,
                             useRootmoveScore := 0 }).2 with tbPosition := 0 }).1 },
          dtzCalls := 1, wdlCalls := 1, tbhits := 0 } ∧
      (tbFilterRootMoves g p).pos.tbPosition = (g.root_probe_wdl
          { (g.root_probe
              { p with useTb := g.TBlargest, tbPosition := 0,
                       useRootmoveScore := 0 }).2 with tbPosition := 0 }).1) ∧
    ((POPCOUNT (p.board.occupied00 0 ||| p.board.occupied00 1) : Int) ≤ g.TBlargest →
      (g.root_probe
        { p with useTb := g.TBlargest, tbPosition := 0, useRootmoveScore := 0 }).1 ≠ 0 →
      tbFilterRootMoves g p =
        { pos := tbSort
            { (g.root_probe
                { p with useTb := g.TBlargest, tbPosition := 0,
                         useRootmoveScore := 0 }).2 with
              tbPosition := (g.root_probe
                { p with useTb := g.TBlargest, tbPosition := 0,
                         useRootmoveScore := 0 }).1,
              useTb := 0 },
          dtzCalls := 1, wdlCalls := 0, tbhits := 1 } ∧
      (tbFilterRootMoves g p).pos.useTb = 0 ∧
      ∀ w : searchposition → Int × searchposition,
        tbFilterRootMoves { g with root_probe_wdl := w } p = tbFilterRootMoves g p) ∧
    (g.TBlargest < (POPCOUNT (p.board.occupied00 0 ||| p.board.occupied00 1) : Int) →
      tbFilterRootMoves g p =
        { pos := { p with useTb := g.TBlargest, tbPosition := 0, useRootmoveScore := 0 },
          dtzCalls := 0, wdlCalls := 0, tbhits := 0 } ∧
      (tbFilterRootMoves g p).pos.rootmovelist = p.rootmovelist ∧
      (tbFilterRootMoves g p).pos.defaultmove = p.defaultmove ∧
      (tbFilterRootMoves g p).pos.tbPosition = 0 ∧
      (tbFilterRootMoves g p).pos.useTb = g.TBlargest ∧
      ∀ (r w : searchposition → Int × searchposition),
        tbFilterRootMoves { g with root_probe := r, root_probe_wdl := w } p
          = tbFilterRootMoves g p) ∧
    ((tbFilterRootMoves g p).wdlCalls =
      if (POPCOUNT (p.board.occupied00 0 ||| p.board.occupied00 1) : Int) ≤ g.TBlargest ∧
          (g.root_probe
            { p with useTb := g.TBlargest, tbPosition := 0, useRootmoveScore := 0 }).1 = 0
      then 1 else 0) ∧
    ((tbFilterRootMoves g p).dtzCalls =
      if (POPCOUNT (p.board.occupied00 0 ||| p.board.occupied00 1) : Int) ≤ g.TBlargest
      then 1 else 0) := by
  have hA : (POPCOUNT (p.board.occupied00 0 ||| p.board.occupied00 1) : Int) ≤ g.TBlargest →
      (g.root_probe
        { p with useTb := g.TBlargest, tbPosition := 0, useRootmoveScore := 0 }).1 = 0 →
      tbFilterRootMoves g p =
        { pos := tbSort
            { (g.root_probe_wdl
                { (g.root_probe
                    { p with useTb := g.TBlargest, tbPosition := 0,
                             useRootmoveScore := 0 }).2 with tbPosition := 0 }).2 with
              tbPosition := (g.root_probe_wdl
                { (g.root_probe
                    { p with useTb := g.TBlargest, tbPosition := 0,
                             useRootmoveScore := 0 }).2 with tbPosition := 0 }).1 },
          dtzCalls := 1, wdlCalls := 1, tbhits := 0 } := by
    intro hn hr
    simp only [tbFilterRootMoves, if_pos hn, hr, ne_eq, not_true_eq_false, if_false]
  have hB : (POPCOUNT (p.board.occupied00 0 ||| p.board.occupied00 1) : Int) ≤ g.TBlargest →
      (g.root_probe
        { p with useTb := g.TBlargest, tbPosition := 0, useRootmoveScore := 0 }).1 ≠ 0 →
      ∀ w : searchposition → Int × searchposition,
      tbFilterRootMoves { g with root_probe_wdl := w } p =
        { pos := tbSort
            { (g.root_probe
                { p with useTb := g.TBlargest, tbPosition := 0,
                         useRootmoveScore := 0 }).2 with
              tbPosition := (g.root_probe
                { p with useTb := g.TBlargest, tbPosition := 0,
                         useRootmoveScore := 0 }).1,
              useTb := 0 },
          dtzCalls := 1, wdlCalls := 0, tbhits := 1 } := by
    intro hn hr w
    simp only [tbFilterRootMoves, if_pos hn, ne_eq, hr, not_false_eq_true, if_true]
  have hC : g.TBlargest < (POPCOUNT (p.board.occupied00 0 ||| p.board.occupied00 1) : Int) →
      ∀ (r w : searchposition → Int × searchposition),
      tbFilterRootMoves { g with root_probe := r, root_probe_wdl := w } p =
        { pos := { p with useTb := g.TBlargest, tbPosition := 0, useRootmoveScore := 0 },
          dtzCalls := 0, wdlCalls := 0, tbhits := 0 } := by
    intro hn r w
    have hn2 : ¬ (POPCOUNT (p.board.occupied00 0 ||| p.board.occupied00 1) : Int)
        ≤ g.TBlargest := by omega
    simp only [tbFilterRootMoves, if_neg hn2]
  refine ⟨?_, ?_, ?_, ?_, ?_⟩
  · intro hn hr
    have h := hA hn hr
    refine ⟨h, ?_⟩
    rw [h]
    show (tbSort _).tbPosition = _
    unfold tbSort
    dsimp only
    split_ifs <;> rfl
  · intro hn hr
    have h := hB hn hr g.root_probe_wdl
    refine ⟨h, ?_, ?_⟩
    · have h2 : (tbFilterRootMoves g p).pos.useTb = _ := congrArg (fun x => x.pos.useTb) h
      rw [h2]
      exact tbSort_useTb _
    · intro w
      rw [hB hn hr w]
      exact h.symm
  · intro hn
    have h := hC hn g.root_probe g.root_probe_wdl
    refine ⟨h, ?_, ?_, ?_, ?_, ?_⟩
    · exact congrArg (fun x => x.pos.rootmovelist) h
    · exact congrArg (fun x => x.pos.defaultmove) h
    · exact congrArg (fun x => x.pos.tbPosition) h
    · exact congrArg (fun x => x.pos.useTb) h
    · intro r w
      rw [hC hn r w]
      exact h.symm
  · by_cases hn : (POPCOUNT (p.board.occupied00 0 ||| p.board.occupied00 1) : Int) ≤ g.TBlargest
    · by_cases hr : (g.root_probe
          { p with useTb := g.TBlargest, tbPosition := 0, useRootmoveScore := 0 }).1 = 0
      · rw [hA hn hr, if_pos ⟨hn, hr⟩]
      · have h := hB hn hr g.root_probe_wdl
        have h2 : (tbFilterRootMoves g p).wdlCalls = _ := congrArg (fun x => x.wdlCalls) h
        rw [h2, if_neg (fun c => hr c.2)]
    · have h := hC (by omega) g.root_probe g.root_probe_wdl
      have h2 : (tbFilterRootMoves g p).wdlCalls = _ := congrArg (fun x => x.wdlCalls) h
      rw [h2, if_neg (fun c => hn c.1)]
  · by_cases hn : (POPCOUNT (p.board.occupied00 0 ||| p.board.occupied00 1) : Int) ≤ g.TBlargest
    · by_cases hr : (g.root_probe
          { p with useTb := g.TBlargest, tbPosition := 0, useRootmoveScore := 0 }).1 = 0
      · rw [hA hn hr, if_pos hn]
      · have h := hB hn hr g.root_probe_wdl
        have h2 : (tbFilterRootMoves g p).dtzCalls = _ := congrArg (fun x => x.dtzCalls) h
        rw [h2, if_pos hn]
    · have h := hC (by omega) g.root_probe g.root_probe_wdl
      have h2 : (tbFilterRootMoves g p).dtzCalls = _ := congrArg (fun x => x.dtzCalls) h
      rw [h2, if_neg hn]

/-! ## Replay of a position command -/

theorem eptField_eq (m : Nat) : eptField m = m / 2 ^ 20 % 256 := by
  unfold eptField
  rw [Nat.shiftRight_eq_div_pow]
  exact Nat.and_pow_two_sub_one_eq_mod _ 8

theorem code_repack (m : Nat) (hm : m < 2 ^ 32) :
    ((GETPIECE m <<< 28) ||| (eptField m <<< 20) ||| (GETCAPTURE m <<< 16) ||| (m % 2 ^ 16))
      % 2 ^ 32 = m := by
  rw [GETPIECE_eq, eptField_eq, GETCAPTURE_eq]
  have e1 : ((m / 2 ^ 16 % 16) <<< 16) ||| (m % 2 ^ 16)
      = (m / 2 ^ 16 % 16) * 2 ^ 16 + m % 2 ^ 16 := or_pack _ _ _ (Nat.mod_lt _ (by decide))
  have e2 : ((m / 2 ^ 20 % 256) <<< 20) ||| ((m / 2 ^ 16 % 16) * 2 ^ 16 + m % 2 ^ 16)
      = (m / 2 ^ 20 % 256) * 2 ^ 20 + ((m / 2 ^ 16 % 16) * 2 ^ 16 + m % 2 ^ 16) :=
    or_pack _ _ _ (by omega)
  have e3 : ((m / 2 ^ 28 % 16) <<< 28)
        ||| ((m / 2 ^ 20 % 256) * 2 ^ 20 + ((m / 2 ^ 16 % 16) * 2 ^ 16 + m % 2 ^ 16))
      = (m / 2 ^ 28 % 16) * 2 ^ 28
        + ((m / 2 ^ 20 % 256) * 2 ^ 20 + ((m / 2 ^ 16 % 16) * 2 ^ 16 + m % 2 ^ 16)) :=
    or_pack _ _ _ (by omega)
  rw [Nat.or_assoc, Nat.or_assoc, e1, e2, e3]
  omega

theorem low_fields (m : Nat) :
    GETFROM (m % 2 ^ 16) = GETFROM m ∧ GETTO (m % 2 ^ 16) = GETTO m := by
  rw [GETFROM_eq, GETFROM_eq, GETTO_eq, GETTO_eq]
  omega

theorem shortMove2FullCode_low (pos : chessposition) (c : Nat) (hc : c < 2 ^ 16) :
    shortMove2FullCode pos c % 2 ^ 16 = c := by
  unfold shortMove2FullCode
  dsimp only
  generalize (if pos.mailbox (GETFROM c) >>> 1 = PAWN then
      if FILE (GETFROM c) ≠ FILE (GETTO c) ∧ pos.mailbox (GETTO c) = BLANK then
        (pos.mailbox (GETFROM c) ^^^ S2MMASK, ISEPCAPTURE)
      else if (GETFROM c ^^^ GETTO c) = 16
          ∧ epthelper (GETTO c) &&& pos.piece00 (pos.mailbox (GETFROM c) ^^^ 1) ≠ 0 then
        (pos.mailbox (GETTO c), (GETFROM c + GETTO c) / 2)
      else (pos.mailbox (GETTO c), 0)
    else (pos.mailbox (GETTO c), 0)) = ce
  have h1 : ∀ x : Nat, x % 2 ^ 32 % 2 ^ 16 = x % 2 ^ 16 := by intro x; omega
  rw [h1]
  apply Nat.eq_of_testBit_eq
  intro i
  simp only [Nat.testBit_mod_two_pow, Nat.testBit_or, Nat.testBit_shiftLeft]
  by_cases hi : i < 16
  · have a1 : ¬ (i ≥ 28) := by omega
    have a2 : ¬ (i ≥ 20) := by omega
    have a3 : ¬ (i ≥ 16) := by omega
    simp [hi, a1, a2, a3]
  · have hcb : c.testBit i = false := by
      apply Nat.testBit_lt_two_pow
      calc c < 2 ^ 16 := hc
        _ ≤ 2 ^ i := Nat.pow_le_pow_right (by decide) (by omega)
    simp [hi, hcb]

theorem shortMove2FullCode_conv (pos : chessposition) (m : Nat) (hm : m < 2 ^ 32)
    (hpc : pos.mailbox (GETFROM m) = GETPIECE m) (hconv : followsConventions pos m) :
    shortMove2FullCode pos (m % 2 ^ 16) = m := by
  obtain ⟨hf, ht⟩ := low_fields m
  unfold shortMove2FullCode
  dsimp only
  rw [hf, ht, hpc]
  unfold followsConventions at hconv
  by_cases hp : GETPIECE m >>> 1 = PAWN
  · rw [if_pos hp]
    by_cases hd : FILE (GETFROM m) ≠ FILE (GETTO m) ∧ pos.mailbox (GETTO m) = BLANK
    · rw [if_pos ⟨hp, hd⟩] at hconv
      rw [if_pos hd]
      dsimp only
      rw [← hconv.1, ← hconv.2]
      exact code_repack m hm
    · rw [if_neg (fun h => hd h.2)] at hconv
      rw [if_neg hd]
      by_cases hx : (GETFROM m ^^^ GETTO m) = 16
          ∧ epthelper (GETTO m) &&& pos.piece00 (GETPIECE m ^^^ 1) ≠ 0
      · rw [if_pos ⟨hp, hx⟩] at hconv
        rw [if_pos hx]
        dsimp only
        rw [← hconv.1, ← hconv.2]
        exact code_repack m hm
      · rw [if_neg (fun h => hx h.2)] at hconv
        rw [if_neg hx]
        dsimp only
        have h0 : (0 : Nat) = eptField m := hconv.2.symm
        rw [← hconv.1, h0]
        exact code_repack m hm
  · rw [if_neg hp]
    rw [if_neg (fun h => hp h.1), if_neg (fun h => hp h.1)] at hconv
    dsimp only
    have h0 : (0 : Nat) = eptField m := hconv.2.symm
    rw [← hconv.1, h0]
    exact code_repack m hm

theorem and_ffff (m : Nat) : m &&& 0xFFFF = m % 2 ^ 16 :=
  Nat.and_pow_two_sub_one_eq_mod m 16

/-- C30: for a full move code `m` (32 bits) that `moveIsPseudoLegal` accepts and
that follows the encoding conventions, `shortMove2FullMove(m & 0xFFFF)` returns
`m`; and for every 16-bit value `c`, a non-zero result `r` of
`shortMove2FullMove(c)` has `r & 0xFFFF = c` and is accepted by
`moveIsPseudoLegal`. -/
theorem compact_roundtrip (pos : chessposition) (m : Nat) (hm : m < 2 ^ 32)
    (hacc : moveIsPseudoLegal pos m = true) (hconv : followsConventions pos m) :
    shortMove2FullMove pos (m &&& 0xFFFF) = m ∧
    ∀ c : Nat, c < 2 ^ 16 → shortMove2FullMove pos c ≠ 0 →
      shortMove2FullMove pos c &&& 0xFFFF = c ∧
      moveIsPseudoLegal pos (shortMove2FullMove pos c) = true := by
  obtain ⟨h0, hpc, hcap, hown, -, -, -, -, -⟩ := moveIsPseudoLegal_true pos m hacc
  obtain ⟨hf, ht⟩ := low_fields m
  have hcode := shortMove2FullCode_conv pos m hm hpc hconv
  refine ⟨?_, ?_⟩
  · rw [and_ffff]
    have hc0 : m % 2 ^ 16 ≠ 0 := by
      intro hz
      have hfrom : GETFROM m = 0 := by rw [GETFROM_eq]; omega
      have hto : GETTO m = 0 := by rw [GETTO_eq]; omega
      have hnd : ¬ (GETPIECE m >>> 1 = PAWN ∧ FILE (GETFROM m) ≠ FILE (GETTO m)
          ∧ pos.mailbox (GETTO m) = BLANK) := by
        rw [hfrom, hto]; intro h; exact h.2.1 rfl
      have hnx : ¬ (GETPIECE m >>> 1 = PAWN ∧ (GETFROM m ^^^ GETTO m) = 16
          ∧ epthelper (GETTO m) &&& pos.piece00 (GETPIECE m ^^^ 1) ≠ 0) := by
        rw [hfrom, hto]; intro h; exact absurd h.2.1 (by decide)
      unfold followsConventions at hconv
      rw [if_neg hnd, if_neg hnx] at hconv
      have hmb : pos.mailbox (GETTO m) = GETPIECE m := by
        rw [hto, ← hpc, hfrom]
      have hpm : GETPIECE m = 0 := by
        by_contra hne
        apply hown
        have hcm : GETCAPTURE m = GETPIECE m := by
          rw [hconv.1, hmb]
        rw [hcm]
        exact ⟨hne, Or.inl rfl⟩
      have hmz : m = 0 := by
        have e1 := eptField_eq m
        have e2 := GETCAPTURE_eq m
        have e3 := GETPIECE_eq m
        have hcz : GETCAPTURE m = 0 := by
          rw [hconv.1, hmb, hpm]
        rw [hconv.2] at e1
        rw [hcz] at e2
        rw [hpm] at e3
        omega
      exact h0 hmz
    unfold shortMove2FullMove
    have hpn : pos.mailbox (GETFROM (m % 2 ^ 16)) ≠ 0 := by
      rw [hf, hpc]
      intro hz
      have hcm : GETPIECE m >>> 1 ≠ PAWN := by rw [hz]; decide
      have hmt : movesTo pos (GETPIECE m) (GETFROM m) = 0 := by
        rw [hz]; simp [movesTo, PAWN, KNIGHT, BISHOP, ROOK, QUEEN, KING]
      obtain ⟨-, -, -, -, hmv, -, -, -, -⟩ := moveIsPseudoLegal_true pos m hacc
      apply hmv
      rw [hmt]
      exact ⟨by simp, Or.inr (Or.inr hcm)⟩
    rw [if_neg hc0, if_neg hpn, hcode, hacc]
    simp
  · intro c hc hne
    unfold shortMove2FullMove at hne ⊢
    by_cases h1 : c = 0
    · rw [if_pos h1] at hne; exact absurd rfl hne
    · rw [if_neg h1] at hne ⊢
      by_cases h2 : pos.mailbox (GETFROM c) = 0
      · rw [if_pos h2] at hne; exact absurd rfl hne
      · rw [if_neg h2] at hne ⊢
        by_cases h3 : moveIsPseudoLegal pos (shortMove2FullCode pos c) = true
        · rw [if_pos h3]
          exact ⟨by rw [and_ffff]; exact shortMove2FullCode_low pos c hc, h3⟩
        · rw [if_neg h3] at hne; exact absurd rfl hne

theorem compact_roundtrip_witness :
    epMove < 2 ^ 32 ∧ moveIsPseudoLegal epPos epMove = true ∧ followsConventions epPos epMove ∧
    shortMove2FullMove epPos (epMove &&& 0xFFFF) = epMove :=
  ⟨by decide, by decide, by decide,
   (compact_roundtrip epPos epMove (by decide) (by decide) (by decide)).1⟩


/-! ## The bound on the material gain -/

theorem ISPROMOTION_zero (m : Nat) (h : GETPROMOTION m = 0) : ISPROMOTION m = 0 := by
  unfold GETPROMOTION at h
  unfold ISPROMOTION
  apply Nat.eq_of_testBit_eq
  intro i
  rw [Nat.zero_testBit]
  by_cases hi : i < 12
  · rw [Nat.testBit_and]
    have h2 : (0xf000 : Nat).testBit i = false := by
      interval_cases i <;> decide
    rw [h2]; simp
  · have h2 := congrArg (fun x => x.testBit (i - 12)) h
    simp only [Nat.testBit_shiftRight, Nat.zero_testBit] at h2
    rwa [show 12 + (i - 12) = i by omega] at h2

theorem bestVictim_nonneg (mv : Nat → Int) (pos : chessposition) (you : Nat)
    (hval : mv 0 = 0 ∧ 0 ≤ mv PAWN ∧ mv PAWN ≤ mv KNIGHT ∧ mv BISHOP ≤ mv KNIGHT
      ∧ mv KNIGHT ≤ mv ROOK ∧ mv ROOK ≤ mv QUEEN) :
    0 ≤ bestVictim mv pos you := by
  obtain ⟨v0, vP, vPN, vBN, vNR, vRQ⟩ := hval
  unfold bestVictim
  split_ifs <;> omega

theorem bestVictim_covers (mv : Nat → Int) (pos : chessposition) (you c : Nat)
    (hval : mv 0 = 0 ∧ 0 ≤ mv PAWN ∧ mv PAWN ≤ mv KNIGHT ∧ mv BISHOP ≤ mv KNIGHT
      ∧ mv KNIGHT ≤ mv ROOK ∧ mv ROOK ≤ mv QUEEN)
    (hc : c < 12) (hyou : c &&& 1 = you) (hon : pos.piece00 c ≠ 0) :
    mv (c >>> 1) ≤ bestVictim mv pos you := by
  have hnn := bestVictim_nonneg mv pos you hval
  obtain ⟨v0, vP, vPN, vBN, vNR, vRQ⟩ := hval
  subst hyou
  unfold PAWN at vP vPN
  unfold KNIGHT at vPN vBN vNR
  unfold BISHOP at vBN
  unfold ROOK at vNR vRQ
  unfold QUEEN at vRQ
  interval_cases c
  · simpa [v0] using hnn
  · simpa [v0] using hnn
  all_goals
    simp only [bestVictim, WQUEEN, WROOK, WKNIGHT, WBISHOP, WPAWN, QUEEN, ROOK, KNIGHT, PAWN,
      Nat.reduceAnd, Nat.reduceOr, Nat.reduceShiftRight]
    split_ifs <;> first | omega | (exfalso; simp_all)

theorem RANK7_testBit (sq s : Nat) (hs : s < 2) (hsq : sq < 64) (h : RRANK sq s = 6) :
    (RANK7 s).testBit sq = true := by
  unfold RRANK at h
  unfold RANK7
  have hs2 : s = 0 ∨ s = 1 := by omega
  rcases hs2 with rfl | rfl
  · simp only [if_true] at h ⊢
    rw [Nat.shiftRight_eq_div_pow] at h
    have h1 : 48 ≤ sq := by omega
    have h2 : sq < 56 := by omega
    interval_cases sq <;> decide
  · simp only [if_neg (by decide : ¬ (1 : Nat) = 0)] at h ⊢
    rw [Nat.shiftRight_eq_div_pow] at h
    have h3 : sq / 2 ^ 3 < 8 := by omega
    have h4 : sq / 2 ^ 3 = 1 := by
      generalize sq / 2 ^ 3 = q at h h3
      interval_cases q <;> simp_all
    have h1 : 8 ≤ sq := by omega
    have h2 : sq < 16 := by omega
    interval_cases sq <;> decide

theorem side_code_pawn (pc me : Nat) (h1 : pc >>> 1 = PAWN) (h2 : pc &&& S2MMASK = me) :
    pc = WPAWN ||| me := by
  subst h2
  unfold PAWN at h1
  unfold WPAWN S2MMASK
  rw [Nat.shiftRight_eq_div_pow] at h1
  have h3 : pc = 2 ∨ pc = 3 := by omega
  rcases h3 with rfl | rfl <;> decide

/-- The amended C17: for a position whose piece bitboards agree with the mailbox,
a material table in which the empty piece is worth 0, a pawn at least 0 and at
most a knight, a bishop at most a knight, a knight at most a rook and a rook at
most a queen, and a move code that `moveIsPseudoLegal` accepts, whose en-passant-capture
flag, if set, goes with a capture field naming a piece that is on the board, and
whose promotion, if any, starts on the seventh rank of the mover and makes a
piece worth at most a queen: the immediate material gain of the move is at most
`getBestPossibleCapture()`. -/
theorem bestCapture_bounds (mv : Nat → Int) (pos : chessposition) (m : Nat)
    (hagree : pieceAgree pos.piece00 pos.mailbox)
    (hacc : moveIsPseudoLegal pos m = true)
    (hflag : GETEPCAPTURE m ≠ 0 → pos.piece00 (GETCAPTURE m) ≠ 0)
    (hprom : GETPROMOTION m ≠ 0 →
      RRANK (GETFROM m) (pos.state &&& S2MMASK) = 6 ∧ mv (GETPROMOTION m >>> 1) ≤ mv QUEEN)
    (hval : mv 0 = 0 ∧ 0 ≤ mv PAWN ∧ mv PAWN ≤ mv KNIGHT ∧ mv BISHOP ≤ mv KNIGHT
      ∧ mv KNIGHT ≤ mv ROOK ∧ mv ROOK ≤ mv QUEEN) :
    GETTACTICALVALUE mv m ≤ getBestPossibleCapture mv pos := by
  obtain ⟨h0, hpc, hcap, hown, -, hside, hpp, -, -⟩ := moveIsPseudoLegal_true pos m hacc
  have hme : pos.state &&& S2MMASK < 2 := and_one_lt_two _
  -- the captured piece
  have hvict : mv (GETCAPTURE m >>> 1)
      ≤ bestVictim mv pos ((pos.state &&& S2MMASK) ^^^ S2MMASK) := by
    by_cases hc0 : GETCAPTURE m = 0
    · rw [hc0]
      have := bestVictim_nonneg mv pos ((pos.state &&& S2MMASK) ^^^ S2MMASK) hval
      simpa [hval.1] using this
    · have hlt : GETCAPTURE m < 12 := by
        by_contra hge
        exact hown ⟨hc0, Or.inr (by unfold WKING; omega)⟩
      have hcol : GETCAPTURE m &&& 1 = (pos.state &&& S2MMASK) ^^^ S2MMASK := by
        have hne : GETPIECE m &&& S2MMASK ≠ GETCAPTURE m &&& S2MMASK :=
          fun e => hown ⟨hc0, Or.inl e⟩
        rw [hside] at hne
        have h1 : GETCAPTURE m &&& 1 < 2 := and_one_lt _
        have h2 : pos.state &&& 1 < 2 := and_one_lt _
        unfold S2MMASK at hne ⊢
        generalize pos.state &&& 1 = a at hne h2 ⊢
        generalize GETCAPTURE m &&& 1 = b at hne h1 ⊢
        interval_cases a <;> interval_cases b <;> first | rfl | exact absurd rfl hne
      have hon : pos.piece00 (GETCAPTURE m) ≠ 0 := by
        by_cases hf : GETEPCAPTURE m ≠ 0
        · exact hflag hf
        · have hmb : pos.mailbox (GETTO m) = GETCAPTURE m := by
            by_contra hne
            exact hcap ⟨hne, not_not.mp hf⟩
          have hbit : (pos.piece00 (GETCAPTURE m)).testBit (GETTO m) = true :=
            (hagree (GETCAPTURE m) (GETTO m) hc0).mpr ⟨GETTO_lt m, hmb⟩
          intro hz
          rw [hz, Nat.zero_testBit] at hbit
          exact absurd hbit (by decide)
      exact bestVictim_covers mv pos _ _ hval hlt hcol hon
  obtain ⟨v0, vP, vPN, vBN, vNR, vRQ⟩ := hval
  unfold GETTACTICALVALUE getBestPossibleCapture
  dsimp only
  by_cases hpr : GETPROMOTION m = 0
  · rw [ISPROMOTION_zero m hpr]
    simp only [ne_eq, not_true_eq_false, if_false]
    split_ifs <;> omega
  · obtain ⟨hr, hq⟩ := hprom hpr
    have hpawn : GETPIECE m >>> 1 = PAWN := by
      by_contra hne
      exact hpp ⟨hpr, hne⟩
    have hcode : GETPIECE m = WPAWN ||| (pos.state &&& S2MMASK) :=
      side_code_pawn _ _ hpawn hside
    have hbit : (pos.piece00 (WPAWN ||| (pos.state &&& S2MMASK))).testBit (GETFROM m) = true := by
      rw [← hcode]
      refine (hagree (GETPIECE m) (GETFROM m) ?_).mpr ⟨GETFROM_lt m, hpc⟩
      intro hz
      rw [hz] at hpawn
      exact absurd hpawn (by decide)
    have hrank := RANK7_testBit (GETFROM m) (pos.state &&& S2MMASK) hme (GETFROM_lt m) hr
    have hne : pos.piece00 (WPAWN ||| (pos.state &&& S2MMASK)) &&& RANK7 (pos.state &&& S2MMASK)
        ≠ 0 := by
      intro hz
      have := congrArg (fun x => x.testBit (GETFROM m)) hz
      simp only [Nat.testBit_and, hbit, hrank, Nat.zero_testBit] at this
      exact absurd this (by decide)
    rw [if_pos hne]
    split_ifs <;> omega

theorem bestCapture_bounds_witness :
    pieceAgree knightTakesPos.piece00 knightTakesPos.mailbox ∧
    moveIsPseudoLegal knightTakesPos knightTakes = true ∧
    GETTACTICALVALUE mvFlat knightTakes = 100 ∧
    getBestPossibleCapture mvFlat knightTakesPos = 100 ∧
    GETTACTICALVALUE mvFlat knightTakes ≤ getBestPossibleCapture mvFlat knightTakesPos :=
  ⟨(prepareStack_agree _ (mkPosition_agree _ _ _ (by decide))).1, by decide, by decide,
   by decide,
   bestCapture_bounds mvFlat knightTakesPos knightTakes
     (prepareStack_agree _ (mkPosition_agree _ _ _ (by decide))).1 (by decide)
     (fun h => absurd h (by decide)) (fun h => absurd h (by decide)) (by decide)⟩

/-- C17 as stated fails: on a board with consistent bitboards where black has
only a pawn beside the king, the knight move b1-a3 with the en-passant-capture
flag and a queen in the capture field is accepted by `moveIsPseudoLegal`; its
gain is the value of a queen, the bound is the value of a pawn.  And the pawn
move e2-e3 with a queen in the promotion field, which `shortMove2FullMove`
builds and `moveIsPseudoLegal` accepts, gains a queen for a pawn while the bound
is 0. -/
theorem bestCapture_counterexample :
    pieceAgree knightTakesPos.piece00 knightTakesPos.mailbox ∧
    moveIsPseudoLegal knightTakesPos knightBogus = true ∧
    GETPIECE knightBogus &&& S2MMASK = knightTakesPos.state &&& S2MMASK ∧
    GETTACTICALVALUE mvFlat knightBogus = 913 ∧
    getBestPossibleCapture mvFlat knightTakesPos = 100 ∧
    pieceAgree pushPos.piece00 pushPos.mailbox ∧
    moveIsPseudoLegal pushPos pushPromo = true ∧
    shortMove2FullMove pushPos (pushPromo % 2 ^ 16) = pushPromo ∧
    GETTACTICALVALUE mvFlat pushPromo = 813 ∧
    getBestPossibleCapture mvFlat pushPos = 0 :=
  ⟨(prepareStack_agree _ (mkPosition_agree _ _ _ (by decide))).1, by decide, by decide,
   by decide, by decide,
   (prepareStack_agree _ (mkPosition_agree _ _ _ (by decide))).1, by decide, by decide,
   by decide, by decide⟩


/-! ## The length of the exchange -/

theorem seeLoop_eq_count (mv : Nat → Int) (pos : chessposition) (to_ pr pb : Nat) :
    ∀ (fuel so at_ s : Nat) (v : Int),
      seeLoop mv pos to_ pr pb fuel so at_ s v
        = (seeLoopCount mv pos to_ pr pb fuel so at_ s v).map Prod.fst := by
  intro fuel
  induction fuel with
  | zero => intro so at_ s v; rfl
  | succ n ih =>
    intro so at_ s v
    simp only [seeLoop, seeLoopCount]
    by_cases h0 : at_ &&& pos.occupied00 s = 0
    · simp only [h0, if_true, Option.map_some']
    · simp only [h0, if_false]
      cases hl : leastAttacker pos (at_ &&& pos.occupied00 s) s 6 PAWN with
      | none => rfl
      | some t =>
        simp only
        by_cases hv : -v - 1 - mv t ≥ 0
        · rw [if_pos hv, if_pos hv]; rfl
        · rw [if_neg hv, if_neg hv, ih]
          cases seeLoopCount mv pos to_ pr pb n _ _ _ _ <;> rfl

theorem lsbFrom_spec (x : Nat) :
    ∀ n i, (∃ j, i ≤ j ∧ j < i + n ∧ x.testBit j = true) →
      x.testBit (lsbFrom x n i) = true ∧ lsbFrom x n i < i + n := by
  intro n
  induction n with
  | zero => intro i ⟨j, h1, h2, _⟩; omega
  | succ n ih =>
    intro i ⟨j, h1, h2, h3⟩
    unfold lsbFrom
    by_cases hi : x.testBit i = true
    · rw [if_pos hi]; exact ⟨hi, by omega⟩
    · rw [if_neg hi]
      have hne : j ≠ i := fun e => hi (e ▸ h3)
      obtain ⟨a, b⟩ := ih (i + 1) ⟨j, by omega, by omega, h3⟩
      exact ⟨a, by omega⟩

theorem GETLSB_spec (x : Nat) (h0 : x ≠ 0) (h64 : x < 2 ^ 64) :
    x.testBit (GETLSB x) = true ∧ GETLSB x < 64 := by
  obtain ⟨j, hj⟩ := Nat.ne_zero_implies_bit_true h0
  have hj64 : j < 64 := by
    by_contra hge
    have : x.testBit j = false := by
      apply Nat.testBit_lt_two_pow
      calc x < 2 ^ 64 := h64
        _ ≤ 2 ^ j := Nat.pow_le_pow_right (by decide) (by omega)
    rw [this] at hj
    exact absurd hj (by decide)
  have h := lsbFrom_spec x 64 0 ⟨j, by omega, by omega, hj⟩
  unfold GETLSB
  exact ⟨h.1, by omega⟩

theorem leastAttacker_found (pos : chessposition) (x s2m : Nat) (hs : s2m < 2)
    (hu : occIsUnion pos) (h0 : x ≠ 0) (hsub : x &&& pos.occupied00 s2m = x) :
    ∃ t, leastAttacker pos x s2m 6 PAWN = some t ∧ PAWN ≤ t ∧ t ≤ KING
      ∧ x &&& pos.piece00 ((t <<< 1) ||| s2m) ≠ 0 := by
  have hu2 := hu s2m hs
  simp only [WPAWN, WKNIGHT, WBISHOP, WROOK, WQUEEN, WKING] at hu2
  simp only [leastAttacker, PAWN, KING, Nat.reduceAdd, Nat.reduceShiftLeft]
  by_cases h1 : x &&& pos.piece00 (2 ||| s2m) ≠ 0
  · exact ⟨1, by rw [if_pos h1], by decide, by decide, h1⟩
  by_cases h2 : x &&& pos.piece00 (4 ||| s2m) ≠ 0
  · exact ⟨2, by rw [if_neg h1, if_pos h2], by decide, by decide, h2⟩
  by_cases h3 : x &&& pos.piece00 (6 ||| s2m) ≠ 0
  · exact ⟨3, by rw [if_neg h1, if_neg h2, if_pos h3], by decide, by decide, h3⟩
  by_cases h4 : x &&& pos.piece00 (8 ||| s2m) ≠ 0
  · exact ⟨4, by rw [if_neg h1, if_neg h2, if_neg h3, if_pos h4], by decide, by decide, h4⟩
  by_cases h5 : x &&& pos.piece00 (10 ||| s2m) ≠ 0
  · exact ⟨5, by rw [if_neg h1, if_neg h2, if_neg h3, if_neg h4, if_pos h5], by decide,
      by decide, h5⟩
  by_cases h6 : x &&& pos.piece00 (12 ||| s2m) ≠ 0
  · exact ⟨6, by rw [if_neg h1, if_neg h2, if_neg h3, if_neg h4, if_neg h5, if_pos h6],
      by decide, by decide, h6⟩
  exfalso
  apply h0
  rw [← hsub, hu2]
  simp only [Nat.and_or_distrib_left]
  rw [not_not.mp h1, not_not.mp h2, not_not.mp h3, not_not.mp h4, not_not.mp h5,
    not_not.mp h6]
  rfl

theorem xor_bit_and (so occ idx : Nat) (h : occ.testBit idx = true) :
    (so ^^^ BITSET idx) &&& occ = (so &&& occ) ^^^ BITSET idx := by
  apply Nat.eq_of_testBit_eq
  intro k
  simp only [Nat.testBit_and, Nat.testBit_xor, testBit_BITSET]
  by_cases e : idx = k
  · subst e; simp [h]
  · simp [e]

theorem seeLoopCount_runs (mv : Nat → Int) (pos : chessposition) (to_ pr pb : Nat)
    (hu : occIsUnion pos) (h64 : ∀ c, c < 2 → pos.occupied00 c < 2 ^ 64) :
    ∀ (fuel so at_ s : Nat) (v : Int), s < 2 →
      (∀ i, at_.testBit i = true → so.testBit i = true) →
      POPCOUNT (so &&& (pos.occupied00 0 ||| pos.occupied00 1)) < fuel →
      ∃ r n, seeLoopCount mv pos to_ pr pb fuel so at_ s v = some (r, n) ∧ r < 2
        ∧ n ≤ POPCOUNT (so &&& (pos.occupied00 0 ||| pos.occupied00 1)) := by
  intro fuel
  induction fuel with
  | zero => intro so at_ s v _ _ h; omega
  | succ fuel ih =>
    intro so at_ s v hs hinv hmu
    simp only [seeLoopCount]
    by_cases h0 : at_ &&& pos.occupied00 s = 0
    · rw [if_pos h0]
      exact ⟨s, 0, rfl, hs, Nat.zero_le _⟩
    · rw [if_neg h0]
      have hsub : at_ &&& pos.occupied00 s &&& pos.occupied00 s = at_ &&& pos.occupied00 s := by
        rw [Nat.and_assoc, Nat.and_self]
      obtain ⟨t, hl, -, -, hx⟩ := leastAttacker_found pos _ s hs hu h0 hsub
      rw [hl]
      simp only
      have hX64 : at_ &&& pos.occupied00 s &&& pos.piece00 (t <<< 1 ||| s) < 2 ^ 64 :=
        Nat.lt_of_le_of_lt Nat.and_le_left (Nat.and_lt_two_pow _ (h64 s hs))
      obtain ⟨hbit, hidx⟩ := GETLSB_spec _ hx hX64
      generalize GETLSB (at_ &&& pos.occupied00 s &&& pos.piece00 (t <<< 1 ||| s)) = idx
        at hbit hidx ⊢
      simp only [Nat.testBit_and, Bool.and_eq_true] at hbit
      have hso : so.testBit idx = true := hinv idx hbit.1.1
      have hocc : (pos.occupied00 0 ||| pos.occupied00 1).testBit idx = true := by
        rw [Nat.testBit_or]
        have hs2 : s = 0 ∨ s = 1 := by omega
        rcases hs2 with e | e
        · rw [e] at hbit; simp [hbit.1.2]
        · rw [e] at hbit; simp [hbit.1.2]
      have hmu2 : POPCOUNT (so &&& (pos.occupied00 0 ||| pos.occupied00 1))
          = POPCOUNT ((so ^^^ BITSET idx) &&& (pos.occupied00 0 ||| pos.occupied00 1)) + 1 := by
        rw [xor_bit_and so _ idx hocc]
        exact POPCOUNT_off _ idx hidx (by rw [Nat.testBit_and, hso, hocc]; rfl)
      have hs1 : s ^^^ S2MMASK < 2 := by
        unfold S2MMASK
        have hs2 : s = 0 ∨ s = 1 := by omega
        rcases hs2 with e | e <;> rw [e] <;> decide
      by_cases hv : -v - 1 - mv t ≥ 0
      · rw [if_pos hv]
        exact ⟨s ^^^ S2MMASK, 1, rfl, hs1, by omega⟩
      · rw [if_neg hv]
        generalize (if t = ROOK ∨ t = QUEEN ∨ t = KING then
            (if t &&& 1 ≠ 0 ∨ t = KING then
              at_ ||| MAGICBISHOPATTACKS (so ^^^ BITSET idx) to_ &&& pb
            else at_) ||| MAGICROOKATTACKS (so ^^^ BITSET idx) to_ &&& pr
          else if t &&& 1 ≠ 0 ∨ t = KING then
            at_ ||| MAGICBISHOPATTACKS (so ^^^ BITSET idx) to_ &&& pb
          else at_) = y
        have hinv2 : ∀ i, (y &&& (so ^^^ BITSET idx)).testBit i = true →
            (so ^^^ BITSET idx).testBit i = true := by
          intro i hi
          simp only [Nat.testBit_and, Bool.and_eq_true] at hi
          exact hi.2
        obtain ⟨r, n, hrun, hr, hn⟩ := ih (so ^^^ BITSET idx) (y &&& (so ^^^ BITSET idx))
          (s ^^^ S2MMASK) (-v - 1 - mv t) hs1 hinv2 (by omega)
        rw [hrun]
        exact ⟨r, n + 1, rfl, hr, by omega⟩

theorem popcount_range_mono (x y : Nat) (h : ∀ i, x.testBit i = true → y.testBit i = true) :
    ∀ n, ((List.range n).filter (fun i => x.testBit i)).length
      ≤ ((List.range n).filter (fun i => y.testBit i)).length := by
  intro n
  induction n with
  | zero => simp
  | succ n ih =>
    rw [popcount_range_succ, popcount_range_succ]
    by_cases hx : x.testBit n = true
    · rw [if_pos hx, if_pos (h n hx)]; omega
    · rw [if_neg hx]; omega

theorem POPCOUNT_and_le (x y : Nat) : POPCOUNT (x &&& y) ≤ POPCOUNT y := by
  unfold POPCOUNT
  apply popcount_range_mono
  intro i hi
  simp only [Nat.testBit_and, Bool.and_eq_true] at hi
  exact hi.2

theorem POPCOUNT_le (x : Nat) : POPCOUNT x ≤ 64 := by
  unfold POPCOUNT
  have := List.length_filter_le (fun i => x.testBit i) (List.range 64)
  simpa using this

/-- C29: in a position in which the occupancy of each colour is the union of the
six piece bitboards of that colour (64-bit boards), for every move and
threshold `see` returns a result; the recapture loop started by `see` ends, with
any amount of fuel above the number of pieces, after at most as many iterations
as there are pieces on the board; and the scan for the least valuable attacker
among attackers of a side stops at a piece type from `PAWN` to `KING`. -/
theorem see_terminates (mv : Nat → Int) (pos : chessposition) (move : Nat) (threshold : Int)
    (hu : occIsUnion pos) (h64 : ∀ c, c < 2 → pos.occupied00 c < 2 ^ 64) :
    (∃ b, see mv pos move threshold = some b) ∧
    (∀ (fuel : Nat) (value : Int),
      POPCOUNT (pos.occupied00 0 ||| pos.occupied00 1) < fuel →
      ∃ r n,
        seeLoopCount mv pos (GETTO move)
          (pos.piece00 WROOK ||| pos.piece00 BROOK ||| pos.piece00 WQUEEN ||| pos.piece00 BQUEEN)
          (pos.piece00 WBISHOP ||| pos.piece00 BBISHOP ||| pos.piece00 WQUEEN
            ||| pos.piece00 BQUEEN)
          fuel
          (((pos.occupied00 0 ||| pos.occupied00 1) ^^^ BITSET (GETFROM move))
            ||| BITSET (GETTO move))
          (attackedByBB pos (GETTO move)
              (((pos.occupied00 0 ||| pos.occupied00 1) ^^^ BITSET (GETFROM move))
                ||| BITSET (GETTO move))
            &&& (((pos.occupied00 0 ||| pos.occupied00 1) ^^^ BITSET (GETFROM move))
                ||| BITSET (GETTO move)))
          ((pos.state &&& S2MMASK) ^^^ S2MMASK) value = some (r, n)
        ∧ n ≤ POPCOUNT (pos.occupied00 0 ||| pos.occupied00 1)) ∧
    (∀ x s2m : Nat, s2m < 2 → x &&& pos.occupied00 s2m ≠ 0 →
      ∃ t, leastAttacker pos (x &&& pos.occupied00 s2m) s2m 6 PAWN = some t
        ∧ PAWN ≤ t ∧ t ≤ KING) := by
  have hs0 : (pos.state &&& S2MMASK) ^^^ S2MMASK < 2 := by
    have h1 : pos.state &&& S2MMASK < 2 := and_one_lt_two _
    unfold S2MMASK at h1 ⊢
    generalize pos.state &&& 1 = a at h1 ⊢
    interval_cases a <;> decide
  have hrun : ∀ (fuel : Nat) (value : Int),
      POPCOUNT (pos.occupied00 0 ||| pos.occupied00 1) < fuel →
      ∃ r n,
        seeLoopCount mv pos (GETTO move)
          (pos.piece00 WROOK ||| pos.piece00 BROOK ||| pos.piece00 WQUEEN ||| pos.piece00 BQUEEN)
          (pos.piece00 WBISHOP ||| pos.piece00 BBISHOP ||| pos.piece00 WQUEEN
            ||| pos.piece00 BQUEEN)
          fuel
          (((pos.occupied00 0 ||| pos.occupied00 1) ^^^ BITSET (GETFROM move))
            ||| BITSET (GETTO move))
          (attackedByBB pos (GETTO move)
              (((pos.occupied00 0 ||| pos.occupied00 1) ^^^ BITSET (GETFROM move))
                ||| BITSET (GETTO move))
            &&& (((pos.occupied00 0 ||| pos.occupied00 1) ^^^ BITSET (GETFROM move))
                ||| BITSET (GETTO move)))
          ((pos.state &&& S2MMASK) ^^^ S2MMASK) value = some (r, n)
        ∧ n ≤ POPCOUNT (pos.occupied00 0 ||| pos.occupied00 1) := by
    intro fuel value hf
    have hle := POPCOUNT_and_le
      (((pos.occupied00 0 ||| pos.occupied00 1) ^^^ BITSET (GETFROM move))
        ||| BITSET (GETTO move)) (pos.occupied00 0 ||| pos.occupied00 1)
    obtain ⟨r, n, h1, -, h3⟩ := seeLoopCount_runs mv pos (GETTO move)
      (pos.piece00 WROOK ||| pos.piece00 BROOK ||| pos.piece00 WQUEEN ||| pos.piece00 BQUEEN)
      (pos.piece00 WBISHOP ||| pos.piece00 BBISHOP ||| pos.piece00 WQUEEN ||| pos.piece00 BQUEEN)
      hu h64 fuel
      (((pos.occupied00 0 ||| pos.occupied00 1) ^^^ BITSET (GETFROM move))
        ||| BITSET (GETTO move))
      (attackedByBB pos (GETTO move)
          (((pos.occupied00 0 ||| pos.occupied00 1) ^^^ BITSET (GETFROM move))
            ||| BITSET (GETTO move))
        &&& (((pos.occupied00 0 ||| pos.occupied00 1) ^^^ BITSET (GETFROM move))
            ||| BITSET (GETTO move)))
      ((pos.state &&& S2MMASK) ^^^ S2MMASK) value hs0
      (by
        intro i hi
        simp only [Nat.testBit_and, Bool.and_eq_true] at hi
        exact hi.2)
      (by omega)
    exact ⟨r, n, h1, by omega⟩
  refine ⟨?_, hrun, ?_⟩
  · unfold see
    dsimp only
    by_cases h1 : GETTACTICALVALUE mv move - threshold < 0
    · rw [if_pos h1]; exact ⟨false, rfl⟩
    · rw [if_neg h1]
      by_cases h2 : GETTACTICALVALUE mv move - threshold
          - mv ((if ISPROMOTION move ≠ 0 then GETPROMOTION move else GETPIECE move) >>> 1) ≥ 0
      · rw [if_pos h2]; exact ⟨true, rfl⟩
      · rw [if_neg h2, seeLoop_eq_count]
        obtain ⟨r, n, h3, -⟩ := hrun 65
          (GETTACTICALVALUE mv move - threshold
            - mv ((if ISPROMOTION move ≠ 0 then GETPROMOTION move else GETPIECE move) >>> 1))
          (by have := POPCOUNT_le (pos.occupied00 0 ||| pos.occupied00 1); omega)
        rw [h3]
        exact ⟨_, rfl⟩
  · intro x s2m hs hx
    have hsub : x &&& pos.occupied00 s2m &&& pos.occupied00 s2m = x &&& pos.occupied00 s2m := by
      rw [Nat.and_assoc, Nat.and_self]
    obtain ⟨t, h1, h2, h3, -⟩ := leastAttacker_found pos _ s2m hs hu hx hsub
    exact ⟨t, h1, h2, h3⟩

theorem see_terminates_witness :
    occIsUnion seePos ∧ (∀ c, c < 2 → seePos.occupied00 c < 2 ^ 64) ∧
    (∃ b, see mvEx seePos (chessmove4 8 48 BPAWN WROOK) 0 = some b) :=
  ⟨by decide, by decide,
   (see_terminates mvEx seePos (chessmove4 8 48 BPAWN WROOK) 0 (by decide) (by decide)).1⟩


/-! ## The root moves -/

theorem playCapture_stack (zb : zobrist) (p : chessposition) (ms : Int → chessmovestack)
    (m : Nat) :
    playCapture zb { p with movestack := ms } m = { playCapture zb p m with movestack := ms } := by
  unfold playCapture BitboardClear
  dsimp only
  split_ifs <;> rfl

theorem playRelocate_stack (zb : zobrist) (p : chessposition) (ms : Int → chessmovestack)
    (m : Nat) :
    playRelocate zb { p with movestack := ms } m
      = { playRelocate zb p m with movestack := ms } := by
  unfold playRelocate BitboardClear BitboardSet BitboardMove
  dsimp only
  split_ifs <;> rfl

theorem playSpecials_stack (zb : zobrist) (p : chessposition) (ms : Int → chessmovestack)
    (m s2m : Nat) :
    playSpecials zb { p with movestack := ms } m s2m
      = { playSpecials zb p m s2m with movestack := ms } := by
  unfold playSpecials BitboardClear
  dsimp only
  split_ifs <;> rfl

theorem playApply_stack (zb : zobrist) (p : chessposition) (ms : Int → chessmovestack)
    (m : Nat) :
    playApply zb { p with movestack := ms } m = { playApply zb p m with movestack := ms } := by
  unfold playApply
  rw [playCapture_stack, playRelocate_stack, playSpecials_stack]

theorem playMove_stack_legal (zb : zobrist) (p : chessposition) (ms : Int → chessmovestack)
    (m : Nat) :
    (playMove zb { p with movestack := ms } m).1 = (playMove zb p m).1 := by
  unfold playMove
  dsimp only
  rw [playApply_stack]
  have h : isAttacked { playApply zb p m with movestack := ms }
      (({ playApply zb p m with movestack := ms } : chessposition).kingpos (p.state &&& S2MMASK))
      = isAttacked (playApply zb p m) ((playApply zb p m).kingpos (p.state &&& S2MMASK)) := rfl
  rw [h]
  cases isAttacked (playApply zb p m) ((playApply zb p m).kingpos (p.state &&& S2MMASK)) <;> rfl

theorem withTopCode_twice (p : chessposition) (x y : Nat) :
    withTopCode (withTopCode p x) y = withTopCode p y := by
  unfold withTopCode
  apply chessposition.ext <;> try rfl
  funext i
  simp only [setAtInt]
  by_cases h : i = p.mstop <;> simp [h]

theorem withTopCode_self (p : chessposition) :
    withTopCode p (p.movestack p.mstop).movecode = p := by
  unfold withTopCode
  apply chessposition.ext <;> try rfl
  funext i
  simp only [setAtInt]
  by_cases h : i = p.mstop
  · subst h; simp
  · simp [h]

theorem withTopCode_top (p : chessposition) (x : Nat) (h : topIsSnapshot p) :
    topIsSnapshot (withTopCode p x) := by
  obtain ⟨t1, t2, t3, t4, t5, t6, t7, t8, t9⟩ := h
  unfold topIsSnapshot withTopCode
  simp only [setAtInt, if_true]
  exact ⟨t1, t2, t3, t4, t5, t6, t7, t8, t9⟩

/-- After a successful `playMove`, `unplayMove` gives back the position, with the
move code left in the top history slot. -/
theorem unplay_play_eq (zb : zobrist) (pos : chessposition) (m : Nat)
    (hagree : boardAgree pos) (htop : topIsSnapshot pos) (hok : moveOK pos m)
    (htrue : (playMove zb pos m).1 = true) :
    unplayMove (playMove zb pos m).2 m = withTopCode pos m := by
  rw [playMove_true_eq zb pos m htrue]
  obtain ⟨hU, hmail⟩ := unplay_agree (fullKind pos) zb pos m hok htop (fullAgree_self pos hagree)
  obtain ⟨b1, b2⟩ := fullAgree_boards pos _ hagree hU
  obtain ⟨s1, s2, s3, s4, s5, s6, s7, s8, s9, s10, s11, s12, s13⟩ :=
    unplayRestore_commit zb pos m htop
  obtain ⟨u1, u2, u3, u4, u5, u6, u7, u8, u9, u10, u11, u12, u13, u14⟩ :=
    unplayMove_scalars (playCommit zb (playApply zb pos m) m (pos.state &&& S2MMASK)) m
  obtain ⟨-, -, a3, a4, -, -, -, -, -⟩ := playApply_control zb pos m
  obtain ⟨c1, c2, -, -, -⟩ :=
    playCastle_frame zb (playApply zb pos m) m (pos.state &&& S2MMASK)
  apply chessposition.ext
  · exact b1
  · exact b2
  · exact hmail
  · exact u1.trans s1
  · exact u2.trans s2
  · exact u3.trans s3
  · exact u4.trans s4
  · exact u5.trans s5
  · exact u6.trans s6
  · exact u7.trans s7
  · exact u8.trans s8
  · exact u9.trans s9
  · rw [u10]
    show setAtInt (playCastle zb (playApply zb pos m) m (pos.state &&& S2MMASK)).movestack
      (playCastle zb (playApply zb pos m) m (pos.state &&& S2MMASK)).mstop _ = _
    rw [c1, c2, a3, a4]
    rfl
  · exact u11.trans s11
  · exact u12.trans s10
  · exact u13.trans s13
  · exact u14.trans s12

theorem listOf_push (l : chessmovelist) (m : chessmove) :
    listOf { length := l.length + 1, move := setAt l.move l.length m } = listOf l ++ [m] := by
  unfold listOf
  show List.map (setAt l.move l.length m) (List.range (l.length + 1)) = _
  rw [List.range_succ, List.map_append, List.map_cons, List.map_nil, setAt_same]
  congr 1
  apply List.map_congr_left
  intro i hi
  have hlt : i < l.length := List.mem_range.mp hi
  exact setAt_other _ _ _ _ (by omega)

/-- The state of the loop of `getRootMoves` after the moves `done`: the board is
the prepared one up to the move code in the top history slot, the root move list
holds the moves of `done` that `playMove` accepts, `bestval` bounds their values,
and `defaultmove` is either untouched, with `bestval` still the initial one, or a
retained move of value `bestval`. -/
theorem getRootMovesStep_inv (g : generator) (b0 : chessposition) (d0 : chessmove)
    (hagree : boardAgree b0) (htop : topIsSnapshot b0)
    (s : searchposition × Int) (done : List chessmove) (m : chessmove)
    (hok : moveOK b0 m.code)
    (h1 : ∃ x, s.1.board = withTopCode b0 x)
    (h2 : listOf s.1.rootmovelist = done.filter (fun m => (playMove g.zb b0 m.code).1))
    (h3 : ∀ a ∈ done.filter (fun m => (playMove g.zb b0 m.code).1), a.value ≤ s.2)
    (h4 : (s.2 = g.SCOREBLACKWINS ∧ s.1.defaultmove = d0) ∨
      (g.SCOREBLACKWINS < s.2
        ∧ s.1.defaultmove ∈ done.filter (fun m => (playMove g.zb b0 m.code).1)
        ∧ s.1.defaultmove.value = s.2))
    (h5 : g.SCOREBLACKWINS ≤ s.2) :
    (∃ x, (getRootMovesStep g.zb s m).1.board = withTopCode b0 x) ∧
    listOf (getRootMovesStep g.zb s m).1.rootmovelist
      = (done ++ [m]).filter (fun m => (playMove g.zb b0 m.code).1) ∧
    (∀ a ∈ (done ++ [m]).filter (fun m => (playMove g.zb b0 m.code).1),
      a.value ≤ (getRootMovesStep g.zb s m).2) ∧
    (((getRootMovesStep g.zb s m).2 = g.SCOREBLACKWINS
        ∧ (getRootMovesStep g.zb s m).1.defaultmove = d0) ∨
      (g.SCOREBLACKWINS < (getRootMovesStep g.zb s m).2
        ∧ (getRootMovesStep g.zb s m).1.defaultmove
            ∈ (done ++ [m]).filter (fun m => (playMove g.zb b0 m.code).1)
        ∧ (getRootMovesStep g.zb s m).1.defaultmove.value = (getRootMovesStep g.zb s m).2)) ∧
    g.SCOREBLACKWINS ≤ (getRootMovesStep g.zb s m).2 := by
  obtain ⟨x, hb⟩ := h1
  have hleg : (playMove g.zb s.1.board m.code).1 = (playMove g.zb b0 m.code).1 := by
    rw [hb]
    exact playMove_stack_legal g.zb b0 _ m.code
  have hagree2 : boardAgree (withTopCode b0 x) := hagree
  have htop2 : topIsSnapshot (withTopCode b0 x) := withTopCode_top b0 x htop
  have hok2 : moveOK (withTopCode b0 x) m.code := hok
  rw [List.filter_append]
  unfold getRootMovesStep
  dsimp only
  by_cases ht : (playMove g.zb b0 m.code).1 = true
  · have ht2 : (playMove g.zb s.1.board m.code).1 = true := hleg.trans ht
    have hfm : List.filter (fun m => (playMove g.zb b0 m.code).1) [m] = [m] := by
      simp [List.filter, ht]
    rw [if_pos ht2, hfm]
    have hboard : unplayMove (playMove g.zb s.1.board m.code).2 m.code = withTopCode b0 m.code := by
      rw [hb] at ht2 ⊢
      rw [unplay_play_eq g.zb _ m.code hagree2 htop2 hok2 ht2, withTopCode_twice]
    by_cases hv : s.2 < m.value
    · rw [if_pos hv]
      refine ⟨⟨m.code, hboard⟩, ?_, ?_, ?_, ?_⟩
      · dsimp only
        rw [listOf_push, h2]
      · intro a ha
        rw [List.mem_append] at ha
        rcases ha with ha | ha
        · have := h3 a ha
          show a.value ≤ m.value
          omega
        · rw [List.mem_singleton] at ha
          rw [ha]
      · right
        refine ⟨?_, ?_, rfl⟩
        · show g.SCOREBLACKWINS < m.value
          omega
        · show m ∈ _
          rw [List.mem_append]
          exact Or.inr (List.mem_singleton.mpr rfl)
      · show g.SCOREBLACKWINS ≤ m.value
        omega
    · rw [if_neg hv]
      refine ⟨⟨m.code, hboard⟩, ?_, ?_, ?_, h5⟩
      · dsimp only
        rw [listOf_push, h2]
      · intro a ha
        rw [List.mem_append] at ha
        rcases ha with ha | ha
        · exact h3 a ha
        · rw [List.mem_singleton] at ha
          rw [ha]
          show m.value ≤ s.2
          omega
      · rcases h4 with ⟨e1, e2⟩ | ⟨e1, e2, e3⟩
        · exact Or.inl ⟨e1, e2⟩
        · exact Or.inr ⟨e1, List.mem_append.mpr (Or.inl e2), e3⟩
  · have ht2 : (playMove g.zb s.1.board m.code).1 = false := by
      rw [hleg]
      cases h : (playMove g.zb b0 m.code).1
      · rfl
      · exact absurd h ht
    have hfm : List.filter (fun m => (playMove g.zb b0 m.code).1) [m] = [] := by
      simp [List.filter, ht]
    have hnt : ¬ ((playMove g.zb s.1.board m.code).1 = true) := by
      rw [ht2]; decide
    rw [if_neg hnt, hfm, List.append_nil]
    have hboard : (playMove g.zb s.1.board m.code).2 = withTopCode b0 x := by
      rw [hb] at ht2 ⊢
      exact playMove_false_same g.zb _ m.code hagree2 htop2 hok2 ht2
    exact ⟨⟨x, hboard⟩, h2, h3, h4, h5⟩

theorem getRootMoves_fold (g : generator) (b0 : chessposition) (d0 : chessmove)
    (hagree : boardAgree b0) (htop : topIsSnapshot b0) :
    ∀ (l : List chessmove) (s : searchposition × Int) (done : List chessmove),
      (∀ m ∈ l, moveOK b0 m.code) →
      (∃ x, s.1.board = withTopCode b0 x) →
      listOf s.1.rootmovelist = done.filter (fun m => (playMove g.zb b0 m.code).1) →
      (∀ a ∈ done.filter (fun m => (playMove g.zb b0 m.code).1), a.value ≤ s.2) →
      ((s.2 = g.SCOREBLACKWINS ∧ s.1.defaultmove = d0) ∨
        (g.SCOREBLACKWINS < s.2
          ∧ s.1.defaultmove ∈ done.filter (fun m => (playMove g.zb b0 m.code).1)
          ∧ s.1.defaultmove.value = s.2)) →
      g.SCOREBLACKWINS ≤ s.2 →
      (∃ x, (l.foldl (getRootMovesStep g.zb) s).1.board = withTopCode b0 x) ∧
      listOf (l.foldl (getRootMovesStep g.zb) s).1.rootmovelist
        = (done ++ l).filter (fun m => (playMove g.zb b0 m.code).1) ∧
      (∀ a ∈ (done ++ l).filter (fun m => (playMove g.zb b0 m.code).1),
        a.value ≤ (l.foldl (getRootMovesStep g.zb) s).2) ∧
      (((l.foldl (getRootMovesStep g.zb) s).2 = g.SCOREBLACKWINS
          ∧ (l.foldl (getRootMovesStep g.zb) s).1.defaultmove = d0) ∨
        (g.SCOREBLACKWINS < (l.foldl (getRootMovesStep g.zb) s).2
          ∧ (l.foldl (getRootMovesStep g.zb) s).1.defaultmove
              ∈ (done ++ l).filter (fun m => (playMove g.zb b0 m.code).1)
          ∧ (l.foldl (getRootMovesStep g.zb) s).1.defaultmove.value
              = (l.foldl (getRootMovesStep g.zb) s).2)) := by
  intro l
  induction l with
  | nil =>
    intro s done _ h1 h2 h3 h4 _
    rw [List.append_nil]
    exact ⟨h1, h2, h3, h4⟩
  | cons m t ih =>
    intro s done hok h1 h2 h3 h4 h5
    obtain ⟨i1, i2, i3, i4, i5⟩ := getRootMovesStep_inv g b0 d0 hagree htop s done m
      (hok m (List.mem_cons_self _ _)) h1 h2 h3 h4 h5
    have := ih (getRootMovesStep g.zb s m) (done ++ [m])
      (fun a ha => hok a (List.mem_cons_of_mem _ ha)) i1 i2 i3 i4 i5
    rw [List.append_assoc, List.singleton_append] at this
    exact this

/-- What `getRootMoves` does for a position whose mailbox and bitboards agree and
a generator whose codes are consistent with the position (`moveOK`): the root
move list holds exactly the generated moves for which `playMove` returns true,
in generation order; the position is as before except for the history slot
`movestack[mstop]`; if some retained move has an ordering value above
`SCOREBLACKWINS`, `defaultmove` is a retained move of greatest value; and if
none has, `defaultmove` is left as it was. -/
theorem getRootMoves_spec (g : generator) (p : searchposition)
    (hagree : boardAgree p.board)
    (hgen : ∀ c ∈ g.getMoves (prepareStack p.board), moveOK p.board c) :
    listOf (getRootMoves g p).rootmovelist = legalRootMoves g p ∧
    ({ (getRootMoves g p).board with movestack := p.board.movestack } : chessposition)
      = p.board ∧
    (∀ i, i ≠ p.board.mstop →
      (getRootMoves g p).board.movestack i = p.board.movestack i) ∧
    ((∃ m ∈ legalRootMoves g p, g.SCOREBLACKWINS < m.value) →
      (getRootMoves g p).defaultmove ∈ legalRootMoves g p ∧
      ∀ m ∈ legalRootMoves g p, m.value ≤ (getRootMoves g p).defaultmove.value) ∧
    ((∀ m ∈ legalRootMoves g p, m.value ≤ g.SCOREBLACKWINS) →
      (getRootMoves g p).defaultmove = p.defaultmove) := by
  have hok : ∀ m ∈ (g.getMoves (prepareStack p.board)).map (evaluateMove g p),
      moveOK (prepareStack p.board) m.code := by
    intro m hm
    obtain ⟨c, hc, rfl⟩ := List.mem_map.mp hm
    exact hgen c hc
  have hfilter : ([] ++ (g.getMoves (prepareStack p.board)).map (evaluateMove g p)).filter
      (fun m => (playMove g.zb (prepareStack p.board) m.code).1) = legalRootMoves g p := by
    rw [List.nil_append, List.filter_map]
    rfl
  obtain ⟨⟨x, f1⟩, f2, f3, f4⟩ := getRootMoves_fold g (prepareStack p.board) p.defaultmove
    (prepareStack_agree _ hagree) (prepareStack_top _)
    ((g.getMoves (prepareStack p.board)).map (evaluateMove g p))
    ({ p with
        board := prepareStack p.board
        rootmovelist := { p.rootmovelist with length := 0 }
        excludemovestack := setAt p.excludemovestack 0 0 }, g.SCOREBLACKWINS)
    [] hok ⟨_, (withTopCode_self _).symm⟩ rfl
    (fun a ha => by simp at ha) (Or.inl ⟨rfl, rfl⟩) (le_refl _)
  rw [hfilter] at f2 f3 f4
  have hb : (getRootMoves g p).board = withTopCode (prepareStack p.board) x := f1
  refine ⟨f2, ?_, ?_, ?_, ?_⟩
  · rw [hb]
    rfl
  · intro i hi
    rw [hb]
    show setAtInt (setAtInt p.board.movestack p.board.mstop _) p.board.mstop _ i = _
    simp only [setAtInt, if_neg hi]
  · rintro ⟨m, hm, hv⟩
    have hle := f3 m hm
    rcases f4 with ⟨e1, -⟩ | ⟨-, e2, e3⟩
    · omega
    · refine ⟨e2, ?_⟩
      intro a ha
      have h9 := f3 a ha
      have e4 : (getRootMoves g p).defaultmove.value = _ := e3
      rw [e4]
      exact h9
  · intro hall
    rcases f4 with ⟨-, e2⟩ | ⟨e1, e2, e3⟩
    · exact e2
    · have := hall _ e2
      omega

theorem getRootMoves_spec_witness :
    boardAgree blankPos.board ∧
    (∀ c ∈ rootGen.getMoves (prepareStack blankPos.board), moveOK blankPos.board c) ∧
    (legalRootMoves rootGen blankPos).length = 2 ∧
    listOf (getRootMoves rootGen blankPos).rootmovelist = legalRootMoves rootGen blankPos :=
  ⟨prepareStack_agree _ (mkPosition_agree _ _ _ (by decide)), by decide, by decide,
   (getRootMoves_spec rootGen blankPos
     (prepareStack_agree _ (mkPosition_agree _ _ _ (by decide))) (by decide)).1⟩

end RubiChess
